import Mathlib

/-!
# NodeMaterial: the shader-graph build pipeline and readiness gate

A shallow embedding of `src/BabylonCpp/src/materials/node/node_material.cpp`.

* Blocks, effects, sub-meshes and meshes live in heaps indexed by natural numbers;
  a `shared_ptr` is the index of the object it points to, `nullptr` is `none`.
* Every member function becomes a function from the `World` before the call to an
  `Outcome`: normal return (with the world after the call and the returned value),
  a thrown `std::runtime_error` (with the world at the throw), a null dereference, or
  exhausted fuel for the recursive graph walks.
* Calls that leave `node_material.cpp` (virtual block methods, the engine, observers)
  are recorded in `World.trace`, in call order, and answered by the oracles of `Env`.
* `size_t` counters are natural numbers reduced modulo `2 ^ 64`.
-/

namespace BABYLON

/-! ## Data model -/

/-- Modelled from the spec: the enum `NodeMaterialBlockTargets` is declared in a header
that is not part of the sources; these are the four targets the spec lists and
`node_material.cpp` compares against. -/
inductive NodeMaterialBlockTargets where
  | Undefined
  | Vertex
  | Fragment
  | VertexAndFragment
  deriving DecidableEq, Repr

/-- The two compilation states a `NodeMaterial` owns; `vertex` stands for a pointer to
`_vertexCompilationState`, `fragment` for one to `_fragmentCompilationState`. -/
inductive Stage where
  | vertex
  | fragment
  deriving DecidableEq, Repr

/-- Modelled from the spec: a connection point, reduced to what `node_material.cpp`
touches: its per-compilation variable name and, for `connectedPoint()->ownerBlock()`,
the block that owns the connected peer (`none` when `connectedPoint()` is null). -/
structure NodeMaterialConnectionPoint where
  associatedVariableName : String
  connectedPoint : Option Nat
  deriving DecidableEq, Repr

/-- Modelled from the spec: the fields and constant virtual answers of a block that
`node_material.cpp` reads or writes. -/
structure NodeMaterialBlock where
  getClassName : String
  isUnique : Bool
  isFinalMerger : Bool
  isInput : Bool
  target : NodeMaterialBlockTargets
  buildId : Nat
  _preparationId : Nat
  inputs : List NodeMaterialConnectionPoint
  outputs : List NodeMaterialConnectionPoint
  deriving DecidableEq, Repr

/-- Where the `_vertexState` back-reference of a build state points. -/
inductive VertexStateRef where
  | null
  | vertexCompilationState
  deriving DecidableEq, Repr

/-- Modelled from the spec: the Build State of one stage (header not in the sources). -/
structure NodeMaterialBuildState where
  supportUniformBuffers : Bool
  target : NodeMaterialBlockTargets
  compilationString : String
  _builtCompilationString : String
  attributes : List String
  uniforms : List String
  samplers : List String
  _uniformDeclaration : String
  _constantDeclaration : String
  _vertexState : VertexStateRef
  deriving DecidableEq, Repr

/-- The value `std::make_shared<NodeMaterialBuildState>()` points to. -/
def NodeMaterialBuildState.fresh : NodeMaterialBuildState :=
  { supportUniformBuffers := false, target := .Undefined, compilationString := "",
    _builtCompilationString := "", attributes := [], uniforms := [], samplers := [],
    _uniformDeclaration := "", _constantDeclaration := "", _vertexState := .null }

/-- Compilation hints of the Shared Data. -/
structure NodeMaterialHints where
  needWorldViewMatrix : Bool
  needWorldViewProjectionMatrix : Bool
  needAlphaBlending : Bool
  needAlphaTesting : Bool
  deriving DecidableEq, Repr

/-- Modelled from the spec: the Shared Data of one compilation (header not in the
sources): the build id, the categorized block lists and the hints. -/
structure NodeMaterialBuildStateSharedData where
  buildId : Nat
  emitComments : Bool
  verbose : Bool
  blockingBlocks : List Nat
  blocksWithDefines : List Nat
  repeatableContentBlocks : List Nat
  dynamicUniformBlocks : List Nat
  blocksWithFallbacks : List Nat
  bindableBlocks : List Nat
  inputBlocks : List Nat
  animatedInputs : List Nat
  textureBlocks : List Nat
  hints : NodeMaterialHints
  deriving DecidableEq, Repr

/-- The value `std::make_shared<NodeMaterialBuildStateSharedData>()` points to. -/
def NodeMaterialBuildStateSharedData.fresh : NodeMaterialBuildStateSharedData :=
  { buildId := 0, emitComments := false, verbose := false, blockingBlocks := [],
    blocksWithDefines := [], repeatableContentBlocks := [], dynamicUniformBlocks := [],
    blocksWithFallbacks := [], bindableBlocks := [], inputBlocks := [], animatedInputs := [],
    textureBlocks := [],
    hints := { needWorldViewMatrix := false, needWorldViewProjectionMatrix := false,
               needAlphaBlending := false, needAlphaTesting := false } }

/-- Modelled from the spec: the per-submesh defines container (header not in the
sources): keyed boolean and integer flags, the dirty marks and the render id stamp. -/
structure NodeMaterialDefines where
  boolDef : List (String × Bool)
  intDef : List (String × Nat)
  _isDirty : Bool
  _areAttributesDirty : Bool
  _areTexturesDirty : Bool
  _areLightsDirty : Bool
  _areFresnelDirty : Bool
  _areMiscDirty : Bool
  _areImageProcessingDirty : Bool
  _renderId : Int
  deriving DecidableEq, Repr

namespace NodeMaterialDefines

/-- The value `std::make_shared<NodeMaterialDefines>()` points to: no flag set, everything
dirty. -/
def fresh : NodeMaterialDefines :=
  { boolDef := [], intDef := [], _isDirty := true, _areAttributesDirty := true,
    _areTexturesDirty := true, _areLightsDirty := true, _areFresnelDirty := true,
    _areMiscDirty := true, _areImageProcessingDirty := true, _renderId := -1 }

/-- Reading `defines[key]`: an absent key reads as false. -/
def get (d : NodeMaterialDefines) (key : String) : Bool :=
  (d.boolDef.lookup key).getD false

/-- Writing `defines.boolDef[key] = value`. -/
def setBool (d : NodeMaterialDefines) (key : String) (value : Bool) : NodeMaterialDefines :=
  { d with boolDef := (key, value) :: d.boolDef.filter (fun kv => kv.1 != key) }

/-- Reading `defines.intDef[key]`: an absent key reads as zero (the zero entry that
`operator[]` would insert is not kept apart from an absent key). -/
def getInt (d : NodeMaterialDefines) (key : String) : Nat :=
  (d.intDef.lookup key).getD 0

/-- Query `isDirty()`. -/
def isDirty (d : NodeMaterialDefines) : Bool := d._isDirty

/-- Modelled from the spec: `markAsProcessed()` clears every dirty mark. -/
def markAsProcessed (d : NodeMaterialDefines) : NodeMaterialDefines :=
  { d with _isDirty := false, _areAttributesDirty := false, _areTexturesDirty := false,
           _areLightsDirty := false, _areFresnelDirty := false, _areMiscDirty := false,
           _areImageProcessingDirty := false }

/-- Modelled from the spec: `markAsUnprocessed()` makes the container dirty again. -/
def markAsUnprocessed (d : NodeMaterialDefines) : NodeMaterialDefines :=
  { d with _isDirty := true }

/-- Modelled from the spec: `markAsAttributesDirty()`. -/
def markAsAttributesDirty (d : NodeMaterialDefines) : NodeMaterialDefines :=
  { d with _areAttributesDirty := true, _isDirty := true }

/-- Modelled from the spec: `markAllAsDirty()`. -/
def markAllAsDirty (d : NodeMaterialDefines) : NodeMaterialDefines :=
  { d with _isDirty := true, _areAttributesDirty := true, _areTexturesDirty := true,
           _areLightsDirty := true, _areFresnelDirty := true, _areMiscDirty := true,
           _areImageProcessingDirty := true }

end NodeMaterialDefines

/-- Modelled from the spec: the compiled-program handle of the external GPU layer. -/
structure Effect where
  isReady : Bool
  _wasPreviouslyReady : Bool
  deriving DecidableEq, Repr

/-- The material a sub-mesh renders with: this node material or some other material. -/
inductive MaterialRef where
  | this
  | other (id : Nat)
  deriving DecidableEq, Repr

/-- Modelled from the spec: per-submesh state consulted by the material. -/
structure SubMesh where
  effect : Option Nat
  _materialDefines : Option NodeMaterialDefines
  getMaterial : Option MaterialRef
  deriving DecidableEq, Repr

/-- Modelled from the spec: a mesh, with its sub-meshes and the kinds of vertex data it
carries (`VertexBuffer::NormalKind` and so on, see `vertex_buffer.h`). -/
structure AbstractMesh where
  subMeshes : List Nat
  verticesData : List Nat
  deriving DecidableEq, Repr

/-- Query `mesh->isVerticesDataPresent(kind)`. -/
def AbstractMesh.isVerticesDataPresent (m : AbstractMesh) (kind : Nat) : Bool :=
  m.verticesData.contains kind

/-- Constant `VertexBuffer::NormalKind`. -/
def VertexBuffer.NormalKind : Nat := 2

/-- Constant `VertexBuffer::TangentKind`. -/
def VertexBuffer.TangentKind : Nat := 3

/-- Constant `VertexBuffer::UVKind`. -/
def VertexBuffer.UVKind : Nat := 4

/-- Modelled from the spec: what the material asks the scene for. -/
structure Scene where
  meshes : List Nat
  getFrameId : Int
  getRenderId : Int
  deriving DecidableEq, Repr

/-- Field `_options` of the material. -/
structure INodeMaterialOptions where
  emitComments : Bool
  deriving DecidableEq, Repr

/-- The options `isReadyForSubMesh` hands to `createEffect`. -/
structure IEffectCreationOptions where
  attributes : List String
  uniformsNames : List String
  uniformBuffersNames : List String
  samplers : List String
  defines : String
  maxSimultaneousLights : Nat
  maxSimultaneousMorphTargets : Nat
  deriving DecidableEq, Repr

/-- The shader names and sources `isReadyForSubMesh` hands to `createEffect`. -/
structure EffectBaseName where
  vertex : String
  fragment : String
  vertexSource : String
  fragmentSource : String
  deriving DecidableEq, Repr

/-- A call that leaves `node_material.cpp`. -/
inductive Event where
  | blockInitialize (block : Nat) (stage : Stage)
  | autoConfigure (block : Nat)
  | optimize (optimizer : Nat)
  | blockBuild (block : Nat) (stage : Stage)
  | buildBlock (block : Nat) (stage : Stage)
  | finalize (stage : Stage)
  | emitErrors
  | logInfo (text : String)
  | notifyBuildObservers
  | animate (input : Nat)
  | isReady (block : Nat)
  | initializeDefines (block : Nat)
  | prepareDefines (block : Nat)
  | replaceRepeatableContent (block : Nat)
  | updateUniformsAndSamples (block : Nat)
  | provideFallbacks (block : Nat)
  | createEffect (baseName : EffectBaseName) (options : IEffectCreationOptions)
  | notifyEffectCreated (effect : Nat) (subMesh : Nat)
  | resetCachedMaterial
  deriving DecidableEq, Repr

/-- The member variables of `NodeMaterial` (with the inherited ones it consults). -/
structure NodeMaterial where
  attachedBlocks : List Nat
  _vertexOutputNodes : List Nat
  _fragmentOutputNodes : List Nat
  _optimizers : List Nat
  _options : Option INodeMaterialOptions
  _vertexCompilationState : Option NodeMaterialBuildState
  _fragmentCompilationState : Option NodeMaterialBuildState
  _sharedData : Option NodeMaterialBuildStateSharedData
  _buildId : Nat
  _buildWasSuccessful : Bool
  _animationFrame : Int
  ignoreAlpha : Bool
  maxSimultaneousLights : Nat
  allowShaderHotSwapping : Bool
  isFrozen : Bool
  deriving DecidableEq, Repr

/-- Everything a call on the material can read or write. -/
structure World where
  blocks : Nat → NodeMaterialBlock
  effects : Nat → Effect
  subMeshes : Nat → SubMesh
  meshes : Nat → AbstractMesh
  scene : Scene
  mat : NodeMaterial
  _BuildIdGenerator : Nat
  trace : List Event

/-- How a call ends. -/
inductive Outcome (α : Type) where
  | done (w : World) (a : α)
  | raised (w : World) (what : String)
  | crashed
  | diverged

/-- Modelled from the spec: the collaborators whose code is not part of the sources (the
virtual methods of the blocks, the engine, `PushMaterial::_isReadyForSubMesh`), as
oracles. A block is named by its heap index, a mesh and a sub-mesh likewise. The oracles
of the build write into the compilation state and the Shared Data they are handed; those
of the readiness check return the defines or the states they rewrite. None of them
rewires the graph: `autoConfigure` and the optimizers are recorded in the trace only. -/
structure Env where
  supportsUniformBuffers : Bool
  blockInitialize : Nat → NodeMaterialBuildState → NodeMaterialBuildStateSharedData →
    NodeMaterialBuildState × NodeMaterialBuildStateSharedData
  _buildBlock : Nat → NodeMaterialBuildState → NodeMaterialBuildStateSharedData →
    NodeMaterialBuildState × NodeMaterialBuildStateSharedData
  finalize : NodeMaterialBuildState → NodeMaterialBuildState
  blockIsReady : World → Nat → Nat → NodeMaterialDefines → Bool → Bool
  initializeDefines : World → Nat → Nat → NodeMaterialDefines → Bool → NodeMaterialDefines
  prepareDefines : World → Nat → Nat → NodeMaterialDefines → Bool → NodeMaterialDefines
  replaceRepeatableContent : Nat → NodeMaterialBuildState → NodeMaterialBuildState → Nat →
    NodeMaterialDefines → NodeMaterialBuildState × NodeMaterialBuildState
  updateUniformsAndSamples : Nat → NodeMaterialBuildState → NodeMaterialDefines →
    List String → NodeMaterialBuildState × List String
  definesToString : NodeMaterialDefines → String
  createEffect : World → EffectBaseName → IEffectCreationOptions → Option Nat
  _isReadyForSubMesh : World → Nat → Bool

/-! ## Plumbing -/

namespace Outcome

/-- Sequencing: continue after a normal return, pass every other ending on. -/
def andThen {α β : Type} (o : Outcome α) (f : World → α → Outcome β) : Outcome β :=
  match o with
  | .done w a => f w a
  | .raised w what => .raised w what
  | .crashed => .crashed
  | .diverged => .diverged

end Outcome

/-- A range-based `for` loop whose body may throw; `a` holds the locals it updates. -/
def forEach {α β : Type} (body : β → α → World → Outcome α) : List β → α → World → Outcome α
  | [], a, w => .done w a
  | x :: xs, a, w => (body x a w).andThen (fun w1 a1 => forEach body xs a1 w1)

namespace World

/-- Record a call that leaves the file. -/
def log (w : World) (e : Event) : World := { w with trace := w.trace ++ [e] }

/-- Overwrite one block of the heap. -/
def setBlock (w : World) (b : Nat) (blk : NodeMaterialBlock) : World :=
  { w with blocks := Function.update w.blocks b blk }

/-- Overwrite one sub-mesh of the heap. -/
def setSubMesh (w : World) (s : Nat) (sm : SubMesh) : World :=
  { w with subMeshes := Function.update w.subMeshes s sm }

/-- Overwrite one effect of the heap. -/
def setEffectData (w : World) (e : Nat) (eff : Effect) : World :=
  { w with effects := Function.update w.effects e eff }

/-- Overwrite the member variables of the material. -/
def setMat (w : World) (m : NodeMaterial) : World := { w with mat := m }

/-- The compilation state a stage pointer refers to. -/
def state (w : World) : Stage → Option NodeMaterialBuildState
  | .vertex => w.mat._vertexCompilationState
  | .fragment => w.mat._fragmentCompilationState

/-- Write through a stage pointer. -/
def setState (w : World) (stage : Stage) (s : NodeMaterialBuildState) : World :=
  match stage with
  | .vertex => w.setMat { w.mat with _vertexCompilationState := some s }
  | .fragment => w.setMat { w.mat with _fragmentCompilationState := some s }

/-- Write through `_sharedData`. -/
def setSharedData (w : World) (sd : NodeMaterialBuildStateSharedData) : World :=
  w.setMat { w.mat with _sharedData := some sd }

end World

/-- The `size_t` value after `x - 1`. -/
def sizeDec (x : Nat) : Nat := (x + 2 ^ 64 - 1) % 2 ^ 64

/-- The `size_t` value after `x + 1`. -/
def sizeInc (x : Nat) : Nat := (x + 1) % 2 ^ 64

/-! ## Output nodes (lines 200-282) -/

/-- Method `NodeMaterial::_addVertexOutputNode`. -/
def _addVertexOutputNode (node : Nat) (w : World) : World :=
  if w.mat._vertexOutputNodes.contains node then w
  else
    let w1 := w.setBlock node { w.blocks node with target := .Vertex }
    w1.setMat { w1.mat with _vertexOutputNodes := w1.mat._vertexOutputNodes ++ [node] }

/-- Method `NodeMaterial::_addFragmentOutputNode`. -/
def _addFragmentOutputNode (node : Nat) (w : World) : World :=
  if w.mat._fragmentOutputNodes.contains node then w
  else
    let w1 := w.setBlock node { w.blocks node with target := .Fragment }
    w1.setMat { w1.mat with _fragmentOutputNodes := w1.mat._fragmentOutputNodes ++ [node] }

/-- Method `NodeMaterial::_removeVertexOutputNode`: `index_of`, then `splice(index, 1)`. -/
def _removeVertexOutputNode (node : Nat) (w : World) : World :=
  w.setMat { w.mat with _vertexOutputNodes := w.mat._vertexOutputNodes.erase node }

/-- Method `NodeMaterial::_removeFragmentOutputNode`. -/
def _removeFragmentOutputNode (node : Nat) (w : World) : World :=
  w.setMat { w.mat with _fragmentOutputNodes := w.mat._fragmentOutputNodes.erase node }

/-- The text thrown by `addOutputNode`. -/
def notAnOutputNode : String :=
  "This node is not meant to be an output node. You may want to explicitly set its target value."

/-- Method `NodeMaterial::addOutputNode`. -/
def addOutputNode (node : Nat) (w : World) : Outcome Unit :=
  if (w.blocks node).target = .Undefined then .raised w notAnOutputNode
  else
    let w1 := if (w.blocks node).target = .Vertex then _addVertexOutputNode node w else w
    let w2 := if (w1.blocks node).target = .Fragment then _addFragmentOutputNode node w1 else w1
    .done w2 ()

/-- Method `NodeMaterial::removeOutputNode`. -/
def removeOutputNode (node : Nat) (w : World) : World :=
  if (w.blocks node).target = .Undefined then w
  else
    let w1 := if (w.blocks node).target = .Vertex then _removeVertexOutputNode node w else w
    if (w1.blocks node).target = .Fragment then _removeFragmentOutputNode node w1 else w1

/-- Method `NodeMaterial::removeBlock`. -/
def removeBlock (block : Nat) (w : World) : World :=
  let w1 := w.setMat { w.mat with attachedBlocks := w.mat.attachedBlocks.erase block }
  if (w1.blocks block).isFinalMerger then removeOutputNode block w1 else w1

/-- Method `NodeMaterial::clear`. -/
def clear (w : World) : World :=
  w.setMat { w.mat with _vertexOutputNodes := [], _fragmentOutputNodes := [],
                        attachedBlocks := [] }

/-! ## Graph traversal (lines 297-359) -/

/-- The text thrown by `_initializeBlock` for a second block of a unique class. -/
def multipleBlocks (className : String) : String :=
  "Cannot have multiple blocks of type " ++ className ++ " in the same NodeMaterial"

/-- Line 301, `node->initialize(*iState)`: the call is recorded and the oracle rewrites
the state and the Shared Data it points to (not the stage of the state, nor the build
id). -/
def callBlockInitialize (env : Env) (iState : Stage) (node : Nat) (w : World) : Outcome Unit :=
  match w.state iState, w.mat._sharedData with
  | some s, some sd =>
    let r := env.blockInitialize node s sd
    .done (((w.log (.blockInitialize node iState)).setState iState
      { r.1 with target := s.target }).setSharedData { r.2 with buildId := sd.buildId }) ()
  | _, _ => .crashed

/-- Lines 302-303: `node->autoConfigure(...)` is recorded and the node is stamped with the
build id of the material. -/
def stampPreparation (node : Nat) (w : World) : World :=
  let w2 := w.log (.autoConfigure node)
  w2.setBlock node { w2.blocks node with _preparationId := w2.mat._buildId }

/-- Lines 305-317: attach `node` unless it is attached; a unique block is refused when a
block of its class is attached already. -/
def attachBlock (node : Nat) (w : World) : Outcome Unit :=
  if w.mat.attachedBlocks.contains node then .done w ()
  else if (w.blocks node).isUnique
      && w.mat.attachedBlocks.any
          (fun other => (w.blocks other).getClassName == (w.blocks node).getClassName) then
    .raised w (multipleBlocks (w.blocks node).getClassName)
  else .done (w.setMat { w.mat with attachedBlocks := w.mat.attachedBlocks ++ [node] }) ()

/-- Assignment `input->associatedVariableName = ""` for input number `i` of a block. -/
def NodeMaterialBlock.resetInput (b : NodeMaterialBlock) (i : Nat) : NodeMaterialBlock :=
  { b with inputs := b.inputs.modify (fun p => { p with associatedVariableName := "" }) i }

/-- Lines 339-341: every output loses its variable name. -/
def NodeMaterialBlock.resetOutputs (b : NodeMaterialBlock) : NodeMaterialBlock :=
  { b with outputs := b.outputs.map (fun p => { p with associatedVariableName := "" }) }

/-- Lines 326-333: whether the upstream `block` is put on the list of the other stage. -/
def crossStage (w : World) (iState : Stage) (block : Nat) : Bool :=
  if (w.blocks block).target = .VertexAndFragment then true
  else decide ((w.state iState).map (fun s => s.target) = some .Fragment)
    && decide ((w.blocks block).target = .Vertex)
    && decide ((w.blocks block)._preparationId ≠ w.mat._buildId)

/-- Lines 319-337, one turn of the loop over `node->inputs()`; `recur` is the recursive
call of `_initializeBlock`. -/
def initializeInput (recur : Nat → List Nat → World → Outcome (List Nat)) (iState : Stage)
    (node : Nat) (input : Nat × NodeMaterialConnectionPoint) (nodes : List Nat) (w : World) :
    Outcome (List Nat) :=
  let w1 := w.setBlock node ((w.blocks node).resetInput input.1)
  match input.2.connectedPoint with
  | none => .done w1 nodes
  | some block =>
    if block = node then .done w1 nodes
    else recur block (if crossStage w1 iState block then nodes ++ [block] else nodes) w1

/-- Method `NodeMaterial::_initializeBlock`; `nodes` is
`nodesToProcessForOtherBuildState`. The first argument bounds the recursion depth. The
loop runs over the inputs the node has when the loop starts; the recursive calls change
variable names and stamps, never the wiring. -/
def _initializeBlock (env : Env) (iState : Stage) :
    Nat → Nat → List Nat → World → Outcome (List Nat)
  | 0, _, _, _ => .diverged
  | fuel + 1, node, nodes, w =>
    (callBlockInitialize env iState node w).andThen fun w1 _ =>
    (attachBlock node (stampPreparation node w1)).andThen fun w4 _ =>
    (forEach (initializeInput (_initializeBlock env iState fuel) iState node)
      (w4.blocks node).inputs.enum nodes w4).andThen fun w5 nodes5 =>
    .done (w5.setBlock node (w5.blocks node).resetOutputs) nodes5

/-- Lines 350-358, one turn of the loop of `_resetDualBlocks`. -/
def resetDualInput (recur : Nat → World → Outcome Unit) (node : Nat)
    (input : NodeMaterialConnectionPoint) (_u : Unit) (w : World) : Outcome Unit :=
  match input.connectedPoint with
  | none => .done w ()
  | some block => if block = node then .done w () else recur block w

/-- Lines 346-348: a dual node gets the id. -/
def resetNode (iId node : Nat) (w : World) : World :=
  if (w.blocks node).target = .VertexAndFragment
  then w.setBlock node { w.blocks node with buildId := iId } else w

/-- Method `NodeMaterial::_resetDualBlocks`. -/
def _resetDualBlocks (iId : Nat) : Nat → Nat → World → Outcome Unit
  | 0, _, _ => .diverged
  | fuel + 1, node, w =>
    let w1 := resetNode iId node w
    forEach (resetDualInput (_resetDualBlocks iId fuel) node) (w1.blocks node).inputs () w1

/-! ## Building (lines 373-485) -/

/-- Modelled from the spec: the emission step of `NodeMaterialBlock::build` (not in the
sources): the block's `_buildBlock` writes into the state of the stage, which is
recorded, and the block is stamped with the build id of the Shared Data. -/
def emitBlock (env : Env) (stage : Stage) (b : Nat) (w : World) : Outcome Unit :=
  match w.state stage, w.mat._sharedData with
  | some s, some sd =>
    let r := env._buildBlock b s sd
    let w1 := ((w.log (.buildBlock b stage)).setState stage
      { r.1 with target := s.target }).setSharedData { r.2 with buildId := sd.buildId }
    .done (w1.setBlock b { w1.blocks b with buildId := sd.buildId }) ()
  | _, _ => .crashed

/-- Modelled from the spec: one turn of the loop of `NodeMaterialBlock::build` over the
inputs of the block: the owner of a connected point is built first. -/
def buildInput (recur : Nat → World → Outcome Unit) (b : Nat)
    (input : NodeMaterialConnectionPoint) (_u : Unit) (w : World) : Outcome Unit :=
  match input.connectedPoint with
  | none => .done w ()
  | some block => if block = b then .done w () else recur block w

/-- Modelled from the spec: the last step of `NodeMaterialBlock::build`: the block emits
its code unless it carries the build id of the Shared Data by now ("must not re-emit if
already emitted for this buildId"). -/
def emitOnce (env : Env) (stage : Stage) (b : Nat) (w : World) : Outcome Unit :=
  match w.mat._sharedData with
  | none => .crashed
  | some sd => if (w.blocks b).buildId = sd.buildId then .done w () else emitBlock env stage b w

/-- Modelled from the spec: `NodeMaterialBlock::build(state, activeBlocks)` is not in the
sources. Following section 4.2 of the spec, a block whose `buildId` equals the build id
of the Shared Data emits nothing; otherwise it recurses into the upstream connected
blocks and then emits its own code once. -/
def blockBuild (env : Env) (stage : Stage) : Nat → Nat → World → Outcome Unit
  | 0, _, _ => .diverged
  | fuel + 1, b, w =>
    let w1 := w.log (.blockBuild b stage)
    match w1.mat._sharedData with
    | none => .crashed
    | some sd =>
      if (w1.blocks b).buildId = sd.buildId then .done w1 ()
      else
        (forEach (buildInput (blockBuild env stage fuel) b) (w1.blocks b).inputs () w1).andThen
          fun w2 _ => emitOnce env stage b w2

/-- Method `NodeMaterial::optimize`; the optimizers are opaque strategy objects whose
calls are recorded. -/
def optimize (w : World) : World :=
  w.mat._optimizers.foldl (fun acc o => acc.log (.optimize o)) w

/-- The text thrown by `build` without a vertex output node. -/
def noVertexOutputNode : String := "You must define at least one vertexOutputNode"

/-- The text thrown by `build` without a fragment output node. -/
def noFragmentOutputNode : String := "You must define at least one fragmentOutputNode"

/-- Lines 386-401: fresh compilation states and fresh Shared Data. -/
def allocateStates (env : Env) (verbose : Bool) (w : World) : Outcome Unit :=
  let vs : NodeMaterialBuildState :=
    { NodeMaterialBuildState.fresh with
      supportUniformBuffers := env.supportsUniformBuffers, target := .Vertex }
  let fs : NodeMaterialBuildState :=
    { NodeMaterialBuildState.fresh with
      supportUniformBuffers := env.supportsUniformBuffers, target := .Fragment }
  let w1 := w.setMat { w.mat with _vertexCompilationState := some vs,
                                  _fragmentCompilationState := some fs }
  match w1.mat._options with
  | none => .crashed
  | some options =>
    let sd : NodeMaterialBuildStateSharedData :=
      { NodeMaterialBuildStateSharedData.fresh with
        buildId := w1.mat._buildId, emitComments := options.emitComments, verbose := verbose }
    .done (w1.setMat { w1.mat with _sharedData := some sd }) ()

/-- Lines 407-410, one turn: `nodes.1` is `vertexNodes`, `nodes.2` is `fragmentNodes`. -/
def initializeVertexOutput (env : Env) (fuel : Nat) (node : Nat) (nodes : List Nat × List Nat)
    (w : World) : Outcome (List Nat × List Nat) :=
  (_initializeBlock env .vertex fuel node nodes.2 w).andThen fun w1 fragmentNodes =>
    .done w1 (nodes.1 ++ [node], fragmentNodes)

/-- Lines 412-415, one turn. -/
def initializeFragmentOutput (env : Env) (fuel : Nat) (node : Nat)
    (nodes : List Nat × List Nat) (w : World) : Outcome (List Nat × List Nat) :=
  (_initializeBlock env .fragment fuel node nodes.1 w).andThen fun w1 vertexNodes =>
    .done w1 (vertexNodes, nodes.2 ++ [node])

/-- Lines 403-415: the two initialization loops; returns `vertexNodes` and
`fragmentNodes`. -/
def initializeBlocks (env : Env) (fuel : Nat) (w : World) : Outcome (List Nat × List Nat) :=
  (forEach (initializeVertexOutput env fuel) w.mat._vertexOutputNodes ([], []) w).andThen
    fun w1 nodes => forEach (initializeFragmentOutput env fuel) w1.mat._fragmentOutputNodes nodes w1

/-- Lines 426-429: the fragment state takes over the uniforms and the declarations of the
vertex state. -/
def shareVertexDeclarations (w : World) : Outcome Unit :=
  match w.mat._vertexCompilationState, w.mat._fragmentCompilationState with
  | some vs, some fs =>
    let fs1 : NodeMaterialBuildState :=
      { fs with uniforms := vs.uniforms, _uniformDeclaration := vs._uniformDeclaration,
                _constantDeclaration := vs._constantDeclaration,
                _vertexState := .vertexCompilationState }
    .done (w.setMat { w.mat with _fragmentCompilationState := some fs1 }) ()
  | _, _ => .crashed

/-- Lines 440-441: `finalize` on both states. -/
def finalizeStates (env : Env) (w : World) : Outcome Unit :=
  match w.mat._vertexCompilationState with
  | none => .crashed
  | some vs =>
    let w1 := (w.log (.finalize .vertex)).setState .vertex
      { env.finalize vs with target := vs.target }
    match w1.mat._fragmentCompilationState with
    | none => .crashed
    | some fs =>
      .done ((w1.log (.finalize .fragment)).setState .fragment
        { env.finalize fs with target := fs.target }) ()

/-- Lines 448-453: the verbose log. -/
def logShaders (verbose : Bool) (w : World) : Outcome Unit :=
  if verbose then
    match w.mat._vertexCompilationState, w.mat._fragmentCompilationState with
    | some vs, some fs =>
      .done ((((w.log (.logInfo "Vertex shader:")).log (.logInfo vs.compilationString)).log
        (.logInfo "Fragment shader:")).log (.logInfo fs.compilationString)) ()
    | _, _ => .crashed
  else .done w ()

/-- Lines 464-476, one turn of the inner loop over the sub-meshes of a mesh: the defines
container is marked all-dirty and released, which leaves the sub-mesh without one. -/
def wipeSubMeshDefines (w : World) (subMesh : Nat) : World :=
  if (w.subMeshes subMesh).getMaterial = some .this then
    match (w.subMeshes subMesh)._materialDefines with
    | none => w
    | some _ => w.setSubMesh subMesh { w.subMeshes subMesh with _materialDefines := none }
  else w

/-- Lines 458-477: the defines of every sub-mesh that uses this material are marked dirty
and released. -/
def wipeDefines (w : World) : World :=
  w.scene.meshes.foldl (fun acc mesh => (acc.meshes mesh).subMeshes.foldl wipeSubMeshDefines acc) w

/-- Line 443: `_buildId = NodeMaterial::_BuildIdGenerator++`. -/
def nextBuildId (w : World) : World :=
  { w with mat := { w.mat with _buildId := w._BuildIdGenerator },
           _BuildIdGenerator := sizeInc w._BuildIdGenerator }

/-- Lines 455-456: the success flag goes up and the observers are notified. -/
def markSuccessful (w : World) : World :=
  (w.setMat { w.mat with _buildWasSuccessful := true }).log .notifyBuildObservers

/-- Lines 443-477: the new build id, the error report, the success flag, the observers and
the wipe of the defines. -/
def completeBuild (verbose : Bool) (w : World) : Outcome Unit :=
  (logShaders verbose ((nextBuildId w).log .emitErrors)).andThen fun w3 _ =>
    .done (wipeDefines (markSuccessful w3)) ()

/-- Lines 417-441: optimize, build the vertex nodes, share the declarations, reset the
dual blocks, build the fragment nodes, finalize. -/
def buildStages (env : Env) (fuel : Nat) (nodes : List Nat × List Nat) (w : World) :
    Outcome Unit :=
  let w1 := optimize w
  (forEach (fun node _u w => blockBuild env .vertex fuel node w) nodes.1 () w1).andThen
    fun w2 _ =>
  (shareVertexDeclarations w2).andThen fun w3 _ =>
  (forEach (fun node _u w => _resetDualBlocks (sizeDec w.mat._buildId) fuel node w)
    nodes.2 () w3).andThen fun w4 _ =>
  (forEach (fun node _u w => blockBuild env .fragment fuel node w) nodes.2 () w4).andThen
    fun w5 _ => finalizeStates env w5

/-- Method `NodeMaterial::build`; `fuel` bounds the depth of the graph walks. -/
def build (env : Env) (fuel : Nat) (verbose : Bool) (w : World) : Outcome Unit :=
  let w0 := w.setMat { w.mat with _buildWasSuccessful := false }
  if w0.mat._vertexOutputNodes.isEmpty then .raised w0 noVertexOutputNode
  else if w0.mat._fragmentOutputNodes.isEmpty then .raised w0 noFragmentOutputNode
  else
    (allocateStates env verbose w0).andThen fun w1 _ =>
    (initializeBlocks env fuel w1).andThen fun w2 nodes =>
    (buildStages env fuel nodes w2).andThen fun w3 _ =>
    completeBuild verbose w3

/-! ## Readiness (lines 487-660) -/

/-- Method `NodeMaterial::_prepareDefinesForAttributes`. -/
def _prepareDefinesForAttributes (mesh : AbstractMesh) (defines : NodeMaterialDefines) :
    NodeMaterialDefines :=
  let oldNormal := defines.get "NORMAL"
  let oldTangent := defines.get "TANGENT"
  let oldUV1 := defines.get "UV1"
  let d1 := defines.setBool "NORMAL" (mesh.isVerticesDataPresent VertexBuffer.NormalKind)
  let d2 := d1.setBool "TANGENT" (mesh.isVerticesDataPresent VertexBuffer.TangentKind)
  let d3 := d2.setBool "UV1" (mesh.isVerticesDataPresent VertexBuffer.UVKind)
  if oldNormal != d3.get "NORMAL" || oldTangent != d3.get "TANGENT" || oldUV1 != d3.get "UV1"
  then d3.markAsAttributesDirty
  else d3

/-- Write through the `defines` pointer of `isReadyForSubMesh`, which aliases
`subMesh->_materialDefines`. -/
def World.setDefines (w : World) (subMesh : Nat) (d : NodeMaterialDefines) : World :=
  w.setSubMesh subMesh { w.subMeshes subMesh with _materialDefines := some d }

/-- Lines 512-522: animated inputs are animated once per frame. -/
def animateInputs (sd : NodeMaterialBuildStateSharedData) (w : World) : World :=
  if sd.animatedInputs.isEmpty then w
  else if w.mat._animationFrame ≠ w.scene.getFrameId then
    let w1 := sd.animatedInputs.foldl (fun acc input => acc.log (.animate input)) w
    w1.setMat { w1.mat with _animationFrame := w1.scene.getFrameId }
  else w

/-- Lines 524-528: the frozen fast path is taken. -/
def frozenFastPath (w : World) (subMesh : Nat) : Bool :=
  match (w.subMeshes subMesh).effect with
  | some e => w.mat.isFrozen && (w.effects e)._wasPreviouslyReady
  | none => false

/-- Lines 530-534: the sub-mesh gets a defines container if it has none; returns the
container `defines` points to. -/
def ensureDefines (w : World) (subMesh : Nat) : World × NodeMaterialDefines :=
  match (w.subMeshes subMesh)._materialDefines with
  | some d => (w, d)
  | none => (w.setDefines subMesh NodeMaterialDefines.fresh, NodeMaterialDefines.fresh)

/-- Lines 544-548: the blocking blocks are asked in order; the first that is not ready
ends the loop. -/
def blockingBlocksReady (env : Env) (mesh : Nat) (d : NodeMaterialDefines)
    (useInstances : Bool) : List Nat → World → World × Bool
  | [], w => (w, true)
  | b :: bs, w =>
    let w1 := w.log (.isReady b)
    if env.blockIsReady w1 b mesh d useInstances then
      blockingBlocksReady env mesh d useInstances bs w1
    else (w1, false)

/-- Lines 551-553: the first defines pass. -/
def initializeDefinesPass (env : Env) (mesh subMesh : Nat) (useInstances : Bool) :
    List Nat → NodeMaterialDefines → World → World × NodeMaterialDefines
  | [], d, w => (w, d)
  | b :: bs, d, w =>
    let w1 := w.log (.initializeDefines b)
    let d1 := env.initializeDefines w1 b mesh d useInstances
    initializeDefinesPass env mesh subMesh useInstances bs d1 (w1.setDefines subMesh d1)

/-- Lines 555-557: the second defines pass. -/
def prepareDefinesPass (env : Env) (mesh subMesh : Nat) (useInstances : Bool) :
    List Nat → NodeMaterialDefines → World → World × NodeMaterialDefines
  | [], d, w => (w, d)
  | b :: bs, d, w =>
    let w1 := w.log (.prepareDefines b)
    let d1 := env.prepareDefines w1 b mesh d useInstances
    prepareDefinesPass env mesh subMesh useInstances bs d1 (w1.setDefines subMesh d1)

/-- Lines 580-586 and 589-595: the vertex list, then the fragment names not yet in the
merged list. -/
def mergeNames (vertex fragment : List String) : List String :=
  fragment.foldl (fun merged u => if merged.contains u then merged else merged ++ [u]) vertex

/-- Lines 564-571: the built text is restored and the repeatable content replayed. -/
def replayRepeatableContent (env : Env) (mesh : Nat) (d : NodeMaterialDefines)
    (sd : NodeMaterialBuildStateSharedData) (w : World) : Outcome Unit :=
  match w.mat._vertexCompilationState, w.mat._fragmentCompilationState with
  | some vs, some fs =>
    let vs1 := { vs with compilationString := vs._builtCompilationString }
    let fs1 := { fs with compilationString := fs._builtCompilationString }
    let r := sd.repeatableContentBlocks.foldl
      (fun (acc : World × NodeMaterialBuildState × NodeMaterialBuildState) b =>
        let r := env.replaceRepeatableContent b acc.2.1 acc.2.2 mesh d
        (acc.1.log (.replaceRepeatableContent b), r.1, r.2))
      (w, vs1, fs1)
    .done (r.1.setMat { r.1.mat with _vertexCompilationState := some r.2.1,
                                     _fragmentCompilationState := some r.2.2 }) ()
  | _, _ => .crashed

/-- Lines 574-578: the dynamic uniform blocks update the vertex state and the list of
uniform buffers, which is returned. -/
def updateDynamicUniforms (env : Env) (d : NodeMaterialDefines)
    (sd : NodeMaterialBuildStateSharedData) (w : World) : Outcome (List String) :=
  match w.mat._vertexCompilationState with
  | some vs =>
    let r := sd.dynamicUniformBlocks.foldl
      (fun (acc : World × NodeMaterialBuildState × List String) b =>
        let r := env.updateUniformsAndSamples b acc.2.1 d acc.2.2
        (acc.1.log (.updateUniformsAndSamples b), r.1, r.2))
      (w, vs, [])
    .done (r.1.setMat { r.1.mat with _vertexCompilationState := some r.2.1 }) r.2.2
  | none => .crashed

/-- Lines 603-631: the request handed to `createEffect`. -/
def effectRequest (env : Env) (d : NodeMaterialDefines) (uniformBuffers : List String)
    (vs fs : NodeMaterialBuildState) (m : NodeMaterial) :
    EffectBaseName × IEffectCreationOptions :=
  ({ vertex := "nodeMaterial" ++ toString m._buildId,
     fragment := "nodeMaterial" ++ toString m._buildId,
     vertexSource := vs.compilationString,
     fragmentSource := fs.compilationString },
   { attributes := vs.attributes,
     uniformsNames := mergeNames vs.uniforms fs.uniforms,
     uniformBuffersNames := uniformBuffers,
     samplers := mergeNames vs.samplers fs.samplers,
     defines := env.definesToString d,
     maxSimultaneousLights := m.maxSimultaneousLights,
     maxSimultaneousMorphTargets := d.getInt "NUM_MORPH_INFLUENCERS" })

/-- Lines 633-649: what happens to the effect `createEffect` returned; `previousEffect` is
the effect of the sub-mesh before the request. Returns the defines. -/
def adoptEffect (subMesh : Nat) (previousEffect effect : Option Nat) (d : NodeMaterialDefines)
    (w : World) : World × NodeMaterialDefines :=
  match effect with
  | none => (w, d)
  | some e =>
    let w1 := w.log (.notifyEffectCreated e subMesh)
    if w1.mat.allowShaderHotSwapping && previousEffect.isSome && !(w1.effects e).isReady then
      let d1 := d.markAsUnprocessed
      (w1.setDefines subMesh d1, d1)
    else
      let w2 := w1.log .resetCachedMaterial
      (w2.setSubMesh subMesh { w2.subMeshes subMesh with effect := some e,
                                                         _materialDefines := some d }, d)

/-- Lines 560-601: the defines are marked processed, the repeatable content is replayed,
the uniforms are merged and the fallbacks collected. Returns the request for
`createEffect` and the defines. -/
def prepareRequest (env : Env) (mesh subMesh : Nat) (d : NodeMaterialDefines)
    (sd : NodeMaterialBuildStateSharedData) (w : World) :
    Outcome ((EffectBaseName × IEffectCreationOptions) × NodeMaterialDefines) :=
  let d1 := d.markAsProcessed
  let w1 := w.setDefines subMesh d1
  (replayRepeatableContent env mesh d1 sd w1).andThen fun w2 _ =>
  (updateDynamicUniforms env d1 sd w2).andThen fun w3 uniformBuffers =>
  match w3.mat._vertexCompilationState, w3.mat._fragmentCompilationState with
  | some vs, some fs =>
    let w4 := sd.blocksWithFallbacks.foldl (fun acc b => acc.log (.provideFallbacks b)) w3
    .done w4 (effectRequest env d1 uniformBuffers vs fs w4.mat, d1)
  | _, _ => .crashed

/-- Lines 603 and 631-649: the previous effect is remembered, the engine is asked for an
effect, and the answer is adopted or not. Returns the defines. -/
def createAndAdopt (env : Env) (subMesh : Nat)
    (request : EffectBaseName × IEffectCreationOptions) (d : NodeMaterialDefines) (w : World) :
    World × NodeMaterialDefines :=
  let previousEffect := (w.subMeshes subMesh).effect
  let effect := env.createEffect w request.1 request.2
  adoptEffect subMesh previousEffect effect d (w.log (.createEffect request.1 request.2))

/-- Lines 560-650: the branch taken when the defines are dirty. Returns the defines. -/
def recompile (env : Env) (mesh subMesh : Nat) (d : NodeMaterialDefines)
    (sd : NodeMaterialBuildStateSharedData) (w : World) : Outcome NodeMaterialDefines :=
  (prepareRequest env mesh subMesh d sd w).andThen fun w4 r =>
    let a := createAndAdopt env subMesh r.1 r.2 w4
    .done a.1 a.2

/-- Lines 652-659: the final gate. -/
def finalGate (subMesh : Nat) (d : NodeMaterialDefines) (w : World) : World × Bool :=
  match (w.subMeshes subMesh).effect with
  | none => (w, false)
  | some e =>
    if !(w.effects e).isReady then (w, false)
    else
      let w1 := w.setDefines subMesh { d with _renderId := w.scene.getRenderId }
      (w1.setEffectData e { w1.effects e with _wasPreviouslyReady := true }, true)

/-- Lines 541-557: the attribute defines, the blocking blocks and the two defines passes.
Returns the defines and whether every blocking block was ready; the passes are skipped
when one was not. -/
def definesPasses (env : Env) (mesh subMesh : Nat) (useInstances : Bool)
    (sd : NodeMaterialBuildStateSharedData) (d : NodeMaterialDefines) (w : World) :
    World × NodeMaterialDefines × Bool :=
  let d1 := _prepareDefinesForAttributes (w.meshes mesh) d
  let w1 := w.setDefines subMesh d1
  let ready := blockingBlocksReady env mesh d1 useInstances sd.blockingBlocks w1
  if !ready.2 then (ready.1, d1, false)
  else
    let p1 := initializeDefinesPass env mesh subMesh useInstances sd.blocksWithDefines d1 ready.1
    let p2 := prepareDefinesPass env mesh subMesh useInstances sd.blocksWithDefines p1.2 p1.1
    (p2.1, p2.2, true)

/-- Lines 559-650: the recompilation, when the defines are dirty. Returns the defines. -/
def settleEffect (env : Env) (mesh subMesh : Nat) (d : NodeMaterialDefines)
    (sd : NodeMaterialBuildStateSharedData) (w : World) : Outcome NodeMaterialDefines :=
  if d.isDirty then recompile env mesh subMesh d sd w else .done w d

/-- Lines 539-659: the part of `isReadyForSubMesh` behind the two fast paths. -/
def checkSubMesh (env : Env) (mesh subMesh : Nat) (useInstances : Bool)
    (sd : NodeMaterialBuildStateSharedData) (d : NodeMaterialDefines) (w : World) :
    Outcome Bool :=
  let p := definesPasses env mesh subMesh useInstances sd d w
  if !p.2.2 then .done p.1 false
  else
    (settleEffect env mesh subMesh p.2.1 sd p.1).andThen fun w2 d2 =>
      let g := finalGate subMesh d2 w2
      .done g.1 g.2

/-- Method `NodeMaterial::isReadyForSubMesh`. -/
def isReadyForSubMesh (env : Env) (mesh subMesh : Nat) (useInstances : Bool) (w : World) :
    Outcome Bool :=
  if !w.mat._buildWasSuccessful then .done w false
  else
    match w.mat._sharedData with
    | none => .crashed
    | some sd =>
      let w1 := animateInputs sd w
      if frozenFastPath w1 subMesh then .done w1 true
      else
        let r := ensureDefines w1 subMesh
        if env._isReadyForSubMesh r.1 subMesh then .done r.1 true
        else checkSubMesh env mesh subMesh useInstances sd r.2 r.1

/-! ## Specification vocabulary -/

/-- What a call guarantees: `post` after a normal return, `err` at a throw; `bad` says
whether a null dereference or exhausted fuel is acceptable (`True`: a statement about the
calls that end, `False`: the call ends). -/
def Outcome.Sat {α : Type} (o : Outcome α) (post : World → α → Prop)
    (err : World → String → Prop) (bad : Prop) : Prop :=
  match o with
  | .done w a => post w a
  | .raised w what => err w what
  | .crashed => bad
  | .diverged => bad

/-- Block `a` has an input connected to a point that another block `c` owns: the edges
the graph walks follow. -/
def World.Edge (w : World) (a c : Nat) : Prop :=
  some c ∈ (w.blocks a).inputs.map (fun p => p.connectedPoint) ∧ c ≠ a

/-- Block `c` is reachable from block `a` through input connections (`a` included). -/
def World.Reach (w : World) : Nat → Nat → Prop := Relation.ReflTransGen w.Edge

/-- Block `c` is reachable from block `a` through at least one input connection. -/
def World.ReachPlus (w : World) : Nat → Nat → Prop := Relation.TransGen w.Edge

/-- The input connections are acyclic: `rank` drops along every edge. -/
def World.Acyclic (w : World) (rank : Nat → Nat) : Prop :=
  ∀ a c, w.Edge a c → rank c < rank a

/-- What the graph walks never change in a block: its class, its constant answers, its
target and the wiring of its inputs. -/
def NodeMaterialBlock.shape (b : NodeMaterialBlock) :
    String × Bool × Bool × Bool × NodeMaterialBlockTargets × List (Option Nat) :=
  (b.getClassName, b.isUnique, b.isFinalMerger, b.isInput, b.target,
    b.inputs.map (fun p => p.connectedPoint))

/-- The member variables of the material that only the entry points write. -/
def NodeMaterial.config (m : NodeMaterial) :
    List Nat × List Nat × List Nat × Option INodeMaterialOptions × Nat × Bool × Int × Bool
      × Nat × Bool × Bool :=
  (m._vertexOutputNodes, m._fragmentOutputNodes, m._optimizers, m._options, m._buildId,
    m._buildWasSuccessful, m._animationFrame, m.ignoreAlpha, m.maxSimultaneousLights,
    m.allowShaderHotSwapping, m.isFrozen)

/-- What no step of the build pipeline between the allocation of the states and the new
build id changes. -/
structure Frame (w w1 : World) : Prop where
  shape : ∀ b, (w1.blocks b).shape = (w.blocks b).shape
  config : w1.mat.config = w.mat.config
  stateTarget : ∀ stage, (w1.state stage).map (fun s => s.target)
    = (w.state stage).map (fun s => s.target)
  sharedBuildId : w1.mat._sharedData.map (fun sd => sd.buildId)
    = w.mat._sharedData.map (fun sd => sd.buildId)
  effects : w1.effects = w.effects
  subMeshes : w1.subMeshes = w.subMeshes
  meshes : w1.meshes = w.meshes
  scene : w1.scene = w.scene
  generator : w1._BuildIdGenerator = w._BuildIdGenerator

/-- The calls of block initialization. -/
def Event.isInit : Event → Bool
  | .blockInitialize _ _ => true
  | .autoConfigure _ => true
  | _ => false

/-- Two different unique blocks of one class. -/
def World.Clash (w : World) (x y : Nat) : Prop :=
  x ≠ y ∧ (w.blocks x).isUnique = true ∧ (w.blocks y).isUnique = true
    ∧ (w.blocks x).getClassName = (w.blocks y).getClassName

/-- What block initialization does to the world: the frame holds, no block is built, the
attached blocks only grow, no two clashing blocks become attached together, and the only
outside calls are those of block initialization. -/
structure InitRel (w w1 : World) : Prop where
  frame : Frame w w1
  buildId : ∀ b, (w1.blocks b).buildId = (w.blocks b).buildId
  attached : ∀ b, b ∈ w.mat.attachedBlocks → b ∈ w1.mat.attachedBlocks
  noClash : ∀ x y, w.Clash x y →
    ¬ (x ∈ w.mat.attachedBlocks ∧ y ∈ w.mat.attachedBlocks) →
    ¬ (x ∈ w1.mat.attachedBlocks ∧ y ∈ w1.mat.attachedBlocks)
  trace : ∃ evs, w1.trace = w.trace ++ evs ∧ ∀ e ∈ evs, e.isInit = true

/-- What `_initializeBlock node` guarantees when it returns: the relation of block
initialization, every block reachable from the node is attached, the list of the other
stage only grew and holds every dual block reachable through at least one connection. -/
def InitPost (w : World) (node : Nat) (nodes : List Nat) (w1 : World) (nodes1 : List Nat) :
    Prop :=
  InitRel w w1 ∧ (∀ x, w.Reach node x → x ∈ w1.mat.attachedBlocks) ∧ (∀ b ∈ nodes, b ∈ nodes1)
    ∧ ∀ d, (w.blocks d).target = .VertexAndFragment → w.ReachPlus node d → d ∈ nodes1

/-- What `_initializeBlock node` guarantees when it throws: the error names the class of
a unique block reachable from the node that is not attached, while another block of that
class is. -/
def InitErr (w : World) (node : Nat) (w1 : World) (what : String) : Prop :=
  InitRel w w1 ∧ ∃ x, w.Reach node x ∧ (w.blocks x).isUnique = true
    ∧ what = multipleBlocks (w.blocks x).getClassName ∧ x ∉ w1.mat.attachedBlocks
    ∧ ∃ y ∈ w1.mat.attachedBlocks, (w.blocks y).getClassName = (w.blocks x).getClassName

/-- The invariant of the loop over the inputs of `node`, after the inputs `pre`. -/
def InitLoopInv (w : World) (node : Nat) (nodes : List Nat)
    (pre : List (Nat × NodeMaterialConnectionPoint)) (wc : World) (nc : List Nat) : Prop :=
  InitRel w wc ∧ node ∈ wc.mat.attachedBlocks ∧ (∀ b ∈ nodes, b ∈ nc)
    ∧ ∀ p ∈ pre, ∀ c, p.2.connectedPoint = some c → c ≠ node →
        (∀ x, w.Reach c x → x ∈ wc.mat.attachedBlocks)
        ∧ ∀ d, (w.blocks d).target = .VertexAndFragment → w.Reach c d → d ∈ nc

/-- What the loop over the output nodes `outs` of one stage has achieved: `own` is the
node list of that stage, `other` the list of the other stage. -/
def OutputsDone (w : World) (outs : List Nat) (w1 : World) (own other : List Nat) : Prop :=
  ∀ o ∈ outs, o ∈ own ∧ (∀ x, w.Reach o x → x ∈ w1.mat.attachedBlocks)
    ∧ ∀ d, (w.blocks d).target = .VertexAndFragment → w.ReachPlus o d → d ∈ other

/-- What lines 403-415 guarantee when they return. -/
def InitBlocksPost (w : World) (w1 : World) (nodes : List Nat × List Nat) : Prop :=
  InitRel w w1 ∧ OutputsDone w w.mat._vertexOutputNodes w1 nodes.1 nodes.2
    ∧ OutputsDone w w.mat._fragmentOutputNodes w1 nodes.2 nodes.1

/-- What lines 403-415 guarantee when they throw. -/
def InitBlocksErr (w : World) (w1 : World) (what : String) : Prop :=
  ∃ o, (o ∈ w.mat._vertexOutputNodes ∨ o ∈ w.mat._fragmentOutputNodes) ∧ InitErr w o w1 what

/-- What the total reading of the contracts needs: enough fuel for every output node, an
acyclic graph, and the two states and the Shared Data in place. -/
def InitReady (w : World) (rank : Nat → Nat) (fuel : Nat) : Prop :=
  (∀ o, o ∈ w.mat._vertexOutputNodes ∨ o ∈ w.mat._fragmentOutputNodes → rank o < fuel)
    ∧ w.Acyclic rank ∧ (w.state .vertex).isSome ∧ (w.state .fragment).isSome
    ∧ w.mat._sharedData.isSome

/-- How often the code of block `b` was emitted into `stage` by the calls `evs`. -/
def emissions (evs : List Event) (b : Nat) (stage : Stage) : Nat :=
  evs.count (.buildBlock b stage)

/-- What building blocks of one stage does to the world, `cur` being the build id of the
Shared Data: the frame holds, the attached blocks stay, a block keeps its stamp or gets
`cur`, and a block's code is emitted into this stage exactly when it gets `cur`. -/
structure BuildRel (stage : Stage) (cur : Nat) (w w1 : World) : Prop where
  frame : Frame w w1
  attached : w1.mat.attachedBlocks = w.mat.attachedBlocks
  stamps : ∀ b, (w1.blocks b).buildId = (w.blocks b).buildId ∨ (w1.blocks b).buildId = cur
  trace : ∃ evs, w1.trace = w.trace ++ evs ∧ ∀ b st, emissions evs b st
    = if st = stage ∧ (w.blocks b).buildId ≠ cur ∧ (w1.blocks b).buildId = cur then 1 else 0

/-- What the total reading of the contract of a block build needs. -/
def BuildReady (w : World) (stage : Stage) (rank : Nat → Nat) (fuel b : Nat) : Prop :=
  rank b < fuel ∧ w.Acyclic rank ∧ (w.state stage).isSome ∧ w.mat._sharedData.isSome

/-- What `_resetDualBlocks` with the id `iId` does to the world: the frame holds, nothing
is attached or called, and a block keeps its stamp unless it is a dual block stamped
`iId`. -/
structure ResetRel (iId : Nat) (w w1 : World) : Prop where
  frame : Frame w w1
  attached : w1.mat.attachedBlocks = w.mat.attachedBlocks
  trace : w1.trace = w.trace
  stamps : ∀ b, (w1.blocks b).buildId = (w.blocks b).buildId
    ∨ ((w.blocks b).target = .VertexAndFragment ∧ (w1.blocks b).buildId = iId)

/-- Between the worlds `w` and `w1` the code of block `d` was emitted `nv` times into the
vertex stage and `nf` times into the fragment stage. -/
def Emitted (d : Nat) (w w1 : World) (nv nf : Nat) : Prop :=
  ∃ evs, w1.trace = w.trace ++ evs ∧ emissions evs d .vertex = nv
    ∧ emissions evs d .fragment = nf

/-- A step of the build pipeline that touches neither the blocks nor the attached blocks
and emits no block code. -/
structure Quiet (w w1 : World) : Prop where
  frame : Frame w w1
  blocks : w1.blocks = w.blocks
  attached : w1.mat.attachedBlocks = w.mat.attachedBlocks
  trace : ∃ evs, w1.trace = w.trace ++ evs ∧ ∀ e ∈ evs, ∀ b st, e ≠ .buildBlock b st

/-- What the total reading of the contract of lines 417-441 needs: fuel beyond every
rank, an acyclic graph, both states and the Shared Data in place. -/
def StagesReady (w : World) (rank : Nat → Nat) (fuel : Nat) : Prop :=
  (∀ b, rank b < fuel) ∧ w.Acyclic rank ∧ (w.state .vertex).isSome
    ∧ (w.state .fragment).isSome ∧ w.mat._sharedData.isSome

/-- Block `d` is a dual block (target `VertexAndFragment`) that is reachable through at
least one connection from a vertex output node and from a fragment output node, and does
not carry the build id the material is about to use. -/
def World.DualReached (w : World) (d : Nat) : Prop :=
  (w.blocks d).target = .VertexAndFragment
    ∧ (∃ v ∈ w.mat._vertexOutputNodes, w.ReachPlus v d)
    ∧ (∃ f ∈ w.mat._fragmentOutputNodes, w.ReachPlus f d)
    ∧ (w.blocks d).buildId ≠ w.mat._buildId

/-- The errors `build` can throw. -/
def BuildError (w : World) (what : String) : Prop :=
  (what = noVertexOutputNode ∧ w.mat._vertexOutputNodes = [])
    ∨ (what = noFragmentOutputNode ∧ w.mat._fragmentOutputNodes = [])
    ∨ ∃ x, what = multipleBlocks (w.blocks x).getClassName

/-- The world a call leaves behind when the program goes on: after a normal return or a
caught exception. -/
def Outcome.after {α : Type} : Outcome α → Option World
  | .done w _ => some w
  | .raised w _ => some w
  | .crashed => none
  | .diverged => none

/-- The entry points of the material that the claims speak about. -/
inductive Call where
  | addOutputNode (node : Nat)
  | removeOutputNode (node : Nat)
  | removeBlock (block : Nat)
  | clear
  | isReadyForSubMesh (mesh subMesh : Nat) (useInstances : Bool)
  | build (fuel : Nat) (verbose : Bool)

/-- The world after a call. -/
def Call.after (env : Env) : Call → World → Option World
  | .addOutputNode node, w => (BABYLON.addOutputNode node w).after
  | .removeOutputNode node, w => some (BABYLON.removeOutputNode node w)
  | .removeBlock block, w => some (BABYLON.removeBlock block w)
  | .clear, w => some (BABYLON.clear w)
  | .isReadyForSubMesh mesh subMesh useInstances, w =>
    (BABYLON.isReadyForSubMesh env mesh subMesh useInstances w).after
  | .build fuel verbose, w => (BABYLON.build env fuel verbose w).after

/-- The call is a `build` that runs to completion. -/
def Call.completesBuild (env : Env) : Call → World → Prop
  | .build fuel verbose, w => ∃ w1, BABYLON.build env fuel verbose w = .done w1 ()
  | _, _ => False

/-- The world `w1` is reached from `w` by calls none of which is a `build` that runs to
completion. -/
inductive NoBuildCompleted (env : Env) : World → World → Prop where
  | refl (w : World) : NoBuildCompleted env w w
  | step {w w1 w2 : World} (c : Call) : NoBuildCompleted env w w1 →
      ¬ c.completesBuild env w1 → c.after env w1 = some w2 → NoBuildCompleted env w w2

/-- What `isReadyForSubMesh` leaves alone until it adopts an effect or passes the final
gate: the effects, the effect handle of every sub-mesh, the scene, the shared data, the
hot-swap switch and the build-success flag. -/
structure SubMeshKept (w w1 : World) : Prop where
  effects : w1.effects = w.effects
  effect : ∀ s, (w1.subMeshes s).effect = (w.subMeshes s).effect
  scene : w1.scene = w.scene
  meshes : w1.meshes = w.meshes
  sharedData : w1.mat._sharedData = w.mat._sharedData
  hotSwap : w1.mat.allowShaderHotSwapping = w.mat.allowShaderHotSwapping

/-- What `isReadyForSubMesh` leaves alone until it recompiles: the two compilation states;
the calls it makes meanwhile all satisfy `P`. -/
structure StatesKept (P : Event → Prop) (w w1 : World) : Prop where
  vertexState : w1.mat._vertexCompilationState = w.mat._vertexCompilationState
  fragmentState : w1.mat._fragmentCompilationState = w.mat._fragmentCompilationState
  trace : ∃ evs, w1.trace = w.trace ++ evs ∧ ∀ e ∈ evs, P e

/-- The call of `isReadyForSubMesh` on `w` is served by neither fast path: the build
succeeded, the Shared Data is `sd`, and after the animation step and the allocation of
the defines (world `w1`, defines `d`) lines 539 and following run. -/
def World.PastFastPaths (w : World) (env : Env) (subMesh : Nat)
    (sd : NodeMaterialBuildStateSharedData) (w1 : World) (d : NodeMaterialDefines) : Prop :=
  w.mat._buildWasSuccessful = true ∧ w.mat._sharedData = some sd
    ∧ frozenFastPath (animateInputs sd w) subMesh = false
    ∧ ensureDefines (animateInputs sd w) subMesh = (w1, d)
    ∧ env._isReadyForSubMesh w1 subMesh = false

/-- The call of `isReadyForSubMesh` on `w` reaches the defines check of line 560, in the
world `wc` with the defines `dc`: no fast path served it and every blocking block was
ready. -/
def World.ReachesDefinesCheck (w : World) (env : Env) (mesh subMesh : Nat)
    (useInstances : Bool) (sd : NodeMaterialBuildStateSharedData) (wc : World)
    (dc : NodeMaterialDefines) : Prop :=
  ∃ w1 d, w.PastFastPaths env subMesh sd w1 d
    ∧ definesPasses env mesh subMesh useInstances sd d w1 = (wc, dc, true)

/-- The calls made before the blocking blocks have answered. -/
def Event.isGate : Event → Prop
  | .animate _ => True
  | .isReady _ => True
  | _ => False

/-- The calls made before the defines check. -/
def Event.isBeforeCheck : Event → Prop
  | .animate _ => True
  | .isReady _ => True
  | .initializeDefines _ => True
  | .prepareDefines _ => True
  | _ => False

/-! ## Example worlds -/

/-- A block with the given class, uniqueness, target and upstream owners of its inputs. -/
def exampleBlock (className : String) (isUnique : Bool) (target : NodeMaterialBlockTargets)
    (upstream : List (Option Nat)) : NodeMaterialBlock :=
  { getClassName := className, isUnique := isUnique, isFinalMerger := false, isInput := false,
    target := target, buildId := 1000, _preparationId := 1000,
    inputs := upstream.map (fun c => { associatedVariableName := "v", connectedPoint := c }),
    outputs := [{ associatedVariableName := "o", connectedPoint := none }] }

/-- Collaborators that change nothing: blocks emit their number, every block is ready,
the engine hands out effect 0. -/
def exampleEnv : Env :=
  { supportsUniformBuffers := true,
    blockInitialize := fun _ s sd => (s, sd),
    _buildBlock := fun b s sd =>
      ({ s with compilationString := s.compilationString ++ toString b ++ ";" }, sd),
    finalize := fun s => { s with _builtCompilationString := s.compilationString },
    blockIsReady := fun _ _ _ _ _ => true,
    initializeDefines := fun _ _ _ d _ => d,
    prepareDefines := fun _ _ _ d _ => d,
    replaceRepeatableContent := fun _ v f _ _ => (v, f),
    updateUniformsAndSamples := fun _ v _ ub => (v, ub),
    definesToString := fun _ => "",
    createEffect := fun _ _ _ => some 0,
    _isReadyForSubMesh := fun _ _ => false }

/-- The member variables right after the constructor, with build id 0. -/
def newMaterial : NodeMaterial :=
  { attachedBlocks := [], _vertexOutputNodes := [], _fragmentOutputNodes := [],
    _optimizers := [], _options := some { emitComments := false },
    _vertexCompilationState := none, _fragmentCompilationState := none, _sharedData := none,
    _buildId := 0, _buildWasSuccessful := false, _animationFrame := -1, ignoreAlpha := false,
    maxSimultaneousLights := 4, allowShaderHotSwapping := true, isFrozen := false }

/-- A new material in a scene with one mesh of one sub-mesh; block 0 is a vertex output,
block 1 a fragment output, both fed by the dual block 2, which reads the input block 3;
block 4 and up have no target. -/
def exampleWorld : World :=
  { blocks := fun n =>
      if n = 0 then exampleBlock "VertexOutputBlock" false .Vertex [some 2]
      else if n = 1 then exampleBlock "FragmentOutputBlock" false .Fragment [some 2, some 2]
      else if n = 2 then exampleBlock "TextureBlock" false .VertexAndFragment [some 3]
      else exampleBlock "InputBlock" false .Undefined [],
    effects := fun _ => { isReady := false, _wasPreviouslyReady := false },
    subMeshes := fun _ => { effect := none, _materialDefines := none, getMaterial := some .this },
    meshes := fun _ => { subMeshes := [0], verticesData := [2] },
    scene := { meshes := [0], getFrameId := 0, getRenderId := 0 },
    mat := newMaterial, _BuildIdGenerator := 1, trace := [] }

/-- What lines 375-401 have done when `build` gets to the initialization loops: the flag
is down, both states and the Shared Data are fresh, nothing else has happened. -/
structure Allocated (w w1 : World) : Prop where
  blocks : w1.blocks = w.blocks
  trace : w1.trace = w.trace
  attached : w1.mat.attachedBlocks = w.mat.attachedBlocks
  vertexOutputNodes : w1.mat._vertexOutputNodes = w.mat._vertexOutputNodes
  fragmentOutputNodes : w1.mat._fragmentOutputNodes = w.mat._fragmentOutputNodes
  matBuildId : w1.mat._buildId = w.mat._buildId
  flag : w1.mat._buildWasSuccessful = false
  vertexState : ∃ s, w1.mat._vertexCompilationState = some s ∧ s.target = .Vertex
  fragmentState : ∃ s, w1.mat._fragmentCompilationState = some s ∧ s.target = .Fragment
  sharedData : ∃ sd, w1.mat._sharedData = some sd ∧ sd.buildId = w.mat._buildId

/-- The world in which `build` starts its initialization loops. -/
def allocatedWorld (env : Env) (verbose : Bool) (options : INodeMaterialOptions) (w : World) :
    World :=
  w.setMat { w.mat with
    _buildWasSuccessful := false,
    _vertexCompilationState := some { NodeMaterialBuildState.fresh with
      supportUniformBuffers := env.supportsUniformBuffers, target := .Vertex },
    _fragmentCompilationState := some { NodeMaterialBuildState.fresh with
      supportUniformBuffers := env.supportsUniformBuffers, target := .Fragment },
    _sharedData := some { NodeMaterialBuildStateSharedData.fresh with
      buildId := w.mat._buildId, emitComments := options.emitComments, verbose := verbose } }

/-- A material with two unique fog blocks behind its vertex output and two unique light
blocks behind its fragment output. -/
def clashWorld : World :=
  { exampleWorld with
    blocks := fun n =>
      if n = 0 then exampleBlock "VertexOutputBlock" false .Vertex [some 2, some 3]
      else if n = 1 then exampleBlock "FragmentOutputBlock" false .Fragment [some 4, some 5]
      else if n = 2 then exampleBlock "FogBlock" true .Fragment []
      else if n = 3 then exampleBlock "FogBlock" true .Fragment []
      else exampleBlock "LightBlock" true .Fragment [],
    mat := { newMaterial with _vertexOutputNodes := [0], _fragmentOutputNodes := [1] } }

/-- The ranks of the blocks of `clashWorld`: the output nodes above the others. -/
def clashRank (n : Nat) : Nat := if n < 2 then 1 else 0

/-- The example world once blocks 0 and 1 are registered as output nodes. -/
def wiredWorld : World :=
  { exampleWorld with
    mat := { newMaterial with _vertexOutputNodes := [0], _fragmentOutputNodes := [1] } }

/-- The ranks of the blocks of the example world: outputs, then the dual block, then the
rest. -/
def exampleRank (n : Nat) : Nat := if n < 2 then 2 else if n = 2 then 1 else 0

/-- The wired example world after a first `build`. -/
def builtWorld : World :=
  match build exampleEnv 3 false wiredWorld with
  | .done w _ => w
  | _ => wiredWorld

/-- Shared Data in which the dual block 2 gates readiness. -/
def blockedSharedData : NodeMaterialBuildStateSharedData :=
  { NodeMaterialBuildStateSharedData.fresh with blockingBlocks := [2] }

/-- The built example world with block 2 as a blocking block. -/
def blockedWorld : World :=
  { builtWorld with mat := { builtWorld.mat with _sharedData := some blockedSharedData } }

/-- Collaborators whose blocks are never ready (a texture that is still loading). -/
def loadingEnv : Env :=
  { exampleEnv with blockIsReady := fun _ _ _ _ _ => false }

/-- The built example world in which every sub-mesh renders with effect 1, the only
effect that is ready, and has no defines yet. -/
def hotSwapWorld : World :=
  { builtWorld with
    effects := fun n => { isReady := decide (n = 1), _wasPreviouslyReady := false },
    subMeshes := fun _ =>
      { effect := some 1, _materialDefines := none, getMaterial := some .this },
    mat := { builtWorld.mat with _sharedData := some NodeMaterialBuildStateSharedData.fresh } }

/-- The world and the defines with which a readiness check of sub-mesh 0 of
`hotSwapWorld` starts line 539. -/
def hotSwapStart : World × NodeMaterialDefines :=
  ensureDefines (animateInputs NodeMaterialBuildStateSharedData.fresh hotSwapWorld) 0

/-- The world, the defines and the answer of the blocking blocks at the defines check of
that call. -/
def hotSwapCheck : World × NodeMaterialDefines × Bool :=
  definesPasses exampleEnv 0 0 false NodeMaterialBuildStateSharedData.fresh
    hotSwapStart.2 hotSwapStart.1

/-- The world in which that call asks for an effect, with the request. -/
def hotSwapPrepared :
    World × ((EffectBaseName × IEffectCreationOptions) × NodeMaterialDefines) :=
  match prepareRequest exampleEnv 0 0 hotSwapCheck.2.1 NodeMaterialBuildStateSharedData.fresh
      hotSwapCheck.1 with
  | .done w r => (w, r)
  | _ => (hotSwapWorld,
      (({ vertex := "", fragment := "", vertexSource := "", fragmentSource := "" },
        { attributes := [], uniformsNames := [], uniformBuffersNames := [], samplers := [],
          defines := "", maxSimultaneousLights := 0, maxSimultaneousMorphTargets := 0 }),
        NodeMaterialDefines.fresh))

/-- The defines a first readiness check leaves on a sub-mesh of the example mesh. -/
def settledDefines : NodeMaterialDefines :=
  (_prepareDefinesForAttributes (exampleWorld.meshes 0) NodeMaterialDefines.fresh).markAsProcessed

/-- The world after such a first check: the sub-meshes render with the ready effect 1 and
carry processed defines. -/
def settledWorld : World :=
  { hotSwapWorld with
    subMeshes := fun _ =>
      { effect := some 1, _materialDefines := some settledDefines, getMaterial := some .this } }

/-- The world and the defines with which a readiness check of sub-mesh 0 of
`settledWorld` starts line 539. -/
def settledStart : World × NodeMaterialDefines :=
  ensureDefines (animateInputs NodeMaterialBuildStateSharedData.fresh settledWorld) 0

/-- The world, the defines and the answer of the blocking blocks at the defines check of
that call. -/
def settledCheck : World × NodeMaterialDefines × Bool :=
  definesPasses exampleEnv 0 0 false NodeMaterialBuildStateSharedData.fresh
    settledStart.2 settledStart.1

/-! ## The constructor (lines 36-58) -/

/-- The constructor `NodeMaterial::NodeMaterial` (lines 36-58): the member variables of
the new material, whose build id is drawn from the generator. -/
def constructMaterial (options : Option INodeMaterialOptions) (w : World) : World :=
  { w with mat := { newMaterial with _options := options, _buildId := w._BuildIdGenerator },
           _BuildIdGenerator := sizeInc w._BuildIdGenerator }

/-! ## Vocabulary for lists, walks and call sequences -/

/-- The distinct elements of a list in the order of their first occurrence. -/
def firstOccurrences {α : Type} [DecidableEq α] : List α → List α
  | [] => []
  | x :: xs => x :: (firstOccurrences xs).filter (fun y => decide (y ≠ x))

/-- Appending, one after the other, the elements of `xs` that the list does not hold
yet. -/
def absorb {α : Type} [DecidableEq α] (l xs : List α) : List α :=
  xs.foldl (fun acc x => if x ∈ acc then acc else acc ++ [x]) l

/-- The uniform lists of the effect requests recorded in a trace, in call order. -/
def requestedUniforms (evs : List Event) : List (List String) :=
  evs.filterMap fun e =>
    match e with
    | .createEffect _ options => some options.uniformsNames
    | _ => none

/-- What line 474-475 do to one sub-mesh that uses this material: the defines container
is released. -/
def SubMesh.wiped (sm : SubMesh) : SubMesh :=
  if sm.getMaterial = some .this then { sm with _materialDefines := none } else sm

/-- The block a recorded `initialize` call was made on. -/
def Event.initialized : Event → Option Nat
  | .blockInitialize b _ => some b
  | _ => none

/-- The blocks the depth-first walk over the input connections visits from `node`, in the
order of the visits: the node first, then, input after input, the walk from the owner of
the connected point, unless that is the node itself. A block behind several inputs is
visited once per path. The first argument bounds the depth of the walk. -/
def World.visits (w : World) : Nat → Nat → List Nat
  | 0, _ => []
  | fuel + 1, node =>
    node :: ((w.blocks node).inputs.map (fun p => p.connectedPoint)).flatMap fun c =>
      match c with
      | some block => if block = node then [] else w.visits fuel block
      | none => []

/-- The visits of the walk behind one input of `node`. -/
def World.visitsFrom (w : World) (fuel node : Nat) (c : Option Nat) : List Nat :=
  match c with
  | some block => if block = node then [] else w.visits fuel block
  | none => []

/-- What a walk that visited the blocks `vs`, in this order, has done to the world: the
attached blocks absorbed them, they carry the build id of the material as preparation
id, `initialize` was called on them in this order, and neither the wiring nor the build
id of the material changed. -/
structure Trail (w : World) (vs : List Nat) (w1 : World) : Prop where
  attached : w1.mat.attachedBlocks = absorb w.mat.attachedBlocks vs
  stamps : ∀ b, (w1.blocks b)._preparationId
    = if b ∈ vs then w.mat._buildId else (w.blocks b)._preparationId
  trace : ∃ evs, w1.trace = w.trace ++ evs ∧ evs.filterMap Event.initialized = vs
  wiring : ∀ b, (w1.blocks b).inputs.map (fun p => p.connectedPoint)
    = (w.blocks b).inputs.map (fun p => p.connectedPoint)
  matBuildId : w1.mat._buildId = w.mat._buildId

/-- The attached blocks of `w1` are those of `w` after absorbing some blocks. -/
def Absorbed (w w1 : World) : Prop :=
  ∃ vs, w1.mat.attachedBlocks = absorb w.mat.attachedBlocks vs

/-- A step that touches neither the blocks nor the attached blocks, nor the Shared Data
pointer or the build-success flag. -/
structure GraphKept (w w1 : World) : Prop where
  blocks : w1.blocks = w.blocks
  attached : w1.mat.attachedBlocks = w.mat.attachedBlocks
  sharedData : w1.mat._sharedData = w.mat._sharedData
  flag : w1.mat._buildWasSuccessful = w.mat._buildWasSuccessful

/-- The attached blocks hold no two unique blocks of one class. -/
def World.UniqueAttached (w : World) : Prop :=
  ∀ x y, w.Clash x y → ¬ (x ∈ w.mat.attachedBlocks ∧ y ∈ w.mat.attachedBlocks)

/-- What a call on the material does to the attached blocks: no block changes its class
or its uniqueness, the attached blocks stay free of clashes, and stay free of
repetitions. -/
structure AttachKept (w w1 : World) : Prop where
  className : ∀ b, (w1.blocks b).getClassName = (w.blocks b).getClassName
  isUnique : ∀ b, (w1.blocks b).isUnique = (w.blocks b).isUnique
  unique : w.UniqueAttached → w1.UniqueAttached
  nodup : w.mat.attachedBlocks.Nodup → w1.mat.attachedBlocks.Nodup

/-- The world `w1` is reached from `w` by calls of the entry points, each of which
returned or threw an exception that was caught. -/
inductive Calls (env : Env) : World → World → Prop where
  | refl (w : World) : Calls env w w
  | step {w w1 w2 : World} (c : Call) : Calls env w w1 → c.after env w1 = some w2 →
      Calls env w w2

/-! ## More example worlds -/

/-- The built example world whose vertex state lists the uniform `world` twice. -/
def repeatedUniformWorld : World :=
  { hotSwapWorld with
    mat := { hotSwapWorld.mat with
      _vertexCompilationState := some { NodeMaterialBuildState.fresh with
        target := .Vertex, uniforms := ["world", "world"] },
      _fragmentCompilationState := some { NodeMaterialBuildState.fresh with
        target := .Fragment, uniforms := ["world", "world", "view"] } } }

/-- The built example world with a frozen material: the sub-meshes have no defines and
render with effect 1, which was ready before; input block 3 is animated. -/
def frozenWorld : World :=
  { hotSwapWorld with
    effects := fun n => { isReady := decide (n = 1), _wasPreviouslyReady := decide (n = 1) },
    mat := { hotSwapWorld.mat with
      isFrozen := true,
      _sharedData := some { NodeMaterialBuildStateSharedData.fresh with
        animatedInputs := [3], blockingBlocks := [2], blocksWithDefines := [2] } } }

/-- A scene whose mesh has two sub-meshes with defines: sub-mesh 0 renders with this
material, every other sub-mesh with another material. Blocks and output nodes are those
of `wiredWorld`. -/
def sceneWorld : World :=
  { wiredWorld with
    subMeshes := fun n =>
      { effect := none, _materialDefines := some settledDefines,
        getMaterial := if n = 0 then some .this else some (.other 7) },
    meshes := fun _ => { subMeshes := [0, 1], verticesData := [2] } }

/-- The wired example world as `build` has it when the initialization loops start. -/
def wiredAllocated : World :=
  allocatedWorld exampleEnv false { emitComments := false } wiredWorld

/-- A material whose outputs are fed by the dual block 2, which reads the dual block 3,
which reads block 2 again: the input connections form a cycle through two
`VertexAndFragment` blocks. -/
def cycleWorld : World :=
  { wiredWorld with
    blocks := fun n =>
      if n = 0 then exampleBlock "VertexOutputBlock" false .Vertex [some 2]
      else if n = 1 then exampleBlock "FragmentOutputBlock" false .Fragment [some 2]
      else if n = 2 then exampleBlock "TextureBlock" false .VertexAndFragment [some 3]
      else exampleBlock "TextureBlock" false .VertexAndFragment [some 2] }

/-- The block behind the first input of a block of `cycleWorld`. -/
def cycleNext (b : Nat) : Nat := if b = 2 then 3 else 2

/-- `cycleWorld` as `build` has it when the initialization loops start. -/
def cycleAllocated : World :=
  allocatedWorld exampleEnv false { emitComments := false } cycleWorld

/-- The world in which the `build` of `clashWorld` throws. -/
def clashFailed : World :=
  match build exampleEnv 2 false clashWorld with
  | .raised w _ => w
  | _ => clashWorld

/-! ## The attribute defines (lines 487-503) -/

/-- What the call changes: whether one of the three attribute flags gets a new value. -/
def attributesChange (mesh : AbstractMesh) (defines : NodeMaterialDefines) : Bool :=
  defines.get "NORMAL" != mesh.isVerticesDataPresent VertexBuffer.NormalKind
    || defines.get "TANGENT" != mesh.isVerticesDataPresent VertexBuffer.TangentKind
    || defines.get "UV1" != mesh.isVerticesDataPresent VertexBuffer.UVKind

/-- The defines with the three attribute flags set from the mesh (lines 493-497). -/
def NodeMaterialDefines.withAttributes (d : NodeMaterialDefines) (mesh : AbstractMesh) :
    NodeMaterialDefines :=
  ((d.setBool "NORMAL" (mesh.isVerticesDataPresent VertexBuffer.NormalKind)).setBool "TANGENT"
    (mesh.isVerticesDataPresent VertexBuffer.TangentKind)).setBool "UV1"
    (mesh.isVerticesDataPresent VertexBuffer.UVKind)

/-! ## Queries and teardown (lines 284-295 and 726-805) -/

/-- The dereference `_sharedData->...`: on a null pointer the call ends there. -/
def readSharedData (w : World) : Outcome NodeMaterialBuildStateSharedData :=
  match w.mat._sharedData with
  | some sd => .done w sd
  | none => .crashed

/-- Method `NodeMaterial::needAlphaBlending`; `alphaBelowOne` is the test `alpha < 1.f` on
the inherited member, and `&&` reads its right side only when the pointer is set. -/
def needAlphaBlending (alphaBelowOne : Bool) (w : World) : Outcome Bool :=
  if w.mat.ignoreAlpha then .done w false
  else if alphaBelowOne then .done w true
  else if w.mat._sharedData.isSome then
    (readSharedData w).andThen fun w1 sd => .done w1 sd.hints.needAlphaBlending
  else .done w false

/-- Method `NodeMaterial::needAlphaTesting`. -/
def needAlphaTesting (w : World) : Outcome Bool :=
  if w.mat._sharedData.isSome then
    (readSharedData w).andThen fun w1 sd => .done w1 sd.hints.needAlphaTesting
  else .done w false

/-- Method `NodeMaterial::getActiveTextures`. Modelled from the spec: `base` is the answer
of `PushMaterial::getActiveTextures()` and `texture` the `texture` member of a texture
block (headers not in the sources); a texture block is named by its heap index, so the
entries of `textureBlocks` are never null. -/
def getActiveTextures (base : List (Option Nat)) (texture : Nat → Option Nat) (w : World) :
    Outcome (List (Option Nat)) :=
  if w.mat._sharedData.isSome then
    (readSharedData w).andThen fun w1 sd => .done w1 (base ++ sd.textureBlocks.map texture)
  else .done w base

/-- Method `NodeMaterial::getTextureBlocks`. -/
def getTextureBlocks (w : World) : Outcome (List Nat) :=
  if !w.mat._sharedData.isSome then .done w []
  else (readSharedData w).andThen fun w1 sd => .done w1 sd.textureBlocks

/-- Method `NodeMaterial::hasTexture`; `baseHas` is the answer of
`PushMaterial::hasTexture(texture)`, `t` the texture asked for. -/
def hasTexture (baseHas : Bool) (texture : Nat → Option Nat) (t : Option Nat) (w : World) :
    Outcome Bool :=
  if baseHas then .done w true
  else if !w.mat._sharedData.isSome then .done w false
  else (readSharedData w).andThen fun w1 sd =>
    .done w1 (sd.textureBlocks.any fun b => texture b == t)

/-- A call that `dispose` makes outside `node_material.cpp`. -/
inductive Teardown where
  | disposeTexture (texture : Nat)
  | disposeBlock (block : Nat)
  | clearBuildObservers
  | disposeMaterial (forceDisposeEffect forceDisposeTextures notBoundToMesh : Bool)
  deriving DecidableEq, Repr

/-- Lines 781-796: with `forceDisposeTextures` the textures of the texture blocks of the
Shared Data are disposed; the pointer is dereferenced without a test. -/
def disposeTextures (texture : Nat → Option Nat) (forceDisposeTextures : Bool) (w : World) :
    Outcome (List Teardown) :=
  if forceDisposeTextures then
    (readSharedData w).andThen fun w1 sd =>
      .done w1 ((sd.textureBlocks.filterMap texture).map .disposeTexture)
  else .done w []

/-- Method `NodeMaterial::dispose`; returns the calls it made, in order: the textures,
the attached blocks, the observers of the build, the base class. -/
def dispose (texture : Nat → Option Nat)
    (forceDisposeEffect forceDisposeTextures notBoundToMesh : Bool) (w : World) :
    Outcome (List Teardown) :=
  (disposeTextures texture forceDisposeTextures w).andThen fun w1 calls =>
    .done w1 (calls ++ w1.mat.attachedBlocks.map .disposeBlock
      ++ [.clearBuildObservers,
          .disposeMaterial forceDisposeEffect forceDisposeTextures notBoundToMesh])

/-! ## Rewiring -/

/-- The failure of `connectTo` on a target that is connected. -/
def connectionError : String := "ConnectionError"

/-- Modelled from the spec: `connectTo(target, force)` of a connection point is not in the
sources. Following section 4.1, the call on an output of block `upstream` with input
number `i` of `block` as target fails if the target has an incoming connection and
`force` is false, and otherwise sets the back-reference of the target. -/
def connectTo (upstream block i : Nat) (force : Bool) (w : World) : Outcome Unit :=
  match (w.blocks block).inputs[i]? with
  | none => .crashed
  | some p =>
    if p.connectedPoint.isSome && !force then .raised w connectionError
    else .done (w.setBlock block { w.blocks block with
      inputs := (w.blocks block).inputs.modify
        (fun q => { q with connectedPoint := some upstream }) i }) ()

/-- A material whose two outputs read the unique fog block 2; block 3 is a second fog
block, connected to nothing. -/
def fogWorld : World :=
  { wiredWorld with
    blocks := fun n =>
      if n = 0 then exampleBlock "VertexOutputBlock" false .Vertex [some 2]
      else if n = 1 then exampleBlock "FragmentOutputBlock" false .Fragment [some 2]
      else if n = 2 then exampleBlock "FogBlock" true .Fragment []
      else if n = 3 then exampleBlock "FogBlock" true .Fragment []
      else exampleBlock "InputBlock" false .Undefined [] }

/-- The world after a first `build` of `fogWorld`. -/
def fogBuilt : World :=
  match build exampleEnv 2 false fogWorld with
  | .done w _ => w
  | _ => fogWorld

/-- The built world after both outputs were connected to fog block 3 instead of 2. -/
def fogRewired : World :=
  match (connectTo 3 0 0 true fogBuilt).andThen fun w _ => connectTo 3 1 0 true w with
  | .done w _ => w
  | _ => fogBuilt

/-! ## Vocabulary for the walks of the reset and of the block gathering -/

/-- What `_resetDualBlocks` with the id `iId` has done once it has walked the blocks `R`:
the dual blocks among them carry the id, and nothing else in the world has changed. -/
structure DualsReset (iId : Nat) (R : Nat → Prop) (w w1 : World) : Prop where
  hit : ∀ b, R b → (w.blocks b).target = .VertexAndFragment →
    w1.blocks b = { w.blocks b with buildId := iId }
  miss : ∀ b, ¬ (R b ∧ (w.blocks b).target = .VertexAndFragment) → w1.blocks b = w.blocks b
  rest : w1 = { w with blocks := w1.blocks }

/-! ## The two halves of lines 417-441 -/

/-- Lines 417-433 of `build`: `optimize`, the vertex pass, the declarations handed to the
fragment state and the reset of the dual blocks. -/
def vertexStage (env : Env) (fuel : Nat) (nodes : List Nat × List Nat) (w : World) :
    Outcome Unit :=
  let w1 := optimize w
  (forEach (fun node _u w => blockBuild env .vertex fuel node w) nodes.1 () w1).andThen
    fun w2 _ =>
  (shareVertexDeclarations w2).andThen fun w3 _ =>
  forEach (fun node _u w => _resetDualBlocks (sizeDec w.mat._buildId) fuel node w)
    nodes.2 () w3

/-- Lines 435-441 of `build`: the fragment pass and `finalize`. -/
def fragmentStage (env : Env) (fuel : Nat) (nodes : List Nat × List Nat) (w : World) :
    Outcome Unit :=
  (forEach (fun node _u w => blockBuild env .fragment fuel node w) nodes.2 () w).andThen
    fun w5 _ => finalizeStates env w5

/-- The call is a build of a block for the fragment stage, or the emission of its code
into the fragment state. -/
def Event.isFragmentBuild : Event → Bool
  | .blockBuild _ .fragment => true
  | .buildBlock _ .fragment => true
  | _ => false

/-- The fragment state holds the uniforms and the two declaration texts of the vertex
state, and its `_vertexState` points to the vertex state. -/
def World.DeclarationsShared (w : World) : Prop :=
  ∃ vs fs, w.mat._vertexCompilationState = some vs ∧ w.mat._fragmentCompilationState = some fs
    ∧ fs.uniforms = vs.uniforms ∧ fs._uniformDeclaration = vs._uniformDeclaration
    ∧ fs._constantDeclaration = vs._constantDeclaration
    ∧ fs._vertexState = .vertexCompilationState

/-- Between `w` and `w1` no block was built for the fragment stage. -/
def NoFragmentBuild (w w1 : World) : Prop :=
  ∃ evs, w1.trace = w.trace ++ evs ∧ ∀ e ∈ evs, e.isFragmentBuild = false

/-! ## Vocabulary for the states of a built material -/

/-- Where the build-success flag is up, the Shared Data and both compilation states are in
place. -/
def World.StatesInPlace (w : World) : Prop :=
  w.mat._buildWasSuccessful = true →
    w.mat._sharedData.isSome = true ∧ w.mat._vertexCompilationState.isSome = true
      ∧ w.mat._fragmentCompilationState.isSome = true

/-- A compilation state that was in place still is. -/
def StatesStay (w w1 : World) : Prop :=
  (w.mat._vertexCompilationState.isSome = true → w1.mat._vertexCompilationState.isSome = true)
    ∧ (w.mat._fragmentCompilationState.isSome = true →
        w1.mat._fragmentCompilationState.isSome = true)

/-- The new material of the example world with its two output nodes registered and
built, by calls of `addOutputNode` and `build`. -/
def constructedBuilt : World :=
  match (addOutputNode 0 (constructMaterial (some { emitComments := false }) exampleWorld)).andThen
      (fun w _ => (addOutputNode 1 w).andThen fun w1 _ => build exampleEnv 3 false w1) with
  | .done w _ => w
  | _ => exampleWorld

/-! ## Vocabulary for the variable names of the connection points -/

/-- Every input and every output connection point of the block has an empty
`associatedVariableName`. -/
def NodeMaterialBlock.Cleared (b : NodeMaterialBlock) : Prop :=
  (∀ p ∈ b.inputs, p.associatedVariableName = "")
    ∧ ∀ p ∈ b.outputs, p.associatedVariableName = ""

/-- Input number `i` of the block, if there is one, has an empty variable name. -/
def NodeMaterialBlock.inputCleared (b : NodeMaterialBlock) (i : Nat) : Prop :=
  ∀ p, b.inputs[i]? = some p → p.associatedVariableName = ""

/-- Every output of the block has an empty variable name. -/
def NodeMaterialBlock.outputsCleared (b : NodeMaterialBlock) : Prop :=
  ∀ p ∈ b.outputs, p.associatedVariableName = ""

/-- A step that keeps the wiring and fills in no variable name: an input or the outputs
of a block that had empty names still have. -/
structure NamesFade (w w1 : World) : Prop where
  wiring : ∀ b, (w1.blocks b).inputs.map (fun p => p.connectedPoint)
    = (w.blocks b).inputs.map (fun p => p.connectedPoint)
  inputs : ∀ b i, (w.blocks b).inputCleared i → (w1.blocks b).inputCleared i
  outputs : ∀ b, (w.blocks b).outputsCleared → (w1.blocks b).outputsCleared

/-! ## Vocabulary for the list of the other stage -/

/-- The block carries the build id of the material as preparation id: it has been
initialized in this build. -/
def World.Stamped (w : World) (b : Nat) : Prop :=
  (w.blocks b)._preparationId = w.mat._buildId

/-- The condition of lines 326-333 in the words of the specification: the owner is a dual
block, or the stage is the fragment stage and the owner is a vertex block that has not
been prepared in this build. -/
def World.CrossesStage (w : World) (iState : Stage) (block : Nat) : Prop :=
  (w.blocks block).target = .VertexAndFragment
    ∨ ((w.state iState).map (fun s => s.target) = some .Fragment
      ∧ (w.blocks block).target = .Vertex
      ∧ (w.blocks block)._preparationId ≠ w.mat._buildId)

/-- A step of block initialization as far as the stamps go: targets, the build id of the
material and the fragment output nodes stay, and a preparation id stays or becomes the
build id of the material. -/
structure StampsGrow (w w1 : World) : Prop where
  target : ∀ b, (w1.blocks b).target = (w.blocks b).target
  matBuildId : w1.mat._buildId = w.mat._buildId
  stamps : ∀ b, (w1.blocks b)._preparationId = (w.blocks b)._preparationId
    ∨ (w1.blocks b)._preparationId = w.mat._buildId
  fragmentOutputNodes : w1.mat._fragmentOutputNodes = w.mat._fragmentOutputNodes

/-- Between `w` and `w1` the blocks `extra` were appended to the lists of the other stage:
block `b` at most once, not at all if it was stamped before, and if once then it is
stamped now. -/
def AppendedOnce (b : Nat) (w w1 : World) (extra : List Nat) : Prop :=
  StampsGrow w w1 ∧ extra.count b ≤ 1 ∧ (w.Stamped b → extra.count b = 0)
    ∧ (extra.count b = 1 → w1.Stamped b)

/-- A material whose fragment output reads the vertex block 2 through two inputs; block 2
and the vertex output read the input block 3. -/
def vertexFedWorld : World :=
  { wiredWorld with
    blocks := fun n =>
      if n = 0 then exampleBlock "VertexOutputBlock" false .Vertex [some 3]
      else if n = 1 then exampleBlock "FragmentOutputBlock" false .Fragment [some 2, some 2]
      else if n = 2 then exampleBlock "TransformBlock" false .Vertex [some 3]
      else exampleBlock "InputBlock" false .Undefined [] }

/-! ## Gathering the blocks behind a node (lines 874-891) -/

/-- Lines 882-889, one turn of the loop of `_gatherBlocks`; `recur` is the recursive
call. -/
def gatherInput (recur : Nat → List Nat → World → Outcome (List Nat)) (rootNode : Nat)
    (input : NodeMaterialConnectionPoint) (list : List Nat) (w : World) :
    Outcome (List Nat) :=
  match input.connectedPoint with
  | none => .done w list
  | some block => if block = rootNode then .done w list else recur block list w

/-- Method `NodeMaterial::_gatherBlocks`; returns the list it leaves behind. The first
argument bounds the recursion depth. -/
def _gatherBlocks : Nat → Nat → List Nat → World → Outcome (List Nat)
  | 0, _, _, _ => .diverged
  | fuel + 1, rootNode, list, w =>
    if list.contains rootNode then .done w list
    else forEach (gatherInput (_gatherBlocks fuel) rootNode) (w.blocks rootNode).inputs
      (list ++ [rootNode]) w

/-- The producers of a block: the owners of the points its inputs are connected to, in
the order of the inputs, the block itself left out. -/
def World.producers (w : World) (b : Nat) : List Nat :=
  (w.blocks b).inputs.filterMap fun p =>
    match p.connectedPoint with
    | some c => if c = b then none else some c
    | none => none

/-- First-seen depth-first order in the words of the specification, with an explicit
stack: the block on top of the stack is skipped if it was seen; otherwise it is put at
the end of the list of the blocks seen and its producers, in the order of its inputs, are
searched before the rest of the stack. The first argument bounds the number of steps. -/
def firstSeenOrder (w : World) : Nat → List Nat → List Nat → Option (List Nat)
  | _, [], seen => some seen
  | 0, _ :: _, _ => none
  | n + 1, b :: stack, seen =>
    if b ∈ seen then firstSeenOrder w n stack seen
    else firstSeenOrder w n (w.producers b ++ stack) (seen ++ [b])

/-- The list `l1` is `l` followed by blocks that `l` lacks, without repetition, each of
which satisfies `R` and has all its producers in `l1`. -/
def Grown (w : World) (R : Nat → Prop) (l l1 : List Nat) : Prop :=
  ∃ new, l1 = l ++ new ∧ new.Nodup ∧ (∀ x ∈ new, x ∉ l) ∧ (∀ x ∈ new, R x)
    ∧ ∀ a ∈ new, ∀ c, w.Edge a c → c ∈ l1

/-- The number of blocks of `U` that the list lacks. -/
def unseen (U l : List Nat) : Nat := (U.toFinset.filter (fun x => x ∉ l)).card

/-! ## Example worlds for the emission of a dual block -/

/-- The wired example world in which the dual block 2 already carries the build id 0 that
the new material is about to use. -/
def staleWorld : World :=
  { wiredWorld with
    blocks := fun n =>
      if n = 2 then { wiredWorld.blocks 2 with buildId := 0 } else wiredWorld.blocks n }

/-- The wired example world whose vertex output also reads the two unique fog blocks 4
and 5. -/
def dualClashWorld : World :=
  { wiredWorld with
    blocks := fun n =>
      if n = 0 then exampleBlock "VertexOutputBlock" false .Vertex [some 2, some 4, some 5]
      else if n = 4 then exampleBlock "FogBlock" true .Fragment []
      else if n = 5 then exampleBlock "FogBlock" true .Fragment []
      else wiredWorld.blocks n }

/-! ## Vocabulary for repeated readiness checks -/

/-- The sub-mesh carries defines that are not dirty. -/
def World.Settled (w : World) (subMesh : Nat) : Prop :=
  ∃ d, (w.subMeshes subMesh)._materialDefines = some d ∧ d.isDirty = false

/-- The define passes of a call on `w` (lines 541-557: the attribute defines and the two
passes over the blocks with defines) do not make the defines dirty: handed defines that
are not dirty, they leave defines that are not dirty. -/
def World.PassesKeepClean (w : World) (env : Env) (mesh subMesh : Nat) (useInstances : Bool) :
    Prop :=
  ∀ sd w1 d, w.PastFastPaths env subMesh sd w1 d → d.isDirty = false →
    (definesPasses env mesh subMesh useInstances sd d w1).2.1.isDirty = false

/-- The world `w1` is reached from `w` by further calls of `isReadyForSubMesh` for the
same mesh and sub-mesh with nothing happening in between, each of which returned and had
define passes that do not make the defines dirty. -/
inductive FurtherCalls (env : Env) (mesh subMesh : Nat) (useInstances : Bool) :
    World → World → Prop where
  | refl (w : World) : FurtherCalls env mesh subMesh useInstances w w
  | step {w w1 w2 : World} (r : Bool) : FurtherCalls env mesh subMesh useInstances w w1 →
      w1.PassesKeepClean env mesh subMesh useInstances →
      isReadyForSubMesh env mesh subMesh useInstances w1 = .done w2 r →
      FurtherCalls env mesh subMesh useInstances w w2

/-- Between `w` and `w1` no effect was requested: the trace gained no `createEffect`
call, whose arguments are the only place where the merged uniform and sampler lists
exist, and the two compilation states and the effect handle of the sub-mesh are as they
were. -/
def Unrequested (subMesh : Nat) (w w1 : World) : Prop :=
  w1.mat._vertexCompilationState = w.mat._vertexCompilationState
    ∧ w1.mat._fragmentCompilationState = w.mat._fragmentCompilationState
    ∧ (w1.subMeshes subMesh).effect = (w.subMeshes subMesh).effect
    ∧ ∃ evs, w1.trace = w.trace ++ evs
        ∧ ∀ e ∈ evs, ∀ baseName options, e ≠ .createEffect baseName options

/-- Collaborators like those of `exampleEnv`, with an engine that hands out effect 1. -/
def readyEnv : Env :=
  { exampleEnv with createEffect := fun _ _ _ => some 1 }

/-- The world a first readiness check of sub-mesh 0 of `hotSwapWorld` leaves under
`readyEnv`. -/
def adoptedWorld : World :=
  match isReadyForSubMesh readyEnv 0 0 false hotSwapWorld with
  | .done w _ => w
  | _ => hotSwapWorld

/-! # Theorems -/

/-! ## Rules for outcomes -/

theorem Outcome.Sat.mono {α : Type} {o : Outcome α} {p q : World → α → Prop}
    {e f : World → String → Prop} {bad : Prop} (h : o.Sat p e bad)
    (hp : ∀ w a, p w a → q w a) (he : ∀ w m, e w m → f w m) :
    o.Sat q f bad := by
  cases o with
  | done w a => exact hp w a h
  | raised w m => exact he w m h
  | crashed => exact h
  | diverged => exact h

theorem Outcome.Sat.andThen {α β : Type} {o : Outcome α} {f : World → α → Outcome β}
    {post : World → α → Prop} {post1 : World → β → Prop} {err : World → String → Prop}
    {bad : Prop} (h : o.Sat post err bad)
    (hf : ∀ w a, post w a → (f w a).Sat post1 err bad) :
    (o.andThen f).Sat post1 err bad := by
  cases o with
  | done w a => exact hf w a h
  | raised w m => exact h
  | crashed => exact h
  | diverged => exact h

/-- The loop rule: `inv pre a w` holds after the turns for the elements `pre`. -/
theorem forEach_sat {α β : Type} (body : β → α → World → Outcome α)
    (err : World → String → Prop) (bad : Prop) :
    ∀ (xs : List β) (inv : List β → World → α → Prop) (a : α) (w : World),
      (∀ pre x rest a1 w1, xs = pre ++ x :: rest → inv pre w1 a1 →
        (body x a1 w1).Sat (inv (pre ++ [x])) err bad) →
      inv [] w a → (forEach body xs a w).Sat (inv xs) err bad
  | [], inv, a, w, _, h0 => h0
  | x :: xs, inv, a, w, hstep, h0 => by
    have h1 := hstep [] x xs a w rfl h0
    refine Outcome.Sat.andThen h1 ?_
    intro w1 a1 hinv
    have := forEach_sat body err bad xs (fun pre => inv (x :: pre)) a1 w1
      (fun pre y rest a2 w2 hxs hi => by
        have := hstep (x :: pre) y rest a2 w2 (by simp [hxs]) hi
        simpa using this)
      (by simpa using hinv)
    exact this

/-! ## Output-node registration -/

/-- C1: for every block whose target is Undefined and every material state,
`addOutputNode` throws the configuration error and the world at the throw is the world
before the call, so both output-node lists are exactly as they were. -/
theorem addOutputNode_undefined_fails (w : World) (node : Nat)
    (h : (w.blocks node).target = .Undefined) :
    addOutputNode node w = .raised w notAnOutputNode ∧
      ∀ w1 what, addOutputNode node w = .raised w1 what →
        w1.mat._vertexOutputNodes = w.mat._vertexOutputNodes ∧
        w1.mat._fragmentOutputNodes = w.mat._fragmentOutputNodes := by
  have h1 : addOutputNode node w = .raised w notAnOutputNode := by
    simp [addOutputNode, h]
  refine ⟨h1, ?_⟩
  intro w1 what h2
  rw [h1] at h2
  cases h2
  exact ⟨rfl, rfl⟩

/-- Witness of C1 on the example world, where block 3 has no target. -/
theorem addOutputNode_undefined_fails_witness :
    (exampleWorld.blocks 3).target = .Undefined ∧
      addOutputNode 3 exampleWorld = .raised exampleWorld notAnOutputNode :=
  ⟨rfl, (addOutputNode_undefined_fails exampleWorld 3 rfl).1⟩

/-! ## The preconditions of build -/

/-- C2: whenever the vertex-output-node list or the fragment-output-node list is empty,
`build` throws one of the two configuration errors, whatever the fuel, and at the throw
nothing but the success flag has been written: the trace of outside calls (block
initialization, optimizers, block builds) is the trace before the call, and the blocks
are untouched. -/
theorem build_without_output_nodes_fails (env : Env) (fuel : Nat) (verbose : Bool) (w : World)
    (h : w.mat._vertexOutputNodes = [] ∨ w.mat._fragmentOutputNodes = []) :
    ∃ what, (what = noVertexOutputNode ∨ what = noFragmentOutputNode) ∧
      build env fuel verbose w
        = .raised (w.setMat { w.mat with _buildWasSuccessful := false }) what ∧
      (w.setMat { w.mat with _buildWasSuccessful := false }).trace = w.trace ∧
      (w.setMat { w.mat with _buildWasSuccessful := false }).blocks = w.blocks := by
  by_cases hv : w.mat._vertexOutputNodes = []
  · exact ⟨noVertexOutputNode, Or.inl rfl, by simp [build, World.setMat, hv], rfl, rfl⟩
  · have hf : w.mat._fragmentOutputNodes = [] := h.resolve_left hv
    refine ⟨noFragmentOutputNode, Or.inr rfl, ?_, rfl, rfl⟩
    simp [build, World.setMat, hv, hf]

/-- Witness of C2: the new material of the example world has no output node. -/
theorem build_without_output_nodes_fails_witness :
    ∃ what, (what = noVertexOutputNode ∨ what = noFragmentOutputNode) ∧
      build exampleEnv 5 false exampleWorld
        = .raised (exampleWorld.setMat
            { exampleWorld.mat with _buildWasSuccessful := false }) what ∧
      (exampleWorld.setMat { exampleWorld.mat with _buildWasSuccessful := false }).trace
        = exampleWorld.trace ∧
      (exampleWorld.setMat { exampleWorld.mat with _buildWasSuccessful := false }).blocks
        = exampleWorld.blocks :=
  build_without_output_nodes_fails exampleEnv 5 false exampleWorld (Or.inl rfl)

/-! ## The frame of the graph walks -/

theorem Frame.frameRefl (w : World) : Frame w w :=
  ⟨fun _ => rfl, rfl, fun _ => rfl, rfl, rfl, rfl, rfl, rfl, rfl⟩

theorem Frame.frameTrans {w w1 w2 : World} (h1 : Frame w w1) (h2 : Frame w1 w2) : Frame w w2 :=
  ⟨fun b => (h2.shape b).trans (h1.shape b), h2.config.trans h1.config,
    fun st => (h2.stateTarget st).trans (h1.stateTarget st),
    h2.sharedBuildId.trans h1.sharedBuildId, h2.effects.trans h1.effects,
    h2.subMeshes.trans h1.subMeshes, h2.meshes.trans h1.meshes, h2.scene.trans h1.scene,
    h2.generator.trans h1.generator⟩

theorem Frame.frameLog (w : World) (e : Event) : Frame w (w.log e) :=
  ⟨fun _ => rfl, rfl, fun st => by cases st <;> rfl, rfl, rfl, rfl, rfl, rfl, rfl⟩

theorem Frame.frameSetBlock (w : World) (b : Nat) (blk : NodeMaterialBlock)
    (h : blk.shape = (w.blocks b).shape) : Frame w (w.setBlock b blk) := by
  refine ⟨fun x => ?_, rfl, fun st => by cases st <;> rfl, rfl, rfl, rfl, rfl, rfl, rfl⟩
  by_cases hx : x = b
  · subst hx; simp [World.setBlock, h]
  · simp [World.setBlock, hx]

theorem Frame.setState (w : World) (stage : Stage) (s s0 : NodeMaterialBuildState)
    (h0 : w.state stage = some s0) (h : s.target = s0.target) :
    Frame w (w.setState stage s) := by
  refine ⟨fun _ => by cases stage <;> rfl, by cases stage <;> rfl, fun st => ?_,
    by cases stage <;> rfl, by cases stage <;> rfl, by cases stage <;> rfl,
    by cases stage <;> rfl, by cases stage <;> rfl, by cases stage <;> rfl⟩
  cases stage <;> cases st <;>
    simp_all [World.setState, World.state, World.setMat]

theorem Frame.setSharedData (w : World) (sd sd0 : NodeMaterialBuildStateSharedData)
    (h0 : w.mat._sharedData = some sd0) (h : sd.buildId = sd0.buildId) :
    Frame w (w.setSharedData sd) := by
  refine ⟨fun _ => rfl, rfl, fun st => by cases st <;> rfl, ?_, rfl, rfl, rfl, rfl, rfl⟩
  simp [World.setSharedData, World.setMat, h0, h]

theorem Frame.setAttached (w : World) (l : List Nat) :
    Frame w (w.setMat { w.mat with attachedBlocks := l }) :=
  ⟨fun _ => rfl, rfl, fun st => by cases st <;> rfl, rfl, rfl, rfl, rfl, rfl, rfl⟩

theorem Frame.edge {w w1 : World} (h : Frame w w1) (a c : Nat) : w1.Edge a c ↔ w.Edge a c := by
  have hs := h.shape a
  simp only [NodeMaterialBlock.shape, Prod.mk.injEq] at hs
  simp [World.Edge, hs.2.2.2.2.2]

theorem Frame.frameEdgeEq {w w1 : World} (h : Frame w w1) : w1.Edge = w.Edge := by
  funext a c
  exact propext (h.edge a c)

theorem Frame.frameReach {w w1 : World} (h : Frame w w1) : w1.Reach = w.Reach := by
  unfold World.Reach
  rw [h.frameEdgeEq]

theorem Frame.frameReachPlus {w w1 : World} (h : Frame w w1) : w1.ReachPlus = w.ReachPlus := by
  unfold World.ReachPlus
  rw [h.frameEdgeEq]

theorem Frame.acyclic {w w1 : World} (h : Frame w w1) (rank : Nat → Nat)
    (ha : w.Acyclic rank) : w1.Acyclic rank := by
  intro a c hac
  exact ha a c ((h.edge a c).1 hac)

theorem Frame.target {w w1 : World} (h : Frame w w1) (b : Nat) :
    (w1.blocks b).target = (w.blocks b).target := by
  have hs := h.shape b
  simp only [NodeMaterialBlock.shape, Prod.mk.injEq] at hs
  exact hs.2.2.2.2.1

theorem Frame.isUnique {w w1 : World} (h : Frame w w1) (b : Nat) :
    (w1.blocks b).isUnique = (w.blocks b).isUnique := by
  have hs := h.shape b
  simp only [NodeMaterialBlock.shape, Prod.mk.injEq] at hs
  exact hs.2.1

theorem Frame.getClassName {w w1 : World} (h : Frame w w1) (b : Nat) :
    (w1.blocks b).getClassName = (w.blocks b).getClassName := by
  have hs := h.shape b
  simp only [NodeMaterialBlock.shape, Prod.mk.injEq] at hs
  exact hs.1

theorem Frame.wiring {w w1 : World} (h : Frame w w1) (b : Nat) :
    (w1.blocks b).inputs.map (fun p => p.connectedPoint)
      = (w.blocks b).inputs.map (fun p => p.connectedPoint) := by
  have hs := h.shape b
  simp only [NodeMaterialBlock.shape, Prod.mk.injEq] at hs
  exact hs.2.2.2.2.2

theorem Frame.clash {w w1 : World} (h : Frame w w1) (x y : Nat) :
    w1.Clash x y ↔ w.Clash x y := by
  simp [World.Clash, h.isUnique, h.getClassName]

theorem Frame.state_isSome {w w1 : World} (h : Frame w w1) (stage : Stage)
    (hs : (w.state stage).isSome) : (w1.state stage).isSome := by
  have := h.stateTarget stage
  cases h1 : w1.state stage with
  | none => rw [h1] at this; cases h0 : w.state stage with
    | none => rw [h0] at hs; exact absurd hs (by simp)
    | some s => rw [h0] at this; simp at this
  | some s => rfl

theorem Frame.sharedData_isSome {w w1 : World} (h : Frame w w1)
    (hs : w.mat._sharedData.isSome) : w1.mat._sharedData.isSome := by
  have := h.sharedBuildId
  cases h1 : w1.mat._sharedData with
  | none => rw [h1] at this; cases h0 : w.mat._sharedData with
    | none => rw [h0] at hs; exact absurd hs (by simp)
    | some s => rw [h0] at this; simp at this
  | some s => rfl

theorem Frame.matBuildId {w w1 : World} (h : Frame w w1) : w1.mat._buildId = w.mat._buildId := by
  have hc := h.config
  simp only [NodeMaterial.config, Prod.mk.injEq] at hc
  exact hc.2.2.2.2.1

theorem Frame.flag {w w1 : World} (h : Frame w w1) :
    w1.mat._buildWasSuccessful = w.mat._buildWasSuccessful := by
  have hc := h.config
  simp only [NodeMaterial.config, Prod.mk.injEq] at hc
  exact hc.2.2.2.2.2.1

theorem Frame.vertexOutputNodes {w w1 : World} (h : Frame w w1) :
    w1.mat._vertexOutputNodes = w.mat._vertexOutputNodes := by
  have hc := h.config
  simp only [NodeMaterial.config, Prod.mk.injEq] at hc
  exact hc.1

theorem Frame.fragmentOutputNodes {w w1 : World} (h : Frame w w1) :
    w1.mat._fragmentOutputNodes = w.mat._fragmentOutputNodes := by
  have hc := h.config
  simp only [NodeMaterial.config, Prod.mk.injEq] at hc
  exact hc.2.1

/-! ## Block initialization -/

theorem InitRel.initRefl (w : World) : InitRel w w :=
  ⟨Frame.frameRefl w, fun _ => rfl, fun _ h => h, fun _ _ _ h => h, [], by simp, by simp⟩

theorem InitRel.initTrans {w w1 w2 : World} (h1 : InitRel w w1) (h2 : InitRel w1 w2) :
    InitRel w w2 := by
  refine ⟨h1.frame.frameTrans h2.frame, fun b => (h2.buildId b).trans (h1.buildId b),
    fun b hb => h2.attached b (h1.attached b hb), ?_, ?_⟩
  · intro x y hc hn
    exact h2.noClash x y ((h1.frame.clash x y).2 hc) (h1.noClash x y hc hn)
  · obtain ⟨e1, ht1, he1⟩ := h1.trace
    obtain ⟨e2, ht2, he2⟩ := h2.trace
    refine ⟨e1 ++ e2, by rw [ht2, ht1, List.append_assoc], ?_⟩
    intro e he
    rcases List.mem_append.1 he with h | h
    · exact he1 e h
    · exact he2 e h

/-- A step that keeps the frame, the build ids, the attached blocks and the trace. -/
theorem InitRel.ofFrame {w w1 : World} (hf : Frame w w1)
    (hb : ∀ b, (w1.blocks b).buildId = (w.blocks b).buildId)
    (ha : w1.mat.attachedBlocks = w.mat.attachedBlocks) (ht : w1.trace = w.trace) :
    InitRel w w1 :=
  ⟨hf, hb, fun b h => by rw [ha]; exact h, fun _ _ _ h => by rw [ha]; exact h,
    [], by simp [ht], by simp⟩

theorem InitRel.initLog (w : World) (e : Event) (he : e.isInit = true) : InitRel w (w.log e) :=
  ⟨Frame.frameLog w e, fun _ => rfl, fun _ h => h, fun _ _ _ h => h,
    [e], rfl, by simpa using he⟩

theorem InitRel.initSetBlock (w : World) (b : Nat) (blk : NodeMaterialBlock)
    (h : blk.shape = (w.blocks b).shape) (hb : blk.buildId = (w.blocks b).buildId) :
    InitRel w (w.setBlock b blk) := by
  refine InitRel.ofFrame (Frame.frameSetBlock w b blk h) (fun x => ?_) rfl rfl
  by_cases hx : x = b
  · subst hx; simp [World.setBlock, hb]
  · simp [World.setBlock, hx]

theorem resetInput_shape (b : NodeMaterialBlock) (i : Nat) : (b.resetInput i).shape = b.shape := by
  have : ∀ (l : List NodeMaterialConnectionPoint) (i : Nat),
      (l.modify (fun p => { p with associatedVariableName := "" }) i).map
        (fun p => p.connectedPoint) = l.map (fun p => p.connectedPoint) := by
    intro l
    induction l with
    | nil => intro i; cases i <;> rfl
    | cons x xs ih =>
      intro i
      cases i with
      | zero => rfl
      | succ n =>
        exact congrArg (List.cons _) (ih n)
  simp [NodeMaterialBlock.resetInput, NodeMaterialBlock.shape, this]

theorem resetOutputs_shape (b : NodeMaterialBlock) : b.resetOutputs.shape = b.shape := rfl

/-- Line 301 keeps to the relation of block initialization and cannot throw. -/
theorem callBlockInitialize_sat (env : Env) (iState : Stage) (node : Nat) (w : World)
    (bad : Prop) (hb : bad ∨ ((w.state iState).isSome ∧ w.mat._sharedData.isSome)) :
    (callBlockInitialize env iState node w).Sat (fun w1 _ => InitRel w w1)
      (fun _ _ => False) bad := by
  unfold callBlockInitialize
  cases hs : w.state iState with
  | none =>
    rcases hb with hb | ⟨h1, _⟩
    · exact hb
    · rw [hs] at h1; exact absurd h1 (by simp)
  | some s =>
    cases hd : w.mat._sharedData with
    | none =>
      rcases hb with hb | ⟨_, h2⟩
      · exact hb
      · rw [hd] at h2; exact absurd h2 (by simp)
    | some sd =>
      show InitRel w _
      have h1 : InitRel w (w.log (.blockInitialize node iState)) := InitRel.initLog w _ rfl
      have hs1 : (w.log (.blockInitialize node iState)).state iState = some s := by
        cases iState <;> exact hs
      have f2 := Frame.setState (w.log (.blockInitialize node iState)) iState
        { (env.blockInitialize node s sd).1 with target := s.target } s hs1 rfl
      have hd2 : ((w.log (.blockInitialize node iState)).setState iState
          { (env.blockInitialize node s sd).1 with target := s.target }).mat._sharedData
          = some sd := by
        cases iState <;> exact hd
      have f3 := Frame.setSharedData _
        { (env.blockInitialize node s sd).2 with buildId := sd.buildId } sd hd2 rfl
      refine h1.initTrans (InitRel.ofFrame (f2.frameTrans f3) (fun b => ?_) ?_ ?_)
      · cases iState <;> rfl
      · cases iState <;> rfl
      · cases iState <;> rfl

/-- Lines 305-317: either the node is attached afterwards, or the world is untouched and
the error names the class of the unique node, of which another block is attached. -/
theorem attachBlock_sat (node : Nat) (w : World) (bad : Prop) :
    (attachBlock node w).Sat
      (fun w1 _ => InitRel w w1 ∧ node ∈ w1.mat.attachedBlocks)
      (fun w1 what => w1 = w ∧ node ∉ w.mat.attachedBlocks ∧ (w.blocks node).isUnique = true
        ∧ what = multipleBlocks (w.blocks node).getClassName
        ∧ ∃ y ∈ w.mat.attachedBlocks,
            (w.blocks y).getClassName = (w.blocks node).getClassName) bad := by
  unfold attachBlock
  by_cases h1 : w.mat.attachedBlocks.contains node = true
  · rw [if_pos h1]
    exact ⟨InitRel.initRefl w, by simpa using h1⟩
  · rw [if_neg h1]
    have hn : node ∉ w.mat.attachedBlocks := by simpa using h1
    by_cases h2 : ((w.blocks node).isUnique
        && w.mat.attachedBlocks.any
          (fun other => (w.blocks other).getClassName == (w.blocks node).getClassName)) = true
    · rw [if_pos h2]
      simp only [Bool.and_eq_true, List.any_eq_true, beq_iff_eq] at h2
      exact ⟨rfl, hn, h2.1, rfl, h2.2⟩
    · rw [if_neg h2]
      simp only [Bool.and_eq_true, List.any_eq_true, beq_iff_eq, not_and, not_exists] at h2
      refine ⟨⟨Frame.setAttached w _, fun _ => rfl, ?_, ?_, [], by simp [World.setMat],
        by simp⟩, by simp [World.setMat]⟩
      · intro b hb
        simp [World.setMat, hb]
      · intro x y hc hxy
        simp only [World.setMat, List.mem_append, List.mem_singleton]
        rintro ⟨hx | hx, hy | hy⟩
        · exact hxy ⟨hx, hy⟩
        · subst hy
          exact h2 hc.2.2.1 x hx hc.2.2.2
        · subst hx
          exact h2 hc.2.1 y hy hc.2.2.2.symm
        · exact hc.1 (hx.trans hy.symm)

theorem _initializeBlock_succ (env : Env) (iState : Stage) (fuel node : Nat) (nodes : List Nat)
    (w : World) :
    _initializeBlock env iState (fuel + 1) node nodes w
      = (callBlockInitialize env iState node w).andThen fun w1 _ =>
        (attachBlock node (stampPreparation node w1)).andThen fun w4 _ =>
        (forEach (initializeInput (_initializeBlock env iState fuel) iState node)
          (w4.blocks node).inputs.enum nodes w4).andThen fun w5 nodes5 =>
        .done (w5.setBlock node (w5.blocks node).resetOutputs) nodes5 := rfl

theorem stampPreparation_initRel (node : Nat) (w : World) :
    InitRel w (stampPreparation node w) :=
  (InitRel.initLog w (.autoConfigure node) rfl).initTrans (InitRel.initSetBlock _ node _ rfl rfl)

theorem InitErr.lift {w0 w w1 : World} {n0 node : Nat} {what : String} (h0 : InitRel w0 w)
    (hr : w0.Reach n0 node) (h : InitErr w node w1 what) : InitErr w0 n0 w1 what := by
  obtain ⟨r, x, hx, hu, hm, hn, y, hy, hc⟩ := h
  refine ⟨h0.initTrans r, x, ?_, ?_, ?_, hn, y, hy, ?_⟩
  · rw [h0.frame.frameReach] at hx
    exact hr.trans hx
  · rw [← h0.frame.isUnique]; exact hu
  · rw [← h0.frame.getClassName]; exact hm
  · rw [← h0.frame.getClassName, ← h0.frame.getClassName]; exact hc

theorem edge_of_mem_enum {w : World} {node c : Nat} {p : Nat × NodeMaterialConnectionPoint}
    (hp : p ∈ (w.blocks node).inputs.enum) (hc : p.2.connectedPoint = some c) (hne : c ≠ node) :
    w.Edge node c := by
  refine ⟨?_, hne⟩
  have hmem : p.2 ∈ (w.blocks node).inputs := by
    have := List.mem_enum_iff_getElem?.1 hp
    exact List.getElem?_mem this
  exact List.mem_map.2 ⟨p.2, hmem, hc⟩

theorem mem_enum_of_edge {w : World} {node c : Nat} (h : w.Edge node c) :
    ∃ p ∈ (w.blocks node).inputs.enum, p.2.connectedPoint = some c := by
  obtain ⟨input, hin, hc⟩ := List.mem_map.1 h.1
  obtain ⟨i, hget⟩ := List.mem_iff_getElem?.1 hin
  exact ⟨(i, input), List.mem_enum_iff_getElem?.2 hget, hc⟩

theorem crossStage_of_dual (w : World) (iState : Stage) (block : Nat)
    (h : (w.blocks block).target = .VertexAndFragment) : crossStage w iState block = true := by
  simp [crossStage, h]

/-- One turn of the loop over the inputs keeps the loop invariant. -/
theorem initializeInput_sat (env : Env) (iState : Stage) (rank : Nat → Nat) (bad : Prop)
    (fuel : Nat)
    (ih : ∀ (node : Nat) (nodes : List Nat) (w : World),
      (bad ∨ (rank node < fuel ∧ w.Acyclic rank ∧ (w.state iState).isSome
        ∧ w.mat._sharedData.isSome)) →
      (_initializeBlock env iState fuel node nodes w).Sat (InitPost w node nodes)
        (InitErr w node) bad)
    (w : World) (node : Nat) (nodes : List Nat)
    (hb : bad ∨ (rank node < fuel + 1 ∧ w.Acyclic rank ∧ (w.state iState).isSome
        ∧ w.mat._sharedData.isSome))
    (pre : List (Nat × NodeMaterialConnectionPoint)) (x : Nat × NodeMaterialConnectionPoint)
    (wc : World) (nc : List Nat)
    (hx : ∀ c, x.2.connectedPoint = some c → c ≠ node → w.Edge node c)
    (hinv : InitLoopInv w node nodes pre wc nc) :
    (initializeInput (_initializeBlock env iState fuel) iState node x nc wc).Sat
      (InitLoopInv w node nodes (pre ++ [x])) (InitErr w node) bad := by
  obtain ⟨r, hnode, hsub, hpre⟩ := hinv
  have rs : InitRel wc (wc.setBlock node ((wc.blocks node).resetInput x.1)) :=
    InitRel.initSetBlock wc node _ (resetInput_shape _ _) rfl
  have r1 := r.initTrans rs
  unfold initializeInput
  cases hc : x.2.connectedPoint with
  | none =>
    refine ⟨r1, hnode, hsub, ?_⟩
    intro p hp c hpc hne
    rcases List.mem_append.1 hp with hp | hp
    · exact hpre p hp c hpc hne
    · rw [List.mem_singleton.1 hp, hc] at hpc
      cases hpc
  | some c =>
    by_cases hcn : c = node
    · simp only [hcn, if_true]
      refine ⟨r1, hnode, hsub, ?_⟩
      intro p hp c1 hpc hne
      rcases List.mem_append.1 hp with hp | hp
      · exact hpre p hp c1 hpc hne
      · rw [List.mem_singleton.1 hp, hc] at hpc
        cases hpc
        exact absurd hcn hne
    · simp only [hcn, if_false]
      have hedge : w.Edge node c := hx c hc hcn
      have hb1 : bad ∨ (rank c < fuel
          ∧ (wc.setBlock node ((wc.blocks node).resetInput x.1)).Acyclic rank
          ∧ ((wc.setBlock node ((wc.blocks node).resetInput x.1)).state iState).isSome
          ∧ (wc.setBlock node ((wc.blocks node).resetInput x.1)).mat._sharedData.isSome) := by
        rcases hb with hb | ⟨h1, h2, h3, h4⟩
        · exact Or.inl hb
        · refine Or.inr ⟨?_, r1.frame.acyclic rank h2, r1.frame.state_isSome iState h3,
            r1.frame.sharedData_isSome h4⟩
          have := h2 node c hedge
          omega
      refine (ih c _ _ hb1).mono ?_ ?_
      · rintro w2 n2 ⟨r2, hatt, hsub2, hdual⟩
        refine ⟨r1.initTrans r2, r2.attached _ (rs.attached _ hnode), ?_, ?_⟩
        · intro b hbn
          apply hsub2
          have := hsub b hbn
          split
          · exact List.mem_append_left _ this
          · exact this
        · intro p hp c1 hpc hne
          rcases List.mem_append.1 hp with hp | hp
          · obtain ⟨ha, hd⟩ := hpre p hp c1 hpc hne
            refine ⟨fun y hy => r2.attached _ (rs.attached _ (ha y hy)), ?_⟩
            intro d hdt hdr
            apply hsub2
            have := hd d hdt hdr
            split
            · exact List.mem_append_left _ this
            · exact this
          · rw [List.mem_singleton.1 hp, hc] at hpc
            cases hpc
            refine ⟨fun y hy => hatt y (by rw [r1.frame.frameReach]; exact hy), ?_⟩
            intro d hdt hdr
            rcases Relation.reflTransGen_iff_eq_or_transGen.1 hdr with h | h
            · subst h
              apply hsub2
              rw [crossStage_of_dual _ _ _ (by rw [r1.frame.target]; exact hdt)]
              simp
            · exact hdual d (by rw [r1.frame.target]; exact hdt)
                (by rw [World.ReachPlus, r1.frame.frameEdgeEq]; exact h)
      · intro w2 what he
        exact he.lift r1 (Relation.ReflTransGen.single hedge)

/-- The contract of `_initializeBlock`. With `bad := False` it says that the walk ends on
an acyclic graph once the fuel exceeds the rank of the node; with `bad := True` it
describes every walk that ends. -/
theorem _initializeBlock_sat (env : Env) (iState : Stage) (rank : Nat → Nat) (bad : Prop) :
    ∀ (fuel node : Nat) (nodes : List Nat) (w : World),
      (bad ∨ (rank node < fuel ∧ w.Acyclic rank ∧ (w.state iState).isSome
        ∧ w.mat._sharedData.isSome)) →
      (_initializeBlock env iState fuel node nodes w).Sat (InitPost w node nodes)
        (InitErr w node) bad
  | 0, node, nodes, w, hb => by
    rcases hb with hb | ⟨h, _⟩
    · exact hb
    · exact absurd h (Nat.not_lt_zero _)
  | fuel + 1, node, nodes, w, hb => by
    have ih := _initializeBlock_sat env iState rank bad fuel
    rw [_initializeBlock_succ]
    have h1 := (callBlockInitialize_sat env iState node w bad
      (hb.imp id (fun h => ⟨h.2.2.1, h.2.2.2⟩))).mono
      (q := fun w1 _ => InitRel w w1) (f := InitErr w node)
      (fun _ _ h => h) (fun _ _ h => h.elim)
    refine h1.andThen ?_
    intro w1 _ r1
    have r3 : InitRel w (stampPreparation node w1) := r1.initTrans (stampPreparation_initRel node w1)
    have h4 := (attachBlock_sat node (stampPreparation node w1) bad).mono
      (q := fun w4 _ => InitRel w w4 ∧ node ∈ w4.mat.attachedBlocks)
      (f := InitErr w node)
      (fun w4 _ h => ⟨r3.initTrans h.1, h.2⟩)
      (fun w4 what h => by
        obtain ⟨hw, hn, hu, hm, y, hy, hc⟩ := h
        subst hw
        refine ⟨r3, node, Relation.ReflTransGen.refl, ?_, ?_, hn, y, hy, ?_⟩
        · rw [← r3.frame.isUnique]; exact hu
        · rw [← r3.frame.getClassName]; exact hm
        · rw [← r3.frame.getClassName, ← r3.frame.getClassName]; exact hc)
    refine h4.andThen ?_
    intro w4 _ ⟨r4, hnode⟩
    have hloop := forEach_sat (initializeInput (_initializeBlock env iState fuel) iState node)
      (InitErr w node) bad (w4.blocks node).inputs.enum (InitLoopInv w node nodes) nodes w4
      (fun pre x rest a1 w5 hxs hinv =>
        initializeInput_sat env iState rank bad fuel ih w node nodes hb pre x w5 a1
          (fun c hc hne => by
            have hmem : x ∈ (w4.blocks node).inputs.enum := by rw [hxs]; simp
            exact (r4.frame.edge node c).1 (edge_of_mem_enum hmem hc hne))
          hinv)
      ⟨r4, hnode, fun _ h => h, fun p hp => by cases hp⟩
    refine hloop.andThen ?_
    rintro w5 nodes5 ⟨r5, hnode5, hsub, hall⟩
    have r6 : InitRel w (w5.setBlock node (w5.blocks node).resetOutputs) :=
      r5.initTrans (InitRel.initSetBlock w5 node _ (resetOutputs_shape _) rfl)
    refine ⟨r6, ?_, hsub, ?_⟩
    · intro x hx
      show x ∈ w5.mat.attachedBlocks
      rcases Relation.ReflTransGen.cases_head hx with h | ⟨c, hedge, hcx⟩
      · rw [← h]; exact hnode5
      · obtain ⟨p, hp, hpc⟩ := mem_enum_of_edge ((r4.frame.edge node c).2 hedge)
        exact (hall p hp c hpc hedge.2).1 x hcx
    · intro d hdt hdr
      obtain ⟨c, hedge, hcd⟩ := Relation.TransGen.head'_iff.1 hdr
      obtain ⟨p, hp, hpc⟩ := mem_enum_of_edge ((r4.frame.edge node c).2 hedge)
      exact (hall p hp c hpc hedge.2).2 d hdt hcd

theorem OutputsDone.outputsMono {w w1 w2 : World} {outs own own1 other other1 : List Nat}
    (h : OutputsDone w outs w1 own other) (ha : ∀ x ∈ w1.mat.attachedBlocks,
      x ∈ w2.mat.attachedBlocks) (hown : ∀ b ∈ own, b ∈ own1)
    (hother : ∀ b ∈ other, b ∈ other1) : OutputsDone w outs w2 own1 other1 := by
  intro o ho
  obtain ⟨h1, h2, h3⟩ := h o ho
  exact ⟨hown o h1, fun x hx => ha x (h2 x hx), fun d hd hr => hother d (h3 d hd hr)⟩

/-- The contract of the two initialization loops of `build`. -/
theorem initializeBlocks_sat (env : Env) (rank : Nat → Nat) (bad : Prop) (fuel : Nat)
    (w : World) (hb : bad ∨ InitReady w rank fuel) :
    (initializeBlocks env fuel w).Sat (InitBlocksPost w) (InitBlocksErr w) bad := by
  unfold initializeBlocks
  have hv := forEach_sat (initializeVertexOutput env fuel) (InitBlocksErr w) bad
    w.mat._vertexOutputNodes
    (fun pre wc nc => InitRel w wc ∧ OutputsDone w pre wc nc.1 nc.2) ([], []) w
    (fun pre x rest a1 w1 hxs hinv => by
      obtain ⟨r, hd⟩ := hinv
      have hmem : x ∈ w.mat._vertexOutputNodes := by rw [hxs]; simp
      unfold initializeVertexOutput
      have h := _initializeBlock_sat env .vertex rank bad fuel x a1.2 w1
        (hb.imp id (fun h => ⟨h.1 x (Or.inl hmem), r.frame.acyclic rank h.2.1,
          r.frame.state_isSome .vertex h.2.2.1, r.frame.sharedData_isSome h.2.2.2.2⟩))
      refine (h.mono (q := fun w2 n2 => InitRel w w2 ∧
          OutputsDone w (pre ++ [x]) w2 (a1.1 ++ [x]) n2)
        (f := InitBlocksErr w) ?_ ?_).andThen (fun w2 n2 h2 => h2)
      · rintro w2 n2 ⟨r2, hatt, hsub, hdual⟩
        refine ⟨r.initTrans r2, ?_⟩
        intro o ho
        rcases List.mem_append.1 ho with ho | ho
        · exact (hd.outputsMono r2.attached (fun b hb => List.mem_append_left _ hb) hsub) o ho
        · rw [List.mem_singleton.1 ho]
          refine ⟨by simp, fun y hy => hatt y (by rw [r.frame.frameReach]; exact hy), ?_⟩
          intro d hdt hdr
          exact hdual d (by rw [r.frame.target]; exact hdt)
            (by rw [r.frame.frameReachPlus]; exact hdr)
      · intro w2 what he
        exact ⟨x, Or.inl hmem, he.lift r Relation.ReflTransGen.refl⟩)
    ⟨InitRel.initRefl w, fun o ho => by cases ho⟩
  refine hv.andThen ?_
  rintro w1 nodes ⟨r1, hdv⟩
  have hf := forEach_sat (initializeFragmentOutput env fuel) (InitBlocksErr w) bad
    w1.mat._fragmentOutputNodes
    (fun pre wc nc => InitRel w wc ∧ OutputsDone w w.mat._vertexOutputNodes wc nc.1 nc.2
      ∧ OutputsDone w pre wc nc.2 nc.1) nodes w1
    (fun pre x rest a1 w2 hxs hinv => by
      obtain ⟨r, hd1, hd2⟩ := hinv
      have hmem : x ∈ w.mat._fragmentOutputNodes := by
        rw [← r1.frame.fragmentOutputNodes, hxs]; simp
      unfold initializeFragmentOutput
      have h := _initializeBlock_sat env .fragment rank bad fuel x a1.1 w2
        (hb.imp id (fun h => ⟨h.1 x (Or.inr hmem), r.frame.acyclic rank h.2.1,
          r.frame.state_isSome .fragment h.2.2.2.1, r.frame.sharedData_isSome h.2.2.2.2⟩))
      refine (h.mono (q := fun w3 n3 => InitRel w w3 ∧
          OutputsDone w w.mat._vertexOutputNodes w3 n3 (a1.2 ++ [x]) ∧
          OutputsDone w (pre ++ [x]) w3 (a1.2 ++ [x]) n3)
        (f := InitBlocksErr w) ?_ ?_).andThen (fun w3 n3 h3 => h3)
      · rintro w3 n3 ⟨r3, hatt, hsub, hdual⟩
        refine ⟨r.initTrans r3, hd1.outputsMono r3.attached hsub (fun b hb => List.mem_append_left _ hb),
          ?_⟩
        intro o ho
        rcases List.mem_append.1 ho with ho | ho
        · exact (hd2.outputsMono r3.attached (fun b hb => List.mem_append_left _ hb) hsub) o ho
        · rw [List.mem_singleton.1 ho]
          refine ⟨by simp, fun y hy => hatt y (by rw [r.frame.frameReach]; exact hy), ?_⟩
          intro d hdt hdr
          exact hdual d (by rw [r.frame.target]; exact hdt)
            (by rw [r.frame.frameReachPlus]; exact hdr)
      · intro w3 what he
        exact ⟨x, Or.inr hmem, he.lift r Relation.ReflTransGen.refl⟩)
    ⟨r1, hdv, fun o ho => by cases ho⟩
  refine hf.mono ?_ (fun _ _ h => h)
  rintro w2 n2 ⟨r2, hd1, hd2⟩
  refine ⟨r2, hd1, ?_⟩
  rw [← r1.frame.fragmentOutputNodes]
  exact hd2

/-! ## The build pipeline -/

/-- With both output lists filled and the options in place, `build` gets to the
initialization loops in an `Allocated` world. -/
theorem build_eq (env : Env) (fuel : Nat) (verbose : Bool) (w : World)
    (hv : w.mat._vertexOutputNodes ≠ []) (hf : w.mat._fragmentOutputNodes ≠ [])
    (ho : w.mat._options.isSome) :
    ∃ w1, Allocated w w1 ∧ build env fuel verbose w
      = (initializeBlocks env fuel w1).andThen fun w2 nodes =>
        (buildStages env fuel nodes w2).andThen fun w3 _ => completeBuild verbose w3 := by
  cases hopt : w.mat._options with
  | none => rw [hopt] at ho; exact absurd ho (by simp)
  | some options =>
    refine ⟨allocatedWorld env verbose options w,
      ⟨rfl, rfl, rfl, rfl, rfl, rfl, rfl, ⟨_, rfl, rfl⟩, ⟨_, rfl, rfl⟩, ⟨_, rfl, rfl⟩⟩, ?_⟩
    simp only [build, World.setMat, List.isEmpty_iff, hv, hf, if_false, allocateStates, hopt,
      Outcome.andThen, allocatedWorld]

theorem Allocated.allocEdgeEq {w w1 : World} (h : Allocated w w1) : w1.Edge = w.Edge := by
  funext a c
  simp [World.Edge, h.blocks]

theorem Allocated.allocReach {w w1 : World} (h : Allocated w w1) : w1.Reach = w.Reach := by
  unfold World.Reach
  rw [h.allocEdgeEq]

theorem Allocated.allocReachPlus {w w1 : World} (h : Allocated w w1) :
    w1.ReachPlus = w.ReachPlus := by
  unfold World.ReachPlus
  rw [h.allocEdgeEq]

theorem Allocated.initReady {w w1 : World} (h : Allocated w w1) (rank : Nat → Nat) (fuel : Nat)
    (hr : w.Acyclic rank)
    (hfuel : ∀ o, o ∈ w.mat._vertexOutputNodes ∨ o ∈ w.mat._fragmentOutputNodes →
      rank o < fuel) : InitReady w1 rank fuel := by
  obtain ⟨vs, hvs, _⟩ := h.vertexState
  obtain ⟨fs, hfs, _⟩ := h.fragmentState
  obtain ⟨sd, hsd, _⟩ := h.sharedData
  refine ⟨?_, ?_, by simp [World.state, hvs], by simp [World.state, hfs], by simp [hsd]⟩
  · rw [h.vertexOutputNodes, h.fragmentOutputNodes]; exact hfuel
  · intro a c hac
    rw [h.allocEdgeEq] at hac
    exact hr a c hac

/-! ## Unique blocks -/

theorem clashWorld_acyclic : clashWorld.Acyclic clashRank := by
  intro a c h
  obtain ⟨h1, h2⟩ := h
  by_cases h0 : a = 0
  · subst h0
    simp [clashWorld, exampleBlock] at h1
    rcases h1 with h1 | h1 <;> subst h1 <;> decide
  · by_cases h1a : a = 1
    · subst h1a
      simp [clashWorld, exampleBlock] at h1
      rcases h1 with h1 | h1 <;> subst h1 <;> decide
    · by_cases h2a : a = 2
      · subst h2a
        simp [clashWorld, exampleBlock] at h1
      · by_cases h3a : a = 3
        · subst h3a
          simp [clashWorld, exampleBlock] at h1
        · simp [clashWorld, exampleBlock, h0, h1a, h2a, h3a] at h1

/-- C3, as amended: when both output lists are filled, the options are in place, the
graph is acyclic and the fuel exceeds the rank of every output node, two different unique
blocks of one class that are both reachable from output nodes and not both attached
already make `build` throw during block initialization: the error names the class of a
unique block `x` reachable from an output node, unattached, of whose class another block
is attached (the first clash the walk meets); the calls made so far are calls of block
initialization only, and the success flag is down. -/
theorem build_unique_clash_fails (env : Env) (fuel : Nat) (verbose : Bool) (w : World)
    (rank : Nat → Nat) (B1 B2 : Nat)
    (hv : w.mat._vertexOutputNodes ≠ []) (hf : w.mat._fragmentOutputNodes ≠ [])
    (ho : w.mat._options.isSome) (hr : w.Acyclic rank)
    (hfuel : ∀ o, o ∈ w.mat._vertexOutputNodes ∨ o ∈ w.mat._fragmentOutputNodes →
      rank o < fuel)
    (hc : w.Clash B1 B2)
    (h1 : ∃ o, (o ∈ w.mat._vertexOutputNodes ∨ o ∈ w.mat._fragmentOutputNodes) ∧ w.Reach o B1)
    (h2 : ∃ o, (o ∈ w.mat._vertexOutputNodes ∨ o ∈ w.mat._fragmentOutputNodes) ∧ w.Reach o B2)
    (hatt : ¬ (B1 ∈ w.mat.attachedBlocks ∧ B2 ∈ w.mat.attachedBlocks)) :
    ∃ w1 x, build env fuel verbose w = .raised w1 (multipleBlocks (w.blocks x).getClassName)
      ∧ (w.blocks x).isUnique = true
      ∧ (∃ o, (o ∈ w.mat._vertexOutputNodes ∨ o ∈ w.mat._fragmentOutputNodes) ∧ w.Reach o x)
      ∧ x ∉ w1.mat.attachedBlocks
      ∧ (∃ y ∈ w1.mat.attachedBlocks, (w.blocks y).getClassName = (w.blocks x).getClassName)
      ∧ (∃ evs, w1.trace = w.trace ++ evs ∧ ∀ e ∈ evs, e.isInit = true)
      ∧ w1.mat._buildWasSuccessful = false := by
  obtain ⟨wa, hal, heq⟩ := build_eq env fuel verbose w hv hf ho
  have hs := initializeBlocks_sat env rank False fuel wa
    (Or.inr (hal.initReady rank fuel hr hfuel))
  rw [heq]
  cases hi : initializeBlocks env fuel wa with
  | done w2 nodes =>
    rw [hi] at hs
    obtain ⟨r, hdv, hdf⟩ := hs
    exfalso
    have hmem : ∀ b, (∃ o, (o ∈ w.mat._vertexOutputNodes ∨ o ∈ w.mat._fragmentOutputNodes)
        ∧ w.Reach o b) → b ∈ w2.mat.attachedBlocks := by
      rintro b ⟨o, ho1, hob⟩
      rw [← hal.allocReach] at hob
      rcases ho1 with ho1 | ho1
      · exact (hdv o (by rw [hal.vertexOutputNodes]; exact ho1)).2.1 b hob
      · exact (hdf o (by rw [hal.fragmentOutputNodes]; exact ho1)).2.1 b hob
    refine r.noClash B1 B2 ?_ (by rw [hal.attached]; exact hatt) ⟨hmem B1 h1, hmem B2 h2⟩
    simpa [World.Clash, hal.blocks] using hc
  | raised w2 what =>
    rw [hi] at hs
    obtain ⟨o, ho1, r, x, hx, hu, hm, hn, y, hy, hcl⟩ := hs
    refine ⟨w2, x, ?_, ?_, ⟨o, ?_, ?_⟩, hn, ⟨y, hy, ?_⟩, ?_, ?_⟩
    · simp [Outcome.andThen, hm, hal.blocks]
    · simpa [hal.blocks] using hu
    · simpa [hal.vertexOutputNodes, hal.fragmentOutputNodes] using ho1
    · rw [← hal.allocReach]; exact hx
    · simpa [hal.blocks] using hcl
    · rw [← hal.trace]; exact r.trace
    · rw [r.frame.flag]; exact hal.flag
  | crashed => rw [hi] at hs; exact hs.elim
  | diverged => rw [hi] at hs; exact hs.elim

/-- Witness of the amended C3: the two fog blocks of `clashWorld`. -/
theorem build_unique_clash_fails_witness :
    ∃ w1 x, build exampleEnv 2 false clashWorld
        = .raised w1 (multipleBlocks (clashWorld.blocks x).getClassName)
      ∧ (clashWorld.blocks x).isUnique = true
      ∧ (∃ o, (o ∈ clashWorld.mat._vertexOutputNodes ∨ o ∈ clashWorld.mat._fragmentOutputNodes)
          ∧ clashWorld.Reach o x)
      ∧ x ∉ w1.mat.attachedBlocks
      ∧ (∃ y ∈ w1.mat.attachedBlocks,
          (clashWorld.blocks y).getClassName = (clashWorld.blocks x).getClassName)
      ∧ (∃ evs, w1.trace = clashWorld.trace ++ evs ∧ ∀ e ∈ evs, e.isInit = true)
      ∧ w1.mat._buildWasSuccessful = false :=
  build_unique_clash_fails exampleEnv 2 false clashWorld clashRank 2 3
    (by decide) (by decide) rfl clashWorld_acyclic
    (by
      intro o ho
      have : o = 0 ∨ o = 1 := by simpa [clashWorld, newMaterial] using ho
      rcases this with h | h <;> subst h <;> decide)
    ⟨by decide, rfl, rfl, rfl⟩
    ⟨0, Or.inl (by decide),
      Relation.ReflTransGen.single ⟨by simp [clashWorld, exampleBlock], by decide⟩⟩
    ⟨0, Or.inl (by decide),
      Relation.ReflTransGen.single ⟨by simp [clashWorld, exampleBlock], by decide⟩⟩
    (by simp [clashWorld, newMaterial])

/-- C3 fails as stated: in `clashWorld` the unique light blocks 4 and 5 are both
reachable from the registered fragment output 1, yet for no fuel does `build` throw the
error naming their class; with fuel 2 and more it throws the error naming the class of
the fog blocks, which the walk meets first. -/
theorem build_names_first_clash_only :
    clashWorld.Clash 4 5 ∧ 1 ∈ clashWorld.mat._fragmentOutputNodes
      ∧ clashWorld.Reach 1 4 ∧ clashWorld.Reach 1 5
      ∧ (clashWorld.blocks 4).getClassName = "LightBlock"
      ∧ (∀ fuel w1, build exampleEnv fuel false clashWorld
          ≠ .raised w1 (multipleBlocks "LightBlock"))
      ∧ ∀ fuel, ∃ w1, build exampleEnv (fuel + 2) false clashWorld
          = .raised w1 (multipleBlocks "FogBlock") := by
  have hfog : ∀ fuel, ∃ w1, build exampleEnv (fuel + 2) false clashWorld
      = .raised w1 (multipleBlocks "FogBlock") := fun fuel => ⟨_, rfl⟩
  refine ⟨⟨by decide, rfl, rfl, rfl⟩, by decide,
    Relation.ReflTransGen.single ⟨by simp [clashWorld, exampleBlock], by decide⟩,
    Relation.ReflTransGen.single ⟨by simp [clashWorld, exampleBlock], by decide⟩, rfl, ?_, hfog⟩
  intro fuel w1 h
  match fuel, h with
  | 0, h => exact Outcome.noConfusion h
  | 1, h => exact Outcome.noConfusion h
  | n + 2, h =>
    obtain ⟨w2, h2⟩ := hfog n
    rw [h2] at h
    injection h with _ hm
    exact absurd hm (by decide)

/-! ## Building the blocks of a stage -/

theorem BuildRel.buildRefl (stage : Stage) (cur : Nat) (w : World) : BuildRel stage cur w w := by
  refine ⟨Frame.frameRefl w, rfl, fun _ => Or.inl rfl, [], by simp, ?_⟩
  intro b st
  by_cases h : (w.blocks b).buildId = cur <;> simp [emissions, h]

theorem BuildRel.buildTrans {stage : Stage} {cur : Nat} {w w1 w2 : World}
    (h1 : BuildRel stage cur w w1) (h2 : BuildRel stage cur w1 w2) : BuildRel stage cur w w2 := by
  obtain ⟨e1, ht1, hc1⟩ := h1.trace
  obtain ⟨e2, ht2, hc2⟩ := h2.trace
  refine ⟨h1.frame.frameTrans h2.frame, h2.attached.trans h1.attached, ?_, e1 ++ e2,
    by rw [ht2, ht1, List.append_assoc], ?_⟩
  · intro b
    rcases h2.stamps b with h | h
    · rw [h]; exact h1.stamps b
    · exact Or.inr h
  · intro b st
    have hs1 := h1.stamps b
    have hs2 := h2.stamps b
    have k1 := hc1 b st
    have k2 := hc2 b st
    simp only [emissions, List.count_append] at k1 k2 ⊢
    rw [k1, k2]
    by_cases hst : st = stage
    · by_cases ha : (w.blocks b).buildId = cur
      · have hb : (w1.blocks b).buildId = cur := by rcases hs1 with h | h <;> simp_all
        simp [ha, hb]
      · by_cases hb : (w1.blocks b).buildId = cur
        · have hc : (w2.blocks b).buildId = cur := by rcases hs2 with h | h <;> simp_all
          simp [hst, ha, hb, hc]
        · simp [hst, ha, hb]
    · simp [hst]

theorem BuildRel.buildLog (stage : Stage) (cur : Nat) (w : World) (e : Event)
    (he : ∀ b st, e ≠ .buildBlock b st) : BuildRel stage cur w (w.log e) := by
  refine ⟨Frame.frameLog w e, rfl, fun _ => Or.inl rfl, [e], rfl, ?_⟩
  intro b st
  have : emissions [e] b st = 0 := by
    simp only [emissions, List.count_singleton]
    simp [he b st]
  rw [this]
  show 0 = if st = stage ∧ (w.blocks b).buildId ≠ cur ∧ (w.blocks b).buildId = cur then 1 else 0
  by_cases h : (w.blocks b).buildId = cur <;> simp [h]

/-- The emission step: the block gets the current build id and its code is emitted once. -/
theorem emitBlock_sat (env : Env) (stage : Stage) (cur b : Nat) (w : World) (bad : Prop)
    (hsd : ∀ sd, w.mat._sharedData = some sd → sd.buildId = cur)
    (hne : (w.blocks b).buildId ≠ cur)
    (hb : bad ∨ ((w.state stage).isSome ∧ w.mat._sharedData.isSome)) :
    (emitBlock env stage b w).Sat
      (fun w1 _ => BuildRel stage cur w w1 ∧ (w1.blocks b).buildId = cur)
      (fun _ _ => False) bad := by
  unfold emitBlock
  cases hs : w.state stage with
  | none =>
    rcases hb with hb | ⟨h1, _⟩
    · exact hb
    · rw [hs] at h1; exact absurd h1 (by simp)
  | some s =>
    cases hd : w.mat._sharedData with
    | none =>
      rcases hb with hb | ⟨_, h2⟩
      · exact hb
      · rw [hd] at h2; exact absurd h2 (by simp)
    | some sd =>
      have hcur : sd.buildId = cur := hsd sd hd
      have hs1 : (w.log (.buildBlock b stage)).state stage = some s := by
        cases stage <;> exact hs
      have f2 := Frame.setState (w.log (.buildBlock b stage)) stage
        { (env._buildBlock b s sd).1 with target := s.target } s hs1 rfl
      have hd2 : ((w.log (.buildBlock b stage)).setState stage
          { (env._buildBlock b s sd).1 with target := s.target }).mat._sharedData = some sd := by
        cases stage <;> exact hd
      have f3 := Frame.setSharedData _
        { (env._buildBlock b s sd).2 with buildId := sd.buildId } sd hd2 rfl
      have f4 := Frame.frameSetBlock
        (((w.log (.buildBlock b stage)).setState stage
          { (env._buildBlock b s sd).1 with target := s.target }).setSharedData
          { (env._buildBlock b s sd).2 with buildId := sd.buildId }) b
        { ((((w.log (.buildBlock b stage)).setState stage
          { (env._buildBlock b s sd).1 with target := s.target }).setSharedData
          { (env._buildBlock b s sd).2 with buildId := sd.buildId }).blocks b) with
          buildId := sd.buildId } rfl
      have hblocks : ∀ x, ((((((w.log (.buildBlock b stage)).setState stage
          { (env._buildBlock b s sd).1 with target := s.target }).setSharedData
          { (env._buildBlock b s sd).2 with buildId := sd.buildId }).setBlock b
          { ((((w.log (.buildBlock b stage)).setState stage
            { (env._buildBlock b s sd).1 with target := s.target }).setSharedData
            { (env._buildBlock b s sd).2 with buildId := sd.buildId }).blocks b) with
            buildId := sd.buildId }).blocks x).buildId)
          = if x = b then cur else (w.blocks x).buildId := by
        intro x
        by_cases hx : x = b
        · subst hx; cases stage <;> simp [World.setBlock, hcur]
        · cases stage <;>
            simp [World.setBlock, World.setSharedData, World.setState, World.setMat,
              World.log, hx]
      refine ⟨⟨(((Frame.frameLog w _).frameTrans f2).frameTrans f3).frameTrans f4, by cases stage <;> rfl, ?_,
        [.buildBlock b stage], by cases stage <;> rfl, ?_⟩, ?_⟩
      · intro x
        rw [hblocks x]
        by_cases hx : x = b
        · simp [hx]
        · simp [hx]
      · intro x st
        rw [hblocks x]
        simp only [emissions, List.count_singleton]
        by_cases hx : x = b
        · subst hx
          by_cases hst : st = stage
          · simp [hst, hne]
          · have : ¬ stage = st := fun h => hst h.symm
            simp [hst, this]
        · have : ¬ b = x := fun h => hx h.symm
          by_cases hc : (w.blocks x).buildId = cur <;> simp [hx, this, hc]
      · rw [hblocks b]; simp

theorem Frame.sharedCur {w w1 : World} (h : Frame w w1) (cur : Nat)
    (hsd : ∀ sd, w.mat._sharedData = some sd → sd.buildId = cur) :
    ∀ sd, w1.mat._sharedData = some sd → sd.buildId = cur := by
  intro sd hsd1
  have := h.sharedBuildId
  rw [hsd1] at this
  cases h0 : w.mat._sharedData with
  | none => rw [h0] at this; simp at this
  | some sd0 =>
    rw [h0] at this
    simp only [Option.map_some', Option.some.injEq] at this
    rw [this]
    exact hsd sd0 h0

theorem emitOnce_sat (env : Env) (stage : Stage) (cur b : Nat) (w : World) (bad : Prop)
    (hsd : ∀ sd, w.mat._sharedData = some sd → sd.buildId = cur)
    (hb : bad ∨ ((w.state stage).isSome ∧ w.mat._sharedData.isSome)) :
    (emitOnce env stage b w).Sat
      (fun w1 _ => BuildRel stage cur w w1 ∧ (w1.blocks b).buildId = cur)
      (fun _ _ => False) bad := by
  unfold emitOnce
  cases hd : w.mat._sharedData with
  | none =>
    rcases hb with hb | ⟨_, h2⟩
    · exact hb
    · rw [hd] at h2; exact absurd h2 (by simp)
  | some sd =>
    have hcur : sd.buildId = cur := hsd sd hd
    show Outcome.Sat (ite ((w.blocks b).buildId = sd.buildId) _ _) _ _ _
    by_cases h : (w.blocks b).buildId = sd.buildId
    · rw [if_pos h]
      exact ⟨BuildRel.buildRefl stage cur w, h.trans hcur⟩
    · rw [if_neg h]
      exact emitBlock_sat env stage cur b w bad hsd (fun h1 => h (h1.trans hcur.symm)) hb

theorem blockBuild_succ (env : Env) (stage : Stage) (fuel b : Nat) (w : World) :
    blockBuild env stage (fuel + 1) b w
      = match (w.log (.blockBuild b stage)).mat._sharedData with
        | none => .crashed
        | some sd =>
          if ((w.log (.blockBuild b stage)).blocks b).buildId = sd.buildId
          then .done (w.log (.blockBuild b stage)) ()
          else
            (forEach (buildInput (blockBuild env stage fuel) b)
              ((w.log (.blockBuild b stage)).blocks b).inputs ()
              (w.log (.blockBuild b stage))).andThen
              fun w2 _ => emitOnce env stage b w2 := rfl

/-- The contract of the block build modelled from the spec: the block carries the current
build id afterwards, and code was emitted for exactly the blocks that got it. With
`bad := False` the build ends on an acyclic graph once the fuel exceeds the rank of the
block. A block build never throws. -/
theorem blockBuild_sat (env : Env) (stage : Stage) (rank : Nat → Nat) (bad : Prop) (cur : Nat) :
    ∀ (fuel b : Nat) (w : World),
      (∀ sd, w.mat._sharedData = some sd → sd.buildId = cur) →
      (bad ∨ BuildReady w stage rank fuel b) →
      (blockBuild env stage fuel b w).Sat
        (fun w1 _ => BuildRel stage cur w w1 ∧ (w1.blocks b).buildId = cur)
        (fun _ _ => False) bad
  | 0, b, w, _, hb => by
    rcases hb with hb | ⟨h, _⟩
    · exact hb
    · exact absurd h (Nat.not_lt_zero _)
  | fuel + 1, b, w, hsd, hb => by
    have ih := blockBuild_sat env stage rank bad cur fuel
    rw [blockBuild_succ]
    have r1 : BuildRel stage cur w (w.log (.blockBuild b stage)) :=
      BuildRel.buildLog stage cur w _ (fun _ _ h => by cases h)
    cases hd : (w.log (.blockBuild b stage)).mat._sharedData with
    | none =>
      rcases hb with hb | ⟨_, _, _, h2⟩
      · exact hb
      · have : w.mat._sharedData = none := hd
        rw [this] at h2; exact absurd h2 (by simp)
    | some sd =>
      have hcur : sd.buildId = cur := hsd sd hd
      show Outcome.Sat (ite _ _ _) _ _ _
      by_cases h : ((w.log (.blockBuild b stage)).blocks b).buildId = sd.buildId
      · rw [if_pos h]
        exact ⟨r1, h.trans hcur⟩
      · rw [if_neg h]
        have hloop := forEach_sat (buildInput (blockBuild env stage fuel) b)
          (fun _ _ => False) bad ((w.log (.blockBuild b stage)).blocks b).inputs
          (fun _ wc _ => BuildRel stage cur w wc) () (w.log (.blockBuild b stage))
          (fun pre x rest a1 wc hxs hinv => by
            unfold buildInput
            cases hc : x.connectedPoint with
            | none => exact hinv
            | some c =>
              by_cases hcb : c = b
              · simp only [hcb, if_true]; exact hinv
              · simp only [hcb, if_false]
                have hedge : w.Edge b c := by
                  refine ⟨List.mem_map.2 ⟨x, ?_, hc⟩, hcb⟩
                  show x ∈ ((w.log (.blockBuild b stage)).blocks b).inputs
                  rw [hxs]; simp
                refine (ih c wc (hinv.frame.sharedCur cur hsd) (hb.imp id (fun hr => ?_))).mono
                  (fun w2 _ h2 => hinv.buildTrans h2.1) (fun _ _ h2 => h2)
                obtain ⟨h1, h2, h3, h4⟩ := hr
                refine ⟨?_, hinv.frame.acyclic rank h2, hinv.frame.state_isSome stage h3,
                  hinv.frame.sharedData_isSome h4⟩
                have := h2 b c hedge
                omega)
          r1
        refine hloop.andThen ?_
        intro w2 _ r2
        refine (emitOnce_sat env stage cur b w2 bad (r2.frame.sharedCur cur hsd)
          (hb.imp id (fun hr => ⟨r2.frame.state_isSome stage hr.2.2.1,
            r2.frame.sharedData_isSome hr.2.2.2⟩))).mono
          (fun w3 _ h3 => ⟨r2.buildTrans h3.1, h3.2⟩) (fun _ _ h3 => h3)

/-! ## Resetting the dual blocks -/

theorem sizeDec_ne (x : Nat) : sizeDec x ≠ x := by
  unfold sizeDec
  omega

theorem ResetRel.resetRefl (iId : Nat) (w : World) : ResetRel iId w w :=
  ⟨Frame.frameRefl w, rfl, rfl, fun _ => Or.inl rfl⟩

theorem ResetRel.resetTrans {iId : Nat} {w w1 w2 : World} (h1 : ResetRel iId w w1)
    (h2 : ResetRel iId w1 w2) : ResetRel iId w w2 := by
  refine ⟨h1.frame.frameTrans h2.frame, h2.attached.trans h1.attached, h2.trace.trans h1.trace, ?_⟩
  intro b
  rcases h2.stamps b with h | ⟨ht, h⟩
  · rw [h]; exact h1.stamps b
  · exact Or.inr ⟨by rw [← h1.frame.target]; exact ht, h⟩

theorem _resetDualBlocks_succ (iId fuel node : Nat) (w : World) :
    _resetDualBlocks iId (fuel + 1) node w
      = forEach (resetDualInput (_resetDualBlocks iId fuel) node)
          ((resetNode iId node w).blocks node).inputs () (resetNode iId node w) := rfl

/-- The first step of `_resetDualBlocks`: a dual node gets the id. -/
theorem resetNode_rel (iId node : Nat) (w : World) :
    ResetRel iId w (resetNode iId node w)
    ∧ ((w.blocks node).target = .VertexAndFragment →
      ((resetNode iId node w).blocks node).buildId = iId) := by
  unfold resetNode
  by_cases h : (w.blocks node).target = .VertexAndFragment
  · rw [if_pos h]
    refine ⟨⟨Frame.frameSetBlock w node _ rfl, rfl, rfl, ?_⟩, fun _ => by simp [World.setBlock]⟩
    intro b
    by_cases hb : b = node
    · subst hb; exact Or.inr ⟨h, by simp [World.setBlock]⟩
    · exact Or.inl (by simp [World.setBlock, hb])
  · rw [if_neg h]
    exact ⟨ResetRel.resetRefl iId w, fun h1 => absurd h1 h⟩

/-- The contract of `_resetDualBlocks`: it never throws, and a dual node carries the id
afterwards. With `bad := False` the walk ends on an acyclic graph once the fuel exceeds the
rank of the node. -/
theorem _resetDualBlocks_sat (iId : Nat) (rank : Nat → Nat) (bad : Prop) :
    ∀ (fuel node : Nat) (w : World),
      (bad ∨ (rank node < fuel ∧ w.Acyclic rank)) →
      (_resetDualBlocks iId fuel node w).Sat
        (fun w1 _ => ResetRel iId w w1
          ∧ ((w.blocks node).target = .VertexAndFragment → (w1.blocks node).buildId = iId))
        (fun _ _ => False) bad
  | 0, node, w, hb => by
    rcases hb with hb | ⟨h, _⟩
    · exact hb
    · exact absurd h (Nat.not_lt_zero _)
  | fuel + 1, node, w, hb => by
    have ih := _resetDualBlocks_sat iId rank bad fuel
    rw [_resetDualBlocks_succ]
    obtain ⟨r1, hn1⟩ := resetNode_rel iId node w
    have hloop := forEach_sat (resetDualInput (_resetDualBlocks iId fuel) node)
      (fun _ _ => False) bad ((resetNode iId node w).blocks node).inputs
      (fun _ wc _ => ResetRel iId w wc
        ∧ ((w.blocks node).target = .VertexAndFragment → (wc.blocks node).buildId = iId)) ()
      (resetNode iId node w)
      (fun pre x rest a1 wc hxs hinv => by
        unfold resetDualInput
        cases hc : x.connectedPoint with
        | none => exact hinv
        | some c =>
          by_cases hcb : c = node
          · simp only [hcb, if_true]; exact hinv
          · simp only [hcb, if_false]
            have hedge : w.Edge node c := by
              rw [← r1.frame.edge]
              refine ⟨List.mem_map.2 ⟨x, ?_, hc⟩, hcb⟩
              rw [hxs]; simp
            refine (ih c wc (hb.imp id (fun hr => ?_))).mono ?_ (fun _ _ h2 => h2)
            · refine ⟨?_, hinv.1.frame.acyclic rank hr.2⟩
              have := hr.2 node c hedge
              omega
            · intro w2 _ h2
              refine ⟨hinv.1.resetTrans h2.1, fun ht => ?_⟩
              rcases h2.1.stamps node with h | ⟨_, h⟩
              · rw [h]; exact hinv.2 ht
              · exact h)
      ⟨r1, hn1⟩
    exact hloop

/-! ## The quiet steps and the count of emissions -/

theorem Quiet.quietRefl (w : World) : Quiet w w :=
  ⟨Frame.frameRefl w, rfl, rfl, [], by simp, by simp⟩

theorem Quiet.quietTrans {w w1 w2 : World} (h1 : Quiet w w1) (h2 : Quiet w1 w2) : Quiet w w2 := by
  obtain ⟨e1, ht1, he1⟩ := h1.trace
  obtain ⟨e2, ht2, he2⟩ := h2.trace
  refine ⟨h1.frame.frameTrans h2.frame, h2.blocks.trans h1.blocks, h2.attached.trans h1.attached,
    e1 ++ e2, by rw [ht2, ht1, List.append_assoc], ?_⟩
  intro e he
  rcases List.mem_append.1 he with h | h
  · exact he1 e h
  · exact he2 e h

theorem Quiet.quietLog (w : World) (e : Event) (he : ∀ b st, e ≠ .buildBlock b st) :
    Quiet w (w.log e) :=
  ⟨Frame.frameLog w e, rfl, rfl, [e], rfl, by simpa using he⟩

theorem emissions_eq_zero (evs : List Event) (d : Nat) (stage : Stage)
    (h : ∀ e ∈ evs, ∀ b st, e ≠ .buildBlock b st) : emissions evs d stage = 0 := by
  unfold emissions
  rw [List.count_eq_zero]
  intro hmem
  exact h _ hmem d stage rfl

theorem Emitted.emittedTrans {d : Nat} {w w1 w2 : World} {a b c e : Nat} (h1 : Emitted d w w1 a b)
    (h2 : Emitted d w1 w2 c e) : Emitted d w w2 (a + c) (b + e) := by
  obtain ⟨e1, ht1, hv1, hf1⟩ := h1
  obtain ⟨e2, ht2, hv2, hf2⟩ := h2
  refine ⟨e1 ++ e2, by rw [ht2, ht1, List.append_assoc], ?_, ?_⟩
  · simp only [emissions, List.count_append] at hv1 hv2 ⊢; omega
  · simp only [emissions, List.count_append] at hf1 hf2 ⊢; omega

theorem Quiet.quietEmitted {w w1 : World} (h : Quiet w w1) (d : Nat) : Emitted d w w1 0 0 := by
  obtain ⟨evs, ht, he⟩ := h.trace
  exact ⟨evs, ht, emissions_eq_zero evs d _ he, emissions_eq_zero evs d _ he⟩

theorem InitRel.initEmitted {w w1 : World} (h : InitRel w w1) (d : Nat) : Emitted d w w1 0 0 := by
  obtain ⟨evs, ht, he⟩ := h.trace
  have hq : ∀ e ∈ evs, ∀ b st, e ≠ .buildBlock b st := by
    intro e hmem b st heq
    have := he e hmem
    rw [heq] at this
    cases this
  exact ⟨evs, ht, emissions_eq_zero evs d _ hq, emissions_eq_zero evs d _ hq⟩

theorem ResetRel.resetEmitted {iId : Nat} {w w1 : World} (h : ResetRel iId w w1) (d : Nat) :
    Emitted d w w1 0 0 :=
  ⟨[], by simp [h.trace], rfl, rfl⟩

theorem BuildRel.emitted_vertex {cur : Nat} {w w1 : World} (h : BuildRel .vertex cur w w1)
    (d : Nat) (hold : (w.blocks d).buildId ≠ cur) (hnew : (w1.blocks d).buildId = cur) :
    Emitted d w w1 1 0 := by
  obtain ⟨evs, ht, he⟩ := h.trace
  refine ⟨evs, ht, ?_, ?_⟩
  · rw [he d .vertex]; simp [hold, hnew]
  · rw [he d .fragment]; simp

theorem BuildRel.emitted_fragment {cur : Nat} {w w1 : World} (h : BuildRel .fragment cur w w1)
    (d : Nat) (hold : (w.blocks d).buildId ≠ cur) (hnew : (w1.blocks d).buildId = cur) :
    Emitted d w w1 0 1 := by
  obtain ⟨evs, ht, he⟩ := h.trace
  refine ⟨evs, ht, ?_, ?_⟩
  · rw [he d .vertex]; simp
  · rw [he d .fragment]; simp [hold, hnew]

theorem optimize_quiet (w : World) : Quiet w (optimize w) := by
  unfold optimize
  generalize w.mat._optimizers = l
  induction l generalizing w with
  | nil => exact Quiet.quietRefl w
  | cons o os ih =>
    exact (Quiet.quietLog w (.optimize o) (fun _ _ h => by cases h)).quietTrans (ih (w.log (.optimize o)))

theorem shareVertexDeclarations_sat (w : World) (bad : Prop)
    (hb : bad ∨ ((w.state .vertex).isSome ∧ (w.state .fragment).isSome)) :
    (shareVertexDeclarations w).Sat (fun w1 _ => Quiet w w1) (fun _ _ => False) bad := by
  unfold shareVertexDeclarations
  cases hv : w.mat._vertexCompilationState with
  | none =>
    rcases hb with hb | ⟨h, _⟩
    · exact hb
    · simp [World.state, hv] at h
  | some vs =>
    cases hf : w.mat._fragmentCompilationState with
    | none =>
      rcases hb with hb | ⟨_, h⟩
      · exact hb
      · simp [World.state, hf] at h
    | some fs =>
      refine ⟨⟨fun _ => rfl, rfl, fun st => ?_, rfl, rfl, rfl, rfl, rfl, rfl⟩, rfl, rfl, [],
        by simp [World.setMat], by simp⟩
      cases st <;> simp [World.state, World.setMat, hf]

theorem finalizeStates_sat (env : Env) (w : World) (bad : Prop)
    (hb : bad ∨ ((w.state .vertex).isSome ∧ (w.state .fragment).isSome)) :
    (finalizeStates env w).Sat (fun w1 _ => Quiet w w1) (fun _ _ => False) bad := by
  unfold finalizeStates
  cases hv : w.mat._vertexCompilationState with
  | none =>
    rcases hb with hb | ⟨h, _⟩
    · exact hb
    · simp [World.state, hv] at h
  | some vs =>
    have q1 : Quiet w ((w.log (.finalize .vertex)).setState .vertex
        { env.finalize vs with target := vs.target }) :=
      (Quiet.quietLog w _ (fun _ _ h => by cases h)).quietTrans
        ⟨Frame.setState _ .vertex _ vs hv rfl, rfl, rfl, [], by simp [World.setState,
          World.setMat], by simp⟩
    cases hf : w.mat._fragmentCompilationState with
    | none =>
      have hf1 : ((w.log (.finalize .vertex)).setState .vertex
          { env.finalize vs with target := vs.target }).mat._fragmentCompilationState
          = none := hf
      simp only [hf1]
      rcases hb with hb | ⟨_, h⟩
      · exact hb
      · simp [World.state, hf] at h
    | some fs =>
      have hf1 : ((w.log (.finalize .vertex)).setState .vertex
          { env.finalize vs with target := vs.target }).mat._fragmentCompilationState
          = some fs := hf
      simp only [hf1]
      exact q1.quietTrans ((Quiet.quietLog _ (.finalize .fragment) (fun _ _ h => by cases h)).quietTrans
        ⟨Frame.setState _ .fragment _ fs hf1 rfl, rfl, rfl, [], by simp [World.setState,
          World.setMat], by simp⟩)

/-! ## The stages of the build -/

/-- Lines 421-423 and 435-437: every node of the list carries the current build id
afterwards. -/
theorem buildNodes_sat (env : Env) (stage : Stage) (rank : Nat → Nat) (bad : Prop)
    (cur fuel : Nat) (nodes : List Nat) (w : World)
    (hsd : ∀ sd, w.mat._sharedData = some sd → sd.buildId = cur)
    (hb : bad ∨ ((∀ b, rank b < fuel) ∧ w.Acyclic rank ∧ (w.state stage).isSome
      ∧ w.mat._sharedData.isSome)) :
    (forEach (fun node _u w => blockBuild env stage fuel node w) nodes () w).Sat
      (fun w1 _ => BuildRel stage cur w w1 ∧ ∀ n ∈ nodes, (w1.blocks n).buildId = cur)
      (fun _ _ => False) bad := by
  refine forEach_sat (fun node _u w => blockBuild env stage fuel node w) (fun _ _ => False) bad
    nodes (fun pre wc _ => BuildRel stage cur w wc ∧ ∀ n ∈ pre, (wc.blocks n).buildId = cur)
    () w ?_ ⟨BuildRel.buildRefl stage cur w, fun n hn => by cases hn⟩
  rintro pre x rest a1 wc _ ⟨r, hst⟩
  refine (blockBuild_sat env stage rank bad cur fuel x wc (r.frame.sharedCur cur hsd)
    (hb.imp id (fun h => ⟨h.1 x, r.frame.acyclic rank h.2.1, r.frame.state_isSome stage h.2.2.1,
      r.frame.sharedData_isSome h.2.2.2⟩))).mono ?_ (fun _ _ h => h)
  rintro w2 _ ⟨r2, hx⟩
  refine ⟨r.buildTrans r2, ?_⟩
  intro n hn
  rcases List.mem_append.1 hn with hn | hn
  · rcases r2.stamps n with h | h
    · rw [h]; exact hst n hn
    · exact h
  · rw [List.mem_singleton.1 hn]; exact hx

/-- Lines 431-433: every dual node of the list carries the id `_buildId - 1` afterwards. -/
theorem resetNodes_sat (rank : Nat → Nat) (bad : Prop) (fuel : Nat) (nodes : List Nat)
    (w : World) (hb : bad ∨ ((∀ b, rank b < fuel) ∧ w.Acyclic rank)) :
    (forEach (fun node _u w => _resetDualBlocks (sizeDec w.mat._buildId) fuel node w)
      nodes () w).Sat
      (fun w1 _ => ResetRel (sizeDec w.mat._buildId) w w1
        ∧ ∀ n ∈ nodes, (w.blocks n).target = .VertexAndFragment →
            (w1.blocks n).buildId = sizeDec w.mat._buildId)
      (fun _ _ => False) bad := by
  refine forEach_sat (fun node _u w => _resetDualBlocks (sizeDec w.mat._buildId) fuel node w)
    (fun _ _ => False) bad nodes
    (fun pre wc _ => ResetRel (sizeDec w.mat._buildId) w wc
      ∧ ∀ n ∈ pre, (w.blocks n).target = .VertexAndFragment →
          (wc.blocks n).buildId = sizeDec w.mat._buildId)
    () w ?_ ⟨ResetRel.resetRefl _ w, fun n hn => by cases hn⟩
  rintro pre x rest a1 wc _ ⟨r, hst⟩
  show (_resetDualBlocks (sizeDec wc.mat._buildId) fuel x wc).Sat _ _ _
  rw [r.frame.matBuildId]
  refine (_resetDualBlocks_sat (sizeDec w.mat._buildId) rank bad fuel x wc
    (hb.imp id (fun h => ⟨h.1 x, r.frame.acyclic rank h.2⟩))).mono ?_ (fun _ _ h => h)
  rintro w2 _ ⟨r2, hx⟩
  refine ⟨r.resetTrans r2, ?_⟩
  intro n hn ht
  rcases List.mem_append.1 hn with hn | hn
  · rcases r2.stamps n with h | ⟨_, h⟩
    · rw [h]; exact hst n hn ht
    · exact h
  · rw [List.mem_singleton.1 hn]
    rw [List.mem_singleton.1 hn] at ht
    exact hx (by rw [r.frame.target]; exact ht)

/-- Lines 417-441 never throw, keep the frame and the attached blocks, and emit the code
of a dual block that stands on both node lists, and does not carry the current build id
at the start, exactly once into each stage. -/
theorem buildStages_sat (env : Env) (rank : Nat → Nat) (bad : Prop) (fuel : Nat)
    (nodes : List Nat × List Nat) (w : World)
    (hsd : ∀ sd, w.mat._sharedData = some sd → sd.buildId = w.mat._buildId)
    (hb : bad ∨ StagesReady w rank fuel) :
    (buildStages env fuel nodes w).Sat
      (fun w1 _ => Frame w w1 ∧ w1.mat.attachedBlocks = w.mat.attachedBlocks
        ∧ ∀ d, d ∈ nodes.1 → d ∈ nodes.2 → (w.blocks d).target = .VertexAndFragment →
            (w.blocks d).buildId ≠ w.mat._buildId → Emitted d w w1 1 1)
      (fun _ _ => False) bad := by
  unfold buildStages
  have q1 := optimize_quiet w
  have hv := buildNodes_sat env .vertex rank bad w.mat._buildId fuel nodes.1 (optimize w)
    (q1.frame.sharedCur _ hsd)
    (hb.imp id (fun h => ⟨h.1, q1.frame.acyclic rank h.2.1, q1.frame.state_isSome _ h.2.2.1,
      q1.frame.sharedData_isSome h.2.2.2.2⟩))
  refine hv.andThen ?_
  rintro w2 _ ⟨r2, hst2⟩
  have f2 : Frame w w2 := q1.frame.frameTrans r2.frame
  have hs := shareVertexDeclarations_sat w2 bad
    (hb.imp id (fun h => ⟨f2.state_isSome _ h.2.2.1, f2.state_isSome _ h.2.2.2.1⟩))
  refine hs.andThen ?_
  intro w3 _ q3
  have f3 : Frame w w3 := f2.frameTrans q3.frame
  have hr := resetNodes_sat rank bad fuel nodes.2 w3
    (hb.imp id (fun h => ⟨h.1, f3.acyclic rank h.2.1⟩))
  refine hr.andThen ?_
  rintro w4 _ ⟨r4, hst4⟩
  have f4 : Frame w w4 := f3.frameTrans r4.frame
  have hf := buildNodes_sat env .fragment rank bad w.mat._buildId fuel nodes.2 w4
    (f4.sharedCur _ hsd)
    (hb.imp id (fun h => ⟨h.1, f4.acyclic rank h.2.1, f4.state_isSome _ h.2.2.2.1,
      f4.sharedData_isSome h.2.2.2.2⟩))
  refine hf.andThen ?_
  rintro w5 _ ⟨r5, hst5⟩
  have f5 : Frame w w5 := f4.frameTrans r5.frame
  have hz := finalizeStates_sat env w5 bad
    (hb.imp id (fun h => ⟨f5.state_isSome _ h.2.2.1, f5.state_isSome _ h.2.2.2.1⟩))
  refine hz.mono ?_ (fun _ _ h => h)
  intro w6 _ q6
  refine ⟨f5.frameTrans q6.frame, ?_, ?_⟩
  · rw [q6.attached, r5.attached, r4.attached, q3.attached, r2.attached, q1.attached]
  · intro d hd1 hd2 hdual hfresh
    have e1 := q1.quietEmitted d
    have e2 : Emitted d (optimize w) w2 1 0 :=
      r2.emitted_vertex d (by rw [q1.blocks]; exact hfresh) (hst2 d hd1)
    have e3 := q3.quietEmitted d
    have e4 := r4.resetEmitted d
    have hold4 : (w4.blocks d).buildId ≠ w.mat._buildId := by
      rw [hst4 d hd2 (by rw [f3.target]; exact hdual), f3.matBuildId]
      exact sizeDec_ne _
    have e5 : Emitted d w4 w5 0 1 := r5.emitted_fragment d hold4 (hst5 d hd2)
    have e6 := q6.quietEmitted d
    have := ((((e1.emittedTrans e2).emittedTrans e3).emittedTrans e4).emittedTrans e5).emittedTrans e6
    simpa using this

/-! ## The end of the build -/

theorem wipeSubMeshDefines_same (w : World) (subMesh : Nat) :
    (wipeSubMeshDefines w subMesh).mat = w.mat ∧ (wipeSubMeshDefines w subMesh).blocks = w.blocks
      ∧ (wipeSubMeshDefines w subMesh).trace = w.trace
      ∧ (wipeSubMeshDefines w subMesh).meshes = w.meshes := by
  unfold wipeSubMeshDefines
  split
  · split <;> exact ⟨rfl, rfl, rfl, rfl⟩
  · exact ⟨rfl, rfl, rfl, rfl⟩

theorem wipeSubMeshes_same (l : List Nat) : ∀ w : World,
    (l.foldl wipeSubMeshDefines w).mat = w.mat ∧ (l.foldl wipeSubMeshDefines w).blocks = w.blocks
      ∧ (l.foldl wipeSubMeshDefines w).trace = w.trace
      ∧ (l.foldl wipeSubMeshDefines w).meshes = w.meshes := by
  induction l with
  | nil => intro w; exact ⟨rfl, rfl, rfl, rfl⟩
  | cons x xs ih =>
    intro w
    obtain ⟨h1, h2, h3, h4⟩ := ih (wipeSubMeshDefines w x)
    obtain ⟨k1, k2, k3, k4⟩ := wipeSubMeshDefines_same w x
    exact ⟨h1.trans k1, h2.trans k2, h3.trans k3, h4.trans k4⟩

theorem wipeDefines_same (w : World) :
    (wipeDefines w).mat = w.mat ∧ (wipeDefines w).blocks = w.blocks
      ∧ (wipeDefines w).trace = w.trace := by
  unfold wipeDefines
  generalize w.scene.meshes = l
  induction l generalizing w with
  | nil => exact ⟨rfl, rfl, rfl⟩
  | cons m ms ih =>
    obtain ⟨h1, h2, h3⟩ := ih ((w.meshes m).subMeshes.foldl wipeSubMeshDefines w)
    obtain ⟨k1, k2, k3, _⟩ := wipeSubMeshes_same (w.meshes m).subMeshes w
    exact ⟨h1.trans k1, h2.trans k2, h3.trans k3⟩

/-- The verbose log never throws and only logs. -/
theorem logShaders_sat (verbose : Bool) (w : World) (bad : Prop)
    (hb : bad ∨ ((w.state .vertex).isSome ∧ (w.state .fragment).isSome)) :
    (logShaders verbose w).Sat
      (fun w1 _ => w1.mat = w.mat ∧ w1.blocks = w.blocks
        ∧ ∃ evs, w1.trace = w.trace ++ evs ∧ ∀ e ∈ evs, ∀ b st, e ≠ .buildBlock b st)
      (fun _ _ => False) bad := by
  unfold logShaders
  cases verbose with
  | false => exact ⟨rfl, rfl, [], by simp, by simp⟩
  | true =>
    simp only [if_true]
    cases hv : w.mat._vertexCompilationState with
    | none =>
      rcases hb with hb | ⟨h, _⟩
      · exact hb
      · simp [World.state, hv] at h
    | some vs =>
      cases hf : w.mat._fragmentCompilationState with
      | none =>
        rcases hb with hb | ⟨_, h⟩
        · exact hb
        · simp [World.state, hf] at h
      | some fs =>
        refine ⟨rfl, rfl, [.logInfo "Vertex shader:", .logInfo vs.compilationString,
          .logInfo "Fragment shader:", .logInfo fs.compilationString],
          by simp [World.log], ?_⟩
        intro e he b st heq
        subst heq
        simp at he

/-- Lines 443-477 never throw; when they return, the success flag is up, the blocks and
the attached blocks are untouched and no block code was emitted. -/
theorem completeBuild_sat (verbose : Bool) (w : World) (bad : Prop)
    (hb : bad ∨ ((w.state .vertex).isSome ∧ (w.state .fragment).isSome)) :
    (completeBuild verbose w).Sat
      (fun w1 _ => w1.mat._buildWasSuccessful = true ∧ w1.blocks = w.blocks
        ∧ w1.mat.attachedBlocks = w.mat.attachedBlocks ∧ ∀ d, Emitted d w w1 0 0)
      (fun _ _ => False) bad := by
  unfold completeBuild
  refine (logShaders_sat verbose ((nextBuildId w).log .emitErrors) bad hb).andThen ?_
  rintro w3 _ ⟨hm, hbk, evs, ht, he⟩
  obtain ⟨h1, h2, h3⟩ := wipeDefines_same (markSuccessful w3)
  refine ⟨by rw [h1]; rfl, by rw [h2]; exact hbk, ?_, fun d => ?_⟩
  · rw [h1]
    show w3.mat.attachedBlocks = _
    rw [hm]; rfl
  · have hq : ∀ e ∈ Event.emitErrors :: (evs ++ [Event.notifyBuildObservers]),
        ∀ b st, e ≠ .buildBlock b st := by
      intro e hmem b st heq
      subst heq
      rcases List.mem_cons.1 hmem with h | h
      · cases h
      · rcases List.mem_append.1 h with h | h
        · exact he _ h b st rfl
        · cases List.mem_singleton.1 h
    refine ⟨Event.emitErrors :: (evs ++ [Event.notifyBuildObservers]), ?_,
      emissions_eq_zero _ d _ hq, emissions_eq_zero _ d _ hq⟩
    rw [h3]
    show w3.trace ++ [Event.notifyBuildObservers] = _
    rw [ht]
    simp [World.log, nextBuildId]

theorem Outcome.Sat.cases {α : Type} {o : Outcome α} {post : World → α → Prop}
    {err : World → String → Prop} (h : o.Sat post err False) :
    (∃ w a, o = .done w a ∧ post w a) ∨ (∃ w what, o = .raised w what ∧ err w what) := by
  cases o with
  | done w a => exact Or.inl ⟨w, a, rfl, h⟩
  | raised w m => exact Or.inr ⟨w, m, rfl, h⟩
  | crashed => exact h.elim
  | diverged => exact h.elim

/-! ## The contract of build -/

theorem build_crashes_without_options (env : Env) (fuel : Nat) (verbose : Bool) (w : World)
    (hv : w.mat._vertexOutputNodes ≠ []) (hf : w.mat._fragmentOutputNodes ≠ [])
    (ho : w.mat._options = none) : build env fuel verbose w = .crashed := by
  simp only [build, World.setMat, List.isEmpty_iff, hv, hf, if_false, allocateStates, ho,
    Outcome.andThen]

/-- The contract of `build`. When it returns the success flag is up and every dual block
reached from both kinds of output nodes had its code emitted exactly once into each
stage; when it throws the flag is down, no block code was emitted and the error is one of
the three configuration errors. With `bad := False`: given the options, an acyclic graph
and fuel beyond every rank, `build` ends. -/
theorem build_sat (env : Env) (rank : Nat → Nat) (bad : Prop) (fuel : Nat) (verbose : Bool)
    (w : World)
    (hb : bad ∨ (w.mat._options.isSome ∧ (∀ b, rank b < fuel) ∧ w.Acyclic rank)) :
    (build env fuel verbose w).Sat
      (fun w1 _ => w1.mat._buildWasSuccessful = true
        ∧ ∀ d, w.DualReached d → Emitted d w w1 1 1)
      (fun w1 what => w1.mat._buildWasSuccessful = false ∧ BuildError w what
        ∧ ∀ d, Emitted d w w1 0 0) bad := by
  by_cases hv : w.mat._vertexOutputNodes = []
  · have : build env fuel verbose w
        = .raised (w.setMat { w.mat with _buildWasSuccessful := false }) noVertexOutputNode := by
      simp [build, World.setMat, hv]
    rw [this]
    exact ⟨rfl, Or.inl ⟨rfl, hv⟩, fun d => ⟨[], by simp [World.setMat], rfl, rfl⟩⟩
  by_cases hf : w.mat._fragmentOutputNodes = []
  · have : build env fuel verbose w
        = .raised (w.setMat { w.mat with _buildWasSuccessful := false })
            noFragmentOutputNode := by
      simp [build, World.setMat, hv, hf]
    rw [this]
    exact ⟨rfl, Or.inr (Or.inl ⟨rfl, hf⟩), fun d => ⟨[], by simp [World.setMat], rfl, rfl⟩⟩
  cases ho : w.mat._options with
  | none =>
    rw [build_crashes_without_options env fuel verbose w hv hf ho]
    rcases hb with hb | ⟨h, _⟩
    · exact hb
    · rw [ho] at h; exact absurd h (by simp)
  | some options =>
    obtain ⟨wa, hal, heq⟩ := build_eq env fuel verbose w hv hf (by rw [ho]; rfl)
    rw [heq]
    have ea : ∀ d, Emitted d w wa 0 0 := fun d => ⟨[], by simp [hal.trace], rfl, rfl⟩
    have hinit := initializeBlocks_sat env rank bad fuel wa
      (hb.imp id (fun h => hal.initReady rank fuel h.2.2 (fun o _ => h.2.1 o)))
    refine (hinit.mono (q := InitBlocksPost wa)
      (f := fun w1 what => w1.mat._buildWasSuccessful = false ∧ BuildError w what
        ∧ ∀ d, Emitted d w w1 0 0) (fun _ _ h => h) ?_).andThen ?_
    · rintro w2 what ⟨o, _, r, x, _, _, hm, _⟩
      refine ⟨by rw [r.frame.flag]; exact hal.flag, Or.inr (Or.inr ⟨x, ?_⟩), fun d => ?_⟩
      · rw [hm, hal.blocks]
      · simpa using (ea d).emittedTrans (r.initEmitted d)
    rintro w2 nodes ⟨r2, hdv, hdf⟩
    obtain ⟨sd, hsd, hsdb⟩ := hal.sharedData
    have hcur2 : w2.mat._buildId = w.mat._buildId := r2.frame.matBuildId.trans hal.matBuildId
    have hsd2 : ∀ sd, w2.mat._sharedData = some sd → sd.buildId = w2.mat._buildId := by
      rw [hcur2]
      exact r2.frame.sharedCur _ (fun sd1 h1 => by rw [hsd] at h1; cases h1; exact hsdb)
    have hready := fun (h : w.mat._options.isSome ∧ (∀ b, rank b < fuel) ∧ w.Acyclic rank) =>
      hal.initReady rank fuel h.2.2 (fun o _ => h.2.1 o)
    have hstages := buildStages_sat env rank bad fuel nodes w2 hsd2
      (hb.imp id (fun h => ⟨h.2.1, r2.frame.acyclic rank (hready h).2.1,
        r2.frame.state_isSome _ (hready h).2.2.1, r2.frame.state_isSome _ (hready h).2.2.2.1,
        r2.frame.sharedData_isSome (hready h).2.2.2.2⟩))
    refine (hstages.mono (fun _ _ h => h) (fun _ _ h => h.elim)).andThen ?_
    rintro w3 _ ⟨f3, _, hem⟩
    have hdone := completeBuild_sat verbose w3 bad
      (hb.imp id (fun h => ⟨f3.state_isSome _ (r2.frame.state_isSome _ (hready h).2.2.1),
        f3.state_isSome _ (r2.frame.state_isSome _ (hready h).2.2.2.1)⟩))
    refine hdone.mono ?_ (fun _ _ h => h.elim)
    rintro w4 _ ⟨hflag, _, _, he4⟩
    refine ⟨hflag, ?_⟩
    rintro d ⟨hdual, ⟨v, hv1, hvd⟩, ⟨f, hf1, hfd⟩, hfresh⟩
    have hd2 : d ∈ nodes.2 :=
      (hdv v (by rw [hal.vertexOutputNodes]; exact hv1)).2.2 d (by rw [hal.blocks]; exact hdual)
        (by rw [hal.allocReachPlus]; exact hvd)
    have hd1 : d ∈ nodes.1 :=
      (hdf f (by rw [hal.fragmentOutputNodes]; exact hf1)).2.2 d
        (by rw [hal.blocks]; exact hdual) (by rw [hal.allocReachPlus]; exact hfd)
    have e3 := hem d hd1 hd2 (by rw [r2.frame.target, hal.blocks]; exact hdual)
      (by rw [r2.buildId, hal.blocks, hcur2]; exact hfresh)
    simpa using (((ea d).emittedTrans (r2.initEmitted d)).emittedTrans e3).emittedTrans (he4 d)

/-! ## The success flag -/

theorem addOutputNode_flag (node : Nat) (w w1 : World)
    (h : (addOutputNode node w).after = some w1) :
    w1.mat._buildWasSuccessful = w.mat._buildWasSuccessful := by
  unfold addOutputNode at h
  split at h
  · cases h; rfl
  · simp only [Outcome.after, Option.some.injEq] at h
    subst h
    unfold _addVertexOutputNode _addFragmentOutputNode
    split <;> split <;> (try split) <;> (try split) <;> rfl

theorem removeOutputNode_flag (node : Nat) (w : World) :
    (removeOutputNode node w).mat._buildWasSuccessful = w.mat._buildWasSuccessful := by
  simp only [removeOutputNode]
  split_ifs <;> rfl

theorem removeBlock_flag (block : Nat) (w : World) :
    (removeBlock block w).mat._buildWasSuccessful = w.mat._buildWasSuccessful := by
  simp only [removeBlock]
  split_ifs
  · exact removeOutputNode_flag block _
  · rfl

theorem isReadyForSubMesh_not_built (env : Env) (mesh subMesh : Nat) (useInstances : Bool)
    (w : World) (h : w.mat._buildWasSuccessful = false) :
    isReadyForSubMesh env mesh subMesh useInstances w = .done w false := by
  simp [isReadyForSubMesh, h]

theorem build_raised_flag (env : Env) (fuel : Nat) (verbose : Bool) (w w1 : World)
    (what : String) (h : build env fuel verbose w = .raised w1 what) :
    w1.mat._buildWasSuccessful = false := by
  have hs := build_sat env (fun _ => 0) True fuel verbose w (Or.inl trivial)
  rw [h] at hs
  exact hs.1

theorem build_done_flag (env : Env) (fuel : Nat) (verbose : Bool) (w w1 : World)
    (h : build env fuel verbose w = .done w1 ()) : w1.mat._buildWasSuccessful = true := by
  have hs := build_sat env (fun _ => 0) True fuel verbose w (Or.inl trivial)
  rw [h] at hs
  exact hs.1

/-- A call that is not a completed build leaves a lowered flag down. -/
theorem flag_stays_down (env : Env) (c : Call) (w w1 : World)
    (hflag : w.mat._buildWasSuccessful = false) (hc : ¬ c.completesBuild env w)
    (h : c.after env w = some w1) : w1.mat._buildWasSuccessful = false := by
  cases c with
  | addOutputNode node => rw [addOutputNode_flag node w w1 h]; exact hflag
  | removeOutputNode node =>
    simp only [Call.after, Option.some.injEq] at h
    rw [← h, removeOutputNode_flag]; exact hflag
  | removeBlock block =>
    simp only [Call.after, Option.some.injEq] at h
    rw [← h, removeBlock_flag]; exact hflag
  | clear =>
    simp only [Call.after, Option.some.injEq] at h
    rw [← h]; exact hflag
  | isReadyForSubMesh mesh subMesh useInstances =>
    simp only [Call.after, isReadyForSubMesh_not_built env mesh subMesh useInstances w hflag,
      Outcome.after, Option.some.injEq] at h
    rw [← h]; exact hflag
  | build fuel verbose =>
    simp only [Call.after] at h
    cases hb : build env fuel verbose w with
    | done w2 u => exact absurd ⟨w2, hb⟩ hc
    | raised w2 what =>
      rw [hb] at h
      simp only [Outcome.after, Option.some.injEq] at h
      rw [← h]
      exact build_raised_flag env fuel verbose w w2 what hb
    | crashed => rw [hb] at h; cases h
    | diverged => rw [hb] at h; cases h

/-- C4: when `build` throws, the success flag is down at the throw, whatever it was
before the call; it stays down through every sequence of calls (output-node changes,
`removeBlock`, `clear`, readiness checks, builds that throw) that contains no `build`
that runs to completion, and in every world so reached `isReadyForSubMesh` returns false
for every mesh and sub-mesh without touching the world. The only call that raises a
lowered flag is a `build` that runs to completion, and such a build does raise it. -/
theorem build_failure_keeps_flag_down (env : Env) (fuel : Nat) (verbose : Bool)
    (w w1 w2 : World) (what : String)
    (hraise : build env fuel verbose w = .raised w1 what)
    (hrun : NoBuildCompleted env w1 w2) :
    w1.mat._buildWasSuccessful = false ∧ w2.mat._buildWasSuccessful = false
      ∧ (∀ mesh subMesh useInstances,
          isReadyForSubMesh env mesh subMesh useInstances w2 = .done w2 false)
      ∧ (∀ (c : Call) (wa wb : World), wa.mat._buildWasSuccessful = false →
          c.after env wa = some wb → wb.mat._buildWasSuccessful = true →
          c.completesBuild env wa)
      ∧ (∀ fuel1 verbose1 (wa wb : World), build env fuel1 verbose1 wa = .done wb () →
          wb.mat._buildWasSuccessful = true) := by
  have h1 := build_raised_flag env fuel verbose w w1 what hraise
  have h2 : w2.mat._buildWasSuccessful = false := by
    induction hrun with
    | refl => exact h1
    | step c _ hc hafter ih => exact flag_stays_down env c _ _ ih hc hafter
  refine ⟨h1, h2, fun mesh subMesh useInstances =>
    isReadyForSubMesh_not_built env mesh subMesh useInstances w2 h2, ?_, ?_⟩
  · intro c wa wb hflag hafter htrue
    by_contra hc
    have := flag_stays_down env c wa wb hflag hc hafter
    rw [this] at htrue
    cases htrue
  · intro fuel1 verbose1 wa wb hdone
    exact build_done_flag env fuel1 verbose1 wa wb hdone

/-- Witness of C4: the new material of the example world has no output node, so `build`
throws; a readiness check follows. -/
theorem build_failure_keeps_flag_down_witness :
    (exampleWorld.setMat
        { exampleWorld.mat with _buildWasSuccessful := false }).mat._buildWasSuccessful = false
      ∧ ∀ mesh subMesh useInstances,
          isReadyForSubMesh exampleEnv mesh subMesh useInstances
            (exampleWorld.setMat { exampleWorld.mat with _buildWasSuccessful := false })
          = .done (exampleWorld.setMat { exampleWorld.mat with _buildWasSuccessful := false })
              false :=
  have h := build_failure_keeps_flag_down exampleEnv 5 false exampleWorld
    (exampleWorld.setMat { exampleWorld.mat with _buildWasSuccessful := false })
    (exampleWorld.setMat { exampleWorld.mat with _buildWasSuccessful := false })
    noVertexOutputNode rfl
    (NoBuildCompleted.step (.isReadyForSubMesh 0 0 false) (NoBuildCompleted.refl _)
      (fun h => h) rfl)
  ⟨h.1, h.2.2.1⟩

/-! ## Dual blocks -/

theorem wiredWorld_acyclic : wiredWorld.Acyclic exampleRank := by
  intro a c h
  obtain ⟨h1, h2⟩ := h
  by_cases h0 : a = 0
  · subst h0
    simp [wiredWorld, exampleWorld, exampleBlock] at h1
    subst h1; decide
  · by_cases h1a : a = 1
    · subst h1a
      simp [wiredWorld, exampleWorld, exampleBlock] at h1
      subst h1; decide
    · by_cases h2a : a = 2
      · subst h2a
        simp [wiredWorld, exampleWorld, exampleBlock] at h1
        subst h1; decide
      · simp [wiredWorld, exampleWorld, exampleBlock, h0, h1a, h2a] at h1

theorem reachPlus_of_reach_of_target {w : World} {o d : Nat} (h : w.Reach o d)
    (ht : (w.blocks o).target ≠ (w.blocks d).target) : w.ReachPlus o d := by
  rcases Relation.reflTransGen_iff_eq_or_transGen.1 h with h1 | h1
  · subst h1; exact absurd rfl ht
  · exact h1

/-- The build of the wired example world completes: the first alternative of C6 is the
one that happens there. -/
theorem wiredWorld_build_completes :
    ∃ w1, build exampleEnv 3 false wiredWorld = .done w1 () := ⟨_, rfl⟩

/-! ## Build states after a failed build -/

/-- C5, as amended: for every material with zero vertex-output nodes registered, `build`
throws the configuration error and leaves the two compilation states and the Shared Data
exactly as they were before the call; a material that had none (a new one) retains none. -/
theorem build_without_vertex_output_keeps_states (env : Env) (fuel : Nat) (verbose : Bool)
    (w : World) (h : w.mat._vertexOutputNodes = []) :
    ∃ w1, build env fuel verbose w = .raised w1 noVertexOutputNode
      ∧ w1.mat._vertexCompilationState = w.mat._vertexCompilationState
      ∧ w1.mat._fragmentCompilationState = w.mat._fragmentCompilationState
      ∧ w1.mat._sharedData = w.mat._sharedData :=
  ⟨w.setMat { w.mat with _buildWasSuccessful := false }, by simp [build, World.setMat, h],
    rfl, rfl, rfl⟩

/-- Witness of the amended C5: the new material of the example world retains no state. -/
theorem build_without_vertex_output_keeps_states_witness :
    exampleWorld.mat._vertexCompilationState = none
      ∧ ∃ w1, build exampleEnv 3 false exampleWorld = .raised w1 noVertexOutputNode
        ∧ w1.mat._vertexCompilationState = exampleWorld.mat._vertexCompilationState
        ∧ w1.mat._fragmentCompilationState = exampleWorld.mat._fragmentCompilationState
        ∧ w1.mat._sharedData = exampleWorld.mat._sharedData :=
  ⟨rfl, build_without_vertex_output_keeps_states exampleEnv 3 false exampleWorld rfl⟩

/-- C5 fails as stated: the wired example world is built with success, its vertex output
node is removed, and the next `build` throws for want of a vertex output node while the
material still holds the two compilation states and the Shared Data of the first build. -/
theorem build_failure_retains_stale_states :
    build exampleEnv 3 false wiredWorld = .done builtWorld ()
      ∧ builtWorld.mat._buildWasSuccessful = true
      ∧ (removeOutputNode 0 builtWorld).mat._vertexOutputNodes = []
      ∧ ∃ w1, build exampleEnv 3 false (removeOutputNode 0 builtWorld)
          = .raised w1 noVertexOutputNode
        ∧ w1.mat._vertexCompilationState.isSome = true
        ∧ w1.mat._fragmentCompilationState.isSome = true
        ∧ w1.mat._sharedData.isSome = true :=
  ⟨rfl, rfl, rfl, _, rfl, rfl, rfl, rfl⟩

/-! ## The readiness check before the defines check -/

theorem SubMeshKept.keptRefl (w : World) : SubMeshKept w w := ⟨rfl, fun _ => rfl, rfl, rfl, rfl, rfl⟩

theorem SubMeshKept.keptTrans {w w1 w2 : World} (h1 : SubMeshKept w w1) (h2 : SubMeshKept w1 w2) :
    SubMeshKept w w2 :=
  ⟨h2.effects.trans h1.effects, fun s => (h2.effect s).trans (h1.effect s),
    h2.scene.trans h1.scene, h2.meshes.trans h1.meshes, h2.sharedData.trans h1.sharedData,
    h2.hotSwap.trans h1.hotSwap⟩

theorem SubMeshKept.keptLog (w : World) (e : Event) : SubMeshKept w (w.log e) :=
  ⟨rfl, fun _ => rfl, rfl, rfl, rfl, rfl⟩

theorem StatesKept.statesRefl (P : Event → Prop) (w : World) : StatesKept P w w :=
  ⟨rfl, rfl, [], by simp, by simp⟩

theorem StatesKept.statesTrans {P : Event → Prop} {w w1 w2 : World} (h1 : StatesKept P w w1)
    (h2 : StatesKept P w1 w2) : StatesKept P w w2 := by
  obtain ⟨e1, ht1, he1⟩ := h1.trace
  obtain ⟨e2, ht2, he2⟩ := h2.trace
  refine ⟨h2.vertexState.trans h1.vertexState, h2.fragmentState.trans h1.fragmentState,
    e1 ++ e2, by rw [ht2, ht1, List.append_assoc], ?_⟩
  intro e he
  rcases List.mem_append.1 he with h | h
  · exact he1 e h
  · exact he2 e h

theorem StatesKept.statesMono {P Q : Event → Prop} {w w1 : World} (h : StatesKept P w w1)
    (hpq : ∀ e, P e → Q e) : StatesKept Q w w1 := by
  obtain ⟨evs, ht, he⟩ := h.trace
  exact ⟨h.vertexState, h.fragmentState, evs, ht, fun e hmem => hpq e (he e hmem)⟩

theorem StatesKept.statesLog (P : Event → Prop) (w : World) (e : Event) (he : P e) :
    StatesKept P w (w.log e) :=
  ⟨rfl, rfl, [e], rfl, by simpa using he⟩

theorem setDefines_subMeshKept (w : World) (subMesh : Nat) (d : NodeMaterialDefines) :
    SubMeshKept w (w.setDefines subMesh d) := by
  refine ⟨rfl, fun s => ?_, rfl, rfl, rfl, rfl⟩
  by_cases hs : s = subMesh
  · subst hs; simp [World.setDefines, World.setSubMesh]
  · simp [World.setDefines, World.setSubMesh, hs]

theorem setDefines_statesKept (P : Event → Prop) (w : World) (subMesh : Nat)
    (d : NodeMaterialDefines) : StatesKept P w (w.setDefines subMesh d) :=
  ⟨rfl, rfl, [], by simp [World.setDefines, World.setSubMesh], by simp⟩

theorem setDefines_defines (w : World) (subMesh : Nat) (d : NodeMaterialDefines) :
    ((w.setDefines subMesh d).subMeshes subMesh)._materialDefines = some d := by
  simp [World.setDefines, World.setSubMesh]

theorem animateLog_kept (l : List Nat) : ∀ w : World,
    SubMeshKept w (l.foldl (fun acc input => acc.log (.animate input)) w)
      ∧ StatesKept Event.isGate w (l.foldl (fun acc input => acc.log (.animate input)) w)
      ∧ (l.foldl (fun acc input => acc.log (.animate input)) w).mat = w.mat := by
  induction l with
  | nil => intro w; exact ⟨SubMeshKept.keptRefl w, StatesKept.statesRefl _ w, rfl⟩
  | cons x xs ih =>
    intro w
    obtain ⟨h1, h2, h3⟩ := ih (w.log (.animate x))
    exact ⟨(SubMeshKept.keptLog w (.animate x)).keptTrans h1,
      (StatesKept.statesLog Event.isGate w (.animate x) trivial).statesTrans h2, h3⟩

theorem animateInputs_kept (sd : NodeMaterialBuildStateSharedData) (w : World) :
    SubMeshKept w (animateInputs sd w) ∧ StatesKept Event.isGate w (animateInputs sd w) := by
  unfold animateInputs
  split
  · exact ⟨SubMeshKept.keptRefl w, StatesKept.statesRefl _ w⟩
  · split
    · obtain ⟨h1, h2, h3⟩ := animateLog_kept sd.animatedInputs w
      obtain ⟨evs, ht, he⟩ := h2.trace
      refine ⟨⟨h1.effects, h1.effect, h1.scene, h1.meshes, ?_, ?_⟩, ⟨?_, ?_, evs, ht, he⟩⟩
      · show (List.foldl _ w sd.animatedInputs).mat._sharedData = _
        rw [h3]
      · show (List.foldl _ w sd.animatedInputs).mat.allowShaderHotSwapping = _
        rw [h3]
      · show (List.foldl _ w sd.animatedInputs).mat._vertexCompilationState = _
        rw [h3]
      · show (List.foldl _ w sd.animatedInputs).mat._fragmentCompilationState = _
        rw [h3]
    · exact ⟨SubMeshKept.keptRefl w, StatesKept.statesRefl _ w⟩

theorem ensureDefines_kept (w : World) (subMesh : Nat) :
    SubMeshKept w (ensureDefines w subMesh).1
      ∧ StatesKept Event.isGate w (ensureDefines w subMesh).1 := by
  unfold ensureDefines
  split
  · exact ⟨SubMeshKept.keptRefl w, StatesKept.statesRefl _ w⟩
  · exact ⟨setDefines_subMeshKept w subMesh _, setDefines_statesKept _ w subMesh _⟩

theorem blockingBlocksReady_kept (env : Env) (mesh : Nat) (d : NodeMaterialDefines)
    (useInstances : Bool) (l : List Nat) : ∀ w : World,
    SubMeshKept w (blockingBlocksReady env mesh d useInstances l w).1
      ∧ StatesKept Event.isGate w (blockingBlocksReady env mesh d useInstances l w).1
      ∧ (blockingBlocksReady env mesh d useInstances l w).1.subMeshes = w.subMeshes := by
  induction l with
  | nil => intro w; exact ⟨SubMeshKept.keptRefl w, StatesKept.statesRefl _ w, rfl⟩
  | cons b bs ih =>
    intro w
    unfold blockingBlocksReady
    simp only []
    split
    · obtain ⟨h1, h2, h3⟩ := ih (w.log (.isReady b))
      exact ⟨(SubMeshKept.keptLog w (.isReady b)).keptTrans h1,
        (StatesKept.statesLog Event.isGate w (.isReady b) trivial).statesTrans h2, h3⟩
    · exact ⟨SubMeshKept.keptLog w (.isReady b),
        StatesKept.statesLog Event.isGate w (.isReady b) trivial, rfl⟩

/-- A blocking block that is never ready makes the loop of lines 544-548 answer false. -/
theorem blockingBlocksReady_false (env : Env) (mesh : Nat) (d : NodeMaterialDefines)
    (useInstances : Bool) (l : List Nat) (b : Nat) (hb : b ∈ l)
    (hnot : ∀ wx, env.blockIsReady wx b mesh d useInstances = false) : ∀ w : World,
    (blockingBlocksReady env mesh d useInstances l w).2 = false := by
  induction l with
  | nil => cases hb
  | cons x xs ih =>
    intro w
    unfold blockingBlocksReady
    simp only []
    split
    · rename_i hx
      rcases List.mem_cons.1 hb with h | h
      · subst h; rw [hnot] at hx; cases hx
      · exact ih h _
    · rfl

theorem initializeDefinesPass_kept (env : Env) (mesh subMesh : Nat) (useInstances : Bool)
    (l : List Nat) : ∀ (d : NodeMaterialDefines) (w : World),
    SubMeshKept w (initializeDefinesPass env mesh subMesh useInstances l d w).1
      ∧ StatesKept Event.isBeforeCheck w
          (initializeDefinesPass env mesh subMesh useInstances l d w).1 := by
  induction l with
  | nil => intro d w; exact ⟨SubMeshKept.keptRefl w, StatesKept.statesRefl _ w⟩
  | cons b bs ih =>
    intro d w
    unfold initializeDefinesPass
    simp only []
    obtain ⟨h1, h2⟩ := ih (env.initializeDefines (w.log (.initializeDefines b)) b mesh d
      useInstances) ((w.log (.initializeDefines b)).setDefines subMesh
        (env.initializeDefines (w.log (.initializeDefines b)) b mesh d useInstances))
    exact ⟨((SubMeshKept.keptLog w (.initializeDefines b)).keptTrans
        (setDefines_subMeshKept (w.log _) subMesh _)).keptTrans h1,
      ((StatesKept.statesLog Event.isBeforeCheck w (.initializeDefines b) trivial).statesTrans
        (setDefines_statesKept _ _ subMesh _)).statesTrans h2⟩

theorem prepareDefinesPass_kept (env : Env) (mesh subMesh : Nat) (useInstances : Bool)
    (l : List Nat) : ∀ (d : NodeMaterialDefines) (w : World),
    SubMeshKept w (prepareDefinesPass env mesh subMesh useInstances l d w).1
      ∧ StatesKept Event.isBeforeCheck w
          (prepareDefinesPass env mesh subMesh useInstances l d w).1 := by
  induction l with
  | nil => intro d w; exact ⟨SubMeshKept.keptRefl w, StatesKept.statesRefl _ w⟩
  | cons b bs ih =>
    intro d w
    unfold prepareDefinesPass
    simp only []
    obtain ⟨h1, h2⟩ := ih (env.prepareDefines (w.log (.prepareDefines b)) b mesh d
      useInstances) ((w.log (.prepareDefines b)).setDefines subMesh
        (env.prepareDefines (w.log (.prepareDefines b)) b mesh d useInstances))
    exact ⟨((SubMeshKept.keptLog w (.prepareDefines b)).keptTrans
        (setDefines_subMeshKept (w.log _) subMesh _)).keptTrans h1,
      ((StatesKept.statesLog Event.isBeforeCheck w (.prepareDefines b) trivial).statesTrans
        (setDefines_statesKept _ _ subMesh _)).statesTrans h2⟩

theorem isGate_isBeforeCheck (e : Event) (h : e.isGate) : e.isBeforeCheck := by
  cases e <;> first | exact h | trivial

theorem definesPasses_kept (env : Env) (mesh subMesh : Nat) (useInstances : Bool)
    (sd : NodeMaterialBuildStateSharedData) (d : NodeMaterialDefines) (w : World) :
    SubMeshKept w (definesPasses env mesh subMesh useInstances sd d w).1
      ∧ StatesKept Event.isBeforeCheck w (definesPasses env mesh subMesh useInstances sd d w).1
      ∧ ((definesPasses env mesh subMesh useInstances sd d w).2.2 = false →
          StatesKept Event.isGate w (definesPasses env mesh subMesh useInstances sd d w).1) := by
  unfold definesPasses
  simp only []
  have k1 := setDefines_subMeshKept w subMesh (_prepareDefinesForAttributes (w.meshes mesh) d)
  have s1 := setDefines_statesKept Event.isGate w subMesh
    (_prepareDefinesForAttributes (w.meshes mesh) d)
  obtain ⟨k2, s2, _⟩ := blockingBlocksReady_kept env mesh
    (_prepareDefinesForAttributes (w.meshes mesh) d) useInstances sd.blockingBlocks
    (w.setDefines subMesh (_prepareDefinesForAttributes (w.meshes mesh) d))
  split
  · exact ⟨k1.keptTrans k2, (s1.statesTrans s2).statesMono isGate_isBeforeCheck, fun _ => s1.statesTrans s2⟩
  · obtain ⟨k3, s3⟩ := initializeDefinesPass_kept env mesh subMesh useInstances
      sd.blocksWithDefines (_prepareDefinesForAttributes (w.meshes mesh) d)
      (blockingBlocksReady env mesh (_prepareDefinesForAttributes (w.meshes mesh) d)
        useInstances sd.blockingBlocks
        (w.setDefines subMesh (_prepareDefinesForAttributes (w.meshes mesh) d))).1
    obtain ⟨k4, s4⟩ := prepareDefinesPass_kept env mesh subMesh useInstances
      sd.blocksWithDefines
      (initializeDefinesPass env mesh subMesh useInstances sd.blocksWithDefines
        (_prepareDefinesForAttributes (w.meshes mesh) d)
        (blockingBlocksReady env mesh (_prepareDefinesForAttributes (w.meshes mesh) d)
          useInstances sd.blockingBlocks
          (w.setDefines subMesh (_prepareDefinesForAttributes (w.meshes mesh) d))).1).2
      (initializeDefinesPass env mesh subMesh useInstances sd.blocksWithDefines
        (_prepareDefinesForAttributes (w.meshes mesh) d)
        (blockingBlocksReady env mesh (_prepareDefinesForAttributes (w.meshes mesh) d)
          useInstances sd.blockingBlocks
          (w.setDefines subMesh (_prepareDefinesForAttributes (w.meshes mesh) d))).1).1
    refine ⟨((k1.keptTrans k2).keptTrans k3).keptTrans k4,
      (((s1.statesTrans s2).statesMono isGate_isBeforeCheck).statesTrans s3).statesTrans s4, fun h => ?_⟩
    cases h

/-- Behind the fast paths `isReadyForSubMesh` is `checkSubMesh`. -/
theorem isReadyForSubMesh_past (env : Env) (mesh subMesh : Nat) (useInstances : Bool)
    (w : World) (sd : NodeMaterialBuildStateSharedData) (w1 : World) (d : NodeMaterialDefines)
    (h : w.PastFastPaths env subMesh sd w1 d) :
    isReadyForSubMesh env mesh subMesh useInstances w
        = checkSubMesh env mesh subMesh useInstances sd d w1
      ∧ SubMeshKept w w1 ∧ StatesKept Event.isGate w w1 := by
  obtain ⟨hflag, hsd, hfrozen, hens, hcached⟩ := h
  have h1 : (ensureDefines (animateInputs sd w) subMesh).1 = w1 := by rw [hens]
  have h2 : (ensureDefines (animateInputs sd w) subMesh).2 = d := by rw [hens]
  refine ⟨?_, ?_, ?_⟩
  · unfold isReadyForSubMesh
    simp only [hflag, hsd, hfrozen, h1, h2, hcached, Bool.not_true, Bool.false_eq_true,
      if_false]
  · rw [← h1]
    exact (animateInputs_kept sd w).1.keptTrans (ensureDefines_kept _ subMesh).1
  · rw [← h1]
    exact (animateInputs_kept sd w).2.statesTrans (ensureDefines_kept _ subMesh).2

/-! ## Blocking blocks -/

/-- C7: if the build succeeded, neither fast path serves the call and the loop over the
blocking blocks meets a block whose `isReady` returns false, then `isReadyForSubMesh`
returns false, the effect handle of the sub-mesh (of every sub-mesh) is unchanged, and the
only outside calls made are the animation of inputs and the `isReady` questions: no
effect is requested and no block's `initializeDefines` or `prepareDefines` runs. -/
theorem isReadyForSubMesh_blocked (env : Env) (mesh subMesh : Nat) (useInstances : Bool)
    (w : World) (sd : NodeMaterialBuildStateSharedData) (w1 : World) (d : NodeMaterialDefines)
    (hpast : w.PastFastPaths env subMesh sd w1 d)
    (hblocked : (definesPasses env mesh subMesh useInstances sd d w1).2.2 = false) :
    ∃ w2, isReadyForSubMesh env mesh subMesh useInstances w = .done w2 false
      ∧ (∀ s, (w2.subMeshes s).effect = (w.subMeshes s).effect)
      ∧ ∃ evs, w2.trace = w.trace ++ evs ∧ ∀ e ∈ evs,
          (∃ b, e = .animate b) ∨ (∃ b, e = .isReady b) := by
  obtain ⟨heq, k1, s1⟩ := isReadyForSubMesh_past env mesh subMesh useInstances w sd w1 d hpast
  obtain ⟨k2, _, s2⟩ := definesPasses_kept env mesh subMesh useInstances sd d w1
  refine ⟨(definesPasses env mesh subMesh useInstances sd d w1).1, ?_, (k1.keptTrans k2).effect, ?_⟩
  · rw [heq]
    unfold checkSubMesh
    simp [hblocked]
  · obtain ⟨evs, ht, he⟩ := (s1.statesTrans (s2 hblocked)).trace
    refine ⟨evs, ht, fun e hmem => ?_⟩
    have := he e hmem
    cases e <;> first | exact this.elim | exact Or.inl ⟨_, rfl⟩ | exact Or.inr ⟨_, rfl⟩

/-! ## The recompilation -/

theorem replayLog_kept (env : Env) (mesh : Nat) (d : NodeMaterialDefines) (l : List Nat) :
    ∀ acc : World × NodeMaterialBuildState × NodeMaterialBuildState,
    SubMeshKept acc.1 (l.foldl
      (fun (acc : World × NodeMaterialBuildState × NodeMaterialBuildState) b =>
        ((acc.1.log (.replaceRepeatableContent b),
          (env.replaceRepeatableContent b acc.2.1 acc.2.2 mesh d).1,
          (env.replaceRepeatableContent b acc.2.1 acc.2.2 mesh d).2) :
          World × NodeMaterialBuildState × NodeMaterialBuildState)) acc).1
    ∧ (l.foldl
      (fun (acc : World × NodeMaterialBuildState × NodeMaterialBuildState) b =>
        ((acc.1.log (.replaceRepeatableContent b),
          (env.replaceRepeatableContent b acc.2.1 acc.2.2 mesh d).1,
          (env.replaceRepeatableContent b acc.2.1 acc.2.2 mesh d).2) :
          World × NodeMaterialBuildState × NodeMaterialBuildState)) acc).1.mat = acc.1.mat := by
  induction l with
  | nil => intro acc; exact ⟨SubMeshKept.keptRefl _, rfl⟩
  | cons b bs ih =>
    intro acc
    obtain ⟨h1, h2⟩ := ih (acc.1.log (.replaceRepeatableContent b),
      (env.replaceRepeatableContent b acc.2.1 acc.2.2 mesh d).1,
      (env.replaceRepeatableContent b acc.2.1 acc.2.2 mesh d).2)
    exact ⟨(SubMeshKept.keptLog acc.1 _).keptTrans h1, h2⟩

theorem replayRepeatableContent_sat (env : Env) (mesh : Nat) (d : NodeMaterialDefines)
    (sd : NodeMaterialBuildStateSharedData) (w : World) (bad : Prop)
    (hb : bad ∨ (w.mat._vertexCompilationState.isSome ∧ w.mat._fragmentCompilationState.isSome)) :
    (replayRepeatableContent env mesh d sd w).Sat
      (fun w1 _ => SubMeshKept w w1 ∧ w1.mat._vertexCompilationState.isSome
        ∧ w1.mat._fragmentCompilationState.isSome)
      (fun _ _ => False) bad := by
  unfold replayRepeatableContent
  cases hv : w.mat._vertexCompilationState with
  | none =>
    rcases hb with hb | ⟨h, _⟩
    · exact hb
    · rw [hv] at h; cases h
  | some vs =>
    cases hf : w.mat._fragmentCompilationState with
    | none =>
      rcases hb with hb | ⟨_, h⟩
      · exact hb
      · rw [hf] at h; cases h
    | some fs =>
      obtain ⟨h1, h2⟩ := replayLog_kept env mesh d sd.repeatableContentBlocks
        (w, { vs with compilationString := vs._builtCompilationString },
          { fs with compilationString := fs._builtCompilationString })
      refine ⟨⟨h1.effects, h1.effect, h1.scene, h1.meshes, ?_, ?_⟩, rfl, rfl⟩
      · simp only [World.setMat]; rw [h2]
      · simp only [World.setMat]; rw [h2]

theorem uniformsLog_kept (env : Env) (d : NodeMaterialDefines) (l : List Nat) :
    ∀ acc : World × NodeMaterialBuildState × List String,
    SubMeshKept acc.1 (l.foldl
      (fun (acc : World × NodeMaterialBuildState × List String) b =>
        ((acc.1.log (.updateUniformsAndSamples b),
          (env.updateUniformsAndSamples b acc.2.1 d acc.2.2).1,
          (env.updateUniformsAndSamples b acc.2.1 d acc.2.2).2) :
          World × NodeMaterialBuildState × List String)) acc).1
    ∧ (l.foldl
      (fun (acc : World × NodeMaterialBuildState × List String) b =>
        ((acc.1.log (.updateUniformsAndSamples b),
          (env.updateUniformsAndSamples b acc.2.1 d acc.2.2).1,
          (env.updateUniformsAndSamples b acc.2.1 d acc.2.2).2) :
          World × NodeMaterialBuildState × List String)) acc).1.mat = acc.1.mat := by
  induction l with
  | nil => intro acc; exact ⟨SubMeshKept.keptRefl _, rfl⟩
  | cons b bs ih =>
    intro acc
    obtain ⟨h1, h2⟩ := ih (acc.1.log (.updateUniformsAndSamples b),
      (env.updateUniformsAndSamples b acc.2.1 d acc.2.2).1,
      (env.updateUniformsAndSamples b acc.2.1 d acc.2.2).2)
    exact ⟨(SubMeshKept.keptLog acc.1 _).keptTrans h1, h2⟩

theorem updateDynamicUniforms_sat (env : Env) (d : NodeMaterialDefines)
    (sd : NodeMaterialBuildStateSharedData) (w : World) (bad : Prop)
    (hb : bad ∨ w.mat._vertexCompilationState.isSome) :
    (updateDynamicUniforms env d sd w).Sat
      (fun w1 _ => SubMeshKept w w1 ∧ w1.mat._vertexCompilationState.isSome
        ∧ w1.mat._fragmentCompilationState = w.mat._fragmentCompilationState)
      (fun _ _ => False) bad := by
  unfold updateDynamicUniforms
  cases hv : w.mat._vertexCompilationState with
  | none =>
    rcases hb with hb | h
    · exact hb
    · rw [hv] at h; cases h
  | some vs =>
    obtain ⟨h1, h2⟩ := uniformsLog_kept env d sd.dynamicUniformBlocks (w, vs, [])
    refine ⟨⟨h1.effects, h1.effect, h1.scene, h1.meshes, ?_, ?_⟩, rfl, ?_⟩
    · simp only [World.setMat]; rw [h2]
    · simp only [World.setMat]; rw [h2]
    · simp only [World.setMat]; rw [h2]

theorem fallbacksLog_kept (l : List Nat) : ∀ w : World,
    SubMeshKept w (l.foldl (fun acc b => acc.log (.provideFallbacks b)) w)
      ∧ (l.foldl (fun acc b => acc.log (.provideFallbacks b)) w).mat = w.mat := by
  induction l with
  | nil => intro w; exact ⟨SubMeshKept.keptRefl w, rfl⟩
  | cons x xs ih =>
    intro w
    obtain ⟨h1, h2⟩ := ih (w.log (.provideFallbacks x))
    exact ⟨(SubMeshKept.keptLog w _).keptTrans h1, h2⟩

/-- Lines 560-601 never throw, leave the effects and the effect handles alone, and hand on
the defines marked processed; with both states in place they return. -/
theorem prepareRequest_sat (env : Env) (mesh subMesh : Nat) (d : NodeMaterialDefines)
    (sd : NodeMaterialBuildStateSharedData) (w : World) (bad : Prop)
    (hb : bad ∨ (w.mat._vertexCompilationState.isSome ∧ w.mat._fragmentCompilationState.isSome)) :
    (prepareRequest env mesh subMesh d sd w).Sat
      (fun w4 r => SubMeshKept w w4 ∧ r.2 = d.markAsProcessed)
      (fun _ _ => False) bad := by
  unfold prepareRequest
  have k1 := setDefines_subMeshKept w subMesh d.markAsProcessed
  refine (replayRepeatableContent_sat env mesh d.markAsProcessed sd
    (w.setDefines subMesh d.markAsProcessed) bad hb).andThen ?_
  rintro w2 _ ⟨k2, hv2, hf2⟩
  refine (updateDynamicUniforms_sat env d.markAsProcessed sd w2 bad (Or.inr hv2)).andThen ?_
  rintro w3 ub ⟨k3, hv3, hf3⟩
  cases hv : w3.mat._vertexCompilationState with
  | none => rw [hv] at hv3; cases hv3
  | some vs =>
    cases hf : w3.mat._fragmentCompilationState with
    | none => rw [← hf3, hf] at hf2; cases hf2
    | some fs =>
      exact ⟨((k1.keptTrans k2).keptTrans k3).keptTrans (fallbacksLog_kept sd.blocksWithFallbacks w3).1, rfl⟩

/-! ## The defines check and the final gate -/

/-- Once the defines check is reached, `isReadyForSubMesh` is the recompilation (if the
defines are dirty) followed by the final gate. -/
theorem isReadyForSubMesh_reaches (env : Env) (mesh subMesh : Nat) (useInstances : Bool)
    (w : World) (sd : NodeMaterialBuildStateSharedData) (wc : World) (dc : NodeMaterialDefines)
    (h : w.ReachesDefinesCheck env mesh subMesh useInstances sd wc dc) :
    isReadyForSubMesh env mesh subMesh useInstances w
        = (settleEffect env mesh subMesh dc sd wc).andThen
            (fun w2 d2 => .done (finalGate subMesh d2 w2).1 (finalGate subMesh d2 w2).2)
      ∧ SubMeshKept w wc ∧ StatesKept Event.isBeforeCheck w wc := by
  obtain ⟨w1, d, hpast, hp⟩ := h
  obtain ⟨heq, k1, s1⟩ := isReadyForSubMesh_past env mesh subMesh useInstances w sd w1 d hpast
  obtain ⟨k2, s2, _⟩ := definesPasses_kept env mesh subMesh useInstances sd d w1
  rw [hp] at k2 s2
  refine ⟨?_, k1.keptTrans k2, (s1.statesMono isGate_isBeforeCheck).statesTrans s2⟩
  rw [heq]
  unfold checkSubMesh
  simp only [hp, Bool.not_true, Bool.false_eq_true, if_false]

/-- What the final gate of lines 652-659 does. -/
theorem finalGate_spec (subMesh : Nat) (d : NodeMaterialDefines) (w : World) :
    ((finalGate subMesh d w).2 = true ↔
        ∃ e, ((finalGate subMesh d w).1.subMeshes subMesh).effect = some e
          ∧ ((finalGate subMesh d w).1.effects e).isReady = true)
      ∧ ((finalGate subMesh d w).2 = true →
          ∃ e, ((finalGate subMesh d w).1.subMeshes subMesh)._materialDefines
              = some { d with _renderId := (finalGate subMesh d w).1.scene.getRenderId }
            ∧ ((finalGate subMesh d w).1.subMeshes subMesh).effect = some e
            ∧ ((finalGate subMesh d w).1.effects e)._wasPreviouslyReady = true)
      ∧ ((finalGate subMesh d w).2 = false → (finalGate subMesh d w).1 = w)
      ∧ ((finalGate subMesh d w).1.subMeshes subMesh).effect = (w.subMeshes subMesh).effect
      ∧ (finalGate subMesh d w).1.trace = w.trace
      ∧ (finalGate subMesh d w).1.mat = w.mat := by
  unfold finalGate
  cases he : (w.subMeshes subMesh).effect with
  | none => simp [he]
  | some e =>
    by_cases hr : (w.effects e).isReady = true
    · simp [hr, World.setDefines, World.setSubMesh, World.setEffectData, he]
    · simp [hr, he]

/-- What the final gate returns when the sub-mesh has the effect `e`. -/
theorem finalGate_result (subMesh : Nat) (d : NodeMaterialDefines) (w : World) (e : Nat)
    (he : (w.subMeshes subMesh).effect = some e) :
    (finalGate subMesh d w).2 = (w.effects e).isReady := by
  unfold finalGate
  by_cases hr : (w.effects e).isReady = true
  · simp [hr, he]
  · simp [hr, he]

/-- The hot-swap branch of lines 641-644. -/
theorem createAndAdopt_hotSwap (env : Env) (subMesh : Nat)
    (request : EffectBaseName × IEffectCreationOptions) (d : NodeMaterialDefines) (w : World)
    (prev e : Nat) (hswap : w.mat.allowShaderHotSwapping = true)
    (hprev : (w.subMeshes subMesh).effect = some prev)
    (hnew : env.createEffect w request.1 request.2 = some e)
    (hnotready : (w.effects e).isReady = false) :
    createAndAdopt env subMesh request d w
      = (((w.log (.createEffect request.1 request.2)).log
          (.notifyEffectCreated e subMesh)).setDefines subMesh d.markAsUnprocessed,
        d.markAsUnprocessed) := by
  unfold createAndAdopt adoptEffect
  simp only [hnew, hprev]
  have h1 : ((w.log (.createEffect request.1 request.2)).log
      (.notifyEffectCreated e subMesh)).mat.allowShaderHotSwapping = true := hswap
  have h2 : (((w.log (.createEffect request.1 request.2)).log
      (.notifyEffectCreated e subMesh)).effects e).isReady = false := hnotready
  simp [h1, h2]

/-- C8: let a call of `isReadyForSubMesh` reach the defines check with dirty defines,
with shader hot swapping allowed and an effect `prev` on the sub-mesh, and let the engine
answer the request of this call with a non-null effect `e` that is not ready. Then the
call returns the readiness of `prev`, the effect handle of the sub-mesh is still `prev`,
and the defines of the sub-mesh are dirty (unprocessed) again. -/
theorem hot_swap_keeps_previous_effect (env : Env) (mesh subMesh : Nat) (useInstances : Bool)
    (w : World) (sd : NodeMaterialBuildStateSharedData) (wc : World) (dc : NodeMaterialDefines)
    (w4 : World) (request : (EffectBaseName × IEffectCreationOptions) × NodeMaterialDefines)
    (prev e : Nat)
    (hreach : w.ReachesDefinesCheck env mesh subMesh useInstances sd wc dc)
    (hdirty : dc.isDirty = true)
    (hswap : w.mat.allowShaderHotSwapping = true)
    (hprev : (w.subMeshes subMesh).effect = some prev)
    (hreq : prepareRequest env mesh subMesh dc sd wc = .done w4 request)
    (hnew : env.createEffect w4 request.1.1 request.1.2 = some e)
    (hnotready : (w.effects e).isReady = false) :
    ∃ w2 d2, isReadyForSubMesh env mesh subMesh useInstances w
        = .done w2 (w.effects prev).isReady
      ∧ (w2.subMeshes subMesh).effect = some prev
      ∧ (w2.subMeshes subMesh)._materialDefines = some d2 ∧ d2.isDirty = true := by
  obtain ⟨heq, k1, _⟩ := isReadyForSubMesh_reaches env mesh subMesh useInstances w sd wc dc hreach
  have hs := prepareRequest_sat env mesh subMesh dc sd wc True (Or.inl trivial)
  rw [hreq] at hs
  obtain ⟨k2, _⟩ := hs
  have k4 := k1.keptTrans k2
  have hca := createAndAdopt_hotSwap env subMesh request.1 request.2 w4 prev e
    (k4.hotSwap.trans hswap) ((k4.effect subMesh).trans hprev) hnew
    (by rw [k4.effects]; exact hnotready)
  have hrun : isReadyForSubMesh env mesh subMesh useInstances w
      = .done (finalGate subMesh request.2.markAsUnprocessed
          (((w4.log (.createEffect request.1.1 request.1.2)).log
            (.notifyEffectCreated e subMesh)).setDefines subMesh
              request.2.markAsUnprocessed)).1
          (finalGate subMesh request.2.markAsUnprocessed
          (((w4.log (.createEffect request.1.1 request.1.2)).log
            (.notifyEffectCreated e subMesh)).setDefines subMesh
              request.2.markAsUnprocessed)).2 := by
    rw [heq]
    simp only [settleEffect, hdirty, if_true, recompile, hreq, Outcome.andThen, hca]
  have heff : ((((w4.log (.createEffect request.1.1 request.1.2)).log
      (.notifyEffectCreated e subMesh)).setDefines subMesh
        request.2.markAsUnprocessed).subMeshes subMesh).effect = some prev := by
    rw [(setDefines_subMeshKept _ subMesh _).effect]
    exact (k4.effect subMesh).trans hprev
  have hdef := setDefines_defines ((w4.log (.createEffect request.1.1 request.1.2)).log
      (.notifyEffectCreated e subMesh)) subMesh request.2.markAsUnprocessed
  have hready : ((((w4.log (.createEffect request.1.1 request.1.2)).log
      (.notifyEffectCreated e subMesh)).setDefines subMesh
        request.2.markAsUnprocessed).effects prev).isReady = (w.effects prev).isReady := by
    show (w4.effects prev).isReady = _
    rw [k4.effects]
  have hres := finalGate_result subMesh request.2.markAsUnprocessed _ prev heff
  obtain ⟨_, hstamp, hsame, heff2, _, _⟩ := finalGate_spec subMesh request.2.markAsUnprocessed
    (((w4.log (.createEffect request.1.1 request.1.2)).log
      (.notifyEffectCreated e subMesh)).setDefines subMesh request.2.markAsUnprocessed)
  rw [hready] at hres
  rw [hrun, hres]
  by_cases hp : (w.effects prev).isReady = true
  · obtain ⟨e2, hd2, _, _⟩ := hstamp (hres.trans hp)
    exact ⟨_, _, rfl, heff2.trans heff, hd2, rfl⟩
  · have hfalse := hsame (hres.trans (by simpa using hp))
    refine ⟨_, request.2.markAsUnprocessed, rfl, heff2.trans heff, ?_, rfl⟩
    rw [hfalse]
    exact hdef

theorem isBeforeCheck_ne_createEffect (e : Event) (h : e.isBeforeCheck)
    (baseName : EffectBaseName) (options : IEffectCreationOptions) :
    e ≠ .createEffect baseName options := by
  intro he
  subst he
  exact h

/-- A call of `isReadyForSubMesh` that does not find the defines dirty at the defines
check (because it ends before it, or because the defines are not dirty after the define
passes) returns without requesting an effect: the trace gains no `createEffect` call,
whose arguments are the only place where the merged uniform and sampler lists exist, and
the two compilation states and the effect handle of the sub-mesh are unchanged. -/
theorem isReadyForSubMesh_clean_check (env : Env) (mesh subMesh : Nat) (useInstances : Bool)
    (w : World)
    (hsd : w.mat._buildWasSuccessful = true → w.mat._sharedData.isSome)
    (hclean : ∀ sd wc dc, w.ReachesDefinesCheck env mesh subMesh useInstances sd wc dc →
      dc.isDirty = false) :
    ∃ w1 r, isReadyForSubMesh env mesh subMesh useInstances w = .done w1 r
      ∧ w1.mat._vertexCompilationState = w.mat._vertexCompilationState
      ∧ w1.mat._fragmentCompilationState = w.mat._fragmentCompilationState
      ∧ (w1.subMeshes subMesh).effect = (w.subMeshes subMesh).effect
      ∧ ∃ evs, w1.trace = w.trace ++ evs
          ∧ ∀ e ∈ evs, ∀ baseName options, e ≠ .createEffect baseName options := by
  have fin : ∀ (w1 : World) (r : Bool), SubMeshKept w w1 → StatesKept Event.isBeforeCheck w w1 →
      isReadyForSubMesh env mesh subMesh useInstances w = .done w1 r →
      ∃ w1 r, isReadyForSubMesh env mesh subMesh useInstances w = .done w1 r
        ∧ w1.mat._vertexCompilationState = w.mat._vertexCompilationState
        ∧ w1.mat._fragmentCompilationState = w.mat._fragmentCompilationState
        ∧ (w1.subMeshes subMesh).effect = (w.subMeshes subMesh).effect
        ∧ ∃ evs, w1.trace = w.trace ++ evs
            ∧ ∀ e ∈ evs, ∀ baseName options, e ≠ .createEffect baseName options := by
    intro w1 r k s h
    obtain ⟨evs, ht, he⟩ := s.trace
    exact ⟨w1, r, h, s.vertexState, s.fragmentState, k.effect subMesh, evs, ht,
      fun e hmem => isBeforeCheck_ne_createEffect e (he e hmem)⟩
  by_cases hflag : w.mat._buildWasSuccessful = true
  · cases hs : w.mat._sharedData with
    | none => have := hsd hflag; rw [hs] at this; cases this
    | some sd =>
      obtain ⟨ka, sa⟩ := animateInputs_kept sd w
      by_cases hfrozen : frozenFastPath (animateInputs sd w) subMesh = true
      · exact fin (animateInputs sd w) true ka (sa.statesMono isGate_isBeforeCheck)
          (by simp [isReadyForSubMesh, hflag, hs, hfrozen])
      · obtain ⟨ke, se⟩ := ensureDefines_kept (animateInputs sd w) subMesh
        by_cases hcached : env._isReadyForSubMesh
            (ensureDefines (animateInputs sd w) subMesh).1 subMesh = true
        · exact fin _ true (ka.keptTrans ke) ((sa.statesTrans se).statesMono isGate_isBeforeCheck)
            (by simp [isReadyForSubMesh, hflag, hs, hfrozen, hcached])
        · have hpast : w.PastFastPaths env subMesh sd
              (ensureDefines (animateInputs sd w) subMesh).1
              (ensureDefines (animateInputs sd w) subMesh).2 :=
            ⟨hflag, hs, by simpa using hfrozen, rfl, by simpa using hcached⟩
          obtain ⟨heq, _, _⟩ := isReadyForSubMesh_past env mesh subMesh useInstances w sd _ _ hpast
          obtain ⟨kp, sp, _⟩ := definesPasses_kept env mesh subMesh useInstances sd
            (ensureDefines (animateInputs sd w) subMesh).2
            (ensureDefines (animateInputs sd w) subMesh).1
          have kall := (ka.keptTrans ke).keptTrans kp
          have sall := ((sa.statesTrans se).statesMono isGate_isBeforeCheck).statesTrans sp
          by_cases hready : (definesPasses env mesh subMesh useInstances sd
              (ensureDefines (animateInputs sd w) subMesh).2
              (ensureDefines (animateInputs sd w) subMesh).1).2.2 = true
          · have hreach : w.ReachesDefinesCheck env mesh subMesh useInstances sd
                (definesPasses env mesh subMesh useInstances sd
                  (ensureDefines (animateInputs sd w) subMesh).2
                  (ensureDefines (animateInputs sd w) subMesh).1).1
                (definesPasses env mesh subMesh useInstances sd
                  (ensureDefines (animateInputs sd w) subMesh).2
                  (ensureDefines (animateInputs sd w) subMesh).1).2.1 :=
              ⟨_, _, hpast, by rw [← hready]⟩
            have hnd := hclean sd _ _ hreach
            obtain ⟨_, _, _, geff, gtrace, gmat⟩ := finalGate_spec subMesh
              (definesPasses env mesh subMesh useInstances sd
                (ensureDefines (animateInputs sd w) subMesh).2
                (ensureDefines (animateInputs sd w) subMesh).1).2.1
              (definesPasses env mesh subMesh useInstances sd
                (ensureDefines (animateInputs sd w) subMesh).2
                (ensureDefines (animateInputs sd w) subMesh).1).1
            obtain ⟨evs, ht, he⟩ := sall.trace
            refine ⟨(finalGate subMesh
                (definesPasses env mesh subMesh useInstances sd
                  (ensureDefines (animateInputs sd w) subMesh).2
                  (ensureDefines (animateInputs sd w) subMesh).1).2.1
                (definesPasses env mesh subMesh useInstances sd
                  (ensureDefines (animateInputs sd w) subMesh).2
                  (ensureDefines (animateInputs sd w) subMesh).1).1).1,
              (finalGate subMesh
                (definesPasses env mesh subMesh useInstances sd
                  (ensureDefines (animateInputs sd w) subMesh).2
                  (ensureDefines (animateInputs sd w) subMesh).1).2.1
                (definesPasses env mesh subMesh useInstances sd
                  (ensureDefines (animateInputs sd w) subMesh).2
                  (ensureDefines (animateInputs sd w) subMesh).1).1).2,
              ?_, ?_, ?_, geff.trans (kall.effect subMesh), evs,
              gtrace.trans ht, fun e hmem => isBeforeCheck_ne_createEffect e (he e hmem)⟩
            · rw [heq]
              unfold checkSubMesh
              simp only [hready, Bool.not_true, Bool.false_eq_true, if_false, settleEffect, hnd,
                Outcome.andThen]
            · rw [gmat]; exact sall.vertexState
            · rw [gmat]; exact sall.fragmentState
          · exact fin _ false kall sall (by
              rw [heq]
              unfold checkSubMesh
              simp [hready])
  · exact fin w false (SubMeshKept.keptRefl w) (StatesKept.statesRefl _ w)
      (by simp [isReadyForSubMesh, hflag])

/-- C10: when a call of `isReadyForSubMesh` reaches the defines check and both compilation
states are in place, the call returns, and it returns true if and only if at the end the
sub-mesh has an effect and that effect reports ready. When it returns true the defines of
the sub-mesh are the defines `dg` of lines 559-650 stamped with the render id of the
scene, and the effect is marked previously ready; when it returns false the final world
is exactly the world `wg` lines 559-650 left, so neither stamp was written. -/
theorem final_gate_decides (env : Env) (mesh subMesh : Nat) (useInstances : Bool) (w : World)
    (sd : NodeMaterialBuildStateSharedData) (wc : World) (dc : NodeMaterialDefines)
    (hreach : w.ReachesDefinesCheck env mesh subMesh useInstances sd wc dc)
    (hv : w.mat._vertexCompilationState.isSome) (hf : w.mat._fragmentCompilationState.isSome) :
    ∃ w1 r wg dg, isReadyForSubMesh env mesh subMesh useInstances w = .done w1 r
      ∧ settleEffect env mesh subMesh dc sd wc = .done wg dg
      ∧ (r = true ↔ ∃ e, (w1.subMeshes subMesh).effect = some e
          ∧ (w1.effects e).isReady = true)
      ∧ (r = true → ∃ e, (w1.subMeshes subMesh)._materialDefines
            = some { dg with _renderId := w1.scene.getRenderId }
          ∧ (w1.subMeshes subMesh).effect = some e
          ∧ (w1.effects e)._wasPreviouslyReady = true)
      ∧ (r = false → w1 = wg) := by
  obtain ⟨heq, _, sc⟩ := isReadyForSubMesh_reaches env mesh subMesh useInstances w sd wc dc
    hreach
  have hsettle : ∃ wg dg, settleEffect env mesh subMesh dc sd wc = .done wg dg := by
    unfold settleEffect
    by_cases hd : dc.isDirty = true
    · rw [if_pos hd]
      unfold recompile
      have hs := prepareRequest_sat env mesh subMesh dc sd wc False
        (Or.inr ⟨by rw [sc.vertexState]; exact hv, by rw [sc.fragmentState]; exact hf⟩)
      rcases hs.cases with ⟨w4, r, h4, _⟩ | ⟨_, _, _, h⟩
      · rw [h4]; exact ⟨_, _, rfl⟩
      · exact h.elim
    · rw [if_neg hd]; exact ⟨_, _, rfl⟩
  obtain ⟨wg, dg, hg⟩ := hsettle
  obtain ⟨g1, g2, g3, _, _, _⟩ := finalGate_spec subMesh dg wg
  refine ⟨(finalGate subMesh dg wg).1, (finalGate subMesh dg wg).2, wg, dg, ?_, hg, g1, g2, g3⟩
  rw [heq, hg]
  rfl

/-! ## The readiness check on the example worlds -/

/-- Witness of C7: block 2 of `blockedWorld` is never ready under `loadingEnv`. -/
theorem isReadyForSubMesh_blocked_witness :
    ∃ w2, isReadyForSubMesh loadingEnv 0 0 false blockedWorld = .done w2 false
      ∧ (∀ s, (w2.subMeshes s).effect = (blockedWorld.subMeshes s).effect)
      ∧ ∃ evs, w2.trace = blockedWorld.trace ++ evs ∧ ∀ e ∈ evs,
          (∃ b, e = .animate b) ∨ (∃ b, e = .isReady b) :=
  isReadyForSubMesh_blocked loadingEnv 0 0 false blockedWorld blockedSharedData
    (ensureDefines (animateInputs blockedSharedData blockedWorld) 0).1
    (ensureDefines (animateInputs blockedSharedData blockedWorld) 0).2
    ⟨rfl, rfl, rfl, rfl, rfl⟩ rfl

theorem hotSwapWorld_reaches :
    hotSwapWorld.ReachesDefinesCheck exampleEnv 0 0 false NodeMaterialBuildStateSharedData.fresh
      hotSwapCheck.1 hotSwapCheck.2.1 :=
  ⟨hotSwapStart.1, hotSwapStart.2, ⟨rfl, rfl, rfl, rfl, rfl⟩, rfl⟩

/-- Witness of C8: in `hotSwapWorld` the sub-mesh renders with the ready effect 1, its
fresh defines are dirty, and the engine answers with effect 0, which is not ready. -/
theorem hot_swap_keeps_previous_effect_witness :
    ∃ w2 d2, isReadyForSubMesh exampleEnv 0 0 false hotSwapWorld
        = .done w2 (hotSwapWorld.effects 1).isReady
      ∧ (w2.subMeshes 0).effect = some 1
      ∧ (w2.subMeshes 0)._materialDefines = some d2 ∧ d2.isDirty = true :=
  hot_swap_keeps_previous_effect exampleEnv 0 0 false hotSwapWorld
    NodeMaterialBuildStateSharedData.fresh hotSwapCheck.1 hotSwapCheck.2.1
    hotSwapPrepared.1 hotSwapPrepared.2 1 0 hotSwapWorld_reaches rfl rfl rfl rfl rfl rfl

theorem settledWorld_reaches :
    settledWorld.ReachesDefinesCheck exampleEnv 0 0 false NodeMaterialBuildStateSharedData.fresh
      settledCheck.1 settledCheck.2.1 :=
  ⟨settledStart.1, settledStart.2, ⟨rfl, rfl, rfl, rfl, rfl⟩, rfl⟩

theorem settledWorld_clean (sd : NodeMaterialBuildStateSharedData) (wc : World)
    (dc : NodeMaterialDefines)
    (h : settledWorld.ReachesDefinesCheck exampleEnv 0 0 false sd wc dc) :
    dc.isDirty = false := by
  obtain ⟨w1, d, ⟨_, hsd, _, hens, _⟩, hp⟩ := h
  have h0 : NodeMaterialBuildStateSharedData.fresh = sd := Option.some.inj hsd
  subst h0
  have h1 : w1 = settledStart.1 := (congrArg Prod.fst hens).symm
  have h2 : d = settledStart.2 := (congrArg Prod.snd hens).symm
  subst h1 h2
  have h3 : dc = settledCheck.2.1 := (congrArg (fun x => x.2.1) hp).symm
  rw [h3]
  rfl

/-- A readiness check on `settledWorld` finds the defines not dirty and requests no
effect. -/
theorem settledWorld_requests_no_effect :
    settledWorld.mat._buildWasSuccessful = true
      ∧ ∃ w1 r, isReadyForSubMesh exampleEnv 0 0 false settledWorld = .done w1 r
        ∧ w1.mat._vertexCompilationState = settledWorld.mat._vertexCompilationState
        ∧ w1.mat._fragmentCompilationState = settledWorld.mat._fragmentCompilationState
        ∧ (w1.subMeshes 0).effect = (settledWorld.subMeshes 0).effect
        ∧ ∃ evs, w1.trace = settledWorld.trace ++ evs
            ∧ ∀ e ∈ evs, ∀ baseName options, e ≠ .createEffect baseName options :=
  ⟨rfl, isReadyForSubMesh_clean_check exampleEnv 0 0 false settledWorld (fun _ => rfl)
    settledWorld_clean⟩

/-- Witness of C10: the check of `settledWorld` passes the final gate. -/
theorem final_gate_decides_witness :
    ∃ w1 r wg dg, isReadyForSubMesh exampleEnv 0 0 false settledWorld = .done w1 r
      ∧ settleEffect exampleEnv 0 0 settledCheck.2.1 NodeMaterialBuildStateSharedData.fresh
          settledCheck.1 = .done wg dg
      ∧ (r = true ↔ ∃ e, (w1.subMeshes 0).effect = some e ∧ (w1.effects e).isReady = true)
      ∧ (r = true → ∃ e, (w1.subMeshes 0)._materialDefines
            = some { dg with _renderId := w1.scene.getRenderId }
          ∧ (w1.subMeshes 0).effect = some e
          ∧ (w1.effects e)._wasPreviouslyReady = true)
      ∧ (r = false → w1 = wg) :=
  final_gate_decides exampleEnv 0 0 false settledWorld NodeMaterialBuildStateSharedData.fresh
    settledCheck.1 settledCheck.2.1 settledWorld_reaches rfl rfl

/-- On `settledWorld` the check returns true: the first alternative of C10 is met. -/
theorem settledWorld_is_ready :
    ∃ w1, isReadyForSubMesh exampleEnv 0 0 false settledWorld = .done w1 true := ⟨_, rfl⟩

/-! ## The merged uniform and sampler lists (lines 580-595) -/

/-- The first occurrences hold exactly the elements of the list. -/
theorem mem_firstOccurrences {α : Type} [DecidableEq α] (l : List α) (x : α) :
    x ∈ firstOccurrences l ↔ x ∈ l := by
  induction l with
  | nil => simp [firstOccurrences]
  | cons y ys ih =>
    simp only [firstOccurrences, List.mem_cons, List.mem_filter, ih, decide_eq_true_eq]
    constructor
    · rintro (h | ⟨h, _⟩)
      · exact Or.inl h
      · exact Or.inr h
    · rintro (h | h)
      · exact Or.inl h
      · by_cases hxy : x = y
        · exact Or.inl hxy
        · exact Or.inr ⟨h, hxy⟩

/-- The first occurrences hold no element twice. -/
theorem firstOccurrences_nodup {α : Type} [DecidableEq α] (l : List α) :
    (firstOccurrences l).Nodup := by
  induction l with
  | nil => simp [firstOccurrences]
  | cons y ys ih =>
    simp only [firstOccurrences, List.nodup_cons, List.mem_filter, decide_eq_true_eq]
    exact ⟨fun h => h.2 rfl, ih.filter _⟩

/-- Taking first occurrences commutes with filtering. -/
theorem firstOccurrences_filter {α : Type} [DecidableEq α] (p : α → Bool) (l : List α) :
    firstOccurrences (l.filter p) = (firstOccurrences l).filter p := by
  induction l with
  | nil => simp [firstOccurrences]
  | cons y ys ih =>
    by_cases hp : p y = true
    · simp only [List.filter_cons, hp, if_true, firstOccurrences, ih, List.filter_filter]
      congr 1
      apply List.filter_congr
      intro z _
      exact Bool.and_comm _ _
    · simp only [List.filter_cons, hp, firstOccurrences, List.filter_filter]
      simp only [Bool.false_eq_true, if_false]
      rw [ih]
      apply List.filter_congr
      intro z _
      by_cases hz : z = y
      · subst hz; simp [hp]
      · simp [hz]

/-- Absorbing `xs` appends the first occurrences of the elements the list did not hold. -/
theorem absorb_eq {α : Type} [DecidableEq α] (xs : List α) : ∀ l : List α,
    absorb l xs = l ++ firstOccurrences (xs.filter (fun x => decide (x ∉ l))) := by
  induction xs with
  | nil => intro l; simp [absorb, firstOccurrences]
  | cons x xs ih =>
    intro l
    have hstep : absorb l (x :: xs) = absorb (if x ∈ l then l else l ++ [x]) xs := rfl
    rw [hstep]
    by_cases hx : x ∈ l
    · simp only [hx, if_true, ih, List.filter_cons, not_true_eq_false, decide_False,
        Bool.false_eq_true, if_false]
    · simp only [hx, if_false, ih, List.filter_cons, not_false_eq_true, decide_True, if_true,
        firstOccurrences, List.append_assoc, List.singleton_append]
      congr 2
      rw [← firstOccurrences_filter]
      congr 1
      rw [List.filter_filter]
      apply List.filter_congr
      intro z _
      simp [List.mem_append, not_or, and_comm]

/-- Absorbing two lists in turn is absorbing their concatenation. -/
theorem absorb_append {α : Type} [DecidableEq α] (l xs ys : List α) :
    absorb l (xs ++ ys) = absorb (absorb l xs) ys := by
  simp [absorb, List.foldl_append]

/-- The loop of lines 582-586 absorbs the fragment names into the vertex list. -/
theorem mergeNames_eq_absorb (vertex fragment : List String) :
    mergeNames vertex fragment = absorb vertex fragment := by
  unfold mergeNames absorb
  congr 1
  funext merged u
  simp

/-- The merged list is the vertex list followed by the first occurrences of the
fragment-only names. -/
theorem mergeNames_eq (vertex fragment : List String) :
    mergeNames vertex fragment
      = vertex ++ firstOccurrences (fragment.filter (fun u => decide (u ∉ vertex))) := by
  rw [mergeNames_eq_absorb, absorb_eq]

/-- The merged list holds exactly the names of the two lists. -/
theorem mem_mergeNames (vertex fragment : List String) (u : String) :
    u ∈ mergeNames vertex fragment ↔ u ∈ vertex ∨ u ∈ fragment := by
  rw [mergeNames_eq, List.mem_append, mem_firstOccurrences, List.mem_filter]
  simp only [decide_eq_true_eq]
  constructor
  · rintro (h | ⟨h, _⟩)
    · exact Or.inl h
    · exact Or.inr h
  · rintro (h | h)
    · exact Or.inl h
    · by_cases hv : u ∈ vertex
      · exact Or.inl hv
      · exact Or.inr ⟨h, hv⟩

/-- The merged list has a repetition exactly when the vertex list has one. -/
theorem mergeNames_nodup (vertex fragment : List String) :
    (mergeNames vertex fragment).Nodup ↔ vertex.Nodup := by
  rw [mergeNames_eq, List.nodup_append]
  constructor
  · exact fun h => h.1
  · intro h
    refine ⟨h, firstOccurrences_nodup _, ?_⟩
    intro u hu hu2
    rw [mem_firstOccurrences, List.mem_filter] at hu2
    simp only [decide_eq_true_eq] at hu2
    exact hu2.2 hu

/-- How often a name occurs in the merged list. -/
theorem count_mergeNames (vertex fragment : List String) (u : String) :
    (mergeNames vertex fragment).count u
      = if u ∈ vertex then vertex.count u else if u ∈ fragment then 1 else 0 := by
  rw [mergeNames_eq, List.count_append,
    List.count_eq_of_nodup (firstOccurrences_nodup _)]
  simp only [mem_firstOccurrences, List.mem_filter, decide_eq_true_eq]
  by_cases hv : u ∈ vertex
  · simp [hv]
  · by_cases hf : u ∈ fragment
    · simp [hv, hf, List.count_eq_zero_of_not_mem hv]
    · simp [hv, hf, List.count_eq_zero_of_not_mem hv]

/-- C11: the uniform list of the request handed to `createEffect` is the vertex list,
in its order, followed by the names that occur only in the fragment list, in the order
of their first occurrence there; it holds exactly the names of the two lists. The sampler
list of the request is built the same way from the two sampler lists. -/
theorem merged_lists_vertex_first (env : Env) (d : NodeMaterialDefines)
    (uniformBuffers : List String) (vs fs : NodeMaterialBuildState) (m : NodeMaterial) :
    ((effectRequest env d uniformBuffers vs fs m).2.uniformsNames
        = vs.uniforms
          ++ firstOccurrences (fs.uniforms.filter (fun u => decide (u ∉ vs.uniforms)))
      ∧ ∀ u, u ∈ (effectRequest env d uniformBuffers vs fs m).2.uniformsNames
          ↔ u ∈ vs.uniforms ∨ u ∈ fs.uniforms)
    ∧ ((effectRequest env d uniformBuffers vs fs m).2.samplers
        = vs.samplers
          ++ firstOccurrences (fs.samplers.filter (fun s => decide (s ∉ vs.samplers)))
      ∧ ∀ s, s ∈ (effectRequest env d uniformBuffers vs fs m).2.samplers
          ↔ s ∈ vs.samplers ∨ s ∈ fs.samplers) :=
  ⟨⟨mergeNames_eq _ _, mem_mergeNames _ _⟩, ⟨mergeNames_eq _ _, mem_mergeNames _ _⟩⟩

/-- C12 as stated fails: on the built example world whose vertex state lists the uniform
`world` twice, the readiness check asks for one effect, and the uniform list of that
request holds `world` twice. -/
theorem merged_list_repeats_vertex_duplicate :
    (∃ w1 r, isReadyForSubMesh exampleEnv 0 0 false repeatedUniformWorld = .done w1 r
        ∧ requestedUniforms w1.trace = [["world", "world", "view"]])
      ∧ ¬ (["world", "world", "view"] : List String).Nodup :=
  ⟨⟨_, _, rfl, by decide⟩, by decide⟩

/-- C12, amended: the merge adds no duplicate. A name of the vertex list occurs in the
merged list as often as in the vertex list, a name of the fragment list alone occurs
once; so the merged list is free of duplicates exactly when the vertex list is. The same
holds for the samplers. -/
theorem merged_lists_add_no_duplicate (env : Env) (d : NodeMaterialDefines)
    (uniformBuffers : List String) (vs fs : NodeMaterialBuildState) (m : NodeMaterial) :
    (((effectRequest env d uniformBuffers vs fs m).2.uniformsNames.Nodup ↔ vs.uniforms.Nodup)
      ∧ ∀ u, (effectRequest env d uniformBuffers vs fs m).2.uniformsNames.count u
          = if u ∈ vs.uniforms then vs.uniforms.count u
            else if u ∈ fs.uniforms then 1 else 0)
    ∧ (((effectRequest env d uniformBuffers vs fs m).2.samplers.Nodup ↔ vs.samplers.Nodup)
      ∧ ∀ s, (effectRequest env d uniformBuffers vs fs m).2.samplers.count s
          = if s ∈ vs.samplers then vs.samplers.count s
            else if s ∈ fs.samplers then 1 else 0) :=
  ⟨⟨mergeNames_nodup _ _, count_mergeNames _ _⟩, ⟨mergeNames_nodup _ _, count_mergeNames _ _⟩⟩

/-! ## The frozen fast path (lines 505-528) -/

/-- A run of recorded calls changes the trace only. -/
theorem foldl_log_eq {β : Type} (f : β → Event) (l : List β) : ∀ w : World,
    l.foldl (fun acc x => acc.log (f x)) w = { w with trace := w.trace ++ l.map f } := by
  induction l with
  | nil => intro w; simp
  | cons x xs ih =>
    intro w
    rw [List.foldl_cons, ih]
    simp only [World.log, List.map_cons, List.append_assoc, List.singleton_append]

/-- Lines 512-522 change the animation frame and record `animate` calls, nothing else. -/
theorem animateInputs_only_animates (sd : NodeMaterialBuildStateSharedData) (w : World) :
    (animateInputs sd w).subMeshes = w.subMeshes ∧ (animateInputs sd w).effects = w.effects
      ∧ (animateInputs sd w).blocks = w.blocks
      ∧ (animateInputs sd w).mat = { w.mat with
          _animationFrame := (animateInputs sd w).mat._animationFrame }
      ∧ ∃ evs, (animateInputs sd w).trace = w.trace ++ evs
          ∧ ∀ ev ∈ evs, ∃ input, ev = .animate input := by
  unfold animateInputs
  split_ifs with h1 h2
  · exact ⟨rfl, rfl, rfl, rfl, [], by simp, by simp⟩
  · rw [foldl_log_eq]
    refine ⟨rfl, rfl, rfl, rfl, sd.animatedInputs.map Event.animate, rfl, ?_⟩
    intro ev hev
    obtain ⟨i, _, hi⟩ := List.mem_map.1 hev
    exact ⟨i, hi.symm⟩
  · exact ⟨rfl, rfl, rfl, rfl, [], by simp, by simp⟩

/-- C13: when the build succeeded (flag up, and with it the Shared Data in place, as in
every world reached by calls from a new material), the material is frozen and the
sub-mesh has an effect that was ready before, `isReadyForSubMesh` returns true;
no sub-mesh is touched, so no defines container is created or changed, no effect, block
or compilation state changes, and the only calls it makes animate the animated inputs: no
block is asked for its readiness or its defines and no effect is requested. -/
theorem frozen_fast_path_skips_checks (env : Env) (mesh subMesh : Nat) (useInstances : Bool)
    (w : World) (sd : NodeMaterialBuildStateSharedData) (e : Nat)
    (hbuilt : w.mat._buildWasSuccessful = true) (hsd : w.mat._sharedData = some sd)
    (hfrozen : w.mat.isFrozen = true) (heff : (w.subMeshes subMesh).effect = some e)
    (hprev : (w.effects e)._wasPreviouslyReady = true) :
    ∃ w1, isReadyForSubMesh env mesh subMesh useInstances w = .done w1 true
      ∧ w1.subMeshes = w.subMeshes ∧ w1.effects = w.effects ∧ w1.blocks = w.blocks
      ∧ w1.mat._vertexCompilationState = w.mat._vertexCompilationState
      ∧ w1.mat._fragmentCompilationState = w.mat._fragmentCompilationState
      ∧ ∃ evs, w1.trace = w.trace ++ evs ∧ ∀ ev ∈ evs, ∃ input, ev = .animate input := by
  obtain ⟨hs, he, hb, hm, ht⟩ := animateInputs_only_animates sd w
  have hfast : frozenFastPath (animateInputs sd w) subMesh = true := by
    unfold frozenFastPath
    rw [hs, heff]
    simp only [he, hprev, Bool.and_true]
    rw [hm]
    exact hfrozen
  refine ⟨animateInputs sd w, ?_, hs, he, hb, ?_, ?_, ht⟩
  · unfold isReadyForSubMesh
    simp only [hbuilt, Bool.not_true, Bool.false_eq_true, if_false, hsd, hfast, if_true]
  · rw [hm]
  · rw [hm]

/-- C13 on the frozen example world, whose Shared Data lists an animated input, a
blocking block and a block with defines: the check returns true, the sub-mesh still has
no defines and the only call animates input 3. -/
theorem frozen_fast_path_skips_checks_witness :
    (∃ w1, isReadyForSubMesh exampleEnv 0 0 false frozenWorld = .done w1 true
      ∧ w1.subMeshes = frozenWorld.subMeshes ∧ w1.effects = frozenWorld.effects
      ∧ w1.blocks = frozenWorld.blocks
      ∧ w1.mat._vertexCompilationState = frozenWorld.mat._vertexCompilationState
      ∧ w1.mat._fragmentCompilationState = frozenWorld.mat._fragmentCompilationState
      ∧ ∃ evs, w1.trace = frozenWorld.trace ++ evs ∧ ∀ ev ∈ evs, ∃ input, ev = .animate input)
      ∧ (frozenWorld.subMeshes 0)._materialDefines = none :=
  ⟨frozen_fast_path_skips_checks exampleEnv 0 0 false frozenWorld _ 1 rfl rfl rfl rfl rfl, rfl⟩

/-! ## A build that returns (lines 443-477) -/

/-- Every outcome is what it is. -/
theorem Outcome.Sat.self {α : Type} (o : Outcome α) :
    o.Sat (fun w a => o = .done w a) (fun _ _ => True) True := by
  cases o <;> simp [Outcome.Sat]

/-- A `build` that returns has gone through the initialization loops and the two stage
builds, which keep to the frame of the world with the fresh states, and then through
lines 443-477. -/
theorem build_done_stages (env : Env) (fuel : Nat) (verbose : Bool) (w w1 : World)
    (h : build env fuel verbose w = .done w1 ()) :
    ∃ options w3, w.mat._options = some options
      ∧ Frame (allocatedWorld env verbose options w) w3
      ∧ completeBuild verbose w3 = .done w1 () := by
  have key : (build env fuel verbose w).Sat
      (fun w1 _ => ∃ options w3, w.mat._options = some options
        ∧ Frame (allocatedWorld env verbose options w) w3
        ∧ completeBuild verbose w3 = .done w1 ()) (fun _ _ => True) True := by
    by_cases hv : w.mat._vertexOutputNodes = []
    · have : build env fuel verbose w
          = .raised (w.setMat { w.mat with _buildWasSuccessful := false }) noVertexOutputNode := by
        simp [build, World.setMat, hv]
      rw [this]; trivial
    by_cases hf : w.mat._fragmentOutputNodes = []
    · have : build env fuel verbose w
          = .raised (w.setMat { w.mat with _buildWasSuccessful := false })
              noFragmentOutputNode := by
        simp [build, World.setMat, hv, hf]
      rw [this]; trivial
    cases ho : w.mat._options with
    | none =>
      rw [build_crashes_without_options env fuel verbose w hv hf ho]; trivial
    | some options =>
      have heq : build env fuel verbose w
          = (initializeBlocks env fuel (allocatedWorld env verbose options w)).andThen
              fun w2 nodes => (buildStages env fuel nodes w2).andThen
                fun w3 _ => completeBuild verbose w3 := by
        simp only [build, World.setMat, List.isEmpty_iff, hv, hf, if_false, allocateStates, ho,
          Outcome.andThen, allocatedWorld]
      rw [heq]
      have hinit := initializeBlocks_sat env (fun _ => 0) True fuel
        (allocatedWorld env verbose options w) (Or.inl trivial)
      refine (hinit.mono (q := InitBlocksPost (allocatedWorld env verbose options w))
        (f := fun _ _ => True) (fun _ _ h => h) (fun _ _ _ => trivial)).andThen ?_
      rintro w2 nodes ⟨r2, _, _⟩
      have hsd2 : ∀ sd, w2.mat._sharedData = some sd → sd.buildId = w2.mat._buildId := by
        rw [r2.frame.matBuildId]
        exact r2.frame.sharedCur _ (fun sd1 h1 => by cases h1; rfl)
      have hstages := buildStages_sat env (fun _ => 0) True fuel nodes w2 hsd2 (Or.inl trivial)
      refine (hstages.mono (fun _ _ h => h) (fun _ _ _ => trivial)).andThen ?_
      rintro w3 _ ⟨f3, _, _⟩
      refine (Outcome.Sat.self (completeBuild verbose w3)).mono ?_ (fun _ _ h => h)
      intro w4 u h4
      exact ⟨options, w3, rfl, r2.frame.frameTrans f3, h4⟩
  rw [h] at key
  exact key

/-- The verbose log only adds to the trace. -/
theorem logShaders_done (verbose : Bool) (w w1 : World)
    (h : logShaders verbose w = .done w1 ()) : ∃ evs, w1 = { w with trace := w.trace ++ evs } := by
  unfold logShaders at h
  split at h
  · split at h
    · rename_i vs fs _ _
      cases h
      exact ⟨[.logInfo "Vertex shader:", .logInfo vs.compilationString,
        .logInfo "Fragment shader:", .logInfo fs.compilationString], by simp [World.log]⟩
    · cases h
  · cases h
    exact ⟨[], by simp⟩

/-- Releasing the defines of one sub-mesh rewrites that sub-mesh only. -/
theorem wipeSubMeshDefines_eq (w : World) (subMesh : Nat) :
    wipeSubMeshDefines w subMesh = w.setSubMesh subMesh (w.subMeshes subMesh).wiped := by
  unfold wipeSubMeshDefines SubMesh.wiped
  split_ifs with h
  · cases hd : (w.subMeshes subMesh)._materialDefines with
    | none =>
      simp only
      have : ({ w.subMeshes subMesh with _materialDefines := none } : SubMesh)
          = w.subMeshes subMesh := by
        cases hs : w.subMeshes subMesh
        simp [hs] at hd
        simp [hd]
      rw [this]
      simp [World.setSubMesh]
    | some d => rfl
  · simp [World.setSubMesh]

/-- Releasing released defines changes nothing. -/
theorem wiped_wiped (sm : SubMesh) : sm.wiped.wiped = sm.wiped := by
  unfold SubMesh.wiped
  split_ifs <;> simp_all

/-- The inner loop of the wipe: the sub-meshes of the list are wiped, nothing else
changes. -/
theorem wipeSubMeshes_eq (l : List Nat) : ∀ w : World,
    l.foldl wipeSubMeshDefines w
      = { w with subMeshes := fun t => if t ∈ l then (w.subMeshes t).wiped else w.subMeshes t } := by
  induction l with
  | nil => intro w; simp
  | cons x xs ih =>
    intro w
    rw [List.foldl_cons, ih, wipeSubMeshDefines_eq]
    simp only [World.setSubMesh]
    congr 1
    funext t
    by_cases htx : t = x
    · subst htx
      simp [wiped_wiped]
    · simp [htx, Function.update_noteq htx]

/-- The wipe of lines 458-477: the sub-meshes of the meshes of the scene are wiped,
nothing else changes. -/
theorem wipeDefines_eq (w : World) :
    wipeDefines w
      = { w with subMeshes := fun t =>
          if ∃ m ∈ w.scene.meshes, t ∈ (w.meshes m).subMeshes then (w.subMeshes t).wiped
          else w.subMeshes t } := by
  unfold wipeDefines
  have gen : ∀ (l : List Nat) (w0 : World),
      l.foldl (fun acc mesh => (acc.meshes mesh).subMeshes.foldl wipeSubMeshDefines acc) w0
        = { w0 with subMeshes := fun t =>
            if ∃ m ∈ l, t ∈ (w0.meshes m).subMeshes then (w0.subMeshes t).wiped
            else w0.subMeshes t } := by
    intro l
    induction l with
    | nil => intro w0; simp
    | cons m ms ih =>
      intro w0
      rw [List.foldl_cons, wipeSubMeshes_eq, ih]
      simp only
      congr 1
      funext t
      by_cases h1 : t ∈ (w0.meshes m).subMeshes
      · simp [h1, wiped_wiped]
      · simp [h1]
  exact gen _ w

/-! ## The new build id and the wipe of the defines -/

/-- Lines 443-477, when they return: the new build id, the verbose log, the flag and the
wipe. -/
theorem completeBuild_done (verbose : Bool) (w w1 : World)
    (h : completeBuild verbose w = .done w1 ()) :
    ∃ evs, w1 = wipeDefines (markSuccessful
      { (nextBuildId w).log .emitErrors with
        trace := ((nextBuildId w).log .emitErrors).trace ++ evs }) := by
  unfold completeBuild at h
  cases hl : logShaders verbose ((nextBuildId w).log .emitErrors) with
  | done wl u =>
    rw [hl] at h
    simp only [Outcome.andThen] at h
    cases h
    obtain ⟨evs, he⟩ := logShaders_done verbose _ wl hl
    exact ⟨evs, by rw [he]⟩
  | raised wl what => rw [hl] at h; cases h
  | crashed => rw [hl] at h; cases h
  | diverged => rw [hl] at h; cases h

/-- A `build` that returns ends in the wipe of a world that differs from the world with
the fresh states by the frame-preserving steps, the new build id and the flag. -/
theorem build_done_eq (env : Env) (fuel : Nat) (verbose : Bool) (w w1 : World)
    (h : build env fuel verbose w = .done w1 ()) :
    ∃ w3 : World, (∀ t, w1.subMeshes t =
        if ∃ m ∈ w.scene.meshes, t ∈ (w.meshes m).subMeshes then (w.subMeshes t).wiped
        else w.subMeshes t)
      ∧ w1.meshes = w.meshes ∧ w1.scene = w.scene ∧ w1.effects = w.effects
      ∧ w1.mat = { w3.mat with _buildId := w._BuildIdGenerator, _buildWasSuccessful := true }
      ∧ w1._BuildIdGenerator = sizeInc w._BuildIdGenerator
      ∧ w3.mat._sharedData.map (fun sd => sd.buildId) = some w.mat._buildId
      ∧ w3.mat._buildId = w.mat._buildId := by
  obtain ⟨options, w3, _, f3, hc⟩ := build_done_stages env fuel verbose w w1 h
  obtain ⟨evs, he⟩ := completeBuild_done verbose w3 w1 hc
  have hsub : w3.subMeshes = w.subMeshes := f3.subMeshes
  have hmesh : w3.meshes = w.meshes := f3.meshes
  have hscene : w3.scene = w.scene := f3.scene
  have hgen : w3._BuildIdGenerator = w._BuildIdGenerator := f3.generator
  have heff : w3.effects = w.effects := f3.effects
  refine ⟨w3, ?_, ?_, ?_, ?_, ?_, ?_, ?_, ?_⟩
  · intro t
    rw [he, wipeDefines_eq]
    simp only [markSuccessful, World.log, World.setMat, nextBuildId, hsub, hmesh, hscene]
  · rw [he, wipeDefines_eq]
    simp only [markSuccessful, World.log, World.setMat, nextBuildId, hmesh]
  · rw [he, wipeDefines_eq]
    simp only [markSuccessful, World.log, World.setMat, nextBuildId, hscene]
  · rw [he, wipeDefines_eq]
    simp only [markSuccessful, World.log, World.setMat, nextBuildId, heff]
  · rw [he, wipeDefines_eq]
    simp only [markSuccessful, World.log, World.setMat, nextBuildId, hgen]
  · rw [he, wipeDefines_eq]
    simp only [markSuccessful, World.log, World.setMat, nextBuildId, hgen]
  · have := f3.sharedBuildId
    rw [this]
    rfl
  · exact f3.matBuildId

/-- C16: when `build` returns, the Shared Data of the build carries the build id the
material had at entry, and the material has the id the generator held at entry, while
the generator has moved on by one. For a material whose id was drawn from the generator
before (`hdrawn`) and absent wrap-around of the counter (`hnowrap`), the new id is
strictly greater than the id used during the build, differs from every id below the
generator value at entry, which are the ids the generator has handed out since it started
at 0, and lies below the generator again. -/
theorem build_draws_fresh_build_id (env : Env) (fuel : Nat) (verbose : Bool) (w w1 : World)
    (h : build env fuel verbose w = .done w1 ())
    (hdrawn : w.mat._buildId < w._BuildIdGenerator)
    (hnowrap : w._BuildIdGenerator + 1 < 2 ^ 64) :
    w1.mat._sharedData.map (fun sd => sd.buildId) = some w.mat._buildId
      ∧ w1.mat._buildId = w._BuildIdGenerator
      ∧ w1._BuildIdGenerator = w._BuildIdGenerator + 1
      ∧ w.mat._buildId < w1.mat._buildId
      ∧ (∀ i, i < w._BuildIdGenerator → w1.mat._buildId ≠ i)
      ∧ w1.mat._buildId < w1._BuildIdGenerator := by
  obtain ⟨w3, _, _, _, _, hm, hg, hsd, _⟩ := build_done_eq env fuel verbose w w1 h
  have hid : w1.mat._buildId = w._BuildIdGenerator := by rw [hm]
  have hgen : w1._BuildIdGenerator = w._BuildIdGenerator + 1 := by
    rw [hg]
    exact Nat.mod_eq_of_lt hnowrap
  refine ⟨?_, hid, hgen, ?_, ?_, ?_⟩
  · rw [hm]; exact hsd
  · rw [hid]; exact hdrawn
  · intro i hi
    rw [hid]
    exact (Nat.ne_of_lt hi).symm
  · rw [hid, hgen]
    exact Nat.lt_succ_self _

/-- The constructor hands the material an id below the generator, absent wrap-around. -/
theorem constructMaterial_drawn (options : Option INodeMaterialOptions) (w : World)
    (hnowrap : w._BuildIdGenerator + 1 < 2 ^ 64) :
    (constructMaterial options w).mat._buildId < (constructMaterial options w)._BuildIdGenerator := by
  show w._BuildIdGenerator < sizeInc w._BuildIdGenerator
  unfold sizeInc
  rw [Nat.mod_eq_of_lt hnowrap]
  exact Nat.lt_succ_self _

/-- C16 on the wired example world, a new material with id 0 and the generator at 1: the
Shared Data of its first build carries 0 and the material leaves the build with id 1. -/
theorem build_draws_fresh_build_id_witness :
    ∃ w1, build exampleEnv 3 false wiredWorld = .done w1 ()
      ∧ w1.mat._sharedData.map (fun sd => sd.buildId) = some wiredWorld.mat._buildId
      ∧ w1.mat._buildId = wiredWorld._BuildIdGenerator
      ∧ w1._BuildIdGenerator = wiredWorld._BuildIdGenerator + 1
      ∧ wiredWorld.mat._buildId < w1.mat._buildId
      ∧ (∀ i, i < wiredWorld._BuildIdGenerator → w1.mat._buildId ≠ i)
      ∧ w1.mat._buildId < w1._BuildIdGenerator :=
  ⟨_, rfl, build_draws_fresh_build_id exampleEnv 3 false wiredWorld _ rfl (by decide)
    (by decide)⟩

/-- C17: when `build` returns, every sub-mesh of every mesh of the scene that renders
with this material holds no defines container (lines 474-475 mark it all-dirty and
release it), a sub-mesh that renders with another material or with none is exactly as it
was, and so is a sub-mesh of no mesh of the scene; no sub-mesh changes its effect or its
material, and the meshes and the scene are as before. -/
theorem build_wipes_defines (env : Env) (fuel : Nat) (verbose : Bool) (w w1 : World)
    (h : build env fuel verbose w = .done w1 ()) :
    (∀ m ∈ w.scene.meshes, ∀ s ∈ (w.meshes m).subMeshes,
        (w.subMeshes s).getMaterial = some .this → (w1.subMeshes s)._materialDefines = none)
      ∧ (∀ s, (w.subMeshes s).getMaterial ≠ some .this → w1.subMeshes s = w.subMeshes s)
      ∧ (∀ s, (∀ m ∈ w.scene.meshes, s ∉ (w.meshes m).subMeshes) →
          w1.subMeshes s = w.subMeshes s)
      ∧ (∀ s, (w1.subMeshes s).effect = (w.subMeshes s).effect
          ∧ (w1.subMeshes s).getMaterial = (w.subMeshes s).getMaterial)
      ∧ w1.meshes = w.meshes ∧ w1.scene = w.scene := by
  obtain ⟨w3, hs, hmesh, hscene, _⟩ := build_done_eq env fuel verbose w w1 h
  refine ⟨?_, ?_, ?_, ?_, hmesh, hscene⟩
  · intro m hm s hsm hmat
    rw [hs s, if_pos ⟨m, hm, hsm⟩]
    simp [SubMesh.wiped, hmat]
  · intro s hmat
    rw [hs s]
    split_ifs
    · simp [SubMesh.wiped, hmat]
    · rfl
  · intro s hno
    rw [hs s, if_neg]
    rintro ⟨m, hm, hsm⟩
    exact hno m hm hsm
  · intro s
    rw [hs s]
    unfold SubMesh.wiped
    split_ifs <;> exact ⟨rfl, rfl⟩

/-- C17 on `sceneWorld`: the build returns, sub-mesh 0 (this material) had defines and
has none afterwards, sub-mesh 1 (another material) keeps its defines. -/
theorem build_wipes_defines_witness :
    ∃ w1, build exampleEnv 3 false sceneWorld = .done w1 ()
      ∧ (sceneWorld.subMeshes 0)._materialDefines = some settledDefines
      ∧ (w1.subMeshes 0)._materialDefines = none
      ∧ (w1.subMeshes 1)._materialDefines = some settledDefines :=
  ⟨_, rfl, rfl,
    (build_wipes_defines exampleEnv 3 false sceneWorld _ rfl).1 0 (by decide) 0 (by decide) rfl,
    by
      rw [(build_wipes_defines exampleEnv 3 false sceneWorld _ rfl).2.1 1 (by decide)]
      rfl⟩

/-! ## What a blocked check commits (lines 530-548) -/

/-- The flags `_prepareDefinesForAttributes` leaves say which vertex data the mesh
has. -/
theorem _prepareDefinesForAttributes_flags (mesh : AbstractMesh) (d : NodeMaterialDefines) :
    (_prepareDefinesForAttributes mesh d).get "NORMAL"
        = mesh.isVerticesDataPresent VertexBuffer.NormalKind
      ∧ (_prepareDefinesForAttributes mesh d).get "TANGENT"
        = mesh.isVerticesDataPresent VertexBuffer.TangentKind
      ∧ (_prepareDefinesForAttributes mesh d).get "UV1"
        = mesh.isVerticesDataPresent VertexBuffer.UVKind := by
  unfold _prepareDefinesForAttributes
  simp only []
  split_ifs <;>
    simp [NodeMaterialDefines.get, NodeMaterialDefines.setBool,
      NodeMaterialDefines.markAsAttributesDirty, List.lookup]

/-- The defines `isReadyForSubMesh` starts from are those of the sub-mesh, or fresh ones,
and the allocation touches no other sub-mesh. -/
theorem ensureDefines_eq (w : World) (subMesh : Nat) :
    (ensureDefines w subMesh).2
        = ((w.subMeshes subMesh)._materialDefines).getD NodeMaterialDefines.fresh
      ∧ (ensureDefines w subMesh).1.subMeshes
        = Function.update w.subMeshes subMesh
            { w.subMeshes subMesh with
              _materialDefines := some (ensureDefines w subMesh).2 } := by
  unfold ensureDefines
  cases h : (w.subMeshes subMesh)._materialDefines with
  | none => exact ⟨rfl, rfl⟩
  | some d =>
    refine ⟨rfl, ?_⟩
    simp only
    rw [← h]
    exact (Function.update_eq_self _ _).symm

/-- The walk with one more unit of fuel: the node, then the visits behind its inputs. -/
theorem World.visits_succ (w : World) (fuel node : Nat) :
    w.visits (fuel + 1) node
      = node :: ((w.blocks node).inputs.map (fun p => p.connectedPoint)).flatMap
          (w.visitsFrom fuel node) := rfl

/-- The visits depend on the wiring only. -/
theorem World.visits_congr {w w1 : World}
    (h : ∀ b, (w1.blocks b).inputs.map (fun p => p.connectedPoint)
      = (w.blocks b).inputs.map (fun p => p.connectedPoint)) :
    ∀ fuel node, w1.visits fuel node = w.visits fuel node
  | 0, _ => rfl
  | fuel + 1, node => by
    rw [World.visits_succ, World.visits_succ, h node]
    congr 1
    apply List.flatMap_congr
    intro c _
    cases c with
    | none => rfl
    | some block =>
      simp only [World.visitsFrom]
      split_ifs
      · rfl
      · exact World.visits_congr h fuel block

/-- No step leaves the empty trail. -/
theorem Trail.trailRefl (w : World) : Trail w [] w :=
  ⟨rfl, fun _ => by simp, ⟨[], by simp, rfl⟩, fun _ => rfl, rfl⟩

/-- Trails follow one another. -/
theorem Trail.trailTrans {w w1 w2 : World} {vs vs2 : List Nat} (h1 : Trail w vs w1)
    (h2 : Trail w1 vs2 w2) : Trail w (vs ++ vs2) w2 := by
  refine ⟨?_, ?_, ?_, fun b => (h2.wiring b).trans (h1.wiring b),
    h2.matBuildId.trans h1.matBuildId⟩
  · rw [h2.attached, h1.attached, absorb_append]
  · intro b
    rw [h2.stamps b, h1.stamps b, h1.matBuildId]
    by_cases hb2 : b ∈ vs2
    · simp [hb2]
    · simp [hb2]
  · obtain ⟨e1, ht1, hf1⟩ := h1.trace
    obtain ⟨e2, ht2, hf2⟩ := h2.trace
    exact ⟨e1 ++ e2, by rw [ht2, ht1, List.append_assoc],
      by rw [List.filterMap_append, hf1, hf2]⟩

/-- A trail has absorbed its visits. -/
theorem Trail.absorbed {w w1 : World} {vs : List Nat} (h : Trail w vs w1) : Absorbed w w1 :=
  ⟨vs, h.attached⟩

/-- Absorbing composes. -/
theorem Absorbed.absorbedTrans {w w1 w2 : World} (h1 : Absorbed w w1) (h2 : Absorbed w1 w2) :
    Absorbed w w2 := by
  obtain ⟨v1, e1⟩ := h1
  obtain ⟨v2, e2⟩ := h2
  exact ⟨v1 ++ v2, by rw [e2, e1, absorb_append]⟩

/-- Rewriting a block without touching its preparation id or its wiring leaves no
trail. -/
theorem Trail.trailSetBlock (w : World) (b : Nat) (blk : NodeMaterialBlock)
    (hs : blk.shape = (w.blocks b).shape) (hp : blk._preparationId = (w.blocks b)._preparationId) :
    Trail w [] (w.setBlock b blk) := by
  refine ⟨rfl, fun c => ?_, ⟨[], by simp [World.setBlock], rfl⟩, fun c => ?_, rfl⟩
  · by_cases hc : c = b
    · subst hc; simp [World.setBlock, hp]
    · simp [World.setBlock, Function.update_noteq hc]
  · by_cases hc : c = b
    · subst hc
      simp only [World.setBlock, Function.update_same]
      exact congrArg (fun s => s.2.2.2.2.2) hs
    · simp [World.setBlock, Function.update_noteq hc]

/-- Sequencing is associative. -/
theorem Outcome.andThen_assoc {α β γ : Type} (o : Outcome α) (f : World → α → Outcome β)
    (g : World → β → Outcome γ) :
    (o.andThen f).andThen g = o.andThen (fun w a => (f w a).andThen g) := by
  cases o <;> rfl

/-- Lines 301-317: the node is visited. -/
theorem initializeHead_trail (env : Env) (iState : Stage) (node : Nat) (w : World) :
    ((callBlockInitialize env iState node w).andThen fun w1 _ =>
        attachBlock node (stampPreparation node w1)).Sat
      (fun w4 _ => Trail w [node] w4) (fun w4 _ => Absorbed w w4) True := by
  unfold callBlockInitialize
  cases hs : w.state iState with
  | none => trivial
  | some s =>
    cases hd : w.mat._sharedData with
    | none => trivial
    | some sd =>
      simp only [Outcome.andThen]
      unfold attachBlock
      have hatt : ∀ w1 : World, (stampPreparation node w1).mat = w1.mat := fun _ => rfl
      have hA : (stampPreparation node (((w.log (.blockInitialize node iState)).setState iState
          { (env.blockInitialize node s sd).1 with target := s.target }).setSharedData
          { (env.blockInitialize node s sd).2 with buildId := sd.buildId })).mat.attachedBlocks
          = w.mat.attachedBlocks := by cases iState <;> rfl
      have hB : (stampPreparation node (((w.log (.blockInitialize node iState)).setState iState
          { (env.blockInitialize node s sd).1 with target := s.target }).setSharedData
          { (env.blockInitialize node s sd).2 with buildId := sd.buildId })).mat._buildId
          = w.mat._buildId := by cases iState <;> rfl
      have hT : (stampPreparation node (((w.log (.blockInitialize node iState)).setState iState
          { (env.blockInitialize node s sd).1 with target := s.target }).setSharedData
          { (env.blockInitialize node s sd).2 with buildId := sd.buildId })).trace
          = w.trace ++ [.blockInitialize node iState, .autoConfigure node] := by
        cases iState <;> simp [stampPreparation, World.log, World.setState, World.setMat,
          World.setSharedData, World.setBlock]
      have hK : ∀ b, (stampPreparation node (((w.log (.blockInitialize node iState)).setState
          iState { (env.blockInitialize node s sd).1 with target := s.target }).setSharedData
          { (env.blockInitialize node s sd).2 with buildId := sd.buildId })).blocks b
          = if b = node then { w.blocks node with _preparationId := w.mat._buildId }
            else w.blocks b := by
        intro b
        cases iState <;>
          by_cases hb : b = node <;>
          simp [stampPreparation, World.log, World.setState, World.setMat,
            World.setSharedData, World.setBlock, hb, Function.update_noteq]
      generalize (stampPreparation node (((w.log (.blockInitialize node iState)).setState iState
          { (env.blockInitialize node s sd).1 with target := s.target }).setSharedData
          { (env.blockInitialize node s sd).2 with buildId := sd.buildId })) = w3 at hA hB hT hK
      have hstamps : ∀ b, (w3.blocks b)._preparationId
          = if b ∈ [node] then w.mat._buildId else (w.blocks b)._preparationId := by
        intro b
        rw [hK b]
        by_cases hb : b = node
        · simp [hb]
        · simp [hb]
      have hwiring : ∀ b, (w3.blocks b).inputs.map (fun p => p.connectedPoint)
          = (w.blocks b).inputs.map (fun p => p.connectedPoint) := by
        intro b
        rw [hK b]
        by_cases hb : b = node
        · simp [hb]
        · simp [hb]
      have htrace : ∃ evs, w3.trace = w.trace ++ evs
          ∧ evs.filterMap Event.initialized = [node] :=
        ⟨_, hT, rfl⟩
      by_cases h1 : w3.mat.attachedBlocks.contains node = true
      · rw [if_pos h1]
        have hn : node ∈ w.mat.attachedBlocks := by rw [← hA]; simpa using h1
        exact ⟨by rw [hA]; simp [absorb, hn], hstamps, htrace, hwiring, hB⟩
      · rw [if_neg h1]
        have hn : node ∉ w.mat.attachedBlocks := by rw [← hA]; simpa using h1
        split_ifs
        · exact ⟨[], by rw [hA]; rfl⟩
        · exact ⟨by simp [World.setMat, hA, absorb, hn], hstamps, htrace, hwiring, hB⟩

/-- The walk from a node: lines 301-317, then the loop over the inputs, then the
outputs. -/
theorem _initializeBlock_head (env : Env) (iState : Stage) (fuel node : Nat) (nodes : List Nat)
    (w : World) :
    _initializeBlock env iState (fuel + 1) node nodes w
      = ((callBlockInitialize env iState node w).andThen fun w1 _ =>
          attachBlock node (stampPreparation node w1)).andThen fun w4 _ =>
        (forEach (initializeInput (_initializeBlock env iState fuel) iState node)
          (w4.blocks node).inputs.enum nodes w4).andThen fun w5 nodes5 =>
        .done (w5.setBlock node (w5.blocks node).resetOutputs) nodes5 := by
  rw [_initializeBlock_succ, Outcome.andThen_assoc]

/-- One turn of the loop over the inputs adds the visits behind the input to the
trail. -/
theorem initializeInput_trail (env : Env) (iState : Stage) (fuel : Nat)
    (ih : ∀ (node : Nat) (nodes : List Nat) (w : World),
      (_initializeBlock env iState fuel node nodes w).Sat
        (fun w1 _ => Trail w (w.visits fuel node) w1) (fun w1 _ => Absorbed w w1) True)
    (w : World) (node : Nat) (acc : List Nat) (x : Nat × NodeMaterialConnectionPoint)
    (wc : World) (nc : List Nat) (hinv : Trail w acc wc) :
    (initializeInput (_initializeBlock env iState fuel) iState node x nc wc).Sat
      (fun w2 _ => Trail w (acc ++ w.visitsFrom fuel node x.2.connectedPoint) w2)
      (fun w2 _ => Absorbed w w2) True := by
  have t1 : Trail wc [] (wc.setBlock node ((wc.blocks node).resetInput x.1)) :=
    Trail.trailSetBlock wc node _ (resetInput_shape _ _) rfl
  have t2 : Trail w acc (wc.setBlock node ((wc.blocks node).resetInput x.1)) := by
    simpa using hinv.trailTrans t1
  unfold initializeInput
  cases hc : x.2.connectedPoint with
  | none => simpa [World.visitsFrom] using t2
  | some c =>
    by_cases hcn : c = node
    · simp only [hcn, if_true]
      simpa [World.visitsFrom] using t2
    · simp only [hcn, if_false]
      refine (ih c _ _).mono ?_ ?_
      · intro w2 _ h2
        have := t2.trailTrans h2
        rw [World.visits_congr t2.wiring] at this
        simpa [World.visitsFrom, hcn] using this
      · intro w2 _ h2
        exact t2.absorbed.absorbedTrans h2

/-- The trail of `_initializeBlock`: when it returns, the walk has visited the blocks of
`visits`, in this order; when it throws, the attached blocks have absorbed some
blocks. -/
theorem _initializeBlock_trail (env : Env) (iState : Stage) :
    ∀ (fuel node : Nat) (nodes : List Nat) (w : World),
      (_initializeBlock env iState fuel node nodes w).Sat
        (fun w1 _ => Trail w (w.visits fuel node) w1) (fun w1 _ => Absorbed w w1) True
  | 0, _, _, _ => trivial
  | fuel + 1, node, nodes, w => by
    have ih := _initializeBlock_trail env iState fuel
    rw [_initializeBlock_head]
    refine (initializeHead_trail env iState node w).andThen ?_
    intro w4 _ t4
    have hloop := forEach_sat (initializeInput (_initializeBlock env iState fuel) iState node)
      (fun w2 _ => Absorbed w w2) True (w4.blocks node).inputs.enum
      (fun pre wc _ => Trail w ([node]
        ++ (pre.map (fun p => p.2.connectedPoint)).flatMap (w.visitsFrom fuel node)) wc)
      nodes w4
      (fun pre x rest a1 w5 _ hinv => by
        have := initializeInput_trail env iState fuel ih w node _ x w5 a1 hinv
        refine this.mono ?_ (fun _ _ h => h)
        intro w6 _ h6
        simpa [List.map_append, List.flatMap_append] using h6)
      (by simpa using t4)
    refine hloop.andThen ?_
    intro w5 nodes5 t5
    have t6 := t5.trailTrans
      (Trail.trailSetBlock w5 node (w5.blocks node).resetOutputs (resetOutputs_shape _) rfl)
    show Trail w (w.visits (fuel + 1) node) _
    have hw : (w4.blocks node).inputs.enum.map (fun p => p.2.connectedPoint)
        = (w.blocks node).inputs.map (fun p => p.connectedPoint) := by
      rw [← t4.wiring node]
      conv_rhs => rw [← List.enum_map_snd (w4.blocks node).inputs]
      rw [List.map_map]
      rfl
    rw [hw] at t6
    simpa [World.visits_succ] using t6

/-- Every visited block is reachable. -/
theorem World.reach_of_mem_visits (w : World) :
    ∀ (fuel node x : Nat), x ∈ w.visits fuel node → w.Reach node x
  | 0, _, _, h => by cases h
  | fuel + 1, node, x, h => by
    rw [World.visits_succ, List.mem_cons, List.mem_flatMap] at h
    rcases h with h | ⟨c, hc, hx⟩
    · rw [h]; exact Relation.ReflTransGen.refl
    · cases c with
      | none => cases hx
      | some block =>
        simp only [World.visitsFrom] at hx
        split_ifs at hx with hb
        · cases hx
        · exact Relation.ReflTransGen.head ⟨hc, hb⟩
            (World.reach_of_mem_visits w fuel block x hx)

/-- On an acyclic graph a walk with fuel beyond the rank of the node visits every
reachable block. -/
theorem World.mem_visits_of_reach (w : World) (rank : Nat → Nat) (hr : w.Acyclic rank) :
    ∀ (fuel node x : Nat), rank node < fuel → w.Reach node x → x ∈ w.visits fuel node
  | 0, _, _, h, _ => absurd h (Nat.not_lt_zero _)
  | fuel + 1, node, x, h, hx => by
    rw [World.visits_succ, List.mem_cons, List.mem_flatMap]
    rcases Relation.ReflTransGen.cases_head hx with h1 | ⟨c, hedge, hcx⟩
    · exact Or.inl h1.symm
    · refine Or.inr ⟨some c, hedge.1, ?_⟩
      simp only [World.visitsFrom, hedge.2, if_false]
      have := hr node c hedge
      exact World.mem_visits_of_reach w rank hr fuel c x (by omega) hcx

/-- On an acyclic graph the visits do not depend on the fuel, once it exceeds the rank
of the node. -/
theorem World.visits_fuel (w : World) (rank : Nat → Nat) (hr : w.Acyclic rank) :
    ∀ (fuel fuel1 node : Nat), rank node < fuel → rank node < fuel1 →
      w.visits fuel node = w.visits fuel1 node
  | 0, _, _, h, _ => absurd h (Nat.not_lt_zero _)
  | _ + 1, 0, _, _, h => absurd h (Nat.not_lt_zero _)
  | fuel + 1, fuel1 + 1, node, h, h1 => by
    rw [World.visits_succ, World.visits_succ]
    congr 1
    apply List.flatMap_congr
    intro c hc
    cases c with
    | none => rfl
    | some block =>
      simp only [World.visitsFrom]
      split_ifs with hb
      · rfl
      · have := hr node block ⟨hc, hb⟩
        exact World.visits_fuel w rank hr fuel fuel1 block (by omega) (by omega)

/-- C20: on a graph whose input connections are acyclic, with fuel beyond the rank of the
node and the state and the Shared Data in place, `_initializeBlock` either returns or
throws the uniqueness error. When it returns, the build id of the material is unchanged,
every block reachable from the node (the node included) is attached and carries that id
as preparation id, and the attached blocks are the former ones followed by the visited
blocks that were not attached, in the order of their first visit; the visits are the
blocks `initialize` was called on, in call order, and they are the reachable blocks. -/
theorem initializeBlock_attaches_and_stamps (env : Env) (iState : Stage) (rank : Nat → Nat)
    (fuel node : Nat) (nodes : List Nat) (w : World)
    (hr : w.Acyclic rank) (hfuel : rank node < fuel) (hs : (w.state iState).isSome)
    (hsd : w.mat._sharedData.isSome) :
    (∃ w1 nodes1, _initializeBlock env iState fuel node nodes w = .done w1 nodes1
        ∧ w1.mat._buildId = w.mat._buildId
        ∧ (∀ x, w.Reach node x → x ∈ w1.mat.attachedBlocks
            ∧ (w1.blocks x)._preparationId = w1.mat._buildId)
        ∧ w1.mat.attachedBlocks = w.mat.attachedBlocks
            ++ firstOccurrences ((w.visits fuel node).filter
                (fun x => decide (x ∉ w.mat.attachedBlocks)))
        ∧ (∃ evs, w1.trace = w.trace ++ evs
            ∧ evs.filterMap Event.initialized = w.visits fuel node)
        ∧ ∀ x, x ∈ w.visits fuel node ↔ w.Reach node x)
      ∨ (∃ w1 what, _initializeBlock env iState fuel node nodes w = .raised w1 what
          ∧ ∃ x, w.Reach node x ∧ (w.blocks x).isUnique = true
            ∧ what = multipleBlocks (w.blocks x).getClassName) := by
  have hends := _initializeBlock_sat env iState rank False fuel node nodes w
    (Or.inr ⟨hfuel, hr, hs, hsd⟩)
  have htrail := _initializeBlock_trail env iState fuel node nodes w
  rcases hends.cases with ⟨w1, nodes1, heq, _⟩ | ⟨w1, what, heq, _, x, hx, hu, hm, _⟩
  · left
    rw [heq] at htrail
    have t : Trail w (w.visits fuel node) w1 := htrail
    have hvis : ∀ x, x ∈ w.visits fuel node ↔ w.Reach node x := fun x =>
      ⟨w.reach_of_mem_visits fuel node x, w.mem_visits_of_reach rank hr fuel node x hfuel⟩
    refine ⟨w1, nodes1, heq, t.matBuildId, ?_, ?_, t.trace, hvis⟩
    · intro x hx
      have hmem := (hvis x).2 hx
      constructor
      · rw [t.attached, absorb_eq, List.mem_append, mem_firstOccurrences, List.mem_filter]
        by_cases ha : x ∈ w.mat.attachedBlocks
        · exact Or.inl ha
        · exact Or.inr ⟨hmem, by simpa using ha⟩
      · rw [t.stamps x, if_pos hmem, t.matBuildId]
    · rw [t.attached, absorb_eq]
  · right
    exact ⟨w1, what, heq, x, hx, hu, hm⟩

/-- C20 on the wired example world, from the vertex output node 0: the walk returns and
attaches blocks 0, 2 and 3 in this order. -/
theorem initializeBlock_attaches_and_stamps_witness :
    ((∃ w1 nodes1, _initializeBlock exampleEnv .vertex 3 0 [] wiredAllocated = .done w1 nodes1
        ∧ w1.mat._buildId = wiredAllocated.mat._buildId
        ∧ (∀ x, wiredAllocated.Reach 0 x → x ∈ w1.mat.attachedBlocks
            ∧ (w1.blocks x)._preparationId = w1.mat._buildId)
        ∧ w1.mat.attachedBlocks = wiredAllocated.mat.attachedBlocks
            ++ firstOccurrences ((wiredAllocated.visits 3 0).filter
                (fun x => decide (x ∉ wiredAllocated.mat.attachedBlocks)))
        ∧ (∃ evs, w1.trace = wiredAllocated.trace ++ evs
            ∧ evs.filterMap Event.initialized = wiredAllocated.visits 3 0)
        ∧ ∀ x, x ∈ wiredAllocated.visits 3 0 ↔ wiredAllocated.Reach 0 x)
      ∨ (∃ w1 what, _initializeBlock exampleEnv .vertex 3 0 [] wiredAllocated = .raised w1 what
          ∧ ∃ x, wiredAllocated.Reach 0 x ∧ (wiredAllocated.blocks x).isUnique = true
            ∧ what = multipleBlocks (wiredAllocated.blocks x).getClassName))
      ∧ ∃ w1 nodes1, _initializeBlock exampleEnv .vertex 3 0 [] wiredAllocated = .done w1 nodes1
        ∧ w1.mat.attachedBlocks = [0, 2, 3] :=
  ⟨initializeBlock_attaches_and_stamps exampleEnv .vertex exampleRank 3 0 [] wiredAllocated
    wiredWorld_acyclic (by decide) rfl rfl, _, _, rfl, rfl⟩

/-! ## Cycles in the input connections -/

/-- The walk does not end where the first inputs lead on forever: if every block of a set
`S` is not unique and has its first input connected to another block of `S`, the walk
from a block of `S` exhausts every fuel. -/
theorem _initializeBlock_diverges (env : Env) (iState : Stage) (w0 : World) (S : Nat → Prop)
    (next : Nat → Nat)
    (hS : ∀ b, S b → S (next b) ∧ next b ≠ b ∧ (w0.blocks b).isUnique = false
      ∧ ∃ rest, (w0.blocks b).inputs.map (fun p => p.connectedPoint) = some (next b) :: rest) :
    ∀ (fuel node : Nat) (nodes : List Nat) (w : World), S node →
      (∀ b, (w.blocks b).shape = (w0.blocks b).shape) →
      (w.state iState).isSome → w.mat._sharedData.isSome →
      _initializeBlock env iState fuel node nodes w = .diverged
  | 0, _, _, _, _, _, _, _ => rfl
  | fuel + 1, node, nodes, w, hn, hshape, hs, hsd => by
    have ih := _initializeBlock_diverges env iState w0 S next hS fuel
    obtain ⟨hnext, hne, huniq, rest, hwire⟩ := hS node hn
    rw [_initializeBlock_succ]
    rcases (callBlockInitialize_sat env iState node w False (Or.inr ⟨hs, hsd⟩)).cases with
      ⟨w1, _, e1, r1⟩ | ⟨_, _, _, hf⟩
    · rw [e1]
      simp only [Outcome.andThen]
      have r3 : InitRel w (stampPreparation node w1) :=
        r1.initTrans (stampPreparation_initRel node w1)
      rcases (attachBlock_sat node (stampPreparation node w1) False).cases with
        ⟨w4, _, e4, r4, _⟩ | ⟨w4, what, _, _, _, hu, _⟩
      · rw [e4]
        simp only [Outcome.andThen]
        have r5 := r3.initTrans r4
        have hw4 : (w4.blocks node).inputs.map (fun p => p.connectedPoint)
            = some (next node) :: rest := by
          rw [r5.frame.wiring node]
          have := congrArg (fun s => s.2.2.2.2.2) (hshape node)
          exact this.trans hwire
        obtain ⟨p, ps, hin, hp⟩ : ∃ p ps, (w4.blocks node).inputs = p :: ps
            ∧ p.connectedPoint = some (next node) := by
          cases hl : (w4.blocks node).inputs with
          | nil => rw [hl] at hw4; cases hw4
          | cons p ps =>
            rw [hl] at hw4
            simp only [List.map_cons, List.cons.injEq] at hw4
            exact ⟨p, ps, rfl, hw4.1⟩
        rw [hin]
        simp only [List.enum_cons, forEach]
        have hbody : initializeInput (_initializeBlock env iState fuel) iState node (0, p) nodes w4
            = .diverged := by
          unfold initializeInput
          simp only [hp, hne, if_false]
          have r6 : InitRel w (w4.setBlock node ((w4.blocks node).resetInput 0)) :=
            r5.initTrans (InitRel.initSetBlock w4 node _ (resetInput_shape _ _) rfl)
          exact ih (next node) _ _ hnext
            (fun b => (r6.frame.shape b).trans (hshape b))
            (r6.frame.state_isSome iState hs) (r6.frame.sharedData_isSome hsd)
        rw [hbody]
        rfl
      · exfalso
        have h1 : ((stampPreparation node w1).blocks node).isUnique = false := by
          rw [r3.frame.isUnique]
          have := congrArg (fun s => s.2.1) (hshape node)
          exact this.trans huniq
        rw [h1] at hu
        cases hu
    · exact hf.elim

/-- C19 as stated fails: in `cycleWorld` the dual blocks 2 and 3 read each other, and the
walk from block 2 (or from the output node 0) exhausts every fuel, that is, it recurses
without end; so does `build`. -/
theorem initializeBlock_recurses_forever_on_cycle :
    (cycleWorld.blocks 2).target = .VertexAndFragment
      ∧ (cycleWorld.blocks 3).target = .VertexAndFragment
      ∧ cycleWorld.Edge 2 3 ∧ cycleWorld.Edge 3 2
      ∧ (∀ fuel nodes, _initializeBlock exampleEnv .vertex fuel 2 nodes cycleAllocated
          = .diverged)
      ∧ (∀ fuel nodes, _initializeBlock exampleEnv .vertex fuel 0 nodes cycleAllocated
          = .diverged)
      ∧ ∀ fuel verbose, build exampleEnv fuel verbose cycleWorld = .diverged := by
  have hS : ∀ b, b < 4 → cycleNext b < 4 ∧ cycleNext b ≠ b
      ∧ (cycleWorld.blocks b).isUnique = false
      ∧ ∃ rest, (cycleWorld.blocks b).inputs.map (fun p => p.connectedPoint)
          = some (cycleNext b) :: rest := by
    intro b hb
    interval_cases b <;> exact ⟨by decide, by decide, rfl, [], rfl⟩
  have hdiv := fun iState => _initializeBlock_diverges exampleEnv iState cycleWorld
    (fun b => b < 4) cycleNext hS
  refine ⟨rfl, rfl, ⟨by decide, by decide⟩, ⟨by decide, by decide⟩, ?_, ?_, ?_⟩
  · intro fuel nodes
    exact hdiv .vertex fuel 2 nodes cycleAllocated (by decide) (fun _ => rfl) rfl rfl
  · intro fuel nodes
    exact hdiv .vertex fuel 0 nodes cycleAllocated (by decide) (fun _ => rfl) rfl rfl
  · intro fuel verbose
    obtain ⟨wa, hal, heq⟩ := build_eq exampleEnv fuel verbose cycleWorld
      (by decide) (by decide) rfl
    rw [heq]
    obtain ⟨vs, hvs, _⟩ := hal.vertexState
    obtain ⟨sd, hsd, _⟩ := hal.sharedData
    have h0 := hdiv .vertex fuel 0 [] wa (by decide) (fun b => by rw [hal.blocks])
      (by simp [World.state, hvs]) (by simp [hsd])
    unfold initializeBlocks
    rw [hal.vertexOutputNodes]
    have : cycleWorld.mat._vertexOutputNodes = [0] := rfl
    rw [this]
    simp only [forEach, initializeVertexOutput, h0, Outcome.andThen]

/-- C19, amended: on a graph whose input connections are acyclic (a connection of a
block to itself does not count, the walk skips it), with fuel beyond the rank of the node
and the state and the Shared Data in place, `_initializeBlock` ends: it returns, or it
throws the uniqueness error for a unique block reachable from the node. A block behind
several paths, such as a dual block behind both stages, is visited once per path. -/
theorem initializeBlock_ends_on_acyclic_graph (env : Env) (iState : Stage) (rank : Nat → Nat)
    (fuel node : Nat) (nodes : List Nat) (w : World)
    (hr : w.Acyclic rank) (hfuel : rank node < fuel) (hs : (w.state iState).isSome)
    (hsd : w.mat._sharedData.isSome) :
    (∃ w1 nodes1, _initializeBlock env iState fuel node nodes w = .done w1 nodes1)
      ∨ (∃ w1 x, _initializeBlock env iState fuel node nodes w
            = .raised w1 (multipleBlocks (w.blocks x).getClassName)
          ∧ (w.blocks x).isUnique = true ∧ w.Reach node x) := by
  rcases (_initializeBlock_sat env iState rank False fuel node nodes w
    (Or.inr ⟨hfuel, hr, hs, hsd⟩)).cases with ⟨w1, nodes1, heq, _⟩ | ⟨w1, what, heq, _, x, hx, hu, hm, _⟩
  · exact Or.inl ⟨w1, nodes1, heq⟩
  · exact Or.inr ⟨w1, x, by rw [heq, hm], hu, hx⟩

/-- C19, amended, on the wired example world, from the fragment output node 1, both
inputs of which lead to the dual block 2: the walk returns, having called `initialize`
on blocks 1, 2, 3, 2 and 3. -/
theorem initializeBlock_ends_on_acyclic_graph_witness :
    ((∃ w1 nodes1, _initializeBlock exampleEnv .fragment 3 1 [] wiredAllocated
          = .done w1 nodes1)
      ∨ (∃ w1 x, _initializeBlock exampleEnv .fragment 3 1 [] wiredAllocated
            = .raised w1 (multipleBlocks (wiredAllocated.blocks x).getClassName)
          ∧ (wiredAllocated.blocks x).isUnique = true ∧ wiredAllocated.Reach 1 x))
      ∧ ∃ w1 nodes1, _initializeBlock exampleEnv .fragment 3 1 [] wiredAllocated
          = .done w1 nodes1
        ∧ w1.trace.filterMap Event.initialized = [1, 2, 3, 2, 3] :=
  ⟨initializeBlock_ends_on_acyclic_graph exampleEnv .fragment exampleRank 3 1 []
    wiredAllocated wiredWorld_acyclic (by decide) rfl rfl, _, _, rfl, rfl⟩

/-! ## The attached blocks across the entry points -/

/-- No step keeps the graph. -/
theorem GraphKept.graphRefl (w : World) : GraphKept w w := ⟨rfl, rfl, rfl, rfl⟩

/-- Steps that keep the graph compose. -/
theorem GraphKept.graphTrans {w w1 w2 : World} (h1 : GraphKept w w1) (h2 : GraphKept w1 w2) :
    GraphKept w w2 :=
  ⟨h2.blocks.trans h1.blocks, h2.attached.trans h1.attached,
    h2.sharedData.trans h1.sharedData, h2.flag.trans h1.flag⟩

/-- A step that keeps the graph, after a step that changed none of the four. -/
theorem GraphKept.graphFrom {w w1 w2 : World} (h2 : GraphKept w1 w2)
    (hb : w1.blocks = w.blocks) (ha : w1.mat.attachedBlocks = w.mat.attachedBlocks)
    (hs : w1.mat._sharedData = w.mat._sharedData)
    (hf : w1.mat._buildWasSuccessful = w.mat._buildWasSuccessful) : GraphKept w w2 :=
  GraphKept.graphTrans ⟨hb, ha, hs, hf⟩ h2

/-- Lines 544-548 keep the blocks and the attached blocks. -/
theorem blockingBlocksReady_graph (env : Env) (mesh : Nat) (d : NodeMaterialDefines)
    (useInstances : Bool) (l : List Nat) : ∀ w : World,
    GraphKept w (blockingBlocksReady env mesh d useInstances l w).1 := by
  induction l with
  | nil => intro w; exact GraphKept.graphRefl w
  | cons b bs ih =>
    intro w
    unfold blockingBlocksReady
    simp only []
    split
    · exact GraphKept.graphFrom (ih (w.log (.isReady b))) rfl rfl rfl rfl
    · exact ⟨rfl, rfl, rfl, rfl⟩

/-- Lines 551-553 keep the blocks and the attached blocks. -/
theorem initializeDefinesPass_graph (env : Env) (mesh subMesh : Nat) (useInstances : Bool)
    (l : List Nat) : ∀ (d : NodeMaterialDefines) (w : World),
    GraphKept w (initializeDefinesPass env mesh subMesh useInstances l d w).1 := by
  induction l with
  | nil => intro d w; exact GraphKept.graphRefl w
  | cons b bs ih =>
    intro d w
    unfold initializeDefinesPass
    exact GraphKept.graphFrom (ih _ _) rfl rfl rfl rfl

/-- Lines 555-557 keep the blocks and the attached blocks. -/
theorem prepareDefinesPass_graph (env : Env) (mesh subMesh : Nat) (useInstances : Bool)
    (l : List Nat) : ∀ (d : NodeMaterialDefines) (w : World),
    GraphKept w (prepareDefinesPass env mesh subMesh useInstances l d w).1 := by
  induction l with
  | nil => intro d w; exact GraphKept.graphRefl w
  | cons b bs ih =>
    intro d w
    unfold prepareDefinesPass
    exact GraphKept.graphFrom (ih _ _) rfl rfl rfl rfl

/-- Lines 541-557 keep the blocks and the attached blocks. -/
theorem definesPasses_graph (env : Env) (mesh subMesh : Nat) (useInstances : Bool)
    (sd : NodeMaterialBuildStateSharedData) (d : NodeMaterialDefines) (w : World) :
    GraphKept w (definesPasses env mesh subMesh useInstances sd d w).1 := by
  unfold definesPasses
  simp only []
  have g1 : GraphKept w (w.setDefines subMesh (_prepareDefinesForAttributes (w.meshes mesh) d)) :=
    ⟨rfl, rfl, rfl, rfl⟩
  have g2 := blockingBlocksReady_graph env mesh (_prepareDefinesForAttributes (w.meshes mesh) d)
    useInstances sd.blockingBlocks
    (w.setDefines subMesh (_prepareDefinesForAttributes (w.meshes mesh) d))
  split
  · exact g1.graphTrans g2
  · exact ((g1.graphTrans g2).graphTrans (initializeDefinesPass_graph _ _ _ _ _ _ _)).graphTrans
      (prepareDefinesPass_graph _ _ _ _ _ _ _)

/-- The replay loop keeps the blocks and the attached blocks. -/
theorem replayLog_graph (env : Env) (mesh : Nat) (d : NodeMaterialDefines) (l : List Nat) :
    ∀ acc : World × NodeMaterialBuildState × NodeMaterialBuildState,
    GraphKept acc.1 (l.foldl
      (fun (acc : World × NodeMaterialBuildState × NodeMaterialBuildState) b =>
        ((acc.1.log (.replaceRepeatableContent b),
          (env.replaceRepeatableContent b acc.2.1 acc.2.2 mesh d).1,
          (env.replaceRepeatableContent b acc.2.1 acc.2.2 mesh d).2) :
          World × NodeMaterialBuildState × NodeMaterialBuildState)) acc).1 := by
  induction l with
  | nil => intro acc; exact GraphKept.graphRefl _
  | cons b bs ih =>
    intro acc
    rw [List.foldl_cons]
    exact GraphKept.graphFrom (ih _) rfl rfl rfl rfl

/-- The loop over the dynamic uniform blocks keeps the blocks and the attached blocks. -/
theorem uniformsLog_graph (env : Env) (d : NodeMaterialDefines) (l : List Nat) :
    ∀ acc : World × NodeMaterialBuildState × List String,
    GraphKept acc.1 (l.foldl
      (fun (acc : World × NodeMaterialBuildState × List String) b =>
        ((acc.1.log (.updateUniformsAndSamples b),
          (env.updateUniformsAndSamples b acc.2.1 d acc.2.2).1,
          (env.updateUniformsAndSamples b acc.2.1 d acc.2.2).2) :
          World × NodeMaterialBuildState × List String)) acc).1 := by
  induction l with
  | nil => intro acc; exact GraphKept.graphRefl _
  | cons b bs ih =>
    intro acc
    rw [List.foldl_cons]
    exact GraphKept.graphFrom (ih _) rfl rfl rfl rfl

/-- Lines 564-571 keep the blocks and the attached blocks and never throw. -/
theorem replayRepeatableContent_graph (env : Env) (mesh : Nat) (d : NodeMaterialDefines)
    (sd : NodeMaterialBuildStateSharedData) (w : World) :
    (replayRepeatableContent env mesh d sd w).Sat (fun w1 _ => GraphKept w w1)
      (fun _ _ => False) True := by
  unfold replayRepeatableContent
  split
  · rename_i vs fs _ _
    have g := replayLog_graph env mesh d sd.repeatableContentBlocks
      (w, { vs with compilationString := vs._builtCompilationString },
        { fs with compilationString := fs._builtCompilationString })
    exact ⟨g.blocks, g.attached, g.sharedData, g.flag⟩
  · trivial

/-- Lines 574-578 keep the blocks and the attached blocks and never throw. -/
theorem updateDynamicUniforms_graph (env : Env) (d : NodeMaterialDefines)
    (sd : NodeMaterialBuildStateSharedData) (w : World) :
    (updateDynamicUniforms env d sd w).Sat (fun w1 _ => GraphKept w w1)
      (fun _ _ => False) True := by
  unfold updateDynamicUniforms
  split
  · rename_i vs _
    have g := uniformsLog_graph env d sd.dynamicUniformBlocks (w, vs, [])
    exact ⟨g.blocks, g.attached, g.sharedData, g.flag⟩
  · trivial

/-- Lines 560-601 keep the blocks and the attached blocks and never throw. -/
theorem prepareRequest_graph (env : Env) (mesh subMesh : Nat) (d : NodeMaterialDefines)
    (sd : NodeMaterialBuildStateSharedData) (w : World) :
    (prepareRequest env mesh subMesh d sd w).Sat (fun w1 _ => GraphKept w w1)
      (fun _ _ => False) True := by
  unfold prepareRequest
  simp only []
  refine ((replayRepeatableContent_graph env mesh d.markAsProcessed sd
    (w.setDefines subMesh d.markAsProcessed)).mono
    (q := fun w2 _ => GraphKept w w2) (f := fun _ _ => False)
    (fun _ _ h => h.graphFrom rfl rfl rfl rfl) (fun _ _ h => h)).andThen ?_
  intro w2 _ g2
  refine ((updateDynamicUniforms_graph env d.markAsProcessed sd w2).mono
    (q := fun w3 _ => GraphKept w w3) (f := fun _ _ => False)
    (fun _ _ h => g2.graphTrans h) (fun _ _ h => h)).andThen ?_
  intro w3 ub g3
  split
  · show GraphKept w _
    rw [foldl_log_eq]
    exact ⟨g3.blocks, g3.attached, g3.sharedData, g3.flag⟩
  · trivial

/-- Lines 603-649 keep the blocks and the attached blocks. -/
theorem createAndAdopt_graph (env : Env) (subMesh : Nat)
    (request : EffectBaseName × IEffectCreationOptions) (d : NodeMaterialDefines) (w : World) :
    GraphKept w (createAndAdopt env subMesh request d w).1 := by
  unfold createAndAdopt adoptEffect
  simp only []
  split
  · exact ⟨rfl, rfl, rfl, rfl⟩
  · split <;> exact ⟨rfl, rfl, rfl, rfl⟩

/-- Lines 652-659 keep the blocks and the attached blocks. -/
theorem finalGate_graph (subMesh : Nat) (d : NodeMaterialDefines) (w : World) :
    GraphKept w (finalGate subMesh d w).1 := by
  unfold finalGate
  split
  · exact ⟨rfl, rfl, rfl, rfl⟩
  · split <;> exact ⟨rfl, rfl, rfl, rfl⟩

/-- Lines 539-659 keep the blocks and the attached blocks and never throw. -/
theorem checkSubMesh_graph (env : Env) (mesh subMesh : Nat) (useInstances : Bool)
    (sd : NodeMaterialBuildStateSharedData) (d : NodeMaterialDefines) (w : World) :
    (checkSubMesh env mesh subMesh useInstances sd d w).Sat (fun w1 _ => GraphKept w w1)
      (fun _ _ => False) True := by
  unfold checkSubMesh
  simp only []
  have g1 := definesPasses_graph env mesh subMesh useInstances sd d w
  split
  · exact g1
  · unfold settleEffect
    split
    · unfold recompile
      rw [Outcome.andThen_assoc]
      refine ((prepareRequest_graph env mesh subMesh _ sd _).mono
        (q := fun w4 _ => GraphKept w w4) (f := fun _ _ => False)
        (fun _ _ h => g1.graphTrans h) (fun _ _ h => h)).andThen ?_
      intro w4 r g4
      exact (g4.graphTrans (createAndAdopt_graph env subMesh r.1 r.2 w4)).graphTrans
        (finalGate_graph _ _ _)
    · exact g1.graphTrans (finalGate_graph _ _ _)

/-- The readiness check touches neither the blocks nor the attached blocks. -/
theorem isReadyForSubMesh_graph (env : Env) (mesh subMesh : Nat) (useInstances : Bool)
    (w : World) :
    (isReadyForSubMesh env mesh subMesh useInstances w).Sat (fun w1 _ => GraphKept w w1)
      (fun _ _ => False) True := by
  unfold isReadyForSubMesh
  split
  · exact GraphKept.graphRefl w
  · split
    · trivial
    · rename_i sd _
      obtain ⟨_, _, hb, hm, _⟩ := animateInputs_only_animates sd w
      have g0 : GraphKept w (animateInputs sd w) :=
        ⟨hb, by rw [hm], by rw [hm], by rw [hm]⟩
      simp only []
      split
      · exact g0
      · have g1 : GraphKept w (ensureDefines (animateInputs sd w) subMesh).1 := by
          refine g0.graphTrans ?_
          unfold ensureDefines
          split <;> exact ⟨rfl, rfl, rfl, rfl⟩
        split
        · exact g1
        · exact (checkSubMesh_graph env mesh subMesh useInstances sd _ _).mono
            (fun _ _ h => g1.graphTrans h) (fun _ _ h => h)

/-- Two guarantees of one call hold together. -/
theorem Outcome.Sat.both {α : Type} {o : Outcome α} {p q : World → α → Prop}
    {e f : World → String → Prop} {bad : Prop} (h1 : o.Sat p e bad) (h2 : o.Sat q f bad) :
    o.Sat (fun w a => p w a ∧ q w a) (fun w m => e w m ∧ f w m) bad := by
  cases o with
  | done w a => exact ⟨h1, h2⟩
  | raised w m => exact ⟨h1, h2⟩
  | crashed => exact h1
  | diverged => exact h1

/-- Absorbing blocks keeps the former list as a prefix and adds no repetition. -/
theorem Absorbed.prefix_nodup {w w1 : World} (h : Absorbed w w1) :
    w.mat.attachedBlocks <+: w1.mat.attachedBlocks
      ∧ (w.mat.attachedBlocks.Nodup → w1.mat.attachedBlocks.Nodup) := by
  obtain ⟨vs, hvs⟩ := h
  rw [hvs, absorb_eq]
  refine ⟨List.prefix_append _ _, fun hnd => ?_⟩
  rw [List.nodup_append]
  refine ⟨hnd, firstOccurrences_nodup _, ?_⟩
  intro x hx hx2
  rw [mem_firstOccurrences, List.mem_filter] at hx2
  simp only [decide_eq_true_eq] at hx2
  exact hx2.2 hx

/-- A step that leaves the attached blocks alone absorbs nothing. -/
theorem Absorbed.ofEq {w w1 : World} (h : w1.mat.attachedBlocks = w.mat.attachedBlocks) :
    Absorbed w w1 := ⟨[], h⟩

/-- The two initialization loops only absorb blocks into the attached blocks. -/
theorem initializeBlocks_absorbed (env : Env) (fuel : Nat) (w : World) :
    (initializeBlocks env fuel w).Sat (fun w1 _ => Absorbed w w1) (fun w1 _ => Absorbed w w1)
      True := by
  unfold initializeBlocks
  have hv := forEach_sat (initializeVertexOutput env fuel) (fun w1 _ => Absorbed w w1) True
    w.mat._vertexOutputNodes (fun _ wc _ => Absorbed w wc) ([], []) w
    (fun pre x rest a1 w1 _ hinv => by
      unfold initializeVertexOutput
      refine ((_initializeBlock_trail env .vertex fuel x a1.2 w1).mono
        (q := fun w2 _ => Absorbed w w2) (f := fun w2 _ => Absorbed w w2)
        (fun _ _ h => hinv.absorbedTrans h.absorbed)
        (fun _ _ h => hinv.absorbedTrans h)).andThen ?_
      intro w2 _ h2
      exact h2)
    (Absorbed.ofEq rfl)
  refine hv.andThen ?_
  intro w1 nodes h1
  exact forEach_sat (initializeFragmentOutput env fuel) (fun w2 _ => Absorbed w w2) True
    w1.mat._fragmentOutputNodes (fun _ wc _ => Absorbed w wc) nodes w1
    (fun pre x rest a1 w2 _ hinv => by
      unfold initializeFragmentOutput
      refine ((_initializeBlock_trail env .fragment fuel x a1.1 w2).mono
        (q := fun w3 _ => Absorbed w w3) (f := fun w3 _ => Absorbed w w3)
        (fun _ _ h => hinv.absorbedTrans h.absorbed)
        (fun _ _ h => hinv.absorbedTrans h)).andThen ?_
      intro w3 _ h3
      exact h3)
    h1

/-- What `build` does to the attached blocks, whether it returns or throws: it absorbs
blocks, changes no class and no uniqueness, and attaches no two clashing blocks
together. -/
theorem build_attached (env : Env) (fuel : Nat) (verbose : Bool) (w : World) :
    (build env fuel verbose w).Sat
      (fun w1 _ => Absorbed w w1 ∧ AttachKept w w1)
      (fun w1 _ => Absorbed w w1 ∧ AttachKept w w1) True := by
  have same : ∀ w1 : World, w1.blocks = w.blocks →
      w1.mat.attachedBlocks = w.mat.attachedBlocks → Absorbed w w1 ∧ AttachKept w w1 := by
    intro w1 hb ha
    refine ⟨Absorbed.ofEq ha, fun b => by rw [hb], fun b => by rw [hb], ?_, by rw [ha]; exact id⟩
    intro hu x y hc
    rw [ha]
    exact hu x y (by simpa [World.Clash, hb] using hc)
  by_cases hv : w.mat._vertexOutputNodes = []
  · have : build env fuel verbose w
        = .raised (w.setMat { w.mat with _buildWasSuccessful := false }) noVertexOutputNode := by
      simp [build, World.setMat, hv]
    rw [this]
    exact same _ rfl rfl
  by_cases hf : w.mat._fragmentOutputNodes = []
  · have : build env fuel verbose w
        = .raised (w.setMat { w.mat with _buildWasSuccessful := false })
            noFragmentOutputNode := by
      simp [build, World.setMat, hv, hf]
    rw [this]
    exact same _ rfl rfl
  cases ho : w.mat._options with
  | none =>
    rw [build_crashes_without_options env fuel verbose w hv hf ho]; trivial
  | some options =>
    obtain ⟨wa, hal, heq⟩ := build_eq env fuel verbose w hv hf (by rw [ho]; rfl)
    rw [heq]
    have lift : ∀ w2 : World, InitRel wa w2 → Absorbed wa w2 → ∀ w3 : World,
        (∀ b, (w3.blocks b).getClassName = (w2.blocks b).getClassName
          ∧ (w3.blocks b).isUnique = (w2.blocks b).isUnique) →
        w3.mat.attachedBlocks = w2.mat.attachedBlocks →
        Absorbed w w3 ∧ AttachKept w w3 := by
      intro w2 r2 a2 w3 hk ha
      have hab : Absorbed w w3 := by
        obtain ⟨vs, hvs⟩ := a2
        exact ⟨vs, by rw [ha, hvs, hal.attached]⟩
      have hcn : ∀ b, (w3.blocks b).getClassName = (w.blocks b).getClassName := fun b => by
        rw [(hk b).1, r2.frame.getClassName, hal.blocks]
      have hiu : ∀ b, (w3.blocks b).isUnique = (w.blocks b).isUnique := fun b => by
        rw [(hk b).2, r2.frame.isUnique, hal.blocks]
      refine ⟨hab, hcn, hiu, ?_, fun hnd => hab.prefix_nodup.2 hnd⟩
      intro hu x y hc
      rw [ha]
      have hcw : w.Clash x y := by
        simpa [World.Clash, hcn, hiu] using hc
      have hc2 : wa.Clash x y := by simpa [World.Clash, hal.blocks] using hcw
      refine r2.noClash x y hc2 ?_
      rw [hal.attached]
      exact hu x y hcw
    have hinit := (initializeBlocks_sat env (fun _ => 0) True fuel wa (Or.inl trivial)).both
      (initializeBlocks_absorbed env fuel wa)
    refine (hinit.mono (q := fun w2 _ => InitRel wa w2 ∧ Absorbed wa w2)
      (f := fun w3 _ => Absorbed w w3 ∧ AttachKept w w3) (fun _ _ h => ⟨h.1.1, h.2⟩) ?_).andThen ?_
    · rintro w2 what ⟨⟨o, _, r, _⟩, a2⟩
      exact lift w2 r a2 w2 (fun _ => ⟨rfl, rfl⟩) rfl
    rintro w2 nodes ⟨r2, a2⟩
    have hsd2 : ∀ sd, w2.mat._sharedData = some sd → sd.buildId = w2.mat._buildId := by
      obtain ⟨sd, hsd, hsdb⟩ := hal.sharedData
      rw [r2.frame.matBuildId, hal.matBuildId]
      exact r2.frame.sharedCur _ (fun sd1 h1 => by rw [hsd] at h1; cases h1; exact hsdb)
    have hstages := buildStages_sat env (fun _ => 0) True fuel nodes w2 hsd2 (Or.inl trivial)
    refine (hstages.mono (q := fun w3 _ => Frame w2 w3
        ∧ w3.mat.attachedBlocks = w2.mat.attachedBlocks)
      (f := fun w3 _ => Absorbed w w3 ∧ AttachKept w w3) (fun _ _ h => ⟨h.1, h.2.1⟩)
      (fun _ _ h => h.elim)).andThen ?_
    rintro w3 _ ⟨f3, ha3⟩
    refine (completeBuild_sat verbose w3 True (Or.inl trivial)).mono ?_ (fun _ _ h => h.elim)
    rintro w4 _ ⟨_, hb4, ha4, _⟩
    refine lift w2 r2 a2 w4 (fun b => ?_) (ha4.trans ha3)
    rw [hb4]
    exact ⟨f3.getClassName b, f3.isUnique b⟩

/-- No step keeps the attached blocks as they are. -/
theorem AttachKept.attachRefl (w : World) : AttachKept w w :=
  ⟨fun _ => rfl, fun _ => rfl, id, id⟩

/-- Calls that keep the attached blocks in order compose. -/
theorem AttachKept.attachTrans {w w1 w2 : World} (h1 : AttachKept w w1)
    (h2 : AttachKept w1 w2) : AttachKept w w2 :=
  ⟨fun b => (h2.className b).trans (h1.className b),
    fun b => (h2.isUnique b).trans (h1.isUnique b),
    fun h => h2.unique (h1.unique h), fun h => h2.nodup (h1.nodup h)⟩

/-- A call that changes no class and no uniqueness and leaves a part of the attached
blocks, in their order, keeps them free of clashes and of repetitions. -/
theorem AttachKept.ofSublist {w w1 : World}
    (hcn : ∀ b, (w1.blocks b).getClassName = (w.blocks b).getClassName)
    (hiu : ∀ b, (w1.blocks b).isUnique = (w.blocks b).isUnique)
    (hsub : w1.mat.attachedBlocks.Sublist w.mat.attachedBlocks) : AttachKept w w1 := by
  refine ⟨hcn, hiu, ?_, fun h => h.sublist hsub⟩
  intro hu x y hc hxy
  have hcw : w.Clash x y := by simpa [World.Clash, hcn, hiu] using hc
  exact hu x y hcw ⟨hsub.subset hxy.1, hsub.subset hxy.2⟩

/-- Registering a vertex output node changes its target only. -/
theorem _addVertexOutputNode_attachKept (node : Nat) (w : World) :
    AttachKept w (_addVertexOutputNode node w) := by
  unfold _addVertexOutputNode
  split
  · exact AttachKept.attachRefl w
  · refine AttachKept.ofSublist (fun b => ?_) (fun b => ?_) (List.Sublist.refl _)
    · by_cases hb : b = node
      · subst hb; simp [World.setMat, World.setBlock]
      · simp [World.setMat, World.setBlock, Function.update_noteq hb]
    · by_cases hb : b = node
      · subst hb; simp [World.setMat, World.setBlock]
      · simp [World.setMat, World.setBlock, Function.update_noteq hb]

/-- Registering a fragment output node changes its target only. -/
theorem _addFragmentOutputNode_attachKept (node : Nat) (w : World) :
    AttachKept w (_addFragmentOutputNode node w) := by
  unfold _addFragmentOutputNode
  split
  · exact AttachKept.attachRefl w
  · refine AttachKept.ofSublist (fun b => ?_) (fun b => ?_) (List.Sublist.refl _)
    · by_cases hb : b = node
      · subst hb; simp [World.setMat, World.setBlock]
      · simp [World.setMat, World.setBlock, Function.update_noteq hb]
    · by_cases hb : b = node
      · subst hb; simp [World.setMat, World.setBlock]
      · simp [World.setMat, World.setBlock, Function.update_noteq hb]

/-- `addOutputNode` changes neither the attached blocks nor a class or uniqueness. -/
theorem addOutputNode_attachKept (node : Nat) (w w1 : World)
    (h : (addOutputNode node w).after = some w1) : AttachKept w w1 := by
  unfold addOutputNode at h
  by_cases hu : (w.blocks node).target = .Undefined
  · rw [if_pos hu] at h
    cases h
    exact AttachKept.attachRefl w
  · rw [if_neg hu] at h
    simp only [Outcome.after, Option.some.injEq] at h
    subst h
    have h1 : AttachKept w
        (if (w.blocks node).target = .Vertex then _addVertexOutputNode node w else w) := by
      by_cases hv : (w.blocks node).target = .Vertex
      · rw [if_pos hv]; exact _addVertexOutputNode_attachKept node w
      · rw [if_neg hv]; exact AttachKept.attachRefl w
    refine h1.attachTrans ?_
    generalize (if (w.blocks node).target = .Vertex then _addVertexOutputNode node w else w) = w2
    by_cases hf : (w2.blocks node).target = .Fragment
    · rw [if_pos hf]; exact _addFragmentOutputNode_attachKept node w2
    · rw [if_neg hf]; exact AttachKept.attachRefl w2

/-- `removeOutputNode` keeps the blocks and the attached blocks. -/
theorem removeOutputNode_graph (node : Nat) (w : World) :
    GraphKept w (removeOutputNode node w) := by
  simp only [removeOutputNode]
  split_ifs <;> exact ⟨rfl, rfl, rfl, rfl⟩

/-- `removeBlock` erases the block from the attached blocks and keeps every block. -/
theorem removeBlock_attached (block : Nat) (w : World) :
    (removeBlock block w).blocks = w.blocks
      ∧ (removeBlock block w).mat.attachedBlocks = w.mat.attachedBlocks.erase block := by
  simp only [removeBlock]
  split_ifs
  · have g := removeOutputNode_graph block
      (w.setMat { w.mat with attachedBlocks := w.mat.attachedBlocks.erase block })
    exact ⟨g.blocks, g.attached⟩
  · exact ⟨rfl, rfl⟩

/-- A step that keeps the graph keeps the attached blocks in order. -/
theorem GraphKept.graphAttachKept {w w1 : World} (h : GraphKept w w1) : AttachKept w w1 :=
  AttachKept.ofSublist (fun b => by rw [h.blocks]) (fun b => by rw [h.blocks])
    (by rw [h.attached])

/-- Every call of an entry point keeps the attached blocks free of clashes and of
repetitions. -/
theorem Call.after_attachKept (env : Env) (c : Call) (w w1 : World)
    (h : c.after env w = some w1) : AttachKept w w1 := by
  cases c with
  | addOutputNode node => exact addOutputNode_attachKept node w w1 h
  | removeOutputNode node =>
    simp only [Call.after, Option.some.injEq] at h
    subst h
    exact (removeOutputNode_graph node w).graphAttachKept
  | removeBlock block =>
    simp only [Call.after, Option.some.injEq] at h
    subst h
    obtain ⟨hb, ha⟩ := removeBlock_attached block w
    exact AttachKept.ofSublist (fun b => by rw [hb]) (fun b => by rw [hb])
      (by rw [ha]; exact List.erase_sublist _ _)
  | clear =>
    simp only [Call.after, Option.some.injEq] at h
    subst h
    exact AttachKept.ofSublist (fun _ => rfl) (fun _ => rfl) (List.nil_sublist _)
  | isReadyForSubMesh mesh subMesh useInstances =>
    simp only [Call.after] at h
    have g := isReadyForSubMesh_graph env mesh subMesh useInstances w
    cases ho : BABYLON.isReadyForSubMesh env mesh subMesh useInstances w with
    | done w2 r =>
      rw [ho] at h g
      cases h
      exact GraphKept.graphAttachKept g
    | raised w2 what =>
      rw [ho] at g
      exact g.elim
    | crashed => rw [ho] at h; cases h
    | diverged => rw [ho] at h; cases h
  | build fuel verbose =>
    simp only [Call.after] at h
    have g := build_attached env fuel verbose w
    cases ho : BABYLON.build env fuel verbose w with
    | done w2 r =>
      rw [ho] at h g
      cases h
      exact g.2
    | raised w2 what =>
      rw [ho] at h g
      cases h
      exact g.2
    | crashed => rw [ho] at h; cases h
    | diverged => rw [ho] at h; cases h

/-- Every sequence of calls keeps the attached blocks free of clashes and of repetitions. -/
theorem Calls.callsAttachKept {env : Env} {w w1 : World} (h : Calls env w w1) :
    AttachKept w w1 := by
  induction h with
  | refl => exact AttachKept.attachRefl _
  | step c _ hc ih => exact ih.attachTrans (Call.after_attachKept env c _ _ hc)

/-! ## Unique kinds and unique membership -/

/-- C14: start from a material with no attached block, as the constructor leaves it, and
make any calls of `build`, `removeBlock`, `clear` (and of `addOutputNode`,
`removeOutputNode` and `isReadyForSubMesh`), each of which returns or throws an exception
that is caught. Then two attached blocks that are marked unique and have the same class
name are one block, and for every class name the attached-blocks list holds at most one
entry that is a unique block of that class. -/
theorem unique_kind_attached_at_most_once (env : Env) (w w1 : World)
    (hnew : w.mat.attachedBlocks = []) (hrun : Calls env w w1) :
    (∀ x y, x ∈ w1.mat.attachedBlocks → y ∈ w1.mat.attachedBlocks →
        (w1.blocks x).isUnique = true → (w1.blocks y).isUnique = true →
        (w1.blocks x).getClassName = (w1.blocks y).getClassName → x = y)
      ∧ ∀ className, (w1.mat.attachedBlocks.filter (fun b =>
          (w1.blocks b).isUnique && (w1.blocks b).getClassName == className)).length ≤ 1 := by
  have hk := hrun.callsAttachKept
  have hu : w1.UniqueAttached := hk.unique (fun x y _ h => by rw [hnew] at h; cases h.1)
  have hnd : w1.mat.attachedBlocks.Nodup := hk.nodup (by rw [hnew]; exact List.nodup_nil)
  have hone : ∀ x y, x ∈ w1.mat.attachedBlocks → y ∈ w1.mat.attachedBlocks →
      (w1.blocks x).isUnique = true → (w1.blocks y).isUnique = true →
      (w1.blocks x).getClassName = (w1.blocks y).getClassName → x = y := by
    intro x y hx hy hux huy hc
    by_contra hne
    exact hu x y ⟨hne, hux, huy, hc⟩ ⟨hx, hy⟩
  refine ⟨hone, fun className => ?_⟩
  have hfn := hnd.filter (fun b =>
    (w1.blocks b).isUnique && (w1.blocks b).getClassName == className)
  cases hl : w1.mat.attachedBlocks.filter (fun b =>
      (w1.blocks b).isUnique && (w1.blocks b).getClassName == className) with
  | nil => simp
  | cons a l =>
    cases l with
    | nil => simp
    | cons b l =>
      exfalso
      rw [hl] at hfn
      have ha : a ∈ w1.mat.attachedBlocks.filter (fun b =>
          (w1.blocks b).isUnique && (w1.blocks b).getClassName == className) := by
        rw [hl]; simp
      have hb : b ∈ w1.mat.attachedBlocks.filter (fun b =>
          (w1.blocks b).isUnique && (w1.blocks b).getClassName == className) := by
        rw [hl]; simp
      rw [List.mem_filter] at ha hb
      simp only [Bool.and_eq_true, beq_iff_eq] at ha hb
      have hab := hone a b ha.1 hb.1 ha.2.1 hb.2.1 (ha.2.2.trans hb.2.2.symm)
      rw [hab] at hfn
      simp at hfn

/-- C14 on `clashWorld`, whose graph holds two unique fog blocks and two unique light
blocks: the `build` throws and leaves the attached blocks 0 and 2, of which only block 2
is a fog block. -/
theorem unique_kind_attached_at_most_once_witness :
    ((∀ x y, x ∈ clashFailed.mat.attachedBlocks → y ∈ clashFailed.mat.attachedBlocks →
        (clashFailed.blocks x).isUnique = true → (clashFailed.blocks y).isUnique = true →
        (clashFailed.blocks x).getClassName = (clashFailed.blocks y).getClassName → x = y)
      ∧ ∀ className, (clashFailed.mat.attachedBlocks.filter (fun b =>
          (clashFailed.blocks b).isUnique
            && (clashFailed.blocks b).getClassName == className)).length ≤ 1)
      ∧ clashFailed.mat.attachedBlocks = [0, 2]
      ∧ (clashFailed.blocks 2).getClassName = "FogBlock" :=
  ⟨unique_kind_attached_at_most_once exampleEnv clashWorld clashFailed rfl
    (Calls.step (.build 2 false) (Calls.refl clashWorld) rfl), rfl, rfl⟩

/-- C15: in a world whose attached-blocks list has no repetition, `_initializeBlock` and
`build`, whether they return or throw, leave a list without repetition of which the
former list is a prefix: the blocks already attached keep their places and the new ones
are appended, however many paths or output nodes lead to a block. `removeBlock` leaves a
part of the list, in its order and without repetition, `clear` the empty list; hence no
sequence of calls of the entry points brings a repetition about. -/
theorem attached_blocks_without_repetition (env : Env) (w : World)
    (hnd : w.mat.attachedBlocks.Nodup) :
    (∀ iState fuel node nodes w1,
        (_initializeBlock env iState fuel node nodes w).after = some w1 →
        w1.mat.attachedBlocks.Nodup ∧ w.mat.attachedBlocks <+: w1.mat.attachedBlocks)
      ∧ (∀ fuel verbose w1, (build env fuel verbose w).after = some w1 →
        w1.mat.attachedBlocks.Nodup ∧ w.mat.attachedBlocks <+: w1.mat.attachedBlocks)
      ∧ (∀ block, (removeBlock block w).mat.attachedBlocks.Nodup
        ∧ (removeBlock block w).mat.attachedBlocks.Sublist w.mat.attachedBlocks)
      ∧ (clear w).mat.attachedBlocks.Nodup
      ∧ ∀ w1, Calls env w w1 → w1.mat.attachedBlocks.Nodup := by
  refine ⟨?_, ?_, ?_, List.nodup_nil, fun w1 h => h.callsAttachKept.nodup hnd⟩
  · intro iState fuel node nodes w1 h
    have t := _initializeBlock_trail env iState fuel node nodes w
    have ha : Absorbed w w1 := by
      cases ho : _initializeBlock env iState fuel node nodes w with
      | done w2 r => rw [ho] at h t; cases h; exact Trail.absorbed t
      | raised w2 what => rw [ho] at h t; cases h; exact t
      | crashed => rw [ho] at h; cases h
      | diverged => rw [ho] at h; cases h
    exact ⟨ha.prefix_nodup.2 hnd, ha.prefix_nodup.1⟩
  · intro fuel verbose w1 h
    have t := build_attached env fuel verbose w
    have ha : Absorbed w w1 := by
      cases ho : build env fuel verbose w with
      | done w2 r => rw [ho] at h t; cases h; exact t.1
      | raised w2 what => rw [ho] at h t; cases h; exact t.1
      | crashed => rw [ho] at h; cases h
      | diverged => rw [ho] at h; cases h
    exact ⟨ha.prefix_nodup.2 hnd, ha.prefix_nodup.1⟩
  · intro block
    obtain ⟨_, ha⟩ := removeBlock_attached block w
    rw [ha]
    exact ⟨hnd.erase block, List.erase_sublist _ _⟩

/-- C15 on the built example world, whose attached blocks are 0, 2, 3 and 1: a second
`build`, which reaches block 2 from both output nodes and along two inputs, leaves the
list as it is. -/
theorem attached_blocks_without_repetition_witness :
    ((∀ iState fuel node nodes w1,
        (_initializeBlock exampleEnv iState fuel node nodes builtWorld).after = some w1 →
        w1.mat.attachedBlocks.Nodup ∧ builtWorld.mat.attachedBlocks <+: w1.mat.attachedBlocks)
      ∧ (∀ fuel verbose w1, (build exampleEnv fuel verbose builtWorld).after = some w1 →
        w1.mat.attachedBlocks.Nodup ∧ builtWorld.mat.attachedBlocks <+: w1.mat.attachedBlocks)
      ∧ (∀ block, (removeBlock block builtWorld).mat.attachedBlocks.Nodup
        ∧ (removeBlock block builtWorld).mat.attachedBlocks.Sublist
            builtWorld.mat.attachedBlocks)
      ∧ (clear builtWorld).mat.attachedBlocks.Nodup
      ∧ ∀ w1, Calls exampleEnv builtWorld w1 → w1.mat.attachedBlocks.Nodup)
      ∧ builtWorld.mat.attachedBlocks = [0, 2, 3, 1]
      ∧ ∃ w1, build exampleEnv 3 false builtWorld = .done w1 ()
        ∧ w1.mat.attachedBlocks = [0, 2, 3, 1] :=
  ⟨attached_blocks_without_repetition exampleEnv builtWorld
    (by rw [show builtWorld.mat.attachedBlocks = [0, 2, 3, 1] from rfl]; decide),
    rfl, _, rfl, rfl⟩

/-! ## The request as prepared, and the Shared Data behind a raised flag -/

/-- The request `isReadyForSubMesh` prepares is `effectRequest` on the two compilation
states as they are when the effect is asked for. -/
theorem prepareRequest_request (env : Env) (mesh subMesh : Nat) (d : NodeMaterialDefines)
    (sd : NodeMaterialBuildStateSharedData) (w w4 : World)
    (r : (EffectBaseName × IEffectCreationOptions) × NodeMaterialDefines)
    (h : prepareRequest env mesh subMesh d sd w = .done w4 r) :
    ∃ uniformBuffers vs fs, w4.mat._vertexCompilationState = some vs
      ∧ w4.mat._fragmentCompilationState = some fs
      ∧ r.1 = effectRequest env d.markAsProcessed uniformBuffers vs fs w4.mat := by
  unfold prepareRequest at h
  simp only [] at h
  cases h2 : replayRepeatableContent env mesh d.markAsProcessed sd
      (w.setDefines subMesh d.markAsProcessed) with
  | done w2 u =>
    rw [h2] at h
    simp only [Outcome.andThen] at h
    cases h3 : updateDynamicUniforms env d.markAsProcessed sd w2 with
    | done w3 ub =>
      rw [h3] at h
      simp only [] at h
      split at h
      · rename_i vs fs hv hf
        cases h
        refine ⟨ub, vs, fs, ?_, ?_, rfl⟩
        · rw [foldl_log_eq]; exact hv
        · rw [foldl_log_eq]; exact hf
      · cases h
    | raised w3 what => rw [h3] at h; cases h
    | crashed => rw [h3] at h; cases h
    | diverged => rw [h3] at h; cases h
  | raised w2 what => rw [h2] at h; cases h
  | crashed => rw [h2] at h; cases h
  | diverged => rw [h2] at h; cases h

/-- `addOutputNode` leaves the Shared Data pointer alone. -/
theorem addOutputNode_sharedData (node : Nat) (w w1 : World)
    (h : (addOutputNode node w).after = some w1) :
    w1.mat._sharedData = w.mat._sharedData := by
  unfold addOutputNode at h
  split at h
  · cases h; rfl
  · simp only [Outcome.after, Option.some.injEq] at h
    subst h
    unfold _addVertexOutputNode _addFragmentOutputNode
    split <;> split <;> (try split) <;> (try split) <;> rfl

/-- A build that returns leaves Shared Data behind. -/
theorem build_done_sharedData (env : Env) (fuel : Nat) (verbose : Bool) (w w1 : World)
    (h : build env fuel verbose w = .done w1 ()) : w1.mat._sharedData.isSome = true := by
  obtain ⟨w3, _, _, _, _, hm, _, hsd, _⟩ := build_done_eq env fuel verbose w w1 h
  rw [hm]
  show w3.mat._sharedData.isSome = true
  cases hs : w3.mat._sharedData with
  | none => rw [hs] at hsd; cases hsd
  | some sd => rfl

/-- Where the success flag is up the Shared Data is in place: every call of an entry
point keeps it so. -/
theorem Call.after_built (env : Env) (c : Call) (w w1 : World)
    (h0 : w.mat._buildWasSuccessful = true → w.mat._sharedData.isSome = true)
    (h : c.after env w = some w1) :
    w1.mat._buildWasSuccessful = true → w1.mat._sharedData.isSome = true := by
  cases c with
  | addOutputNode node =>
    rw [addOutputNode_flag node w w1 h, addOutputNode_sharedData node w w1 h]
    exact h0
  | removeOutputNode node =>
    simp only [Call.after, Option.some.injEq] at h
    subst h
    have g := removeOutputNode_graph node w
    rw [g.flag, g.sharedData]
    exact h0
  | removeBlock block =>
    simp only [Call.after, Option.some.injEq] at h
    subst h
    have hs : (BABYLON.removeBlock block w).mat._sharedData = w.mat._sharedData := by
      simp only [BABYLON.removeBlock]
      split_ifs
      · exact (removeOutputNode_graph block _).sharedData
      · rfl
    rw [removeBlock_flag, hs]
    exact h0
  | clear =>
    simp only [Call.after, Option.some.injEq] at h
    subst h
    exact h0
  | isReadyForSubMesh mesh subMesh useInstances =>
    simp only [Call.after] at h
    have g := isReadyForSubMesh_graph env mesh subMesh useInstances w
    cases ho : BABYLON.isReadyForSubMesh env mesh subMesh useInstances w with
    | done w2 r =>
      rw [ho] at h g
      cases h
      have g2 : GraphKept w w1 := g
      rw [g2.flag, g2.sharedData]
      exact h0
    | raised w2 what => rw [ho] at g; exact g.elim
    | crashed => rw [ho] at h; cases h
    | diverged => rw [ho] at h; cases h
  | build fuel verbose =>
    simp only [Call.after] at h
    cases ho : BABYLON.build env fuel verbose w with
    | done w2 r =>
      rw [ho] at h
      cases h
      exact fun _ => build_done_sharedData env fuel verbose w w1 ho
    | raised w2 what =>
      rw [ho] at h
      cases h
      intro hflag
      rw [build_raised_flag env fuel verbose w w1 what ho] at hflag
      cases hflag
    | crashed => rw [ho] at h; cases h
    | diverged => rw [ho] at h; cases h

/-- In every world reached by calls from a world whose success flag is down, such as a
new material, the Shared Data is in place whenever the flag is up. -/
theorem Calls.built_sharedData {env : Env} {w w1 : World} (h : Calls env w w1)
    (h0 : w.mat._buildWasSuccessful = false) :
    w1.mat._buildWasSuccessful = true → w1.mat._sharedData.isSome = true := by
  induction h with
  | refl => intro h1; rw [h0] at h1; cases h1
  | step c _ hc ih => exact Call.after_built env c _ _ ih hc

/-! ## Output nodes by target, and the attribute defines -/

/-- Registering a vertex output node leaves the node with the target `Vertex`. -/
theorem _addVertexOutputNode_target (node : Nat) (w : World)
    (ht : (w.blocks node).target = .Vertex) :
    ((_addVertexOutputNode node w).blocks node).target = .Vertex := by
  unfold _addVertexOutputNode
  split
  · exact ht
  · simp [World.setMat, World.setBlock]

/-- What `_addVertexOutputNode` does to the two lists. -/
theorem _addVertexOutputNode_lists (node : Nat) (w : World) :
    (_addVertexOutputNode node w).mat._fragmentOutputNodes = w.mat._fragmentOutputNodes
      ∧ (_addVertexOutputNode node w).mat._vertexOutputNodes
        = (if node ∈ w.mat._vertexOutputNodes then w.mat._vertexOutputNodes
           else w.mat._vertexOutputNodes ++ [node])
      ∧ (node ∈ w.mat._vertexOutputNodes → _addVertexOutputNode node w = w) := by
  unfold _addVertexOutputNode
  by_cases hc : node ∈ w.mat._vertexOutputNodes
  · simp [hc]
  · simp [hc, World.setMat, World.setBlock]

/-- What `_addFragmentOutputNode` does to the two lists. -/
theorem _addFragmentOutputNode_lists (node : Nat) (w : World) :
    (_addFragmentOutputNode node w).mat._vertexOutputNodes = w.mat._vertexOutputNodes
      ∧ (_addFragmentOutputNode node w).mat._fragmentOutputNodes
        = (if node ∈ w.mat._fragmentOutputNodes then w.mat._fragmentOutputNodes
           else w.mat._fragmentOutputNodes ++ [node])
      ∧ (node ∈ w.mat._fragmentOutputNodes → _addFragmentOutputNode node w = w) := by
  unfold _addFragmentOutputNode
  by_cases hc : node ∈ w.mat._fragmentOutputNodes
  · simp [hc]
  · simp [hc, World.setMat, World.setBlock]

/-- `addOutputNode` by the target of the node. -/
theorem addOutputNode_eq (node : Nat) (w : World) :
    ((w.blocks node).target = .VertexAndFragment → addOutputNode node w = .done w ())
      ∧ ((w.blocks node).target = .Vertex →
          addOutputNode node w = .done (_addVertexOutputNode node w) ())
      ∧ ((w.blocks node).target = .Fragment →
          addOutputNode node w = .done (_addFragmentOutputNode node w) ()) := by
  refine ⟨fun ht => ?_, fun ht => ?_, fun ht => ?_⟩
  · simp [addOutputNode, ht]
  · have h2 := _addVertexOutputNode_target node w ht
    simp [addOutputNode, ht, h2]
  · simp [addOutputNode, ht]

/-- C26: `addOutputNode` on a block whose target is `VertexAndFragment` returns and
leaves the world, so both output-node lists, as it was. A block whose target is `Vertex`
is appended to the vertex list unless it is in it, in which case nothing changes, and the
fragment list stays; likewise for `Fragment`. Whenever `addOutputNode` returns, the
vertex list changes only for a block whose target is `Vertex` and the fragment list only
for a block whose target is `Fragment`. -/
theorem addOutputNode_registers_by_exact_target (node : Nat) (w : World) :
    ((w.blocks node).target = .VertexAndFragment → addOutputNode node w = .done w ())
      ∧ ((w.blocks node).target = .Vertex →
          ∃ w1, addOutputNode node w = .done w1 ()
            ∧ w1.mat._fragmentOutputNodes = w.mat._fragmentOutputNodes
            ∧ w1.mat._vertexOutputNodes
              = (if node ∈ w.mat._vertexOutputNodes then w.mat._vertexOutputNodes
                 else w.mat._vertexOutputNodes ++ [node])
            ∧ (node ∈ w.mat._vertexOutputNodes → w1 = w))
      ∧ ((w.blocks node).target = .Fragment →
          ∃ w1, addOutputNode node w = .done w1 ()
            ∧ w1.mat._vertexOutputNodes = w.mat._vertexOutputNodes
            ∧ w1.mat._fragmentOutputNodes
              = (if node ∈ w.mat._fragmentOutputNodes then w.mat._fragmentOutputNodes
                 else w.mat._fragmentOutputNodes ++ [node])
            ∧ (node ∈ w.mat._fragmentOutputNodes → w1 = w))
      ∧ ∀ w1, addOutputNode node w = .done w1 () →
          (w1.mat._vertexOutputNodes ≠ w.mat._vertexOutputNodes →
            (w.blocks node).target = .Vertex)
          ∧ (w1.mat._fragmentOutputNodes ≠ w.mat._fragmentOutputNodes →
            (w.blocks node).target = .Fragment) := by
  obtain ⟨hD, hV, hF⟩ := addOutputNode_eq node w
  refine ⟨hD, fun ht => ⟨_, hV ht, _addVertexOutputNode_lists node w⟩,
    fun ht => ⟨_, hF ht, _addFragmentOutputNode_lists node w⟩, ?_⟩
  intro w1 h
  cases ht : (w.blocks node).target with
  | Undefined => simp [addOutputNode, ht] at h
  | Vertex =>
    rw [hV ht] at h
    cases h
    exact ⟨fun _ => rfl, fun hne => absurd (_addVertexOutputNode_lists node w).1 hne⟩
  | Fragment =>
    rw [hF ht] at h
    cases h
    exact ⟨fun hne => absurd (_addFragmentOutputNode_lists node w).1 hne, fun _ => rfl⟩
  | VertexAndFragment =>
    rw [hD ht] at h
    cases h
    exact ⟨fun hne => absurd rfl hne, fun hne => absurd rfl hne⟩

/-- C26 on the example world, whose block 2 is a dual block: it is registered as an
output of neither stage. -/
theorem addOutputNode_registers_by_exact_target_witness :
    (exampleWorld.blocks 2).target = .VertexAndFragment
      ∧ addOutputNode 2 exampleWorld = .done exampleWorld ()
      ∧ exampleWorld.mat._vertexOutputNodes = [] ∧ exampleWorld.mat._fragmentOutputNodes = [] :=
  ⟨rfl, (addOutputNode_registers_by_exact_target 2 exampleWorld).1 rfl, rfl, rfl⟩

/-- Looking a key up is blind to the removal of another key. -/
theorem lookup_filter_ne (l : List (String × Bool)) (k key : String) (h : key ≠ k) :
    (l.filter (fun kv => kv.1 != k)).lookup key = l.lookup key := by
  induction l with
  | nil => rfl
  | cons x xs ih =>
    by_cases hx : x.1 = k
    · have hkk : (key == k) = false := beq_false_of_ne h
      simp [List.filter_cons, hx, List.lookup, hkk, ih]
    · by_cases hk : key = x.1
      · simp [List.filter_cons, hx, List.lookup, hk]
      · have hkx : (key == x.1) = false := beq_false_of_ne hk
        simp [List.filter_cons, hx, List.lookup, hkx, ih]

/-- A flag reads as it was written. -/
theorem get_setBool_same (d : NodeMaterialDefines) (k : String) (v : Bool) :
    (d.setBool k v).get k = v := by
  simp [NodeMaterialDefines.get, NodeMaterialDefines.setBool, List.lookup]

/-- Writing a flag leaves the other flags as they read. -/
theorem get_setBool_ne (d : NodeMaterialDefines) (k key : String) (v : Bool) (h : key ≠ k) :
    (d.setBool k v).get key = d.get key := by
  have hk : (key == k) = false := beq_false_of_ne h
  simp [NodeMaterialDefines.get, NodeMaterialDefines.setBool, List.lookup, hk,
    lookup_filter_ne _ _ _ h]

/-- Setting the three attribute flags leaves the other flags as they read. -/
theorem get_withAttributes (mesh : AbstractMesh) (d : NodeMaterialDefines) (key : String)
    (h1 : key ≠ "NORMAL") (h2 : key ≠ "TANGENT") (h3 : key ≠ "UV1") :
    (d.withAttributes mesh).get key = d.get key := by
  unfold NodeMaterialDefines.withAttributes
  rw [get_setBool_ne _ _ _ _ h3, get_setBool_ne _ _ _ _ h2, get_setBool_ne _ _ _ _ h1]

/-- The three flags as set from the mesh. -/
theorem withAttributes_flags (mesh : AbstractMesh) (d : NodeMaterialDefines) :
    (d.withAttributes mesh).get "NORMAL" = mesh.isVerticesDataPresent VertexBuffer.NormalKind
      ∧ (d.withAttributes mesh).get "TANGENT"
        = mesh.isVerticesDataPresent VertexBuffer.TangentKind
      ∧ (d.withAttributes mesh).get "UV1" = mesh.isVerticesDataPresent VertexBuffer.UVKind := by
  unfold NodeMaterialDefines.withAttributes
  refine ⟨?_, ?_, ?_⟩
  · rw [get_setBool_ne _ _ _ _ (by decide), get_setBool_ne _ _ _ _ (by decide),
      get_setBool_same]
  · rw [get_setBool_ne _ _ _ _ (by decide), get_setBool_same]
  · rw [get_setBool_same]

/-- The method sets the three flags and marks the attributes dirty when one is new. -/
theorem _prepareDefinesForAttributes_eq (mesh : AbstractMesh) (d : NodeMaterialDefines) :
    _prepareDefinesForAttributes mesh d
      = if attributesChange mesh d = true then (d.withAttributes mesh).markAsAttributesDirty
        else d.withAttributes mesh := by
  obtain ⟨h1, h2, h3⟩ := withAttributes_flags mesh d
  show (if (d.get "NORMAL" != (d.withAttributes mesh).get "NORMAL"
      || d.get "TANGENT" != (d.withAttributes mesh).get "TANGENT"
      || d.get "UV1" != (d.withAttributes mesh).get "UV1") = true
    then (d.withAttributes mesh).markAsAttributesDirty else d.withAttributes mesh) = _
  rw [h1, h2, h3]
  rfl

/-- Marking the attributes dirty and setting the flags do not interfere. -/
theorem withAttributes_markAsAttributesDirty (mesh : AbstractMesh) (d : NodeMaterialDefines) :
    d.markAsAttributesDirty.withAttributes mesh
      = (d.withAttributes mesh).markAsAttributesDirty := rfl

/-- Setting the three flags twice from one mesh is setting them once. -/
theorem withAttributes_withAttributes (mesh : AbstractMesh) (d : NodeMaterialDefines) :
    (d.withAttributes mesh).withAttributes mesh = d.withAttributes mesh := by
  have hf : ∀ l : List (String × Bool),
      (((((l.filter (fun kv => kv.1 != "NORMAL")).filter (fun kv => kv.1 != "TANGENT")).filter
        (fun kv => kv.1 != "UV1")).filter (fun kv => kv.1 != "NORMAL")).filter
        (fun kv => kv.1 != "TANGENT")).filter (fun kv => kv.1 != "UV1")
      = ((l.filter (fun kv => kv.1 != "NORMAL")).filter (fun kv => kv.1 != "TANGENT")).filter
        (fun kv => kv.1 != "UV1") := by
    intro l
    simp only [List.filter_filter]
    apply List.filter_congr
    intro x _
    cases (x.1 != "NORMAL") <;> cases (x.1 != "TANGENT") <;> cases (x.1 != "UV1") <;> rfl
  simp only [NodeMaterialDefines.withAttributes, NodeMaterialDefines.setBool,
    List.filter_cons]
  simp
  have := hf d.boolDef
  simp only [List.filter_filter] at this
  exact this

/-- The two dirty marks the method can raise end as they were or-ed with the change. -/
theorem _prepareDefinesForAttributes_marks (mesh : AbstractMesh) (d : NodeMaterialDefines) :
    (_prepareDefinesForAttributes mesh d)._areAttributesDirty
        = (d._areAttributesDirty || attributesChange mesh d)
      ∧ (_prepareDefinesForAttributes mesh d)._isDirty
        = (d._isDirty || attributesChange mesh d) := by
  rw [_prepareDefinesForAttributes_eq]
  split_ifs with h <;> simp [h, NodeMaterialDefines.markAsAttributesDirty,
    NodeMaterialDefines.withAttributes, NodeMaterialDefines.setBool]

/-- C30: `_prepareDefinesForAttributes` sets `NORMAL`, `TANGENT` and `UV1` to whether the
mesh has normal, tangent and uv data and leaves every other define alone. The attributes
(and with them the container) are marked dirty exactly when one of the three values is
new: the two marks end as they were or-ed with that change, and no other mark changes.
Hence a call on the outcome of a call with the same mesh changes nothing, and after the
container was processed in between the second call leaves it clean. -/
theorem prepareDefinesForAttributes_marks_changes (mesh : AbstractMesh)
    (d : NodeMaterialDefines) :
    ((_prepareDefinesForAttributes mesh d).get "NORMAL"
        = mesh.isVerticesDataPresent VertexBuffer.NormalKind
      ∧ (_prepareDefinesForAttributes mesh d).get "TANGENT"
        = mesh.isVerticesDataPresent VertexBuffer.TangentKind
      ∧ (_prepareDefinesForAttributes mesh d).get "UV1"
        = mesh.isVerticesDataPresent VertexBuffer.UVKind)
      ∧ (∀ key, key ≠ "NORMAL" → key ≠ "TANGENT" → key ≠ "UV1" →
          (_prepareDefinesForAttributes mesh d).get key = d.get key)
      ∧ (_prepareDefinesForAttributes mesh d)._areAttributesDirty
          = (d._areAttributesDirty || attributesChange mesh d)
      ∧ (_prepareDefinesForAttributes mesh d)._isDirty
          = (d._isDirty || attributesChange mesh d)
      ∧ ((_prepareDefinesForAttributes mesh d)._areTexturesDirty = d._areTexturesDirty
        ∧ (_prepareDefinesForAttributes mesh d)._areLightsDirty = d._areLightsDirty
        ∧ (_prepareDefinesForAttributes mesh d)._areFresnelDirty = d._areFresnelDirty
        ∧ (_prepareDefinesForAttributes mesh d)._areMiscDirty = d._areMiscDirty
        ∧ (_prepareDefinesForAttributes mesh d)._areImageProcessingDirty
            = d._areImageProcessingDirty
        ∧ (_prepareDefinesForAttributes mesh d).intDef = d.intDef
        ∧ (_prepareDefinesForAttributes mesh d)._renderId = d._renderId)
      ∧ attributesChange mesh (_prepareDefinesForAttributes mesh d) = false
      ∧ _prepareDefinesForAttributes mesh (_prepareDefinesForAttributes mesh d)
          = _prepareDefinesForAttributes mesh d
      ∧ ((_prepareDefinesForAttributes mesh
            (_prepareDefinesForAttributes mesh d).markAsProcessed)._areAttributesDirty = false
        ∧ (_prepareDefinesForAttributes mesh
            (_prepareDefinesForAttributes mesh d).markAsProcessed)._isDirty = false) := by
  have hflags := _prepareDefinesForAttributes_flags mesh d
  have hcond := _prepareDefinesForAttributes_eq mesh d
  have hno : attributesChange mesh (_prepareDefinesForAttributes mesh d) = false := by
    simp [attributesChange, hflags.1, hflags.2.1, hflags.2.2]
  have hproc : attributesChange mesh (_prepareDefinesForAttributes mesh d).markAsProcessed
      = false := hno
  obtain ⟨hm1, hm2⟩ := _prepareDefinesForAttributes_marks mesh d
  obtain ⟨hp1, hp2⟩ := _prepareDefinesForAttributes_marks mesh
    (_prepareDefinesForAttributes mesh d).markAsProcessed
  refine ⟨hflags, ?_, hm1, hm2, ?_, hno, ?_, ?_, ?_⟩
  · intro key h1 h2 h3
    rw [hcond]
    split_ifs
    · show ((d.withAttributes mesh).markAsAttributesDirty).get key = _
      exact get_withAttributes mesh d key h1 h2 h3
    · exact get_withAttributes mesh d key h1 h2 h3
  · rw [hcond]
    split_ifs <;> exact ⟨rfl, rfl, rfl, rfl, rfl, rfl, rfl⟩
  · rw [_prepareDefinesForAttributes_eq mesh (_prepareDefinesForAttributes mesh d), hno]
    simp only [Bool.false_eq_true, if_false]
    rw [hcond]
    split_ifs
    · rw [withAttributes_markAsAttributesDirty, withAttributes_withAttributes]
    · exact withAttributes_withAttributes mesh d
  · rw [hp1, hproc]; rfl
  · rw [hp2, hproc]; rfl

/-! ## Queries, teardown and stale attached blocks -/

/-- With Shared Data in place `dispose` returns for either value of
`forceDisposeTextures`. -/
theorem dispose_done_of_sharedData (w : World) (sd : NodeMaterialBuildStateSharedData)
    (h : w.mat._sharedData = some sd) (texture : Nat → Option Nat)
    (forceDisposeEffect forceDisposeTextures notBoundToMesh : Bool) :
    ∃ calls, dispose texture forceDisposeEffect forceDisposeTextures notBoundToMesh w
      = .done w calls := by
  cases forceDisposeTextures <;>
    simp [dispose, disposeTextures, readSharedData, h, Outcome.andThen]

/-- The uniqueness check of lines 305-317 looks at every attached block. -/
theorem attachBlock_raises (node other : Nat) (w : World)
    (hnode : node ∉ w.mat.attachedBlocks) (huniq : (w.blocks node).isUnique = true)
    (hother : other ∈ w.mat.attachedBlocks)
    (hclass : (w.blocks other).getClassName = (w.blocks node).getClassName) :
    attachBlock node w = .raised w (multipleBlocks (w.blocks node).getClassName) := by
  unfold attachBlock
  rw [if_neg (by simpa using hnode), if_pos]
  simp only [huniq, Bool.true_and, List.any_eq_true, beq_iff_eq]
  exact ⟨other, hother, hclass⟩

/-- A `build` that returns changes the shape of no block. -/
theorem build_done_shape (env : Env) (fuel : Nat) (verbose : Bool) (w w1 : World)
    (h : build env fuel verbose w = .done w1 ()) (b : Nat) :
    (w1.blocks b).shape = (w.blocks b).shape := by
  obtain ⟨options, w3, _, f3, hc⟩ := build_done_stages env fuel verbose w w1 h
  obtain ⟨evs, he⟩ := completeBuild_done verbose w3 w1 hc
  have hb : w1.blocks = w3.blocks := by
    rw [he, wipeDefines_eq]
    rfl
  rw [hb]
  exact f3.shape b

/-- The input connections of `fogRewired` all lead to block 3. -/
theorem fogRewired_edge (a c : Nat) (h : fogRewired.Edge a c) : c = 3 := by
  obtain ⟨hm, _⟩ := h
  by_cases h0 : a = 0
  · subst h0
    have : (fogRewired.blocks 0).inputs.map (fun p => p.connectedPoint) = [some 3] := rfl
    rw [this] at hm
    simpa using hm
  by_cases h1 : a = 1
  · subst h1
    have : (fogRewired.blocks 1).inputs.map (fun p => p.connectedPoint) = [some 3] := rfl
    rw [this] at hm
    simpa using hm
  · have hupd : fogRewired.blocks
        = Function.update (Function.update fogBuilt.blocks 0 (fogRewired.blocks 0)) 1
            (fogRewired.blocks 1) := rfl
    have hsame : fogRewired.blocks a = fogBuilt.blocks a := by
      rw [hupd, Function.update_noteq h1, Function.update_noteq h0]
    have hshape := build_done_shape exampleEnv 2 false fogWorld fogBuilt rfl a
    have hin : (fogBuilt.blocks a).inputs.map (fun p => p.connectedPoint)
        = (fogWorld.blocks a).inputs.map (fun p => p.connectedPoint) :=
      congrArg (fun s => s.2.2.2.2.2) hshape
    have hnone : (fogWorld.blocks a).inputs.map (fun p => p.connectedPoint) = [] := by
      simp only [fogWorld, h0, h1, if_false]
      split_ifs <;> rfl
    rw [hsame, hin, hnone] at hm
    simp at hm

/-- From an output node of `fogRewired` only the node itself and block 3 are reached. -/
theorem fogRewired_reach (o x : Nat) (h : fogRewired.Reach o x) : x = o ∨ x = 3 := by
  induction h with
  | refl => exact Or.inl rfl
  | tail _ hedge _ => exact Or.inr (fogRewired_edge _ _ hedge)

/-- C27: the uniqueness check of `_initializeBlock` refuses a unique block as soon as any
attached block has its class, reachable or not. In the example the first `build` attaches
the fog block 2; both outputs are then connected to the fog block 3 instead, without
`removeBlock`, so that block 2 stays attached and is reachable from no output node; the
second `build` throws the uniqueness error for every bound of the walk, although 3 is
the only fog block that is reachable. -/
theorem build_refuses_block_for_stale_attached_one :
    (∀ (node other : Nat) (w : World), node ∉ w.mat.attachedBlocks →
        (w.blocks node).isUnique = true → other ∈ w.mat.attachedBlocks →
        (w.blocks other).getClassName = (w.blocks node).getClassName →
        attachBlock node w = .raised w (multipleBlocks (w.blocks node).getClassName))
      ∧ build exampleEnv 2 false fogWorld = .done fogBuilt ()
      ∧ fogBuilt.mat.attachedBlocks = [0, 2, 1]
      ∧ ((connectTo 3 0 0 true fogBuilt).andThen fun w _ => connectTo 3 1 0 true w)
          = .done fogRewired ()
      ∧ fogRewired.mat.attachedBlocks = [0, 2, 1]
      ∧ fogRewired.mat._vertexOutputNodes = [0] ∧ fogRewired.mat._fragmentOutputNodes = [1]
      ∧ (∀ o x, o = 0 ∨ o = 1 → fogRewired.Reach o x →
          x ≠ 2 ∧ ((fogRewired.blocks x).getClassName = "FogBlock" → x = 3))
      ∧ fogRewired.Reach 0 3 ∧ fogRewired.Reach 1 3
      ∧ (fogRewired.blocks 2).getClassName = "FogBlock"
      ∧ (fogRewired.blocks 3).getClassName = "FogBlock"
      ∧ (fogRewired.blocks 3).isUnique = true
      ∧ ∀ fuel, ∃ w1, build exampleEnv (fuel + 2) false fogRewired
          = .raised w1 (multipleBlocks "FogBlock")
        ∧ w1.mat.attachedBlocks = [0, 2, 1] ∧ w1.mat._buildWasSuccessful = false := by
  refine ⟨fun node other w h1 h2 h3 h4 => attachBlock_raises node other w h1 h2 h3 h4,
    rfl, rfl, rfl, rfl, rfl, rfl, ?_, ?_, ?_, rfl, rfl, rfl, ?_⟩
  · intro o x ho hr
    rcases fogRewired_reach o x hr with h | h
    · rcases ho with ho | ho
      · subst h; subst ho
        exact ⟨by decide, fun hc => absurd hc (by decide)⟩
      · subst h; subst ho
        exact ⟨by decide, fun hc => absurd hc (by decide)⟩
    · subst h
      exact ⟨by decide, fun _ => rfl⟩
  · exact Relation.ReflTransGen.single ⟨by decide, by decide⟩
  · exact Relation.ReflTransGen.single ⟨by decide, by decide⟩
  · intro fuel
    exact ⟨_, rfl, rfl, rfl⟩

/-- C28: on a material without Shared Data (never built) the five queries return without
dereferencing it, `getTextureBlocks` with the empty list; `dispose` returns when
`forceDisposeTextures` is false, but with `forceDisposeTextures = true` it dereferences
the null `_sharedData` on line 782, which the claim says it does not. -/
theorem dispose_dereferences_absent_shared_data (w : World) (h : w.mat._sharedData = none)
    (alphaBelowOne baseHas forceDisposeEffect notBoundToMesh : Bool)
    (base : List (Option Nat)) (texture : Nat → Option Nat) (t : Option Nat) :
    needAlphaBlending alphaBelowOne w = .done w (!w.mat.ignoreAlpha && alphaBelowOne)
      ∧ needAlphaTesting w = .done w false
      ∧ getActiveTextures base texture w = .done w base
      ∧ getTextureBlocks w = .done w []
      ∧ hasTexture baseHas texture t w = .done w baseHas
      ∧ dispose texture forceDisposeEffect false notBoundToMesh w
          = .done w (w.mat.attachedBlocks.map .disposeBlock
              ++ [.clearBuildObservers, .disposeMaterial forceDisposeEffect false notBoundToMesh])
      ∧ dispose texture forceDisposeEffect true notBoundToMesh w = .crashed := by
  refine ⟨?_, ?_, ?_, ?_, ?_, ?_, ?_⟩
  · cases hi : w.mat.ignoreAlpha <;> cases alphaBelowOne <;>
      simp [needAlphaBlending, hi, h]
  · simp [needAlphaTesting, h]
  · simp [getActiveTextures, h]
  · simp [getTextureBlocks, h]
  · cases baseHas <;> simp [hasTexture, h]
  · simp [dispose, disposeTextures, Outcome.andThen]
  · simp [dispose, disposeTextures, readSharedData, h, Outcome.andThen]

/-- C28 on a newly constructed material: `needAlphaTesting` returns false, `dispose` with
`forceDisposeTextures = true` dereferences the null pointer. -/
theorem dispose_dereferences_absent_shared_data_witness :
    (constructMaterial (some { emitComments := false }) exampleWorld).mat._sharedData = none
      ∧ needAlphaTesting (constructMaterial (some { emitComments := false }) exampleWorld)
          = .done (constructMaterial (some { emitComments := false }) exampleWorld) false
      ∧ dispose (fun _ => none) false true false
          (constructMaterial (some { emitComments := false }) exampleWorld) = .crashed :=
  ⟨rfl,
    (dispose_dereferences_absent_shared_data
      (constructMaterial (some { emitComments := false }) exampleWorld) rfl
      false false false false [] (fun _ => none) none).2.1,
    (dispose_dereferences_absent_shared_data
      (constructMaterial (some { emitComments := false }) exampleWorld) rfl
      false false false false [] (fun _ => none) none).2.2.2.2.2.2⟩

/-! ## The dual blocks behind a node (lines 344-359) -/

theorem DualsReset.dualsShape {iId : Nat} {R : Nat → Prop} {w w1 : World}
    (h : DualsReset iId R w w1) (b : Nat) : (w1.blocks b).shape = (w.blocks b).shape := by
  by_cases hb : R b ∧ (w.blocks b).target = .VertexAndFragment
  · rw [h.hit b hb.1 hb.2]; rfl
  · rw [h.miss b hb]

theorem DualsReset.dualsTarget {iId : Nat} {R : Nat → Prop} {w w1 : World}
    (h : DualsReset iId R w w1) (b : Nat) : (w1.blocks b).target = (w.blocks b).target :=
  congrArg (fun s => s.2.2.2.2.1) (h.dualsShape b)

theorem DualsReset.dualsInputs {iId : Nat} {R : Nat → Prop} {w w1 : World}
    (h : DualsReset iId R w w1) (b : Nat) : (w1.blocks b).inputs = (w.blocks b).inputs := by
  by_cases hb : R b ∧ (w.blocks b).target = .VertexAndFragment
  · rw [h.hit b hb.1 hb.2]
  · rw [h.miss b hb]

theorem DualsReset.dualsEdge {iId : Nat} {R : Nat → Prop} {w w1 : World}
    (h : DualsReset iId R w w1) : w1.Edge = w.Edge := by
  funext a c
  simp only [World.Edge, h.dualsInputs a]

theorem DualsReset.dualsReach {iId : Nat} {R : Nat → Prop} {w w1 : World}
    (h : DualsReset iId R w w1) : w1.Reach = w.Reach := by
  unfold World.Reach
  rw [h.dualsEdge]

theorem DualsReset.dualsAcyclic {iId : Nat} {R : Nat → Prop} {w w1 : World}
    (h : DualsReset iId R w w1) (rank : Nat → Nat) (ha : w.Acyclic rank) : w1.Acyclic rank := by
  intro a c hedge
  rw [h.dualsEdge] at hedge
  exact ha a c hedge

/-- Two walks after one another have walked the blocks of both. -/
theorem DualsReset.dualsTrans {iId : Nat} {R S : Nat → Prop} {w w1 w2 : World}
    (h1 : DualsReset iId R w w1) (h2 : DualsReset iId S w1 w2) :
    DualsReset iId (fun b => R b ∨ S b) w w2 := by
  refine ⟨?_, ?_, ?_⟩
  · intro b hb ht
    by_cases hS : S b
    · rw [h2.hit b hS (by rw [h1.dualsTarget]; exact ht)]
      by_cases hR : R b
      · rw [h1.hit b hR ht]
      · rw [h1.miss b (fun h => hR h.1)]
    · have hR : R b := hb.resolve_right hS
      rw [h2.miss b (fun h => hS h.1), h1.hit b hR ht]
  · intro b hb
    have hR : ¬ (R b ∧ (w.blocks b).target = .VertexAndFragment) :=
      fun h => hb ⟨Or.inl h.1, h.2⟩
    have hS : ¬ (S b ∧ (w1.blocks b).target = .VertexAndFragment) :=
      fun h => hb ⟨Or.inr h.1, by rw [← h1.dualsTarget]; exact h.2⟩
    rw [h2.miss b hS, h1.miss b hR]
  · have e1 := h1.rest
    have e2 := h2.rest
    rw [e2]
    conv_lhs => rw [e1]

theorem DualsReset.dualsCongr {iId : Nat} {R S : Nat → Prop} {w w1 : World}
    (h : DualsReset iId R w w1) (hRS : ∀ b, R b ↔ S b) : DualsReset iId S w w1 :=
  ⟨fun b hb ht => h.hit b ((hRS b).2 hb) ht,
    fun b hb => h.miss b (fun hr => hb ⟨(hRS b).1 hr.1, hr.2⟩), h.rest⟩

/-- The first step of `_resetDualBlocks` has walked the node. -/
theorem resetNode_duals (iId node : Nat) (w : World) :
    DualsReset iId (fun b => b = node) w (resetNode iId node w) := by
  unfold resetNode
  by_cases h : (w.blocks node).target = .VertexAndFragment
  · rw [if_pos h]
    refine ⟨?_, ?_, rfl⟩
    · intro b hb _
      subst hb
      simp [World.setBlock]
    · intro b hb
      have : b ≠ node := fun hbn => hb ⟨hbn, by rw [hbn]; exact h⟩
      simp [World.setBlock, this]
  · rw [if_neg h]
    refine ⟨?_, fun _ _ => rfl, rfl⟩
    intro b hb ht
    subst hb
    exact absurd ht h

/-- A block is reachable from a node when it is the node or reachable from the owner of a
point that an input of the node is connected to. -/
theorem World.reach_iff_inputs (w : World) (node b : Nat) :
    w.Reach node b ↔ (b = node ∨ ∃ p ∈ (w.blocks node).inputs, ∃ c,
      p.connectedPoint = some c ∧ c ≠ node ∧ w.Reach c b) := by
  constructor
  · intro h
    rcases Relation.ReflTransGen.cases_head h with h0 | ⟨c, hedge, hr⟩
    · exact Or.inl h0.symm
    · obtain ⟨hm, hne⟩ := hedge
      obtain ⟨p, hp, hpc⟩ := List.mem_map.1 hm
      exact Or.inr ⟨p, hp, c, hpc, hne, hr⟩
  · rintro (h | ⟨p, hp, c, hpc, hne, hr⟩)
    · rw [h]; exact Relation.ReflTransGen.refl
    · exact Relation.ReflTransGen.head ⟨List.mem_map.2 ⟨p, hp, hpc⟩, hne⟩ hr

/-- The contract of `_resetDualBlocks` for the whole walk: the dual blocks reachable from
the node carry the id afterwards and nothing else has changed. With `bad := False` the
walk ends on an acyclic graph once the fuel exceeds the rank of the node. -/
theorem _resetDualBlocks_duals (iId : Nat) (rank : Nat → Nat) (bad : Prop) :
    ∀ (fuel node : Nat) (w : World),
      (bad ∨ (rank node < fuel ∧ w.Acyclic rank)) →
      (_resetDualBlocks iId fuel node w).Sat
        (fun w1 _ => DualsReset iId (w.Reach node) w w1) (fun _ _ => False) bad
  | 0, node, w, hb => by
    rcases hb with hb | ⟨h, _⟩
    · exact hb
    · exact absurd h (Nat.not_lt_zero _)
  | fuel + 1, node, w, hb => by
    have ih := _resetDualBlocks_duals iId rank bad fuel
    rw [_resetDualBlocks_succ]
    have r1 := resetNode_duals iId node w
    have hin : ((resetNode iId node w).blocks node).inputs = (w.blocks node).inputs :=
      r1.dualsInputs node
    have hloop := forEach_sat (resetDualInput (_resetDualBlocks iId fuel) node)
      (fun _ _ => False) bad ((resetNode iId node w).blocks node).inputs
      (fun pre wc _ => DualsReset iId (fun b => b = node ∨ ∃ p ∈ pre, ∃ c,
        p.connectedPoint = some c ∧ c ≠ node ∧ w.Reach c b) w wc) ()
      (resetNode iId node w)
      (fun pre x rest a1 wc hxs hinv => by
        unfold resetDualInput
        cases hc : x.connectedPoint with
        | none =>
          refine hinv.dualsCongr (fun b => ?_)
          constructor
          · rintro (h | ⟨p, hp, c, h1, h2, h3⟩)
            · exact Or.inl h
            · exact Or.inr ⟨p, List.mem_append_left _ hp, c, h1, h2, h3⟩
          · rintro (h | ⟨p, hp, c, h1, h2, h3⟩)
            · exact Or.inl h
            · rcases List.mem_append.1 hp with hp | hp
              · exact Or.inr ⟨p, hp, c, h1, h2, h3⟩
              · rw [List.mem_singleton.1 hp, hc] at h1
                cases h1
        | some c =>
          by_cases hcb : c = node
          · simp only [hcb, if_true]
            refine hinv.dualsCongr (fun b => ?_)
            constructor
            · rintro (h | ⟨p, hp, c1, h1, h2, h3⟩)
              · exact Or.inl h
              · exact Or.inr ⟨p, List.mem_append_left _ hp, c1, h1, h2, h3⟩
            · rintro (h | ⟨p, hp, c1, h1, h2, h3⟩)
              · exact Or.inl h
              · rcases List.mem_append.1 hp with hp | hp
                · exact Or.inr ⟨p, hp, c1, h1, h2, h3⟩
                · rw [List.mem_singleton.1 hp, hc] at h1
                  cases h1
                  exact absurd hcb h2
          · simp only [hcb, if_false]
            have hedge : w.Edge node c := by
              refine ⟨List.mem_map.2 ⟨x, ?_, hc⟩, hcb⟩
              rw [← hin, hxs]; simp
            refine (ih c wc (hb.imp id (fun hr => ?_))).mono ?_ (fun _ _ h2 => h2)
            · refine ⟨?_, hinv.dualsAcyclic rank hr.2⟩
              have := hr.2 node c hedge
              omega
            · intro w2 _ h2
              rw [hinv.dualsReach] at h2
              refine (hinv.dualsTrans h2).dualsCongr (fun b => ?_)
              constructor
              · rintro ((h | ⟨p, hp, c1, h1, h2, h3⟩) | h)
                · exact Or.inl h
                · exact Or.inr ⟨p, List.mem_append_left _ hp, c1, h1, h2, h3⟩
                · exact Or.inr ⟨x, by simp, c, hc, hcb, h⟩
              · rintro (h | ⟨p, hp, c1, h1, h2, h3⟩)
                · exact Or.inl (Or.inl h)
                · rcases List.mem_append.1 hp with hp | hp
                  · exact Or.inl (Or.inr ⟨p, hp, c1, h1, h2, h3⟩)
                  · rw [List.mem_singleton.1 hp, hc] at h1
                    cases h1
                    exact Or.inr h3)
      (r1.dualsCongr (fun b => by simp))
    refine hloop.mono (fun w1 _ h1 => ?_) (fun _ _ h => h)
    refine h1.dualsCongr (fun b => ?_)
    rw [hin]
    exact (w.reach_iff_inputs node b).symm

/-- C23: on a graph whose input connections are acyclic (and with a bound of the walk
beyond the rank of the node), `_resetDualBlocks(node, id)` returns; afterwards every
`VertexAndFragment` block reachable from the node through input connections, the node
included and whatever the targets of the blocks on the way, has `buildId = id`; the
`buildId` of every block with another target is unchanged, and so is every block that is
not reachable, every other field of every block, and the rest of the world. -/
theorem resetDualBlocks_stamps_reachable_duals (iId : Nat) (rank : Nat → Nat)
    (fuel node : Nat) (w : World) (hacyclic : w.Acyclic rank) (hfuel : rank node < fuel) :
    ∃ w1, _resetDualBlocks iId fuel node w = .done w1 ()
      ∧ (∀ d, w.Reach node d → (w.blocks d).target = .VertexAndFragment →
          (w1.blocks d).buildId = iId)
      ∧ (∀ b, (w.blocks b).target ≠ .VertexAndFragment →
          (w1.blocks b).buildId = (w.blocks b).buildId)
      ∧ (∀ b, ¬ w.Reach node b → w1.blocks b = w.blocks b)
      ∧ (∀ b, w1.blocks b = { w.blocks b with buildId := (w1.blocks b).buildId })
      ∧ w1 = { w with blocks := w1.blocks } := by
  have h := _resetDualBlocks_duals iId rank False fuel node w (Or.inr ⟨hfuel, hacyclic⟩)
  rcases h.cases with ⟨w1, u, ho, hd⟩ | ⟨_, _, _, hf⟩
  · refine ⟨w1, ho, ?_, ?_, ?_, ?_, hd.rest⟩
    · intro d hr ht
      rw [hd.hit d hr ht]
    · intro b hb
      rw [hd.miss b (fun h => hb h.2)]
    · intro b hb
      exact hd.miss b (fun h => hb h.1)
    · intro b
      by_cases hb : w.Reach node b ∧ (w.blocks b).target = .VertexAndFragment
      · rw [hd.hit b hb.1 hb.2]
      · rw [hd.miss b hb]
  · exact hf.elim

/-- C23 on the wired example world, from the fragment output node 1, which is not a dual
block itself: the dual block 2 behind it is reached. -/
theorem resetDualBlocks_stamps_reachable_duals_witness :
    wiredWorld.Acyclic exampleRank ∧ exampleRank 1 < 3
      ∧ (wiredWorld.blocks 1).target = .Fragment
      ∧ (wiredWorld.blocks 2).target = .VertexAndFragment ∧ wiredWorld.Reach 1 2
      ∧ ∃ w1, _resetDualBlocks 41 3 1 wiredWorld = .done w1 ()
        ∧ (∀ d, wiredWorld.Reach 1 d → (wiredWorld.blocks d).target = .VertexAndFragment →
            (w1.blocks d).buildId = 41)
        ∧ (∀ b, (wiredWorld.blocks b).target ≠ .VertexAndFragment →
            (w1.blocks b).buildId = (wiredWorld.blocks b).buildId)
        ∧ (∀ b, ¬ wiredWorld.Reach 1 b → w1.blocks b = wiredWorld.blocks b)
        ∧ (∀ b, w1.blocks b = { wiredWorld.blocks b with buildId := (w1.blocks b).buildId })
        ∧ w1 = { wiredWorld with blocks := w1.blocks } :=
  ⟨wiredWorld_acyclic, by decide, rfl, rfl,
    Relation.ReflTransGen.single ⟨by decide, by decide⟩,
    resetDualBlocks_stamps_reachable_duals 41 exampleRank 3 1 wiredWorld wiredWorld_acyclic
      (by decide)⟩

/-! ## The declarations the fragment state takes over (lines 420-437) -/

/-- Lines 417-441 are the two halves, one after the other. -/
theorem buildStages_eq_stages (env : Env) (fuel : Nat) (nodes : List Nat × List Nat)
    (w : World) :
    buildStages env fuel nodes w
      = (vertexStage env fuel nodes w).andThen fun w4 _ => fragmentStage env fuel nodes w4 := by
  simp only [buildStages, vertexStage, fragmentStage, Outcome.andThen_assoc]

theorem NoFragmentBuild.noFragmentRefl (w : World) : NoFragmentBuild w w :=
  ⟨[], by simp, by simp⟩

theorem NoFragmentBuild.noFragmentTrans {w w1 w2 : World} (h1 : NoFragmentBuild w w1)
    (h2 : NoFragmentBuild w1 w2) : NoFragmentBuild w w2 := by
  obtain ⟨e1, ht1, he1⟩ := h1
  obtain ⟨e2, ht2, he2⟩ := h2
  refine ⟨e1 ++ e2, by rw [ht2, ht1, List.append_assoc], ?_⟩
  intro e he
  rcases List.mem_append.1 he with h | h
  · exact he1 e h
  · exact he2 e h

theorem NoFragmentBuild.noFragmentLog (w : World) (e : Event) (he : e.isFragmentBuild = false) :
    NoFragmentBuild w (w.log e) :=
  ⟨[e], rfl, by simpa using he⟩

theorem NoFragmentBuild.ofTrace {w w1 w2 : World} (h : NoFragmentBuild w w1)
    (ht : w2.trace = w1.trace) : NoFragmentBuild w w2 := by
  obtain ⟨evs, h1, h2⟩ := h
  exact ⟨evs, by rw [ht, h1], h2⟩

/-- A statement about the calls that end sharpens one about all calls. -/
theorem Outcome.Sat.withPartial {α : Type} {o : Outcome α} {p q : World → α → Prop}
    {e f : World → String → Prop} {bad : Prop} (h1 : o.Sat p e bad) (h2 : o.Sat q f True) :
    o.Sat (fun w a => p w a ∧ q w a) (fun w m => e w m ∧ f w m) bad := by
  cases o with
  | done w a => exact ⟨h1, h2⟩
  | raised w m => exact ⟨h1, h2⟩
  | crashed => exact h1
  | diverged => exact h1

/-- The build of a block for the vertex stage records calls of the vertex stage only. -/
theorem blockBuild_vertex_trace (env : Env) :
    ∀ (fuel b : Nat) (w : World),
      (blockBuild env .vertex fuel b w).Sat (fun w1 _ => NoFragmentBuild w w1)
        (fun _ _ => False) True
  | 0, _, _ => trivial
  | fuel + 1, b, w => by
    have ih := blockBuild_vertex_trace env fuel
    rw [blockBuild_succ]
    have r1 : NoFragmentBuild w (w.log (.blockBuild b .vertex)) :=
      NoFragmentBuild.noFragmentLog w _ rfl
    cases hd : (w.log (.blockBuild b .vertex)).mat._sharedData with
    | none => trivial
    | some sd =>
      show Outcome.Sat (ite _ _ _) _ _ _
      split_ifs with h
      · exact r1
      · have hloop := forEach_sat (buildInput (blockBuild env .vertex fuel) b)
          (fun _ _ => False) True ((w.log (.blockBuild b .vertex)).blocks b).inputs
          (fun _ wc _ => NoFragmentBuild w wc) () (w.log (.blockBuild b .vertex))
          (fun pre x rest a1 wc hxs hinv => by
            unfold buildInput
            cases hc : x.connectedPoint with
            | none => exact hinv
            | some c =>
              by_cases hcb : c = b
              · simp only [hcb, if_true]; exact hinv
              · simp only [hcb, if_false]
                exact (ih c wc).mono (fun w2 _ h2 => hinv.noFragmentTrans h2) (fun _ _ h2 => h2))
          r1
        refine hloop.andThen ?_
        intro w2 _ r2
        unfold emitOnce
        cases hd2 : w2.mat._sharedData with
        | none => trivial
        | some sd2 =>
          show Outcome.Sat (ite _ _ _) _ _ _
          split_ifs with h2
          · exact r2
          · unfold emitBlock
            cases hs : w2.state .vertex with
            | none => trivial
            | some s =>
              simp only [hd2]
              exact r2.noFragmentTrans ⟨[.buildBlock b .vertex],
                by simp [World.log, World.setState, World.setSharedData, World.setBlock,
                  World.setMat], by simp [Event.isFragmentBuild]⟩

/-- The reset of the dual blocks behind a list of nodes touches nothing but blocks. -/
theorem resetNodes_rest (fuel : Nat) (nodes : List Nat) (w : World) :
    (forEach (fun node _u w => _resetDualBlocks (sizeDec w.mat._buildId) fuel node w)
      nodes () w).Sat (fun w1 _ => w1 = { w with blocks := w1.blocks }) (fun _ _ => False)
      True := by
  refine forEach_sat (fun node _u w => _resetDualBlocks (sizeDec w.mat._buildId) fuel node w)
    (fun _ _ => False) True nodes (fun _ wc _ => wc = { w with blocks := wc.blocks }) () w ?_ rfl
  intro pre x rest a1 wc _ hinv
  refine (_resetDualBlocks_duals (sizeDec wc.mat._buildId) (fun _ => 0) True fuel x wc
    (Or.inl trivial)).mono ?_ (fun _ _ h => h)
  intro w2 _ h2
  have e2 := h2.rest
  rw [e2]
  conv_lhs => rw [hinv]

/-- Whenever lines 417-433 return, the fragment state shares the declarations of the
vertex state and no block has been built for the fragment stage. -/
theorem vertexStage_shared (env : Env) (fuel : Nat) (nodes : List Nat × List Nat) (w : World) :
    (vertexStage env fuel nodes w).Sat
      (fun w4 _ => w4.DeclarationsShared ∧ NoFragmentBuild w w4) (fun _ _ => False) True := by
  unfold vertexStage
  have q1 : NoFragmentBuild w (optimize w) := by
    obtain ⟨evs, ht, he⟩ := (optimize_quiet w).trace
    unfold optimize at ht ⊢
    rw [foldl_log_eq] at ht ⊢
    exact ⟨w.mat._optimizers.map .optimize, rfl, by
      intro e hmem
      obtain ⟨o, _, ho⟩ := List.mem_map.1 hmem
      rw [← ho]; rfl⟩
  have hv := forEach_sat (fun node _u w => blockBuild env .vertex fuel node w)
    (fun _ _ => False) True nodes.1 (fun _ wc _ => NoFragmentBuild w wc) () (optimize w)
    (fun pre x rest a1 wc _ hinv =>
      (blockBuild_vertex_trace env fuel x wc).mono
        (fun w2 _ h2 => hinv.noFragmentTrans h2) (fun _ _ h2 => h2))
    q1
  refine hv.andThen ?_
  intro w2 _ r2
  unfold shareVertexDeclarations
  cases hvs : w2.mat._vertexCompilationState with
  | none => trivial
  | some vs =>
    cases hfs : w2.mat._fragmentCompilationState with
    | none => trivial
    | some fs =>
      simp only [Outcome.andThen]
      refine (resetNodes_rest fuel nodes.2 _).mono ?_ (fun _ _ h => h)
      intro w4 _ h4
      constructor
      · rw [h4]
        exact ⟨vs, _, hvs, rfl, rfl, rfl, rfl, rfl⟩
      · refine r2.ofTrace ?_
        rw [h4]
        rfl

/-- Lines 417-433 never throw and keep the frame; with `bad := False` they return. -/
theorem vertexStage_sat (env : Env) (rank : Nat → Nat) (bad : Prop) (fuel : Nat)
    (nodes : List Nat × List Nat) (w : World)
    (hsd : ∀ sd, w.mat._sharedData = some sd → sd.buildId = w.mat._buildId)
    (hb : bad ∨ StagesReady w rank fuel) :
    (vertexStage env fuel nodes w).Sat (fun w4 _ => Frame w w4) (fun _ _ => False) bad := by
  unfold vertexStage
  have q1 := optimize_quiet w
  have hv := buildNodes_sat env .vertex rank bad w.mat._buildId fuel nodes.1 (optimize w)
    (q1.frame.sharedCur _ hsd)
    (hb.imp id (fun h => ⟨h.1, q1.frame.acyclic rank h.2.1, q1.frame.state_isSome _ h.2.2.1,
      q1.frame.sharedData_isSome h.2.2.2.2⟩))
  refine hv.andThen ?_
  rintro w2 _ ⟨r2, _⟩
  have f2 : Frame w w2 := q1.frame.frameTrans r2.frame
  have hs := shareVertexDeclarations_sat w2 bad
    (hb.imp id (fun h => ⟨f2.state_isSome _ h.2.2.1, f2.state_isSome _ h.2.2.2.1⟩))
  refine hs.andThen ?_
  intro w3 _ q3
  have f3 : Frame w w3 := f2.frameTrans q3.frame
  have hr := resetNodes_sat rank bad fuel nodes.2 w3
    (hb.imp id (fun h => ⟨h.1, f3.acyclic rank h.2.1⟩))
  refine hr.mono ?_ (fun _ _ h => h)
  rintro w4 _ ⟨r4, _⟩
  exact f3.frameTrans r4.frame

/-- C24: a `build` of a material with output nodes of both kinds and options, on an
acyclic graph with fuel beyond every rank, either throws the uniqueness error during
initialization, before any block is built, or goes through lines 417-433 (the vertex
pass, the assignments of lines 426-429 and the reset of the dual blocks) and arrives at
the fragment pass in a world `w4` in which the fragment state has the uniform list, the
uniform declaration and the constant declaration of the vertex state, whatever the
initialization wrote into it, and its `_vertexState` points to the vertex state; up to
that point no block has been built for the fragment stage. -/
theorem build_shares_declarations_before_fragment_pass (env : Env) (rank : Nat → Nat)
    (fuel : Nat) (verbose : Bool) (w : World)
    (hv : w.mat._vertexOutputNodes ≠ []) (hf : w.mat._fragmentOutputNodes ≠ [])
    (ho : w.mat._options.isSome) (hfuel : ∀ b, rank b < fuel) (hacyclic : w.Acyclic rank) :
    (∃ w1 x, build env fuel verbose w = .raised w1 (multipleBlocks (w.blocks x).getClassName)
        ∧ NoFragmentBuild w w1)
      ∨ ∃ w1 w2 nodes w4, Allocated w w1 ∧ initializeBlocks env fuel w1 = .done w2 nodes
        ∧ vertexStage env fuel nodes w2 = .done w4 ()
        ∧ build env fuel verbose w
            = (fragmentStage env fuel nodes w4).andThen (fun w6 _ => completeBuild verbose w6)
        ∧ w4.DeclarationsShared ∧ NoFragmentBuild w w4 := by
  obtain ⟨wa, hal, heq⟩ := build_eq env fuel verbose w hv hf ho
  have hready : InitReady wa rank fuel := hal.initReady rank fuel hacyclic (fun o _ => hfuel o)
  have hinit := initializeBlocks_sat env rank False fuel wa (Or.inr hready)
  have hinitTrace : ∀ {w2 : World}, InitRel wa w2 → NoFragmentBuild w w2 := by
    intro w2 r
    obtain ⟨evs, ht, he⟩ := r.trace
    refine ⟨evs, by rw [ht, hal.trace], ?_⟩
    intro e hmem
    have := he e hmem
    cases e <;> first | rfl | cases this
  rcases hinit.cases with ⟨w2, nodes, hi, r2, _, _⟩ | ⟨w2, what, hi, o, _, r, x, _, _, hm, _⟩
  · refine Or.inr ?_
    obtain ⟨sd, hsd, hsdb⟩ := hal.sharedData
    have hcur2 : w2.mat._buildId = w.mat._buildId := r2.frame.matBuildId.trans hal.matBuildId
    have hsd2 : ∀ sd, w2.mat._sharedData = some sd → sd.buildId = w2.mat._buildId := by
      rw [hcur2]
      exact r2.frame.sharedCur _ (fun sd1 h1 => by rw [hsd] at h1; cases h1; exact hsdb)
    have hstage := (vertexStage_sat env rank False fuel nodes w2 hsd2
      (Or.inr ⟨hfuel, r2.frame.acyclic rank hready.2.1,
        r2.frame.state_isSome _ hready.2.2.1, r2.frame.state_isSome _ hready.2.2.2.1,
        r2.frame.sharedData_isSome hready.2.2.2.2⟩)).withPartial
      (vertexStage_shared env fuel nodes w2)
    rcases hstage.cases with ⟨w4, u, h4, _, hshared, htrace⟩ | ⟨_, _, _, hfalse, _⟩
    · refine ⟨wa, w2, nodes, w4, hal, hi, h4, ?_, hshared,
        (hinitTrace r2).noFragmentTrans htrace⟩
      rw [heq, hi]
      simp only [Outcome.andThen]
      rw [buildStages_eq_stages, h4]
      rfl
    · exact hfalse.elim
  · refine Or.inl ⟨w2, x, ?_, hinitTrace r⟩
    rw [heq, hi, hm, hal.blocks]
    rfl

/-- C24 on the wired example world. -/
theorem build_shares_declarations_before_fragment_pass_witness :
    (∃ w1 x, build exampleEnv 3 false wiredWorld
          = .raised w1 (multipleBlocks (wiredWorld.blocks x).getClassName)
        ∧ NoFragmentBuild wiredWorld w1)
      ∨ ∃ w1 w2 nodes w4, Allocated wiredWorld w1
        ∧ initializeBlocks exampleEnv 3 w1 = .done w2 nodes
        ∧ vertexStage exampleEnv 3 nodes w2 = .done w4 ()
        ∧ build exampleEnv 3 false wiredWorld
            = (fragmentStage exampleEnv 3 nodes w4).andThen
                (fun w6 _ => completeBuild false w6)
        ∧ w4.DeclarationsShared ∧ NoFragmentBuild wiredWorld w4 :=
  build_shares_declarations_before_fragment_pass exampleEnv exampleRank 3 false wiredWorld
    (by decide) (by decide) rfl
    (by
      intro b
      unfold exampleRank
      split
      · decide
      · split <;> decide)
    wiredWorld_acyclic

/-! ## A built material has its states (lines 373-401, 455 and 505-522) -/

theorem StatesStay.stayOfEq {w w1 : World}
    (hv : w1.mat._vertexCompilationState = w.mat._vertexCompilationState)
    (hf : w1.mat._fragmentCompilationState = w.mat._fragmentCompilationState) :
    StatesStay w w1 :=
  ⟨fun h => by rw [hv]; exact h, fun h => by rw [hf]; exact h⟩

theorem StatesStay.stayTrans {w w1 w2 : World} (h1 : StatesStay w w1) (h2 : StatesStay w1 w2) :
    StatesStay w w2 :=
  ⟨fun h => h2.1 (h1.1 h), fun h => h2.2 (h1.2 h)⟩

theorem StatesKept.stay {P : Event → Prop} {w w1 : World} (h : StatesKept P w w1) :
    StatesStay w w1 :=
  StatesStay.stayOfEq h.vertexState h.fragmentState

/-- The effect that `createEffect` returns is adopted or not without a change of the
material. -/
theorem createAndAdopt_mat (env : Env) (subMesh : Nat)
    (request : EffectBaseName × IEffectCreationOptions) (d : NodeMaterialDefines) (w : World) :
    (createAndAdopt env subMesh request d w).1.mat = w.mat := by
  unfold createAndAdopt adoptEffect
  simp only []
  split
  · rfl
  · split_ifs <;> rfl

/-- The final gate leaves the material alone. -/
theorem finalGate_mat (subMesh : Nat) (d : NodeMaterialDefines) (w : World) :
    (finalGate subMesh d w).1.mat = w.mat := by
  unfold finalGate
  split
  · rfl
  · split_ifs <;> rfl

/-- With both states in place lines 560-601 return, and the states are in place after. -/
theorem prepareRequest_states (env : Env) (mesh subMesh : Nat) (d : NodeMaterialDefines)
    (sd : NodeMaterialBuildStateSharedData) (w : World) (bad : Prop)
    (hb : bad ∨ (w.mat._vertexCompilationState.isSome ∧ w.mat._fragmentCompilationState.isSome)) :
    (prepareRequest env mesh subMesh d sd w).Sat
      (fun w4 _ => w4.mat._vertexCompilationState.isSome = true
        ∧ w4.mat._fragmentCompilationState.isSome = true)
      (fun _ _ => False) bad := by
  have h := prepareRequest_sat env mesh subMesh d sd w bad hb
  cases ho : prepareRequest env mesh subMesh d sd w with
  | done w4 r =>
    obtain ⟨_, vs, fs, hv, hf, _⟩ := prepareRequest_request env mesh subMesh d sd w w4 r ho
    exact ⟨by rw [hv]; rfl, by rw [hf]; rfl⟩
  | raised w4 what => rw [ho] at h; exact h
  | crashed => rw [ho] at h; exact h
  | diverged => rw [ho] at h; exact h

/-- With both states in place the part of `isReadyForSubMesh` behind the fast paths
returns, and the states are in place after. -/
theorem checkSubMesh_states (env : Env) (mesh subMesh : Nat) (useInstances : Bool)
    (sd : NodeMaterialBuildStateSharedData) (d : NodeMaterialDefines) (w : World) (bad : Prop)
    (hb : bad ∨ (w.mat._vertexCompilationState.isSome ∧ w.mat._fragmentCompilationState.isSome)) :
    (checkSubMesh env mesh subMesh useInstances sd d w).Sat
      (fun w1 _ => StatesStay w w1) (fun _ _ => False) bad := by
  unfold checkSubMesh
  simp only []
  obtain ⟨_, s1, _⟩ := definesPasses_kept env mesh subMesh useInstances sd d w
  split_ifs with hready
  · exact s1.stay
  · unfold settleEffect
    split_ifs with hdirty
    · unfold recompile
      simp only [Outcome.andThen_assoc]
      refine (prepareRequest_states env mesh subMesh _ sd _ bad
        (hb.imp id (fun h => ⟨by rw [s1.vertexState]; exact h.1,
          by rw [s1.fragmentState]; exact h.2⟩))).andThen ?_
      rintro w4 r ⟨hv, hf⟩
      show StatesStay w (finalGate subMesh _ (createAndAdopt env subMesh r.1 r.2 w4).1).1
      constructor
      · intro _
        rw [finalGate_mat, createAndAdopt_mat]
        exact hv
      · intro _
        rw [finalGate_mat, createAndAdopt_mat]
        exact hf
    · show StatesStay w (finalGate subMesh _ _).1
      refine s1.stay.stayTrans (StatesStay.stayOfEq ?_ ?_) <;> rw [finalGate_mat]

/-- With the states of a built material in place `isReadyForSubMesh` returns, and the
states are in place after. -/
theorem isReadyForSubMesh_states (env : Env) (mesh subMesh : Nat) (useInstances : Bool)
    (w : World) (bad : Prop) (hb : bad ∨ w.StatesInPlace) :
    (isReadyForSubMesh env mesh subMesh useInstances w).Sat
      (fun w1 _ => StatesStay w w1) (fun _ _ => False) bad := by
  unfold isReadyForSubMesh
  cases hflag : w.mat._buildWasSuccessful with
  | false => exact StatesStay.stayOfEq rfl rfl
  | true =>
    simp only [Bool.not_true, Bool.false_eq_true, if_false]
    cases hsd : w.mat._sharedData with
    | none =>
      rcases hb with hb | hb
      · exact hb
      · have := (hb hflag).1
        rw [hsd] at this
        cases this
    | some sd =>
      simp only []
      have s1 := (animateInputs_kept sd w).2
      have s2 := (ensureDefines_kept (animateInputs sd w) subMesh).2
      split_ifs with hfrozen hcached
      · exact s1.stay
      · exact (s1.statesTrans s2).stay
      · refine (checkSubMesh_states env mesh subMesh useInstances sd _ _ bad
          (hb.imp id (fun h => ?_))).mono
          (fun w1 _ h1 => (s1.statesTrans s2).stay.stayTrans h1) (fun _ _ h => h)
        obtain ⟨_, hv, hf⟩ := h hflag
        exact ⟨by rw [(s1.statesTrans s2).vertexState]; exact hv,
          by rw [(s1.statesTrans s2).fragmentState]; exact hf⟩

/-- The entry points that edit the lists leave the pointers of the material alone. -/
theorem addOutputNode_pointers (node : Nat) (w w1 : World)
    (h : (addOutputNode node w).after = some w1) :
    w1.mat._vertexCompilationState = w.mat._vertexCompilationState
      ∧ w1.mat._fragmentCompilationState = w.mat._fragmentCompilationState := by
  unfold addOutputNode at h
  split at h
  · cases h; exact ⟨rfl, rfl⟩
  · simp only [Outcome.after, Option.some.injEq] at h
    subst h
    unfold _addVertexOutputNode _addFragmentOutputNode
    split <;> split <;> (try split) <;> (try split) <;> exact ⟨rfl, rfl⟩

theorem removeOutputNode_pointers (node : Nat) (w : World) :
    (removeOutputNode node w).mat._vertexCompilationState = w.mat._vertexCompilationState
      ∧ (removeOutputNode node w).mat._fragmentCompilationState
        = w.mat._fragmentCompilationState
      ∧ (removeOutputNode node w).mat._sharedData = w.mat._sharedData := by
  simp only [removeOutputNode]
  split_ifs <;> exact ⟨rfl, rfl, rfl⟩

theorem removeBlock_pointers (block : Nat) (w : World) :
    (removeBlock block w).mat._vertexCompilationState = w.mat._vertexCompilationState
      ∧ (removeBlock block w).mat._fragmentCompilationState = w.mat._fragmentCompilationState
      ∧ (removeBlock block w).mat._sharedData = w.mat._sharedData := by
  simp only [removeBlock]
  split_ifs
  · exact removeOutputNode_pointers block _
  · exact ⟨rfl, rfl, rfl⟩

/-- A build that returns leaves both compilation states behind. -/
theorem build_done_states (env : Env) (fuel : Nat) (verbose : Bool) (w w1 : World)
    (h : build env fuel verbose w = .done w1 ()) :
    w1.mat._vertexCompilationState.isSome = true
      ∧ w1.mat._fragmentCompilationState.isSome = true := by
  obtain ⟨options, w3, _, f3, hc⟩ := build_done_stages env fuel verbose w w1 h
  obtain ⟨evs, he⟩ := completeBuild_done verbose w3 w1 hc
  have hv : w1.mat._vertexCompilationState = w3.mat._vertexCompilationState := by
    rw [he, wipeDefines_eq]
    rfl
  have hf : w1.mat._fragmentCompilationState = w3.mat._fragmentCompilationState := by
    rw [he, wipeDefines_eq]
    rfl
  rw [hv, hf]
  exact ⟨f3.state_isSome .vertex rfl, f3.state_isSome .fragment rfl⟩

/-- Every call of an entry point keeps the states of a built material in place. -/
theorem Call.after_inPlace (env : Env) (c : Call) (w w1 : World) (h0 : w.StatesInPlace)
    (h : c.after env w = some w1) : w1.StatesInPlace := by
  cases c with
  | addOutputNode node =>
    intro hflag
    rw [addOutputNode_flag node w w1 h] at hflag
    obtain ⟨hv, hf⟩ := addOutputNode_pointers node w w1 h
    rw [addOutputNode_sharedData node w w1 h, hv, hf]
    exact h0 hflag
  | removeOutputNode node =>
    simp only [Call.after, Option.some.injEq] at h
    subst h
    intro hflag
    rw [removeOutputNode_flag] at hflag
    obtain ⟨hv, hf, hs⟩ := removeOutputNode_pointers node w
    rw [hs, hv, hf]
    exact h0 hflag
  | removeBlock block =>
    simp only [Call.after, Option.some.injEq] at h
    subst h
    intro hflag
    rw [removeBlock_flag] at hflag
    obtain ⟨hv, hf, hs⟩ := removeBlock_pointers block w
    rw [hs, hv, hf]
    exact h0 hflag
  | clear =>
    simp only [Call.after, Option.some.injEq] at h
    subst h
    exact h0
  | isReadyForSubMesh mesh subMesh useInstances =>
    simp only [Call.after] at h
    have g := isReadyForSubMesh_graph env mesh subMesh useInstances w
    have s := isReadyForSubMesh_states env mesh subMesh useInstances w True (Or.inl trivial)
    cases ho : BABYLON.isReadyForSubMesh env mesh subMesh useInstances w with
    | done w2 r =>
      rw [ho] at h g s
      cases h
      have g2 : GraphKept w w1 := g
      have s2 : StatesStay w w1 := s
      intro hflag
      rw [g2.flag] at hflag
      obtain ⟨h1, h2, h3⟩ := h0 hflag
      exact ⟨by rw [g2.sharedData]; exact h1, s2.1 h2, s2.2 h3⟩
    | raised w2 what => rw [ho] at g; exact g.elim
    | crashed => rw [ho] at h; cases h
    | diverged => rw [ho] at h; cases h
  | build fuel verbose =>
    simp only [Call.after] at h
    cases ho : BABYLON.build env fuel verbose w with
    | done w2 r =>
      rw [ho] at h
      cases h
      exact fun _ => ⟨build_done_sharedData env fuel verbose w w1 ho,
        build_done_states env fuel verbose w w1 ho⟩
    | raised w2 what =>
      rw [ho] at h
      cases h
      intro hflag
      rw [build_raised_flag env fuel verbose w w1 what ho] at hflag
      cases hflag
    | crashed => rw [ho] at h; cases h
    | diverged => rw [ho] at h; cases h

/-- In every world reached by calls from a world whose success flag is down the states of
a built material are in place. -/
theorem Calls.callsInPlace {env : Env} {w w1 : World} (h : Calls env w w1)
    (h0 : w.mat._buildWasSuccessful = false) : w1.StatesInPlace := by
  induction h with
  | refl => intro h1; rw [h0] at h1; cases h1
  | step c _ hc ih => exact Call.after_inPlace env c _ _ ih hc

/-- C29: in every world reached from a newly constructed material by calls of `build`,
`addOutputNode`, `removeOutputNode`, `removeBlock` and `clear` (and of
`isReadyForSubMesh`), each of which returned or threw an exception that was caught, a
build-success flag that is up comes with Shared Data, a vertex state and a fragment
state; hence every call of `isReadyForSubMesh` in such a world returns, without a
dereference of a null pointer, and leaves a world of the same kind. -/
theorem built_flag_implies_states (env : Env) (options : Option INodeMaterialOptions)
    (w0 w : World) (h : Calls env (constructMaterial options w0) w) :
    (w.mat._buildWasSuccessful = true →
        w.mat._sharedData.isSome = true ∧ w.mat._vertexCompilationState.isSome = true
          ∧ w.mat._fragmentCompilationState.isSome = true)
      ∧ ∀ mesh subMesh useInstances, ∃ w1 r,
          isReadyForSubMesh env mesh subMesh useInstances w = .done w1 r
            ∧ w1.StatesInPlace := by
  have hin : w.StatesInPlace := h.callsInPlace rfl
  refine ⟨hin, fun mesh subMesh useInstances => ?_⟩
  have s := isReadyForSubMesh_states env mesh subMesh useInstances w False (Or.inr hin)
  rcases s.cases with ⟨w1, r, ho, _⟩ | ⟨_, _, _, hf⟩
  · exact ⟨w1, r, ho, Call.after_inPlace env (.isReadyForSubMesh mesh subMesh useInstances) w w1
      hin (by simp only [Call.after, ho, Outcome.after])⟩
  · exact hf.elim

/-- C29 on the example world: the material is constructed, gets its two output nodes and
is built; the flag is up in the world reached. -/
theorem built_flag_implies_states_witness :
    Calls exampleEnv (constructMaterial (some { emitComments := false }) exampleWorld)
        constructedBuilt
      ∧ constructedBuilt.mat._buildWasSuccessful = true
      ∧ (constructedBuilt.mat._buildWasSuccessful = true →
          constructedBuilt.mat._sharedData.isSome = true
            ∧ constructedBuilt.mat._vertexCompilationState.isSome = true
            ∧ constructedBuilt.mat._fragmentCompilationState.isSome = true)
      ∧ ∀ mesh subMesh useInstances, ∃ w1 r,
          isReadyForSubMesh exampleEnv mesh subMesh useInstances constructedBuilt = .done w1 r
            ∧ w1.StatesInPlace :=
  have hcalls : Calls exampleEnv (constructMaterial (some { emitComments := false }) exampleWorld)
      constructedBuilt :=
    Calls.step (.build 3 false)
      (Calls.step (.addOutputNode 1)
        (Calls.step (.addOutputNode 0) (Calls.refl _) rfl) rfl) rfl
  ⟨hcalls, rfl,
    built_flag_implies_states exampleEnv (some { emitComments := false }) exampleWorld
      constructedBuilt hcalls⟩

/-! ## Variable names after block initialization (lines 319-341) -/

theorem NamesFade.fadeRefl (w : World) : NamesFade w w :=
  ⟨fun _ => rfl, fun _ _ h => h, fun _ h => h⟩

theorem NamesFade.fadeTrans {w w1 w2 : World} (h1 : NamesFade w w1) (h2 : NamesFade w1 w2) :
    NamesFade w w2 :=
  ⟨fun b => (h2.wiring b).trans (h1.wiring b), fun b i h => h2.inputs b i (h1.inputs b i h),
    fun b h => h2.outputs b (h1.outputs b h)⟩

theorem NamesFade.ofBlocks {w w1 : World} (h : w1.blocks = w.blocks) : NamesFade w w1 :=
  ⟨fun _ => by rw [h], fun _ _ hc => by rw [h]; exact hc, fun _ hc => by rw [h]; exact hc⟩

theorem NamesFade.fadeEdge {w w1 : World} (h : NamesFade w w1) : w1.Edge = w.Edge := by
  funext a c
  simp only [World.Edge, h.wiring a]

theorem NamesFade.fadeReach {w w1 : World} (h : NamesFade w w1) : w1.Reach = w.Reach := by
  unfold World.Reach
  rw [h.fadeEdge]

theorem NamesFade.fadeLength {w w1 : World} (h : NamesFade w w1) (b : Nat) :
    (w1.blocks b).inputs.length = (w.blocks b).inputs.length := by
  have := congrArg List.length (h.wiring b)
  simpa using this

/-- A block whose names are all empty keeps them empty. -/
theorem NamesFade.fadeCleared {w w1 : World} (h : NamesFade w w1) (b : Nat)
    (hc : (w.blocks b).Cleared) : (w1.blocks b).Cleared := by
  refine ⟨?_, h.outputs b hc.2⟩
  intro p hp
  obtain ⟨i, hi⟩ := List.mem_iff_getElem?.1 hp
  refine h.inputs b i ?_ p hi
  intro q hq
  exact hc.1 q (List.getElem?_mem hq)

/-- Overwriting one block by a block with the same wiring and no new name. -/
theorem NamesFade.fadeSetBlock (w : World) (node : Nat) (blk : NodeMaterialBlock)
    (hw : blk.inputs.map (fun p => p.connectedPoint)
      = (w.blocks node).inputs.map (fun p => p.connectedPoint))
    (hi : ∀ i, (w.blocks node).inputCleared i → blk.inputCleared i)
    (ho : (w.blocks node).outputsCleared → blk.outputsCleared) :
    NamesFade w (w.setBlock node blk) := by
  refine ⟨?_, ?_, ?_⟩
  · intro b
    by_cases hb : b = node
    · subst hb; simpa [World.setBlock] using hw
    · simp [World.setBlock, hb]
  · intro b i
    by_cases hb : b = node
    · subst hb; simpa [World.setBlock] using hi i
    · simp [World.setBlock, hb]
  · intro b
    by_cases hb : b = node
    · subst hb; simpa [World.setBlock] using ho
    · simp [World.setBlock, hb]

/-- Line 320: input number `i` loses its name, nothing else changes. -/
theorem resetInput_fade (w : World) (node i : Nat) :
    NamesFade w (w.setBlock node ((w.blocks node).resetInput i))
      ∧ ((w.setBlock node ((w.blocks node).resetInput i)).blocks node).inputCleared i := by
  have hget : ∀ j, ((w.blocks node).resetInput i).inputs[j]?
      = ((w.blocks node).inputs[j]?).map
          (fun p => if i = j then { p with associatedVariableName := "" } else p) := by
    intro j
    simp only [NodeMaterialBlock.resetInput, List.getElem?_modify]
    rfl
  constructor
  · refine NamesFade.fadeSetBlock w node _ ?_ ?_ (fun h => h)
    · have := congrArg (fun s => s.2.2.2.2.2) (resetInput_shape (w.blocks node) i)
      exact this
    · intro j hj p hp
      rw [hget j] at hp
      cases hq : (w.blocks node).inputs[j]? with
      | none => rw [hq] at hp; cases hp
      | some q =>
        rw [hq] at hp
        simp only [Option.map_some', Option.some.injEq] at hp
        rw [← hp]
        split_ifs
        · rfl
        · exact hj q hq
  · intro p hp
    have hb : (w.setBlock node ((w.blocks node).resetInput i)).blocks node
        = (w.blocks node).resetInput i := by simp [World.setBlock]
    rw [hb, hget i] at hp
    cases hq : (w.blocks node).inputs[i]? with
    | none => rw [hq] at hp; cases hp
    | some q =>
      rw [hq] at hp
      simp only [Option.map_some', Option.some.injEq, if_true] at hp
      rw [← hp]

/-- Lines 339-341: the outputs lose their names, nothing else changes. -/
theorem resetOutputs_fade (w : World) (node : Nat) :
    NamesFade w (w.setBlock node (w.blocks node).resetOutputs)
      ∧ ((w.setBlock node (w.blocks node).resetOutputs).blocks node).outputsCleared
      ∧ ((w.setBlock node (w.blocks node).resetOutputs).blocks node).inputs
          = (w.blocks node).inputs := by
  have hb : (w.setBlock node (w.blocks node).resetOutputs).blocks node
      = (w.blocks node).resetOutputs := by simp [World.setBlock]
  have hout : (w.blocks node).resetOutputs.outputsCleared := by
    intro p hp
    simp only [NodeMaterialBlock.resetOutputs, List.mem_map] at hp
    obtain ⟨q, _, hq⟩ := hp
    rw [← hq]
  refine ⟨NamesFade.fadeSetBlock w node _ rfl (fun _ h => h) (fun _ => hout), ?_, ?_⟩
  · rw [hb]; exact hout
  · rw [hb]; rfl

/-- Lines 301-317 leave the connection points of every block alone. -/
theorem initializeHead_fade (env : Env) (iState : Stage) (node : Nat) (w : World) :
    ((callBlockInitialize env iState node w).andThen fun w1 _ =>
        attachBlock node (stampPreparation node w1)).Sat
      (fun w4 _ => NamesFade w w4) (fun _ _ => True) True := by
  unfold callBlockInitialize
  cases hs : w.state iState with
  | none => trivial
  | some s =>
    cases hd : w.mat._sharedData with
    | none => trivial
    | some sd =>
      simp only [Outcome.andThen]
      unfold attachBlock
      have hstamp : ∀ w0 : World, NamesFade w0 (stampPreparation node w0) := by
        intro w0
        unfold stampPreparation
        exact (show NamesFade w0 (w0.log (.autoConfigure node)) from
          NamesFade.ofBlocks rfl).fadeTrans
          (NamesFade.fadeSetBlock _ node _ rfl (fun _ h => h) (fun h => h))
      have h0 : NamesFade w (stampPreparation node
          (((w.log (.blockInitialize node iState)).setState iState
            { (env.blockInitialize node s sd).1 with target := s.target }).setSharedData
            { (env.blockInitialize node s sd).2 with buildId := sd.buildId })) := by
        refine (NamesFade.ofBlocks ?_).fadeTrans (hstamp _)
        cases iState <;> rfl
      split_ifs
      · exact h0
      · trivial
      · exact h0.fadeTrans (NamesFade.ofBlocks rfl)

/-- Whenever `_initializeBlock` returns, every block reachable from the node has empty
variable names on all of its inputs and outputs, and no name was filled in anywhere. -/
theorem _initializeBlock_cleared (env : Env) (iState : Stage) :
    ∀ (fuel node : Nat) (nodes : List Nat) (w : World),
      (_initializeBlock env iState fuel node nodes w).Sat
        (fun w1 _ => NamesFade w w1 ∧ ∀ x, w.Reach node x → (w1.blocks x).Cleared)
        (fun _ _ => True) True
  | 0, _, _, _ => trivial
  | fuel + 1, node, nodes, w => by
    have ih := _initializeBlock_cleared env iState fuel
    rw [_initializeBlock_succ, ← Outcome.andThen_assoc]
    refine (initializeHead_fade env iState node w).andThen ?_
    intro w4 _ r4
    have hloop := forEach_sat (initializeInput (_initializeBlock env iState fuel) iState node)
      (fun _ _ => True) True (w4.blocks node).inputs.enum
      (fun pre wc _ => NamesFade w wc
        ∧ (∀ p ∈ pre, (wc.blocks node).inputCleared p.1)
        ∧ ∀ p ∈ pre, ∀ c, p.2.connectedPoint = some c → c ≠ node →
            ∀ x, w.Reach c x → (wc.blocks x).Cleared)
      nodes w4
      (fun pre x rest a1 wc hxs hinv => by
        obtain ⟨rc, hin, hreach⟩ := hinv
        obtain ⟨r1, hx1⟩ := resetInput_fade wc node x.1
        have hstill : ∀ {w2 : World}, NamesFade (wc.setBlock node
              ((wc.blocks node).resetInput x.1)) w2 →
            (∀ c, x.2.connectedPoint = some c → c ≠ node →
              ∀ y, w.Reach c y → (w2.blocks y).Cleared) →
            NamesFade w w2
              ∧ (∀ p ∈ pre ++ [x], (w2.blocks node).inputCleared p.1)
              ∧ ∀ p ∈ pre ++ [x], ∀ c, p.2.connectedPoint = some c → c ≠ node →
                  ∀ y, w.Reach c y → (w2.blocks y).Cleared := by
          intro w2 r2 hnew
          refine ⟨(rc.fadeTrans r1).fadeTrans r2, ?_, ?_⟩
          · intro p hp
            rcases List.mem_append.1 hp with hp | hp
            · exact r2.inputs node p.1 (r1.inputs node p.1 (hin p hp))
            · rw [List.mem_singleton.1 hp]
              exact r2.inputs node x.1 hx1
          · intro p hp c hc hne y hy
            rcases List.mem_append.1 hp with hp | hp
            · exact r2.fadeCleared y (r1.fadeCleared y (hreach p hp c hc hne y hy))
            · rw [List.mem_singleton.1 hp] at hc
              exact hnew c hc hne y hy
        unfold initializeInput
        simp only []
        cases hc : x.2.connectedPoint with
        | none =>
          exact hstill (NamesFade.fadeRefl _) (fun c h => by rw [hc] at h; cases h)
        | some c =>
          by_cases hcb : c = node
          · simp only [hcb, if_true]
            refine hstill (NamesFade.fadeRefl _) (fun c1 h hne => ?_)
            rw [hc] at h
            cases h
            exact absurd hcb hne
          · simp only [hcb, if_false]
            refine (ih c _ _).mono ?_ (fun _ _ h => h)
            rintro w2 _ ⟨r2, h2⟩
            refine hstill r2 (fun c1 h hne y hy => ?_)
            rw [hc] at h
            cases h
            refine h2 y ?_
            rw [(rc.fadeTrans r1).fadeReach]
            exact hy)
      ⟨r4, (fun p hp => by cases hp), (fun p hp => by cases hp)⟩
    refine hloop.andThen ?_
    rintro w5 nodes5 ⟨r5, hin, hreach⟩
    obtain ⟨r6, hout, hsame⟩ := resetOutputs_fade w5 node
    refine ⟨r5.fadeTrans r6, ?_⟩
    intro x hx
    rcases Relation.ReflTransGen.cases_head hx with h | ⟨c, hedge, hcx⟩
    · rw [← h]
      refine ⟨?_, hout⟩
      rw [hsame]
      intro p hp
      obtain ⟨i, hi⟩ := List.mem_iff_getElem?.1 hp
      have hlt : i < (w4.blocks node).inputs.length := by
        have h1 : i < (w5.blocks node).inputs.length := (List.getElem?_eq_some.1 hi).1
        have h2 : (w5.blocks node).inputs.length = (w4.blocks node).inputs.length := by
          rw [r5.fadeLength, r4.fadeLength]
        omega
      have hmem : (i, (w4.blocks node).inputs[i]) ∈ (w4.blocks node).inputs.enum :=
        List.mem_enum_iff_getElem?.2 (List.getElem?_eq_getElem hlt)
      exact hin _ hmem p hi
    · have hedge4 : w4.Edge node c := by rw [r4.fadeEdge]; exact hedge
      obtain ⟨p, hp, hpc⟩ := mem_enum_of_edge hedge4
      exact r6.fadeCleared x (hreach p hp c hpc hedge.2 x hcx)

/-- C21: on an acyclic graph, with fuel beyond the rank of the node and the state and the
Shared Data in place, `_initializeBlock` returns or throws the uniqueness error; when it
returns, every input and every output connection point of every block reachable from the
node through input connections has an empty `associatedVariableName`. (The `initialize`
and `autoConfigure` hooks of the blocks are oracles that write no block.) -/
theorem initializeBlock_clears_variable_names (env : Env) (iState : Stage) (rank : Nat → Nat)
    (fuel node : Nat) (nodes : List Nat) (w : World)
    (hr : w.Acyclic rank) (hfuel : rank node < fuel) (hs : (w.state iState).isSome)
    (hsd : w.mat._sharedData.isSome) :
    (∃ w1 nodes1, _initializeBlock env iState fuel node nodes w = .done w1 nodes1
        ∧ ∀ x, w.Reach node x →
            (∀ p ∈ (w1.blocks x).inputs, p.associatedVariableName = "")
              ∧ ∀ p ∈ (w1.blocks x).outputs, p.associatedVariableName = "")
      ∨ (∃ w1 x, _initializeBlock env iState fuel node nodes w
          = .raised w1 (multipleBlocks (w.blocks x).getClassName)) := by
  have hends := _initializeBlock_sat env iState rank False fuel node nodes w
    (Or.inr ⟨hfuel, hr, hs, hsd⟩)
  have hclear := _initializeBlock_cleared env iState fuel node nodes w
  rcases hends.cases with ⟨w1, nodes1, heq, _⟩ | ⟨w1, what, heq, _, x, _, _, hm, _⟩
  · left
    rw [heq] at hclear
    exact ⟨w1, nodes1, heq, hclear.2⟩
  · right
    exact ⟨w1, x, by rw [heq, hm]⟩

/-- C21 on the wired example world, from the vertex output node 0: the input of the dual
block 2 is named `v` before and has no name after. -/
theorem initializeBlock_clears_variable_names_witness :
    ((wiredAllocated.blocks 2).inputs.map (fun p => p.associatedVariableName) = ["v"]
      ∧ wiredAllocated.Reach 0 2)
      ∧ ((∃ w1 nodes1, _initializeBlock exampleEnv .vertex 3 0 [] wiredAllocated
            = .done w1 nodes1
          ∧ ∀ x, wiredAllocated.Reach 0 x →
              (∀ p ∈ (w1.blocks x).inputs, p.associatedVariableName = "")
                ∧ ∀ p ∈ (w1.blocks x).outputs, p.associatedVariableName = "")
        ∨ (∃ w1 x, _initializeBlock exampleEnv .vertex 3 0 [] wiredAllocated
            = .raised w1 (multipleBlocks (wiredAllocated.blocks x).getClassName)))
      ∧ ∃ w1 nodes1, _initializeBlock exampleEnv .vertex 3 0 [] wiredAllocated
          = .done w1 nodes1
        ∧ (w1.blocks 2).inputs.map (fun p => p.associatedVariableName) = [""] :=
  ⟨⟨rfl, Relation.ReflTransGen.single ⟨by decide, by decide⟩⟩,
    initializeBlock_clears_variable_names exampleEnv .vertex exampleRank 3 0 [] wiredAllocated
      wiredWorld_acyclic (by decide) rfl rfl, _, _, rfl, rfl⟩

/-! ## The list of the other stage (lines 319-337) -/

theorem StampsGrow.growRefl (w : World) : StampsGrow w w :=
  ⟨fun _ => rfl, rfl, fun _ => Or.inl rfl, rfl⟩

theorem StampsGrow.growTrans {w w1 w2 : World} (h1 : StampsGrow w w1) (h2 : StampsGrow w1 w2) :
    StampsGrow w w2 := by
  refine ⟨fun b => (h2.target b).trans (h1.target b), h2.matBuildId.trans h1.matBuildId, ?_,
    h2.fragmentOutputNodes.trans h1.fragmentOutputNodes⟩
  intro b
  rcases h2.stamps b with h | h
  · rw [h]; exact h1.stamps b
  · exact Or.inr (h.trans h1.matBuildId)

theorem StampsGrow.growStamped {w w1 : World} (h : StampsGrow w w1) (b : Nat)
    (hb : w.Stamped b) : w1.Stamped b := by
  unfold World.Stamped at hb ⊢
  rw [h.matBuildId]
  rcases h.stamps b with h1 | h1
  · rw [h1]; exact hb
  · exact h1

/-- Overwriting a block by one with the same target and preparation id. -/
theorem StampsGrow.growSetBlock (w : World) (node : Nat) (blk : NodeMaterialBlock)
    (ht : blk.target = (w.blocks node).target)
    (hp : blk._preparationId = (w.blocks node)._preparationId) :
    StampsGrow w (w.setBlock node blk) := by
  refine ⟨?_, rfl, ?_, rfl⟩
  · intro b
    by_cases hb : b = node
    · subst hb; simpa [World.setBlock] using ht
    · simp [World.setBlock, hb]
  · intro b
    by_cases hb : b = node
    · subst hb; exact Or.inl (by simpa [World.setBlock] using hp)
    · exact Or.inl (by simp [World.setBlock, hb])

theorem AppendedOnce.onceRefl (b : Nat) (w : World) : AppendedOnce b w w [] :=
  ⟨StampsGrow.growRefl w, by simp, fun _ => rfl, fun h => by simp at h⟩

theorem AppendedOnce.onceTrans {b : Nat} {w w1 w2 : World} {e1 e2 : List Nat}
    (h1 : AppendedOnce b w w1 e1) (h2 : AppendedOnce b w1 w2 e2) :
    AppendedOnce b w w2 (e1 ++ e2) := by
  obtain ⟨g1, c1, z1, s1⟩ := h1
  obtain ⟨g2, c2, z2, s2⟩ := h2
  refine ⟨g1.growTrans g2, ?_, ?_, ?_⟩
  · rw [List.count_append]
    by_cases hs : w1.Stamped b
    · rw [z2 hs]; omega
    · have : e1.count b ≠ 1 := fun h => hs (s1 h)
      omega
  · intro hs
    rw [List.count_append, z1 hs, z2 (g1.growStamped b hs)]
  · intro hc
    rw [List.count_append] at hc
    by_cases hs : w1.Stamped b
    · exact g2.growStamped b hs
    · have : e1.count b ≠ 1 := fun h => hs (s1 h)
      exact s2 (by omega)

/-- The source's test of lines 326-333 is the condition of the specification. -/
theorem crossStage_iff (w : World) (iState : Stage) (block : Nat) :
    crossStage w iState block = true ↔ w.CrossesStage iState block := by
  unfold crossStage World.CrossesStage
  by_cases h : (w.blocks block).target = .VertexAndFragment
  · simp [h]
  · simp [h, and_assoc]

/-- How often a block stands in the at most one block that one turn appends. -/
theorem count_crossed (b c : Nat) (t : Bool) :
    (if t then [c] else []).count b ≤ 1
      ∧ (c ≠ b → (if t then [c] else []).count b = 0)
      ∧ (t = false → (if t then [c] else []).count b = 0) := by
  cases t
  · simp
  · by_cases h : c = b
    · simp [h]
    · have : (c == b) = false := beq_false_of_ne h
      simp [List.count_cons, this, h]

/-- A stamped block that is not a dual block is not put on the list of the other stage. -/
theorem crossStage_stamped (w : World) (iState : Stage) (b : Nat)
    (ht : (w.blocks b).target ≠ .VertexAndFragment) (hs : w.Stamped b) :
    crossStage w iState b = false := by
  rw [Bool.eq_false_iff]
  intro h
  rcases (crossStage_iff w iState b).1 h with h1 | ⟨_, _, h3⟩
  · exact ht h1
  · exact h3 hs

/-- Lines 319-337 for an input that is connected to another block: the input loses its
name, the owner goes on the list of the other stage exactly under the condition of the
specification, and is initialized by the recursive call in every case. -/
theorem initializeInput_connected (recur : Nat → List Nat → World → Outcome (List Nat))
    (iState : Stage) (node : Nat) (input : Nat × NodeMaterialConnectionPoint)
    (nodes : List Nat) (w : World) (block : Nat)
    (hc : input.2.connectedPoint = some block) (hne : block ≠ node) :
    initializeInput recur iState node input nodes w
        = recur block (nodes ++ if crossStage w iState block then [block] else [])
            (w.setBlock node ((w.blocks node).resetInput input.1))
      ∧ (crossStage w iState block = true ↔ w.CrossesStage iState block) := by
  refine ⟨?_, crossStage_iff w iState block⟩
  unfold initializeInput
  simp only [hc, hne, if_false]
  have hsame : crossStage (w.setBlock node ((w.blocks node).resetInput input.1)) iState block
      = crossStage w iState block := by
    have hb : (w.setBlock node ((w.blocks node).resetInput input.1)).blocks block
        = w.blocks block := by simp [World.setBlock, hne]
    unfold crossStage
    rw [hb]
    cases iState <;> rfl
  rw [hsame]
  split_ifs <;> simp

/-- Lines 301-317 stamp the node and nothing else. -/
theorem initializeHead_stamps (env : Env) (iState : Stage) (node : Nat) (w : World) :
    ((callBlockInitialize env iState node w).andThen fun w1 _ =>
        attachBlock node (stampPreparation node w1)).Sat
      (fun w4 _ => StampsGrow w w4 ∧ w4.Stamped node) (fun _ _ => True) True := by
  unfold callBlockInitialize
  cases hs : w.state iState with
  | none => trivial
  | some s =>
    cases hd : w.mat._sharedData with
    | none => trivial
    | some sd =>
      simp only [Outcome.andThen]
      unfold attachBlock
      have hB : (stampPreparation node (((w.log (.blockInitialize node iState)).setState iState
          { (env.blockInitialize node s sd).1 with target := s.target }).setSharedData
          { (env.blockInitialize node s sd).2 with buildId := sd.buildId })).mat._buildId
          = w.mat._buildId := by cases iState <;> rfl
      have hF : (stampPreparation node (((w.log (.blockInitialize node iState)).setState iState
          { (env.blockInitialize node s sd).1 with target := s.target }).setSharedData
          { (env.blockInitialize node s sd).2 with buildId := sd.buildId })).mat._fragmentOutputNodes
          = w.mat._fragmentOutputNodes := by cases iState <;> rfl
      have hK : ∀ b, (stampPreparation node (((w.log (.blockInitialize node iState)).setState
          iState { (env.blockInitialize node s sd).1 with target := s.target }).setSharedData
          { (env.blockInitialize node s sd).2 with buildId := sd.buildId })).blocks b
          = if b = node then { w.blocks node with _preparationId := w.mat._buildId }
            else w.blocks b := by
        intro b
        cases iState <;>
          by_cases hb : b = node <;>
          simp [stampPreparation, World.log, World.setState, World.setMat,
            World.setSharedData, World.setBlock, hb, Function.update_noteq]
      generalize (stampPreparation node (((w.log (.blockInitialize node iState)).setState iState
          { (env.blockInitialize node s sd).1 with target := s.target }).setSharedData
          { (env.blockInitialize node s sd).2 with buildId := sd.buildId })) = w3 at hB hF hK
      have hg : StampsGrow w w3 := by
        refine ⟨?_, hB, ?_, hF⟩
        · intro b
          rw [hK b]
          by_cases hb : b = node
          · simp [hb]
          · simp [hb]
        · intro b
          rw [hK b]
          by_cases hb : b = node
          · simp [hb]
          · simp [hb]
      have hst : w3.Stamped node := by
        unfold World.Stamped
        rw [hK node, hB]
        simp
      split_ifs
      · exact ⟨hg, hst⟩
      · trivial
      · exact ⟨hg.growTrans ⟨fun _ => rfl, rfl, fun _ => Or.inl rfl, rfl⟩, by
          unfold World.Stamped at hst ⊢
          exact hst⟩

/-- Whenever `_initializeBlock` returns, the list of the other stage has grown by some
blocks, among which a block that is not a dual block stands at most once, and not at all
if it was stamped before or is the node itself; the node is stamped. -/
theorem _initializeBlock_once (env : Env) (iState : Stage) (b : Nat) :
    ∀ (fuel node : Nat) (nodes : List Nat) (w : World),
      (w.blocks b).target ≠ .VertexAndFragment →
      (_initializeBlock env iState fuel node nodes w).Sat
        (fun w1 nodes1 => w1.Stamped node ∧ ∃ extra, nodes1 = nodes ++ extra
          ∧ AppendedOnce b w w1 extra ∧ (node = b → extra.count b = 0))
        (fun _ _ => True) True
  | 0, _, _, _, _ => trivial
  | fuel + 1, node, nodes, w, ht => by
    have ih := _initializeBlock_once env iState b fuel
    rw [_initializeBlock_succ, ← Outcome.andThen_assoc]
    refine (initializeHead_stamps env iState node w).andThen ?_
    rintro w4 _ ⟨g4, hst4⟩
    have hloop := forEach_sat (initializeInput (_initializeBlock env iState fuel) iState node)
      (fun _ _ => True) True (w4.blocks node).inputs.enum
      (fun _ wc nc => ∃ extra, nc = nodes ++ extra ∧ AppendedOnce b w4 wc extra)
      nodes w4
      (fun pre x rest a1 wc hxs hinv => by
        obtain ⟨extra, hnc, honce⟩ := hinv
        have g1 : StampsGrow wc (wc.setBlock node ((wc.blocks node).resetInput x.1)) :=
          StampsGrow.growSetBlock wc node _ rfl rfl
        have hreset : AppendedOnce b wc (wc.setBlock node ((wc.blocks node).resetInput x.1)) [] :=
          ⟨g1, by simp, fun _ => rfl, fun h => by simp at h⟩
        cases hc : x.2.connectedPoint with
        | none =>
          have : initializeInput (_initializeBlock env iState fuel) iState node x a1 wc
              = .done (wc.setBlock node ((wc.blocks node).resetInput x.1)) a1 := by
            simp [initializeInput, hc]
          rw [this]
          exact ⟨extra, hnc, by simpa using honce.onceTrans hreset⟩
        | some c =>
          by_cases hcb : c = node
          · have : initializeInput (_initializeBlock env iState fuel) iState node x a1 wc
                = .done (wc.setBlock node ((wc.blocks node).resetInput x.1)) a1 := by
              simp [initializeInput, hc, hcb]
            rw [this]
            exact ⟨extra, hnc, by simpa using honce.onceTrans hreset⟩
          · rw [(initializeInput_connected _ iState node x a1 wc c hc hcb).1]
            have htc : (wc.blocks b).target ≠ .VertexAndFragment := by
              rw [honce.1.target, g4.target]; exact ht
            have ht1 : ((wc.setBlock node ((wc.blocks node).resetInput x.1)).blocks b).target
                ≠ .VertexAndFragment := by
              rw [g1.target]; exact htc
            refine (ih c _ _ ht1).mono ?_ (fun _ _ h => h)
            rintro w2 nodes2 ⟨hstc, extra2, hn2, ⟨g2, c2, z2, s2⟩, hself⟩
            refine ⟨extra ++ ((if crossStage wc iState c then [c] else []) ++ extra2),
              by rw [hn2, hnc]; simp, honce.onceTrans ?_⟩
            have hmid : (if crossStage wc iState c then [c] else []).count b ≤ 1
                ∧ (wc.Stamped b → (if crossStage wc iState c then [c] else []).count b = 0)
                ∧ (c ≠ b → (if crossStage wc iState c then [c] else []).count b = 0) := by
              obtain ⟨k1, k2, k3⟩ := count_crossed b c (crossStage wc iState c)
              refine ⟨k1, ?_, k2⟩
              intro hsb
              by_cases hcb2 : c = b
              · exact k3 (by rw [hcb2]; exact crossStage_stamped wc iState b htc hsb)
              · exact k2 hcb2
            obtain ⟨m1, m2, m3⟩ := hmid
            refine ⟨g1.growTrans g2, ?_, ?_, ?_⟩
            · rw [List.count_append]
              by_cases hcb2 : c = b
              · rw [hself hcb2]; omega
              · rw [m3 hcb2]; omega
            · intro hsb
              rw [List.count_append, m2 hsb, z2 (g1.growStamped b hsb)]
            · intro hcount
              rw [List.count_append] at hcount
              by_cases hcb2 : c = b
              · rw [← hcb2]; exact hstc
              · rw [m3 hcb2] at hcount
                exact s2 (by omega))
      ⟨[], by simp, AppendedOnce.onceRefl b w4⟩
    refine hloop.andThen ?_
    rintro w5 nodes5 ⟨extra, hn5, honce⟩
    have g6 : StampsGrow w5 (w5.setBlock node (w5.blocks node).resetOutputs) :=
      StampsGrow.growSetBlock w5 node _ rfl rfl
    have hhead : AppendedOnce b w w4 [] :=
      ⟨g4, by simp, fun _ => rfl, fun h => by simp at h⟩
    have hlast : AppendedOnce b w5 (w5.setBlock node (w5.blocks node).resetOutputs) [] :=
      ⟨g6, by simp, fun _ => rfl, fun h => by simp at h⟩
    refine ⟨g6.growStamped node (honce.1.growStamped node hst4), extra, hn5,
      by simpa using (hhead.onceTrans honce).onceTrans hlast, ?_⟩
    intro hnb
    rw [hnb] at hst4
    exact honce.2.2.1 hst4

/-- Whenever lines 403-415 return, the vertex nodes are the vertex output nodes followed
by the blocks appended during the fragment loop, the fragment nodes are the blocks
appended during the vertex loop followed by the fragment output nodes, and a block that
is not a dual block was appended at most once in all. -/
theorem initializeBlocks_once (env : Env) (fuel : Nat) (b : Nat) (w : World)
    (ht : (w.blocks b).target ≠ .VertexAndFragment) :
    (initializeBlocks env fuel w).Sat
      (fun w1 nodes => ∃ extraV extraF, nodes.1 = w.mat._vertexOutputNodes ++ extraV
        ∧ nodes.2 = extraF ++ w.mat._fragmentOutputNodes
        ∧ AppendedOnce b w w1 (extraF ++ extraV))
      (fun _ _ => True) True := by
  unfold initializeBlocks
  have hv := forEach_sat (initializeVertexOutput env fuel) (fun _ _ => True) True
    w.mat._vertexOutputNodes
    (fun pre wc nc => nc.1 = pre ∧ AppendedOnce b w wc nc.2) ([], []) w
    (fun pre x rest a1 wc _ hinv => by
      obtain ⟨h1, honce⟩ := hinv
      unfold initializeVertexOutput
      have htc : (wc.blocks b).target ≠ .VertexAndFragment := by
        rw [honce.1.target]; exact ht
      refine (_initializeBlock_once env .vertex b fuel x a1.2 wc htc).andThen ?_
      rintro w2 nodes2 ⟨_, extra, hn2, h2, _⟩
      exact ⟨by rw [h1], by rw [hn2]; exact honce.onceTrans h2⟩)
    ⟨rfl, AppendedOnce.onceRefl b w⟩
  refine hv.andThen ?_
  rintro w1 nodes1 ⟨h1, honce1⟩
  rw [honce1.1.fragmentOutputNodes]
  have hf := forEach_sat (initializeFragmentOutput env fuel) (fun _ _ => True) True
    w.mat._fragmentOutputNodes
    (fun pre wc nc => ∃ extraV, nc.1 = w.mat._vertexOutputNodes ++ extraV
      ∧ nc.2 = nodes1.2 ++ pre ∧ AppendedOnce b w wc (nodes1.2 ++ extraV)) nodes1 w1
    (fun pre x rest a1 wc _ hinv => by
      obtain ⟨extraV, hn1, hn2, honce⟩ := hinv
      unfold initializeFragmentOutput
      have htc : (wc.blocks b).target ≠ .VertexAndFragment := by
        rw [honce.1.target]; exact ht
      refine (_initializeBlock_once env .fragment b fuel x a1.1 wc htc).andThen ?_
      rintro w2 nodes2 ⟨_, extra, hx2, h2, _⟩
      refine ⟨extraV ++ extra, by rw [hx2, hn1]; simp, by rw [hn2]; simp, ?_⟩
      have := honce.onceTrans h2
      simpa using this)
    ⟨[], by simp [h1], by simp, by simpa using honce1⟩
  refine hf.mono ?_ (fun _ _ h => h)
  rintro w2 nodes2 ⟨extraV, hn1, hn2, honce⟩
  exact ⟨extraV, nodes1.2, hn1, hn2, honce⟩

/-- The input connections of `vertexFedWorld` are acyclic. -/
theorem vertexFedWorld_acyclic : vertexFedWorld.Acyclic exampleRank := by
  intro a c h
  obtain ⟨h1, h2⟩ := h
  by_cases h0 : a = 0
  · subst h0
    simp [vertexFedWorld, exampleBlock] at h1
    subst h1; decide
  · by_cases h1a : a = 1
    · subst h1a
      simp [vertexFedWorld, exampleBlock] at h1
      subst h1; decide
    · by_cases h2a : a = 2
      · subst h2a
        simp [vertexFedWorld, exampleBlock] at h1
        subst h1; decide
      · simp [vertexFedWorld, exampleBlock, h0, h1a, h2a] at h1

/-- C22: in the loop of `_initializeBlock`, an input connected to a block other than the
node puts that block on the list of the other stage exactly when the block's target is
`VertexAndFragment`, or the stage is the fragment stage, the block's target is `Vertex`
and its preparation id differs from the build id; in every case the turn then is the
recursive call on the block. Consequently, in a `build` of a material with output nodes
and options on an acyclic graph, which either throws the uniqueness error or gets
through the two initialization loops, a block with target `Vertex` was appended to the
two node lists at most once in all, and not at all if it carried the build id before. -/
theorem vertex_block_crosses_stage_at_most_once (env : Env) (rank : Nat → Nat) (fuel : Nat)
    (verbose : Bool) (w : World) (b : Nat)
    (hv : w.mat._vertexOutputNodes ≠ []) (hf : w.mat._fragmentOutputNodes ≠ [])
    (ho : w.mat._options.isSome) (hfuel : ∀ x, rank x < fuel) (hacyclic : w.Acyclic rank)
    (hb : (w.blocks b).target = .Vertex) :
    (∀ (iState : Stage) (node : Nat) (input : Nat × NodeMaterialConnectionPoint)
        (nodes : List Nat) (w0 : World) (block n : Nat),
        input.2.connectedPoint = some block → block ≠ node →
        initializeInput (_initializeBlock env iState n) iState node input nodes w0
            = _initializeBlock env iState n block
                (nodes ++ if crossStage w0 iState block then [block] else [])
                (w0.setBlock node ((w0.blocks node).resetInput input.1))
          ∧ (crossStage w0 iState block = true ↔
              ((w0.blocks block).target = .VertexAndFragment
                ∨ ((w0.state iState).map (fun s => s.target) = some .Fragment
                  ∧ (w0.blocks block).target = .Vertex
                  ∧ (w0.blocks block)._preparationId ≠ w0.mat._buildId))))
      ∧ ((∃ w1 x, build env fuel verbose w
            = .raised w1 (multipleBlocks (w.blocks x).getClassName))
        ∨ ∃ w1 w2 nodes extraV extraF, Allocated w w1
          ∧ initializeBlocks env fuel w1 = .done w2 nodes
          ∧ build env fuel verbose w
              = (buildStages env fuel nodes w2).andThen (fun w3 _ => completeBuild verbose w3)
          ∧ nodes.1 = w.mat._vertexOutputNodes ++ extraV
          ∧ nodes.2 = extraF ++ w.mat._fragmentOutputNodes
          ∧ extraV.count b + extraF.count b ≤ 1
          ∧ ((w.blocks b)._preparationId = w.mat._buildId →
              extraV.count b + extraF.count b = 0)) := by
  constructor
  · intro iState node input nodes w0 block n hc hne
    obtain ⟨h1, h2⟩ := initializeInput_connected (_initializeBlock env iState n) iState node
      input nodes w0 block hc hne
    exact ⟨h1, h2⟩
  · obtain ⟨wa, hal, heq⟩ := build_eq env fuel verbose w hv hf ho
    have hready : InitReady wa rank fuel := hal.initReady rank fuel hacyclic (fun o _ => hfuel o)
    have hta : (wa.blocks b).target ≠ .VertexAndFragment := by
      rw [hal.blocks, hb]; decide
    have hinit := (initializeBlocks_sat env rank False fuel wa (Or.inr hready)).withPartial
      (initializeBlocks_once env fuel b wa hta)
    rcases hinit.cases with ⟨w2, nodes, hi, _, extraV, extraF, h1, h2, _, hc, hz, _⟩
      | ⟨w2, what, hi, ⟨o, _, r, x, _, _, hm, _⟩, _⟩
    · refine Or.inr ⟨wa, w2, nodes, extraV, extraF, hal, hi, ?_, ?_, ?_, ?_, ?_⟩
      · rw [heq, hi]; rfl
      · rw [h1, hal.vertexOutputNodes]
      · rw [h2, hal.fragmentOutputNodes]
      · rw [List.count_append] at hc; omega
      · intro hst
        have := hz (by
          unfold World.Stamped
          rw [hal.blocks, hal.matBuildId]; exact hst)
        rw [List.count_append] at this
        omega
    · refine Or.inl ⟨w2, x, ?_⟩
      rw [heq, hi, hm, hal.blocks]
      rfl

/-- C22 on `vertexFedWorld`: the vertex block 2 feeds two inputs of the fragment output
and stands once on the list of the vertex nodes. -/
theorem vertex_block_crosses_stage_at_most_once_witness :
    ((vertexFedWorld.blocks 2).target = .Vertex
      ∧ (vertexFedWorld.blocks 1).inputs.map (fun p => p.connectedPoint) = [some 2, some 2]
      ∧ ∃ w2, initializeBlocks exampleEnv 3
          (allocatedWorld exampleEnv false { emitComments := false } vertexFedWorld)
            = .done w2 ([0, 2], [1]))
      ∧ (∀ (iState : Stage) (node : Nat) (input : Nat × NodeMaterialConnectionPoint)
          (nodes : List Nat) (w0 : World) (block n : Nat),
          input.2.connectedPoint = some block → block ≠ node →
          initializeInput (_initializeBlock exampleEnv iState n) iState node input nodes w0
              = _initializeBlock exampleEnv iState n block
                  (nodes ++ if crossStage w0 iState block then [block] else [])
                  (w0.setBlock node ((w0.blocks node).resetInput input.1))
            ∧ (crossStage w0 iState block = true ↔
                ((w0.blocks block).target = .VertexAndFragment
                  ∨ ((w0.state iState).map (fun s => s.target) = some .Fragment
                    ∧ (w0.blocks block).target = .Vertex
                    ∧ (w0.blocks block)._preparationId ≠ w0.mat._buildId))))
      ∧ ((∃ w1 x, build exampleEnv 3 false vertexFedWorld
              = .raised w1 (multipleBlocks (vertexFedWorld.blocks x).getClassName))
        ∨ ∃ w1 w2 nodes extraV extraF, Allocated vertexFedWorld w1
          ∧ initializeBlocks exampleEnv 3 w1 = .done w2 nodes
          ∧ build exampleEnv 3 false vertexFedWorld
              = (buildStages exampleEnv 3 nodes w2).andThen
                  (fun w3 _ => completeBuild false w3)
          ∧ nodes.1 = vertexFedWorld.mat._vertexOutputNodes ++ extraV
          ∧ nodes.2 = extraF ++ vertexFedWorld.mat._fragmentOutputNodes
          ∧ extraV.count 2 + extraF.count 2 ≤ 1
          ∧ ((vertexFedWorld.blocks 2)._preparationId = vertexFedWorld.mat._buildId →
              extraV.count 2 + extraF.count 2 = 0)) :=
  ⟨⟨rfl, rfl, _, rfl⟩,
    vertex_block_crosses_stage_at_most_once exampleEnv exampleRank 3 false vertexFedWorld 2
      (by decide) (by decide) rfl
      (by
        intro b
        unfold exampleRank
        split
        · decide
        · split <;> decide)
      vertexFedWorld_acyclic rfl⟩

/-! ## The order in which the blocks are gathered -/

theorem _gatherBlocks_succ (fuel rootNode : Nat) (list : List Nat) (w : World) :
    _gatherBlocks (fuel + 1) rootNode list w
      = if list.contains rootNode then .done w list
        else forEach (gatherInput (_gatherBlocks fuel) rootNode) (w.blocks rootNode).inputs
          (list ++ [rootNode]) w := rfl

theorem Grown.grownRefl (w : World) (R : Nat → Prop) (l : List Nat) : Grown w R l l :=
  ⟨[], by simp, List.nodup_nil, by simp, by simp, by simp⟩

theorem Grown.grownSub {w : World} {R : Nat → Prop} {l l1 : List Nat} (h : Grown w R l l1) :
    ∀ x ∈ l, x ∈ l1 := by
  obtain ⟨new, h1, _⟩ := h
  intro x hx
  rw [h1]
  exact List.mem_append_left _ hx

theorem Grown.grownTrans {w : World} {R : Nat → Prop} {l l1 l2 : List Nat}
    (h1 : Grown w R l l1) (h2 : Grown w R l1 l2) : Grown w R l l2 := by
  have hsub := h2.grownSub
  obtain ⟨n1, e1, d1, a1, r1, c1⟩ := h1
  obtain ⟨n2, e2, d2, a2, r2, c2⟩ := h2
  refine ⟨n1 ++ n2, by rw [e2, e1, List.append_assoc], ?_, ?_, ?_, ?_⟩
  · rw [List.nodup_append]
    refine ⟨d1, d2, ?_⟩
    intro x hx1 hx2
    exact a2 x hx2 (by rw [e1]; exact List.mem_append_right _ hx1)
  · intro x hx
    rcases List.mem_append.1 hx with h | h
    · exact a1 x h
    · intro hl
      exact a2 x h (by rw [e1]; exact List.mem_append_left _ hl)
  · intro x hx
    rcases List.mem_append.1 hx with h | h
    · exact r1 x h
    · exact r2 x h
  · intro a ha c hedge
    rcases List.mem_append.1 ha with h | h
    · exact hsub c (c1 a h c hedge)
    · exact c2 a h c hedge

theorem Grown.grownMono {w : World} {R S : Nat → Prop} {l l1 : List Nat} (h : Grown w R l l1)
    (hRS : ∀ x, R x → S x) : Grown w S l l1 := by
  obtain ⟨new, e, d, a, r, c⟩ := h
  exact ⟨new, e, d, a, fun x hx => hRS x (r x hx), c⟩

/-- An input of a block that is connected to another block is an edge of the graph. -/
theorem edge_of_input {w : World} {root c : Nat} {p : NodeMaterialConnectionPoint}
    (hp : p ∈ (w.blocks root).inputs) (hc : p.connectedPoint = some c) (hne : c ≠ root) :
    w.Edge root c :=
  ⟨List.mem_map.2 ⟨p, hp, hc⟩, hne⟩

/-- Whenever `_gatherBlocks` returns, the world is as before and the list has grown by
blocks it lacked, each reachable from the root and with all its producers in the list
now; the root is in the list, at the front of the new blocks unless it was in the list
before, in which case nothing was added. The method never throws. -/
theorem _gatherBlocks_grown :
    ∀ (fuel root : Nat) (l : List Nat) (w : World),
      (_gatherBlocks fuel root l w).Sat
        (fun w1 l1 => w1 = w ∧ root ∈ l1 ∧ Grown w (w.Reach root) l l1
          ∧ (root ∈ l → l1 = l) ∧ (root ∉ l → ∃ tail, l1 = l ++ root :: tail))
        (fun _ _ => False) True
  | 0, _, _, _ => trivial
  | fuel + 1, root, l, w => by
    have ih := _gatherBlocks_grown fuel
    rw [_gatherBlocks_succ]
    by_cases hin : root ∈ l
    · rw [if_pos (by simpa using hin)]
      exact ⟨rfl, hin, Grown.grownRefl w _ l, fun _ => rfl, fun h => absurd hin h⟩
    · rw [if_neg (by simpa using hin)]
      have hloop := forEach_sat (gatherInput (_gatherBlocks fuel) root) (fun _ _ => False) True
        (w.blocks root).inputs
        (fun pre wc lc => wc = w ∧ Grown w (w.Reach root) (l ++ [root]) lc
          ∧ ∀ p ∈ pre, ∀ c, p.connectedPoint = some c → c ≠ root → c ∈ lc)
        (l ++ [root]) w
        (fun pre x rest lc wc hxs hinv => by
          obtain ⟨hw, hg, hch⟩ := hinv
          subst hw
          unfold gatherInput
          cases hc : x.connectedPoint with
          | none =>
            refine ⟨rfl, hg, ?_⟩
            intro p hp c hpc hne
            rcases List.mem_append.1 hp with h | h
            · exact hch p h c hpc hne
            · rw [List.mem_singleton.1 h, hc] at hpc
              cases hpc
          | some c =>
            by_cases hcb : c = root
            · simp only [hcb, if_true]
              refine ⟨rfl, hg, ?_⟩
              intro p hp c1 hpc hne
              rcases List.mem_append.1 hp with h | h
              · exact hch p h c1 hpc hne
              · rw [List.mem_singleton.1 h, hc] at hpc
                cases hpc
                exact absurd hcb hne
            · simp only [hcb, if_false]
              have hedge : wc.Edge root c := edge_of_input (by rw [hxs]; simp) hc hcb
              refine (ih c lc wc).mono ?_ (fun _ _ h => h)
              rintro w2 l2 ⟨hw2, hc2, hg2, _, _⟩
              refine ⟨hw2, hg.grownTrans (hg2.grownMono
                (fun x hx => Relation.ReflTransGen.head hedge hx)), ?_⟩
              intro p hp c1 hpc hne
              rcases List.mem_append.1 hp with h | h
              · exact hg2.grownSub c1 (hch p h c1 hpc hne)
              · rw [List.mem_singleton.1 h, hc] at hpc
                cases hpc
                exact hc2)
        ⟨rfl, Grown.grownRefl w _ _, fun p hp => by cases hp⟩
      refine hloop.mono ?_ (fun _ _ h => h)
      rintro w1 l1 ⟨hw1, ⟨more, e, d, a, r, c⟩, hch⟩
      have hroot1 : root ∈ l1 := by rw [e]; simp
      have hl1 : l1 = l ++ root :: more := by rw [e]; simp
      refine ⟨hw1, hroot1, ⟨root :: more, hl1, ?_, ?_, ?_, ?_⟩, fun h => absurd h hin,
        fun _ => ⟨more, hl1⟩⟩
      · rw [List.nodup_cons]
        exact ⟨fun h => a root h (by simp), d⟩
      · intro x hx
        rcases List.mem_cons.1 hx with h | h
        · rw [h]; exact hin
        · exact fun hl => a x h (List.mem_append_left _ hl)
      · intro x hx
        rcases List.mem_cons.1 hx with h | h
        · rw [h]; exact Relation.ReflTransGen.refl
        · exact r x h
      · intro x hx c1 hedge
        rcases List.mem_cons.1 hx with h | h
        · rw [h] at hedge
          obtain ⟨p, hp, hpc⟩ := List.mem_map.1 hedge.1
          exact hch p hp c1 hpc hedge.2
        · exact c x h c1 hedge

/-- The producers behind a list of inputs of a block. -/
theorem producers_append (b : Nat) (pre : List NodeMaterialConnectionPoint)
    (x : NodeMaterialConnectionPoint) :
    (pre ++ [x]).filterMap (fun p =>
        match p.connectedPoint with
        | some c => if c = b then none else some c
        | none => none)
      = pre.filterMap (fun p =>
          match p.connectedPoint with
          | some c => if c = b then none else some c
          | none => none)
        ++ (match x.connectedPoint with
            | some c => if c = b then [] else [c]
            | none => []) := by
  rw [List.filterMap_append]
  congr 1
  cases hc : x.connectedPoint with
  | none => simp [List.filterMap_cons, hc]
  | some c =>
    by_cases hcb : c = b
    · simp [List.filterMap_cons, hc, hcb]
    · simp [List.filterMap_cons, hc, hcb]

/-- Whenever `_gatherBlocks` returns, it has done what the search with an explicit stack
does with the root on top of any stack: that search goes on with the rest of the stack
and the list `_gatherBlocks` leaves behind. -/
theorem _gatherBlocks_firstSeen :
    ∀ (fuel root : Nat) (l : List Nat) (w : World),
      (_gatherBlocks fuel root l w).Sat
        (fun w1 l1 => w1 = w ∧ ∃ n, ∀ k stack,
          firstSeenOrder w (k + n) (root :: stack) l = firstSeenOrder w k stack l1)
        (fun _ _ => False) True
  | 0, _, _, _ => trivial
  | fuel + 1, root, l, w => by
    have ih := _gatherBlocks_firstSeen fuel
    rw [_gatherBlocks_succ]
    by_cases hin : root ∈ l
    · rw [if_pos (by simpa using hin)]
      refine ⟨rfl, 1, fun k stack => ?_⟩
      show (if root ∈ l then _ else _) = _
      rw [if_pos hin]
    · rw [if_neg (by simpa using hin)]
      have hloop := forEach_sat (gatherInput (_gatherBlocks fuel) root) (fun _ _ => False) True
        (w.blocks root).inputs
        (fun pre wc lc => wc = w ∧ ∃ n, ∀ k stack,
          firstSeenOrder w (k + n)
            (pre.filterMap (fun p =>
              match p.connectedPoint with
              | some c => if c = root then none else some c
              | none => none) ++ stack) (l ++ [root])
            = firstSeenOrder w k stack lc)
        (l ++ [root]) w
        (fun pre x rest lc wc hxs hinv => by
          obtain ⟨hw, n, hn⟩ := hinv
          subst hw
          unfold gatherInput
          cases hc : x.connectedPoint with
          | none =>
            refine ⟨rfl, n, fun k stack => ?_⟩
            rw [producers_append, hc]
            simpa using hn k stack
          | some c =>
            by_cases hcb : c = root
            · simp only [hcb, if_true]
              refine ⟨rfl, n, fun k stack => ?_⟩
              rw [producers_append, hc]
              simpa [hcb] using hn k stack
            · simp only [hcb, if_false]
              refine (ih c lc wc).mono ?_ (fun _ _ h => h)
              rintro w2 l2 ⟨hw2, n2, hn2⟩
              refine ⟨hw2, n2 + n, fun k stack => ?_⟩
              rw [producers_append, hc]
              simp only [hcb, if_false, List.append_assoc, List.singleton_append]
              rw [← Nat.add_assoc, hn (k + n2) (c :: stack)]
              exact hn2 k stack)
        ⟨rfl, 0, fun k stack => rfl⟩
      refine hloop.mono ?_ (fun _ _ h => h)
      rintro w1 l1 ⟨hw1, n, hn⟩
      refine ⟨hw1, n + 1, fun k stack => ?_⟩
      show (if root ∈ l then _ else _) = _
      rw [if_neg hin]
      exact hn k stack

theorem unseen_mono (U l l1 : List Nat) (h : ∀ x ∈ l, x ∈ l1) : unseen U l1 ≤ unseen U l := by
  unfold unseen
  apply Finset.card_le_card
  intro x hx
  rw [Finset.mem_filter] at hx ⊢
  exact ⟨hx.1, fun hl => hx.2 (h x hl)⟩

theorem unseen_lt (U l : List Nat) (root : Nat) (hU : root ∈ U) (hl : root ∉ l) :
    unseen U (l ++ [root]) < unseen U l := by
  unfold unseen
  apply Finset.card_lt_card
  rw [Finset.ssubset_iff_of_subset]
  · exact ⟨root, by simp [hU, hl], by simp⟩
  · intro x hx
    rw [Finset.mem_filter] at hx ⊢
    exact ⟨hx.1, fun h => hx.2 (List.mem_append_left _ h)⟩

theorem unseen_le_length (U l : List Nat) : unseen U l ≤ U.length := by
  unfold unseen
  exact (Finset.card_filter_le _ _).trans (List.toFinset_card_le U)

/-- On a graph whose blocks behind the root lie in a finite list `U`, `_gatherBlocks`
returns as soon as the fuel exceeds the number of blocks of `U` the list lacks, cycles or
not: every level of the recursion has put one more block of `U` on the list. -/
theorem _gatherBlocks_ends (U : List Nat) (bad : Prop) :
    ∀ (fuel root : Nat) (l : List Nat) (w : World),
      (bad ∨ (root ∈ U ∧ (∀ a ∈ U, ∀ c, w.Edge a c → c ∈ U) ∧ unseen U l < fuel)) →
      (_gatherBlocks fuel root l w).Sat (fun w1 l1 => w1 = w ∧ ∀ x ∈ l, x ∈ l1)
        (fun _ _ => False) bad
  | 0, _, _, _, hb => by
    rcases hb with hb | ⟨_, _, h⟩
    · exact hb
    · exact absurd h (Nat.not_lt_zero _)
  | fuel + 1, root, l, w, hb => by
    have ih := _gatherBlocks_ends U bad fuel
    rw [_gatherBlocks_succ]
    by_cases hin : root ∈ l
    · rw [if_pos (by simpa using hin)]
      exact ⟨rfl, fun _ h => h⟩
    · rw [if_neg (by simpa using hin)]
      have hloop := forEach_sat (gatherInput (_gatherBlocks fuel) root) (fun _ _ => False) bad
        (w.blocks root).inputs
        (fun _ wc lc => wc = w ∧ ∀ x ∈ l ++ [root], x ∈ lc)
        (l ++ [root]) w
        (fun pre x rest lc wc hxs hinv => by
          obtain ⟨hw, hsub⟩ := hinv
          subst hw
          unfold gatherInput
          cases hc : x.connectedPoint with
          | none => exact ⟨rfl, hsub⟩
          | some c =>
            by_cases hcb : c = root
            · simp only [hcb, if_true]; exact ⟨rfl, hsub⟩
            · simp only [hcb, if_false]
              have hedge : wc.Edge root c := edge_of_input (by rw [hxs]; simp) hc hcb
              refine (ih c lc wc (hb.imp id (fun h => ⟨h.2.1 root h.1 c hedge, h.2.1, ?_⟩))).mono
                (fun w2 l2 h2 => ⟨h2.1, fun y hy => h2.2 y (hsub y hy)⟩) (fun _ _ h => h)
              have h1 := unseen_mono U (l ++ [root]) lc hsub
              have h2 := unseen_lt U l root h.1 hin
              have h3 := h.2.2
              omega)
        ⟨rfl, fun _ h => h⟩
      refine hloop.mono ?_ (fun _ _ h => h)
      rintro w1 l1 ⟨hw1, hsub⟩
      exact ⟨hw1, fun x hx => hsub x (List.mem_append_left _ hx)⟩

/-- C25: on a graph whose blocks behind the root lie in a finite list `U` closed under
the input connections, with cycles or without, and for a list `L` without repetition
that is closed under the input connections, `_gatherBlocks(root, L)` returns as soon as
the fuel exceeds the length of `U`. It leaves the world alone and the list as `L`
followed by the blocks that are reachable from the root and not in `L`, each once; the
root comes first among them, and nothing is added if the root is in `L`. The order is the
first-seen depth-first order: the search with an explicit stack, which puts a block on
the list when it first sees it and then searches its producers in the order of its
inputs, leaves the same list. -/
theorem gatherBlocks_first_seen_depth_first (w : World) (U L : List Nat) (fuel root : Nat)
    (hroot : root ∈ U) (hU : ∀ a ∈ U, ∀ c, w.Edge a c → c ∈ U)
    (hnodup : L.Nodup) (hclosed : ∀ a ∈ L, ∀ c, w.Edge a c → c ∈ L)
    (hfuel : U.length < fuel) :
    ∃ new, _gatherBlocks fuel root L w = .done w (L ++ new)
      ∧ (L ++ new).Nodup
      ∧ (∀ x, x ∈ new ↔ (w.Reach root x ∧ x ∉ L))
      ∧ (root ∈ L → new = [])
      ∧ (root ∉ L → ∃ tail, new = root :: tail)
      ∧ ∃ n, firstSeenOrder w n [root] L = some (L ++ new) := by
  have hends := ((_gatherBlocks_ends U False fuel root L w
    (Or.inr ⟨hroot, hU, Nat.lt_of_le_of_lt (unseen_le_length U L) hfuel⟩)).withPartial
      (_gatherBlocks_grown fuel root L w)).withPartial (_gatherBlocks_firstSeen fuel root L w)
  rcases hends.cases with ⟨w1, l1, ho, ⟨⟨hw1, _⟩, _, hr1, ⟨new, e, d, a, r, c⟩, hin, hout⟩,
    _, n, hn⟩ | ⟨_, _, _, ⟨hf, _⟩, _⟩
  · subst hw1
    have hall : ∀ x, w1.Reach root x → x ∈ l1 := by
      intro x hx
      induction hx with
      | refl => exact hr1
      | tail _ hedge ih =>
        rw [e] at ih
        rcases List.mem_append.1 ih with h | h
        · rw [e]; exact List.mem_append_left _ (hclosed _ h _ hedge)
        · exact c _ h _ hedge
    refine ⟨new, by rw [ho, e], ?_, ?_, ?_, ?_, ?_⟩
    · rw [List.nodup_append]
      exact ⟨hnodup, d, fun x hx1 hx2 => a x hx2 hx1⟩
    · intro x
      constructor
      · intro hx
        exact ⟨r x hx, a x hx⟩
      · rintro ⟨hx, hxl⟩
        have := hall x hx
        rw [e] at this
        exact (List.mem_append.1 this).resolve_left hxl
    · intro h
      have := hin h
      rw [e] at this
      simpa using this
    · intro h
      obtain ⟨tail, ht⟩ := hout h
      rw [e] at ht
      exact ⟨tail, List.append_cancel_left ht⟩
    · refine ⟨1 + n, ?_⟩
      rw [hn 1 [], ← e]
      rfl
  · exact hf.elim

/-- C25 on `cycleWorld`, whose blocks 2 and 3 read each other: from the vertex output 0
the blocks 0, 2 and 3 are gathered, in this order. -/
theorem gatherBlocks_first_seen_depth_first_witness :
    (cycleWorld.Edge 2 3 ∧ cycleWorld.Edge 3 2
      ∧ _gatherBlocks 5 0 [] cycleWorld = .done cycleWorld [0, 2, 3]
      ∧ firstSeenOrder cycleWorld 5 [0] [] = some [0, 2, 3])
      ∧ ∃ new, _gatherBlocks 5 0 [] cycleWorld = .done cycleWorld ([] ++ new)
        ∧ ([] ++ new).Nodup
        ∧ (∀ x, x ∈ new ↔ (cycleWorld.Reach 0 x ∧ x ∉ ([] : List Nat)))
        ∧ (0 ∈ ([] : List Nat) → new = [])
        ∧ (0 ∉ ([] : List Nat) → ∃ tail, new = 0 :: tail)
        ∧ ∃ n, firstSeenOrder cycleWorld n [0] [] = some ([] ++ new) :=
  ⟨⟨⟨by decide, by decide⟩, ⟨by decide, by decide⟩, rfl, rfl⟩,
    gatherBlocks_first_seen_depth_first cycleWorld [0, 1, 2, 3] [] 5 0 (by decide)
      (by
        intro a ha c hedge
        obtain ⟨h1, _⟩ := hedge
        simp only [List.mem_cons, List.mem_singleton, List.not_mem_nil, or_false] at ha
        rcases ha with rfl | rfl | rfl | rfl <;>
          simp [cycleWorld, exampleBlock] at h1 <;> subst h1 <;> decide)
      List.nodup_nil (by intro a ha; cases ha) (by decide)⟩

/-! ## The emission of a dual block and the uniqueness error -/

/-- Lines 417-477 never throw. -/
theorem stages_never_raise (env : Env) (fuel : Nat) (verbose : Bool)
    (nodes : List Nat × List Nat) (w : World)
    (hsd : ∀ sd, w.mat._sharedData = some sd → sd.buildId = w.mat._buildId) :
    ((buildStages env fuel nodes w).andThen fun w3 _ => completeBuild verbose w3).Sat
      (fun _ _ => True) (fun _ _ => False) True := by
  refine ((buildStages_sat env (fun _ => 0) True fuel nodes w hsd (Or.inl trivial)).mono
    (q := fun _ _ => True) (fun _ _ _ => trivial) (fun _ _ h => h)).andThen ?_
  intro w3 _ _
  exact (completeBuild_sat verbose w3 True (Or.inl trivial)).mono (fun _ _ _ => trivial)
    (fun _ _ h => h)

/-- C6 as stated fails in two ways. In `staleWorld` the dual block 2 is reachable from the
vertex output 0 and from the fragment output 1 but carries the build id 0 of the material
when `build` starts: the vertex pass skips it, the reset and the fragment pass do not,
and its code is emitted into the fragment stage only. In `dualClashWorld` the dual block
2 is reachable from both outputs too, but the initialization meets a second unique fog
block and `build` throws before any code is emitted. -/
theorem build_emits_dual_block_not_once :
    ((staleWorld.blocks 2).target = .VertexAndFragment
      ∧ staleWorld.mat._vertexOutputNodes = [0] ∧ staleWorld.mat._fragmentOutputNodes = [1]
      ∧ staleWorld.Reach 0 2 ∧ staleWorld.Reach 1 2
      ∧ (staleWorld.blocks 2).buildId = staleWorld.mat._buildId
      ∧ ∃ w1 evs, build exampleEnv 3 false staleWorld = .done w1 ()
        ∧ w1.trace = staleWorld.trace ++ evs
        ∧ emissions evs 2 .vertex = 0 ∧ emissions evs 2 .fragment = 1)
      ∧ ((dualClashWorld.blocks 2).target = .VertexAndFragment
        ∧ dualClashWorld.mat._vertexOutputNodes = [0]
        ∧ dualClashWorld.mat._fragmentOutputNodes = [1]
        ∧ dualClashWorld.Reach 0 2 ∧ dualClashWorld.Reach 1 2
        ∧ (dualClashWorld.blocks 2).buildId ≠ dualClashWorld.mat._buildId
        ∧ ∃ w1 evs, build exampleEnv 3 false dualClashWorld
            = .raised w1 (multipleBlocks "FogBlock")
          ∧ w1.trace = dualClashWorld.trace ++ evs
          ∧ emissions evs 2 .vertex = 0 ∧ emissions evs 2 .fragment = 0) :=
  ⟨⟨rfl, rfl, rfl, Relation.ReflTransGen.single ⟨by decide, by decide⟩,
      Relation.ReflTransGen.single ⟨by decide, by decide⟩, rfl, _, _, rfl, rfl, rfl, rfl⟩,
    ⟨rfl, rfl, rfl, Relation.ReflTransGen.single ⟨by decide, by decide⟩,
      Relation.ReflTransGen.single ⟨by decide, by decide⟩, by decide, _, _, rfl, rfl, rfl, rfl⟩⟩

/-- C6, amended: let the options be in place, the graph acyclic, the fuel beyond every
rank, and let the registered output nodes carry the targets `addOutputNode` gave them.
Let `d` be a block with target `VertexAndFragment` that is reachable from a vertex output
node and from a fragment output node and does not carry the build id the material is
about to use. Then one `build` call ends in one of two ways. Either it returns, and the
code of `d` was emitted exactly once into the vertex stage and exactly once into the
fragment stage, however many paths reach `d` and however often it stands on the node
lists. Or the initialization throws the uniqueness error, which happens only for a unique
block `x` that is reachable from an output node while another block of its class is
attached, and then nothing was emitted. In particular the build returns, with one
emission per stage, whenever no unique block is reachable from the output nodes. The
block build is the one modelled from the spec: it skips emission when the block carries
the current build id. -/
theorem build_emits_dual_block_once (env : Env) (fuel : Nat) (verbose : Bool) (w : World)
    (rank : Nat → Nat) (d : Nat)
    (ho : w.mat._options.isSome) (hr : w.Acyclic rank) (hfuel : ∀ b, rank b < fuel)
    (htv : ∀ v ∈ w.mat._vertexOutputNodes, (w.blocks v).target = .Vertex)
    (htf : ∀ f ∈ w.mat._fragmentOutputNodes, (w.blocks f).target = .Fragment)
    (hd : (w.blocks d).target = .VertexAndFragment)
    (hdv : ∃ v ∈ w.mat._vertexOutputNodes, w.Reach v d)
    (hdf : ∃ f ∈ w.mat._fragmentOutputNodes, w.Reach f d)
    (hfresh : (w.blocks d).buildId ≠ w.mat._buildId) :
    ((∃ w1, build env fuel verbose w = .done w1 ()
        ∧ ∃ evs, w1.trace = w.trace ++ evs ∧ emissions evs d .vertex = 1
            ∧ emissions evs d .fragment = 1)
      ∨ (∃ w1 x o, build env fuel verbose w
            = .raised w1 (multipleBlocks (w.blocks x).getClassName)
          ∧ (o ∈ w.mat._vertexOutputNodes ∨ o ∈ w.mat._fragmentOutputNodes)
          ∧ w.Reach o x ∧ (w.blocks x).isUnique = true ∧ x ∉ w1.mat.attachedBlocks
          ∧ (∃ y ∈ w1.mat.attachedBlocks,
              (w.blocks y).getClassName = (w.blocks x).getClassName)
          ∧ ∃ evs, w1.trace = w.trace ++ evs ∧ emissions evs d .vertex = 0
            ∧ emissions evs d .fragment = 0))
      ∧ ((∀ o x, o ∈ w.mat._vertexOutputNodes ∨ o ∈ w.mat._fragmentOutputNodes →
            w.Reach o x → (w.blocks x).isUnique = false) →
          ∃ w1, build env fuel verbose w = .done w1 ()
            ∧ ∃ evs, w1.trace = w.trace ++ evs ∧ emissions evs d .vertex = 1
              ∧ emissions evs d .fragment = 1) := by
  obtain ⟨v, hv, hvd⟩ := hdv
  obtain ⟨f, hf, hfd⟩ := hdf
  have hvne : w.mat._vertexOutputNodes ≠ [] := fun h => by rw [h] at hv; cases hv
  have hfne : w.mat._fragmentOutputNodes ≠ [] := fun h => by rw [h] at hf; cases hf
  have hdual : w.DualReached d :=
    ⟨hd, ⟨v, hv, reachPlus_of_reach_of_target hvd (by rw [htv v hv, hd]; decide)⟩,
      ⟨f, hf, reachPlus_of_reach_of_target hfd (by rw [htf f hf, hd]; decide)⟩, hfresh⟩
  have hsat := build_sat env rank False fuel verbose w (Or.inr ⟨ho, hfuel, hr⟩)
  obtain ⟨wa, hal, heq⟩ := build_eq env fuel verbose w hvne hfne ho
  have hready : InitReady wa rank fuel := hal.initReady rank fuel hr (fun o _ => hfuel o)
  have hinit := initializeBlocks_sat env rank False fuel wa (Or.inr hready)
  have main : (∃ w1, build env fuel verbose w = .done w1 ()
        ∧ ∃ evs, w1.trace = w.trace ++ evs ∧ emissions evs d .vertex = 1
            ∧ emissions evs d .fragment = 1)
      ∨ (∃ w1 x o, build env fuel verbose w
            = .raised w1 (multipleBlocks (w.blocks x).getClassName)
          ∧ (o ∈ w.mat._vertexOutputNodes ∨ o ∈ w.mat._fragmentOutputNodes)
          ∧ w.Reach o x ∧ (w.blocks x).isUnique = true ∧ x ∉ w1.mat.attachedBlocks
          ∧ (∃ y ∈ w1.mat.attachedBlocks,
              (w.blocks y).getClassName = (w.blocks x).getClassName)
          ∧ ∃ evs, w1.trace = w.trace ++ evs ∧ emissions evs d .vertex = 0
            ∧ emissions evs d .fragment = 0) := by
    rcases hinit.cases with ⟨w2, nodes, hi, r2, _, _⟩
      | ⟨w2, what, hi, o, hmem, r, x, hx, hu, hm, hn, y, hy, hc⟩
    · left
      have hbuild : build env fuel verbose w
          = (buildStages env fuel nodes w2).andThen fun w3 _ => completeBuild verbose w3 := by
        rw [heq, hi]; rfl
      obtain ⟨sd, hsd, hsdb⟩ := hal.sharedData
      have hcur2 : w2.mat._buildId = w.mat._buildId := r2.frame.matBuildId.trans hal.matBuildId
      have hsd2 : ∀ sd, w2.mat._sharedData = some sd → sd.buildId = w2.mat._buildId := by
        rw [hcur2]
        exact r2.frame.sharedCur _ (fun sd1 h1 => by rw [hsd] at h1; cases h1; exact hsdb)
      have hnever := stages_never_raise env fuel verbose nodes w2 hsd2
      rw [← hbuild] at hnever
      rcases hsat.cases with ⟨w1, u, hb, _, hem⟩ | ⟨w1, what, hb, _⟩
      · exact ⟨w1, hb, hem d hdual⟩
      · rw [hb] at hnever
        exact hnever.elim
    · right
      have hbuild : build env fuel verbose w = .raised w2 what := by
        rw [heq, hi]; rfl
      rw [hbuild] at hsat
      obtain ⟨_, _, hem⟩ := hsat
      refine ⟨w2, x, o, ?_, ?_, ?_, ?_, hn, ⟨y, hy, ?_⟩, hem d⟩
      · rw [hbuild, hm, hal.blocks]
      · rw [← hal.vertexOutputNodes, ← hal.fragmentOutputNodes]; exact hmem
      · rw [← hal.allocReach]; exact hx
      · rw [← hal.blocks]; exact hu
      · rw [← hal.blocks]; exact hc
  refine ⟨main, fun hplain => ?_⟩
  rcases main with h | ⟨w1, x, o, _, hmem, hx, hu, _⟩
  · exact h
  · rw [hplain o x hmem hx] at hu
    cases hu

/-- The amended C6 on the wired example world, where the dual block 2 feeds the vertex
output 0 once and the fragment output 1 twice and no block is unique. -/
theorem build_emits_dual_block_once_witness :
    ((∃ w1, build exampleEnv 3 false wiredWorld = .done w1 ()
        ∧ ∃ evs, w1.trace = wiredWorld.trace ++ evs ∧ emissions evs 2 .vertex = 1
            ∧ emissions evs 2 .fragment = 1)
      ∨ (∃ w1 x o, build exampleEnv 3 false wiredWorld
            = .raised w1 (multipleBlocks (wiredWorld.blocks x).getClassName)
          ∧ (o ∈ wiredWorld.mat._vertexOutputNodes ∨ o ∈ wiredWorld.mat._fragmentOutputNodes)
          ∧ wiredWorld.Reach o x ∧ (wiredWorld.blocks x).isUnique = true
          ∧ x ∉ w1.mat.attachedBlocks
          ∧ (∃ y ∈ w1.mat.attachedBlocks,
              (wiredWorld.blocks y).getClassName = (wiredWorld.blocks x).getClassName)
          ∧ ∃ evs, w1.trace = wiredWorld.trace ++ evs ∧ emissions evs 2 .vertex = 0
            ∧ emissions evs 2 .fragment = 0))
      ∧ ((∀ o x, o ∈ wiredWorld.mat._vertexOutputNodes
              ∨ o ∈ wiredWorld.mat._fragmentOutputNodes →
            wiredWorld.Reach o x → (wiredWorld.blocks x).isUnique = false) →
          ∃ w1, build exampleEnv 3 false wiredWorld = .done w1 ()
            ∧ ∃ evs, w1.trace = wiredWorld.trace ++ evs ∧ emissions evs 2 .vertex = 1
              ∧ emissions evs 2 .fragment = 1) :=
  build_emits_dual_block_once exampleEnv 3 false wiredWorld exampleRank 2 rfl
    wiredWorld_acyclic
    (by
      intro b
      unfold exampleRank
      split
      · decide
      · split <;> decide)
    (by
      intro v hv
      have : v = 0 := by simpa [wiredWorld, newMaterial] using hv
      subst this; rfl)
    (by
      intro f hf
      have : f = 1 := by simpa [wiredWorld, newMaterial] using hf
      subst this; rfl)
    rfl
    ⟨0, by decide,
      Relation.ReflTransGen.single ⟨by simp [wiredWorld, exampleWorld, exampleBlock], by decide⟩⟩
    ⟨1, by decide,
      Relation.ReflTransGen.single ⟨by simp [wiredWorld, exampleWorld, exampleBlock], by decide⟩⟩
    (by decide)

/-! ## Repeated readiness checks (lines 559-650) -/

/-- The questions to the blocking blocks leave the sub-meshes alone. -/
theorem blockingBlocksReady_subMeshes (env : Env) (mesh : Nat) (d : NodeMaterialDefines)
    (useInstances : Bool) (l : List Nat) : ∀ w : World,
    (blockingBlocksReady env mesh d useInstances l w).1.subMeshes = w.subMeshes := by
  induction l with
  | nil => intro w; rfl
  | cons b bs ih =>
    intro w
    unfold blockingBlocksReady
    simp only []
    split
    · exact ih _
    · rfl

/-- The first defines pass leaves the defines it returns on the sub-mesh. -/
theorem initializeDefinesPass_stored (env : Env) (mesh subMesh : Nat) (useInstances : Bool)
    (l : List Nat) : ∀ (d : NodeMaterialDefines) (w : World),
    (w.subMeshes subMesh)._materialDefines = some d →
    ((initializeDefinesPass env mesh subMesh useInstances l d w).1.subMeshes
      subMesh)._materialDefines
      = some (initializeDefinesPass env mesh subMesh useInstances l d w).2 := by
  induction l with
  | nil => intro d w h; exact h
  | cons b bs ih =>
    intro d w _
    unfold initializeDefinesPass
    exact ih _ _ (setDefines_defines _ subMesh _)

/-- The second defines pass leaves the defines it returns on the sub-mesh. -/
theorem prepareDefinesPass_stored (env : Env) (mesh subMesh : Nat) (useInstances : Bool)
    (l : List Nat) : ∀ (d : NodeMaterialDefines) (w : World),
    (w.subMeshes subMesh)._materialDefines = some d →
    ((prepareDefinesPass env mesh subMesh useInstances l d w).1.subMeshes
      subMesh)._materialDefines
      = some (prepareDefinesPass env mesh subMesh useInstances l d w).2 := by
  induction l with
  | nil => intro d w h; exact h
  | cons b bs ih =>
    intro d w _
    unfold prepareDefinesPass
    exact ih _ _ (setDefines_defines _ subMesh _)

/-- Lines 541-557 leave the defines they return on the sub-mesh. -/
theorem definesPasses_stored (env : Env) (mesh subMesh : Nat) (useInstances : Bool)
    (sd : NodeMaterialBuildStateSharedData) (d : NodeMaterialDefines) (w : World) :
    ((definesPasses env mesh subMesh useInstances sd d w).1.subMeshes subMesh)._materialDefines
      = some (definesPasses env mesh subMesh useInstances sd d w).2.1 := by
  have h1 : ((blockingBlocksReady env mesh (_prepareDefinesForAttributes (w.meshes mesh) d)
      useInstances sd.blockingBlocks
      (w.setDefines subMesh (_prepareDefinesForAttributes (w.meshes mesh) d))).1.subMeshes
        subMesh)._materialDefines
      = some (_prepareDefinesForAttributes (w.meshes mesh) d) := by
    rw [blockingBlocksReady_subMeshes]
    exact setDefines_defines _ subMesh _
  unfold definesPasses
  simp only []
  split_ifs
  · exact h1
  · exact prepareDefinesPass_stored env mesh subMesh useInstances _ _ _
      (initializeDefinesPass_stored env mesh subMesh useInstances _ _ _ h1)

/-- A call on a settled sub-mesh whose define passes do not make the defines dirty leaves
the sub-mesh settled. -/
theorem isReadyForSubMesh_keeps_settled (env : Env) (mesh subMesh : Nat) (useInstances : Bool)
    (w w2 : World) (r : Bool) (hset : w.Settled subMesh)
    (hkeep : w.PassesKeepClean env mesh subMesh useInstances)
    (hcall : isReadyForSubMesh env mesh subMesh useInstances w = .done w2 r) :
    w2.Settled subMesh := by
  obtain ⟨d0, hd0, hc0⟩ := hset
  by_cases hflag : w.mat._buildWasSuccessful = true
  · cases hs : w.mat._sharedData with
    | none =>
      simp [isReadyForSubMesh, hflag, hs] at hcall
    | some sd =>
      have ha := (animateInputs_only_animates sd w).1
      by_cases hfrozen : frozenFastPath (animateInputs sd w) subMesh = true
      · have : isReadyForSubMesh env mesh subMesh useInstances w
            = .done (animateInputs sd w) true := by
          simp [isReadyForSubMesh, hflag, hs, hfrozen]
        rw [this] at hcall
        cases hcall
        exact ⟨d0, by rw [ha]; exact hd0, hc0⟩
      · obtain ⟨he2, he1⟩ := ensureDefines_eq (animateInputs sd w) subMesh
        rw [ha, hd0] at he2
        have hd : (ensureDefines (animateInputs sd w) subMesh).2 = d0 := he2
        have hstored : ((ensureDefines (animateInputs sd w) subMesh).1.subMeshes
            subMesh)._materialDefines = some d0 := by
          rw [he1, hd]
          simp
        by_cases hcached : env._isReadyForSubMesh
            (ensureDefines (animateInputs sd w) subMesh).1 subMesh = true
        · have : isReadyForSubMesh env mesh subMesh useInstances w
              = .done (ensureDefines (animateInputs sd w) subMesh).1 true := by
            simp [isReadyForSubMesh, hflag, hs, hfrozen, hcached]
          rw [this] at hcall
          cases hcall
          exact ⟨d0, hstored, hc0⟩
        · have hpast : w.PastFastPaths env subMesh sd
              (ensureDefines (animateInputs sd w) subMesh).1
              (ensureDefines (animateInputs sd w) subMesh).2 :=
            ⟨hflag, hs, by simpa using hfrozen, rfl, by simpa using hcached⟩
          obtain ⟨heq, _, _⟩ := isReadyForSubMesh_past env mesh subMesh useInstances w sd _ _ hpast
          have hk := hkeep sd _ _ hpast (by rw [hd]; exact hc0)
          have hst := definesPasses_stored env mesh subMesh useInstances sd
            (ensureDefines (animateInputs sd w) subMesh).2
            (ensureDefines (animateInputs sd w) subMesh).1
          generalize hp : definesPasses env mesh subMesh useInstances sd
            (ensureDefines (animateInputs sd w) subMesh).2
            (ensureDefines (animateInputs sd w) subMesh).1 = p at hk hst
          by_cases hready : p.2.2 = true
          · have h2 : isReadyForSubMesh env mesh subMesh useInstances w
                = .done (finalGate subMesh p.2.1 p.1).1 (finalGate subMesh p.2.1 p.1).2 := by
              rw [heq]
              unfold checkSubMesh
              simp only [hp, hready, Bool.not_true, Bool.false_eq_true, if_false, settleEffect,
                hk, Outcome.andThen]
            rw [h2] at hcall
            cases hcall
            obtain ⟨_, hstamp, hsame, _⟩ := finalGate_spec subMesh p.2.1 p.1
            by_cases hres : (finalGate subMesh p.2.1 p.1).2 = true
            · obtain ⟨_, hdef, _⟩ := hstamp hres
              exact ⟨_, hdef, hk⟩
            · rw [hsame (by simpa using hres)]
              exact ⟨_, hst, hk⟩
          · have h2 : isReadyForSubMesh env mesh subMesh useInstances w = .done p.1 false := by
              rw [heq]
              unfold checkSubMesh
              simp [hp, hready]
            rw [h2] at hcall
            cases hcall
            exact ⟨_, hst, hk⟩
  · have : isReadyForSubMesh env mesh subMesh useInstances w = .done w false := by
      simp [isReadyForSubMesh, hflag]
    rw [this] at hcall
    cases hcall
    exact ⟨d0, hd0, hc0⟩

/-- A further call on a settled sub-mesh requests nothing: it returns, no effect is
requested, and the sub-mesh is settled after it. -/
theorem furtherCall_unrequested (env : Env) (mesh subMesh : Nat) (useInstances : Bool)
    (w : World) (hsd : w.mat._buildWasSuccessful = true → w.mat._sharedData.isSome)
    (hset : w.Settled subMesh) (hkeep : w.PassesKeepClean env mesh subMesh useInstances) :
    ∃ w2 r, isReadyForSubMesh env mesh subMesh useInstances w = .done w2 r
      ∧ Unrequested subMesh w w2 ∧ w2.Settled subMesh := by
  have hclean : ∀ sd wc dc, w.ReachesDefinesCheck env mesh subMesh useInstances sd wc dc →
      dc.isDirty = false := by
    rintro sd wc dc ⟨w1, d, hpast, hp⟩
    obtain ⟨d0, hd0, hc0⟩ := hset
    have hd : d = d0 := by
      obtain ⟨_, hs, _, hens, _⟩ := hpast
      have h2 := (ensureDefines_eq (animateInputs sd w) subMesh).1
      rw [(animateInputs_only_animates sd w).1, hd0, hens] at h2
      exact h2
    have := hkeep sd w1 d hpast (by rw [hd]; exact hc0)
    rw [hp] at this
    exact this
  obtain ⟨w2, r, hcall, h1, h2, h3, h4⟩ :=
    isReadyForSubMesh_clean_check env mesh subMesh useInstances w hsd hclean
  exact ⟨w2, r, hcall, ⟨h1, h2, h3, h4⟩,
    isReadyForSubMesh_keeps_settled env mesh subMesh useInstances w w2 r hset hkeep hcall⟩

theorem adoptedWorld_first_call :
    isReadyForSubMesh readyEnv 0 0 false hotSwapWorld = .done adoptedWorld true := rfl

theorem adoptedWorld_keeps_clean : adoptedWorld.PassesKeepClean readyEnv 0 0 false := by
  rintro sd w1 d ⟨_, hsd, _, hens, _⟩ _
  have h0 : NodeMaterialBuildStateSharedData.fresh = sd := Option.some.inj hsd
  subst h0
  have h1 : w1 = (ensureDefines
      (animateInputs NodeMaterialBuildStateSharedData.fresh adoptedWorld) 0).1 :=
    (congrArg Prod.fst hens).symm
  have h2 : d = (ensureDefines
      (animateInputs NodeMaterialBuildStateSharedData.fresh adoptedWorld) 0).2 :=
    (congrArg Prod.snd hens).symm
  subst h1 h2
  rfl

/-- The world the first call on `hotSwapWorld` leaves admits a further call: the
sub-mesh is settled, the define passes keep the defines clean, and the call returns
without a request. -/
theorem adoptedWorld_second_call :
    adoptedWorld.Settled 0
      ∧ ∃ w2 r, isReadyForSubMesh readyEnv 0 0 false adoptedWorld = .done w2 r
          ∧ Unrequested 0 adoptedWorld w2
          ∧ FurtherCalls readyEnv 0 0 false adoptedWorld w2 := by
  have hset : adoptedWorld.Settled 0 := ⟨_, rfl, rfl⟩
  obtain ⟨w2, r, hcall, u, _⟩ := furtherCall_unrequested readyEnv 0 0 false adoptedWorld
    (fun _ => rfl) hset adoptedWorld_keeps_clean
  exact ⟨hset, w2, r, hcall, u,
    FurtherCalls.step r (FurtherCalls.refl adoptedWorld) adoptedWorld_keeps_clean hcall⟩

end BABYLON
